import Mathlib

/-!
# vbasig: VBA container decompression and module line parsing

Shallow embedding of `vbacompression/decompression.go` and of the two line
parsers `parseModule` (`vbaproject/signatureV1.go`) and `parseModuleV3`
(`vbaproject/signatureV3.go`).

Conventions of the embedding:
* a Go `byte` is a `Fin 256`, a `[]byte` is a `List Byte`;
* a Go `uint16` is a `Nat` below `65536`; every `uint16` operation that can
  overflow is followed by an explicit `% 65536` (`u16`);
* a Go call that can return an error, panic at run time (index or slice out
  of range) or loop is a `Res`: `ok`, `error`, `panic`, `outOfFuel`;
* an index expression `s[i]` is checked against `len s`, a slice expression
  `s[lo:hi]` against `cap s`: the compressed input comes with `spare`, the
  bytes of its backing array between its length and its capacity, which the
  slice expressions of `decompression.go` may read.
-/

namespace VbaSig

/-- A Go `byte`. -/
abbrev Byte := Fin 256

/-- The four `fmt.Errorf` results of `decompression.go`. -/
inductive DecompressError where
  | invalidSignatureByte
  | invalidChunkSignature
  | invalidFlagSize
  | lengthTooHigh
  deriving DecidableEq, Repr

/-- Outcome of a Go call: a normal return, a returned `error`, a run-time
panic, or a loop that did not finish within the fuel given. -/
inductive Res (α : Type) where
  | ok (a : α)
  | error (e : DecompressError)
  | panic
  | outOfFuel
  deriving DecidableEq, Repr

/-- Sequencing of Go calls: the continuation runs on a normal return; an error,
a panic or exhausted fuel ends the computation. -/
def Res.bind {α β : Type} (r : Res α) (f : α → Res β) : Res β :=
  match r with
  | .ok a => f a
  | .error e => .error e
  | .panic => .panic
  | .outOfFuel => .outOfFuel

/-- Truncation to `uint16`. -/
def u16 (n : Nat) : Nat := n % 65536

/-- The call `binary.LittleEndian.Uint16(s[pos : pos+2])` with `pos : uint16`,
where `data` is the backing array of the slice `s` up to its capacity: the
slice bounds are `pos` and the wrapped `pos+2`; the slice expression panics
unless `pos ≤ u16 (pos+2) ≤ cap s`, and the two bytes are read from the
backing array, also beyond `len s`. -/
def readUint16 (data : List Byte) (pos : Nat) : Option Nat :=
  if pos ≤ u16 (pos + 2) ∧ u16 (pos + 2) ≤ data.length then
    match data[pos]?, data[pos + 1]? with
    | some lo, some hi => some (lo.val + 256 * hi.val)
    | _, _ => none
  else none

/-- Go function `getCopyTokenOffsetBitCount` (decompression.go 124-153). -/
def getCopyTokenOffsetBitCount (decompressedBufferLength : Nat) : Res Nat :=
  if decompressedBufferLength ≤ 16 then .ok 12
  else if decompressedBufferLength ≤ 32 then .ok 11
  else if decompressedBufferLength ≤ 64 then .ok 10
  else if decompressedBufferLength ≤ 128 then .ok 9
  else if decompressedBufferLength ≤ 256 then .ok 8
  else if decompressedBufferLength ≤ 512 then .ok 7
  else if decompressedBufferLength ≤ 1024 then .ok 6
  else if decompressedBufferLength ≤ 2048 then .ok 5
  else if decompressedBufferLength ≤ 4096 then .ok 4
  else .error .lengthTooHigh

/-- The copy loop of `decodeCopyToken` (decompression.go 117-120): `n` times,
append `decompressedBuffer[copyStart]` and increment the `uint16` `copyStart`.
Indexing past the end of the buffer panics. -/
def copyLoop : Nat → List Byte → Nat → Option (List Byte)
  | 0, decompressedBuffer, _ => some decompressedBuffer
  | n + 1, decompressedBuffer, copyStart =>
    match decompressedBuffer[copyStart]? with
    | some b => copyLoop n (decompressedBuffer ++ [b]) (u16 (copyStart + 1))
    | none => none

/-- Go function `decodeCopyToken` (decompression.go 99-122). `decompressedChunkStart` is a
`uint16`; `uint16(len(decompressedBuffer))` truncates the buffer length. The
bytes `spare` are those of the backing array of `compressedData` between its
length and its capacity; the slice expression of line 100 may read them. -/
def decodeCopyToken (compressedData spare : List Byte) (pos : Nat)
    (decompressedBuffer : List Byte) (decompressedChunkStart : Nat) :
    Res (List Byte × Nat) :=
  match readUint16 (compressedData ++ spare) pos with
  | none => .panic
  | some copyToken =>
    (getCopyTokenOffsetBitCount
        (u16 (u16 decompressedBuffer.length + 65536 - decompressedChunkStart))).bind
      fun tokenLenBitCount =>
        let tokenOffBitCount := 16 - tokenLenBitCount
        let lengthmask := 65535 >>> tokenOffBitCount
        let tokenLen := u16 ((copyToken &&& lengthmask) + 3)
        let tokenOff := copyToken >>> tokenLenBitCount
        let copyStart := u16 (u16 decompressedBuffer.length + 2 * 65536 - tokenOff - 1)
        match copyLoop tokenLen decompressedBuffer copyStart with
        | some buf => .ok (buf, u16 (pos + 2))
        | none => .panic

/-- One token of `decompressTokenSequence` (the `switch` of decompression.go
76-86): a literal byte, read by an index expression and so within the length
of `compressedData`, or a copy token. -/
def decodeToken (compressedData spare : List Byte) (decompressedChunkStart flagByte pos : Nat)
    (decompressedBuffer : List Byte) : Res (List Byte × Nat) :=
  if flagByte % 2 = 0 then
    match compressedData[pos]? with
    | some literalToken => .ok (decompressedBuffer ++ [literalToken], u16 (pos + 1))
    | none => .panic
  else
    decodeCopyToken compressedData spare pos decompressedBuffer decompressedChunkStart

/-- The `for range 8` loop of `decompressTokenSequence` (decompression.go
75-95), with `n` iterations left. -/
def tokenLoop (compressedData spare : List Byte) (chunkEndPos decompressedChunkStart : Nat) :
    Nat → Nat → Nat → List Byte → Res (List Byte × Nat)
  | 0, _, pos, decompressedBuffer => .ok (decompressedBuffer, pos)
  | n + 1, flagByte, pos, decompressedBuffer =>
    (decodeToken compressedData spare decompressedChunkStart flagByte pos decompressedBuffer).bind
      fun r =>
        if r.2 ≥ chunkEndPos then
          if r.2 = chunkEndPos then
            match compressedData[r.2]? with
            | some b => .ok (r.1 ++ [b], u16 (chunkEndPos + 1))
            | none => .panic
          else .ok (r.1, u16 (chunkEndPos + 1))
        else
          tokenLoop compressedData spare chunkEndPos decompressedChunkStart n (flagByte / 2) r.2 r.1

/-- Go function `decompressTokenSequence` (decompression.go 69-97). -/
def decompressTokenSequence (compressedData spare : List Byte) (pos : Nat)
    (decompressedBuffer : List Byte) (chunkEndPos decompressedChunkStart : Nat) :
    Res (List Byte × Nat) :=
  match compressedData[pos]? with
  | none => .panic
  | some flagByte =>
    tokenLoop compressedData spare chunkEndPos decompressedChunkStart 8 flagByte.val
      (u16 (pos + 1)) decompressedBuffer

/-- The `for pos < chunkEndPos` loop of `decompressChunk` (decompression.go
55-60). -/
def chunkLoop (compressedData spare : List Byte) (chunkEndPos decompressedChunkStart : Nat) :
    Nat → Nat → List Byte → Res (List Byte × Nat)
  | 0, pos, decompressedBuffer =>
    if pos < chunkEndPos then .outOfFuel else .ok (decompressedBuffer, pos)
  | fuel + 1, pos, decompressedBuffer =>
    if pos < chunkEndPos then
      (decompressTokenSequence compressedData spare pos decompressedBuffer chunkEndPos
          decompressedChunkStart).bind
        fun r => chunkLoop compressedData spare chunkEndPos decompressedChunkStart fuel r.2 r.1
    else .ok (decompressedBuffer, pos)

/-- Go function `decompressChunk` (decompression.go 31-67). The two slice
expressions, of the header (line 33) and of a raw chunk (line 63), are
checked against the capacity `len(compressedData) + len(spare)` and read from
the backing array. -/
def decompressChunk (fuel : Nat) (compressedData spare : List Byte) (pos : Nat)
    (decompressedBuffer : List Byte) : Res (List Byte × Nat) :=
  match readUint16 (compressedData ++ spare) pos with
  | none => .panic
  | some headerBits =>
    let pos := u16 (pos + 2)
    let compressedChunkSize := headerBits &&& 0x0FFF
    let compressedChunkSignature := (headerBits &&& 0x7000) >>> 12
    let compressedChunkFlag := (headerBits &&& 0x8000) >>> 15
    if compressedChunkSignature ≠ 3 then .error .invalidChunkSignature
    else if compressedChunkSize < 3 ∨ (compressedChunkFlag = 1 ∧ compressedChunkSize > 4095)
        ∨ (compressedChunkFlag = 0 ∧ compressedChunkSize ≠ 4095) then
      .error .invalidFlagSize
    else
      let chunkEndPos := u16 (pos + compressedChunkSize)
      let decompressedChunkStart := u16 decompressedBuffer.length
      if compressedChunkFlag = 1 then
        chunkLoop compressedData spare chunkEndPos decompressedChunkStart fuel pos decompressedBuffer
      else if pos ≤ u16 (pos + 4096)
          ∧ u16 (pos + 4096) ≤ (compressedData ++ spare).length then
        .ok (decompressedBuffer
            ++ ((compressedData ++ spare).drop pos).take (u16 (pos + 4096) - pos),
          u16 (pos + 4096))
      else .panic

/-- The `for pos < uint16(len(compressedData)-1)` loop of `DecompressContainer`
(decompression.go 20-27). -/
def containerLoop (compressedData spare : List Byte) (chunkFuel : Nat) :
    Nat → Nat → List Byte → Res (List Byte × Nat)
  | 0, pos, decompressedBuffer =>
    if pos < u16 (compressedData.length - 1) then .outOfFuel else .ok (decompressedBuffer, pos)
  | fuel + 1, pos, decompressedBuffer =>
    if pos < u16 (compressedData.length - 1) then
      (decompressChunk chunkFuel compressedData spare pos decompressedBuffer).bind
        fun r => containerLoop compressedData spare chunkFuel fuel r.2 r.1
    else .ok (decompressedBuffer, pos)

/-- Go function `DecompressContainer` (decompression.go 9-29); `fuel` bounds the number of
iterations of each of its loops, and `spare` are the bytes of the backing
array of `compressedData` between its length and its capacity (empty for a
slice without spare capacity). -/
def DecompressContainer (fuel : Nat) (compressedData spare : List Byte) :
    Res (List Byte × Nat) :=
  match compressedData[0]? with
  | none => .panic
  | some signatureByte =>
    if signatureByte ≠ 1 then .error .invalidSignatureByte
    else containerLoop compressedData spare fuel fuel 1 []

/-! ### Encoder side of the statements about literal chunks -/

/-- The two bytes of a little-endian `uint16`. -/
def u16le (v : Nat) : List Byte := [Fin.ofNat (v % 256), Fin.ofNat (v / 256 % 256)]

/-- A chunk header with the given flag bit and size field and signature `0b011`. -/
def chunkHeader (flag size : Nat) : Nat := flag * 0x8000 + 0x3000 + size

/-- Body of a token-compressed chunk that encodes `d` purely as literals, with
`k` literal tokens still to come in the current group: every group is a `0x00`
flag byte followed by up to eight literal bytes. -/
def literalBody : Nat → List Byte → List Byte
  | _, [] => []
  | 0, b :: d => 0 :: b :: literalBody 7 d
  | k + 1, b :: d => b :: literalBody k d

/-- The container that holds `d` as one token-compressed chunk of literals:
signature byte, header (flag 1, signature `0b011`, size = body length - 1),
body. -/
def literalContainer (d : List Byte) : List Byte :=
  0x01 :: (u16le (chunkHeader 1 ((literalBody 0 d).length - 1)) ++ literalBody 0 d)

/-- A token-compressed chunk that encodes 4096 copies of `x`: header `0xB003`,
flag byte `0b10`, the literal `x`, and the copy token `0x0FFC` (offset 1,
length 4095). -/
def runChunk (x : Byte) : List Byte := [0x03, 0xB0, 0x02, x, 0xFC, 0x0F]

/-- A container of 103 bytes: sixteen chunks of 4096 bytes `0x41`, then one
chunk of 4096 bytes `0x42`. -/
def runContainer : List Byte :=
  0x01 :: ((List.replicate 16 (runChunk 0x41)).flatten ++ runChunk 0x42)

/-! ## Line parsers -/

/-- The loop variables of `parseModule` and `parseModuleV3`. -/
structure ParseState where
  lines : List (List Byte)
  textBuffer : List Byte
  previousChar : Byte
  deriving DecidableEq, Repr

/-- The variables before the first byte: `lines` and `textBuffer` are nil,
`previousChar` is the zero byte. -/
def ParseState.init : ParseState := ⟨[], [], 0⟩

/-- One iteration of the loop of `parseModule` (signatureV1.go 116-127). -/
def parseModuleStep (st : ParseState) (char : Byte) : ParseState :=
  if char = 0x0d ∨ (char = 0x0a ∧ st.previousChar ≠ 0x0d) then
    { lines := st.lines ++ [st.textBuffer], textBuffer := [], previousChar := char }
  else if char ≠ 0x0a then
    { lines := st.lines, textBuffer := st.textBuffer ++ [char], previousChar := char }
  else
    { lines := st.lines, textBuffer := st.textBuffer, previousChar := char }

/-- Go function `parseModule` (signatureV1.go 111-131). -/
def parseModule (text : List Byte) : List (List Byte) :=
  let st := text.foldl parseModuleStep ParseState.init
  st.lines ++ [st.textBuffer]

/-- One iteration of the loop of `parseModuleV3` (signatureV3.go 407-417). -/
def parseModuleV3Step (st : ParseState) (char : Byte) : ParseState :=
  if char = 0x0a ∨ char = 0x0d then
    if st.previousChar = 0x0d then
      { lines := st.lines ++ [st.textBuffer], textBuffer := [], previousChar := char }
    else
      { lines := st.lines, textBuffer := st.textBuffer, previousChar := char }
  else
    { lines := st.lines, textBuffer := st.textBuffer ++ [char], previousChar := char }

/-- Go function `parseModuleV3` (signatureV3.go 402-419). -/
def parseModuleV3 (text : List Byte) : List (List Byte) :=
  (text.foldl parseModuleV3Step ParseState.init).lines

/-! ### Vocabulary of the line-parser statements -/

/-- The byte is a carriage return or a line feed. -/
def isCrLf (c : Byte) : Bool := c == 0x0d || c == 0x0a

/-- A text with every `0x0D` and `0x0A` byte removed. -/
def stripCrLf (t : List Byte) : List Byte := t.filter (fun c => !isCrLf c)

/-- Index `i` of `t` has a predecessor and that predecessor is `0x0D`. -/
def precededByCr (t : List Byte) (i : Nat) : Bool :=
  decide (1 ≤ i) && (t[i - 1]? == some 0x0d)

/-- The indices of the `0x0A` bytes of `t` not immediately preceded by `0x0D`. -/
def bareLfIndices (t : List Byte) : List Nat :=
  (List.range t.length).filter (fun i => (t[i]? == some 0x0a) && !precededByCr t i)

/-- The indices `i ≥ 1` with `t[i] ∈ {0x0A, 0x0D}` and `t[i-1] = 0x0D`. -/
def v3Boundaries (t : List Byte) : List Nat :=
  (List.range t.length).filter
    (fun i => ((t[i]? == some 0x0a) || (t[i]? == some 0x0d)) && precededByCr t i)

/-- Length of the prefix of `t` that ends with the last V3 boundary (zero when
there is none). -/
def v3PrefixLen (t : List Byte) : Nat :=
  match (v3Boundaries t).getLast? with
  | some i => i + 1
  | none => 0

/-! ## Project data (`dirstream`, `modulestream`, `projectstream`, `vbaproject.go`)

A Go `string` is the list of its bytes; a `uint32` or `uint16` field is a `Nat`
(its encoders reduce it modulo the field width); a pointer field that the
parsers may leave nil is an `Option`; a field left out of a structure
instance has its Go zero value. The pointers `VbaProject.DirStream` and the
three records of `DirStream` are set in every project that `ParseVbaProject`
returns and are not options here. -/

/-- The four bytes of a little-endian `uint32`. -/
def u32le (v : Nat) : List Byte :=
  [Fin.ofNat (v % 256), Fin.ofNat (v / 256 % 256), Fin.ofNat (v / 65536 % 256),
    Fin.ofNat (v / 16777216 % 256)]

/-- The bytes of a string literal of ASCII characters. -/
def asciiBytes (s : String) : List Byte := s.toList.map (fun c => Fin.ofNat c.toNat)

/-- Go type `dirstream.GUID`, `[16]byte`. -/
abbrev dirstream.GUID := { l : List Byte // l.length = 16 }

/-- The zero value of a `GUID`. -/
def dirstream.GUID.zero : dirstream.GUID := ⟨List.replicate 16 0, rfl⟩

set_option linter.dupNamespace false

/-- PROJECTSYSKIND record. -/
structure dirstream.ProjectSysKind where
  Size : Nat := 0
  SysKind : Nat := 0
  deriving DecidableEq, Repr

/-- PROJECTCOMPATVERSION record. -/
structure dirstream.ProjectCompatVersion where
  Size : Nat := 0
  CompatVersion : Nat := 0
  deriving DecidableEq, Repr

/-- PROJECTLCID record. -/
structure dirstream.ProjectLcid where
  Size : Nat := 0
  Lcid : Nat := 0
  deriving DecidableEq, Repr

/-- PROJECTLCIDINVOKE record. -/
structure dirstream.ProjectLcidInvoke where
  Size : Nat := 0
  LcidInvoke : Nat := 0
  deriving DecidableEq, Repr

/-- PROJECTCODEPAGE record. -/
structure dirstream.ProjectCodePage where
  Size : Nat := 0
  CodePage : Nat := 0
  deriving DecidableEq, Repr

/-- PROJECTNAME record. -/
structure dirstream.ProjectName where
  SizeOfProjectName : Nat := 0
  ProjectName : List Byte := []
  deriving DecidableEq, Repr

/-- PROJECTDOCSTRING record. -/
structure dirstream.ProjectDocString where
  SizeOfDocString : Nat := 0
  DocString : List Byte := []
  Reserved : Nat := 0
  SizeOfDocStringUnicode : Nat := 0
  DocStringUnicode : List Byte := []
  deriving DecidableEq, Repr

/-- PROJECTHELPFILEPATH record. -/
structure dirstream.ProjectHelpFilePath where
  SizeOfHelpFile1 : Nat := 0
  HelpFile1 : List Byte := []
  Reserved : Nat := 0
  SizeOfHelpFile2 : Nat := 0
  HelpFile2 : List Byte := []
  deriving DecidableEq, Repr

/-- PROJECTHELPCONTEXT record. -/
structure dirstream.ProjectHelpContext where
  Size : Nat := 0
  HelpContext : Nat := 0
  deriving DecidableEq, Repr

/-- PROJECTLIBFLAGS record. -/
structure dirstream.ProjectLibFlags where
  Size : Nat := 0
  ProjectLibFlags : Nat := 0
  deriving DecidableEq, Repr

/-- PROJECTVERSION record. -/
structure dirstream.ProjectVersion where
  Reserved : Nat := 0
  VersionMajor : Nat := 0
  VersionMinor : Nat := 0
  deriving DecidableEq, Repr

/-- PROJECTCONSTANTS record. -/
structure dirstream.ProjectConstants where
  SizeOfConstants : Nat := 0
  Constants : List Byte := []
  Reserved : Nat := 0
  SizeOfConstantsUnicode : Nat := 0
  ConstantsUnicode : List Byte := []
  deriving DecidableEq, Repr

/-- Go type `dirstream.ProjectInformation`. -/
structure dirstream.ProjectInformation where
  SysKind : dirstream.ProjectSysKind := {}
  CompatVersion : dirstream.ProjectCompatVersion := {}
  Lcid : dirstream.ProjectLcid := {}
  LcidInvoke : dirstream.ProjectLcidInvoke := {}
  CodePage : dirstream.ProjectCodePage := {}
  Name : dirstream.ProjectName := {}
  DocString : dirstream.ProjectDocString := {}
  HelpFilePath : dirstream.ProjectHelpFilePath := {}
  HelpContext : dirstream.ProjectHelpContext := {}
  LibFlags : dirstream.ProjectLibFlags := {}
  Version : dirstream.ProjectVersion := {}
  Constants : dirstream.ProjectConstants := {}
  deriving DecidableEq, Repr

/-- REFERENCENAME record. -/
structure dirstream.ReferenceName where
  SizeOfName : Nat := 0
  Name : List Byte := []
  Reserved : Nat := 0
  SizeOfNameUnicode : Nat := 0
  NameUnicode : List Byte := []
  deriving DecidableEq, Repr

/-- REFERENCECONTROL record; `NameRecordExtended` is a pointer. -/
structure dirstream.ReferenceControl where
  SizeTwiddled : Nat := 0
  SizeOfLibidTwiddled : Nat := 0
  LibidTwiddled : List Byte := []
  Reserved1 : Nat := 0
  Reserved2 : Nat := 0
  NameRecordExtended : Option dirstream.ReferenceName := none
  Reserved3 : Nat := 0
  SizeExtended : Nat := 0
  SizeOfLibidExtended : Nat := 0
  LibidExtended : List Byte := []
  Reserved4 : Nat := 0
  Reserved5 : Nat := 0
  OriginalTypeLib : dirstream.GUID := dirstream.GUID.zero
  Cookie : Nat := 0
  deriving DecidableEq, Repr

/-- REFERENCEREGISTERED record. -/
structure dirstream.ReferenceRegistered where
  Size : Nat := 0
  SizeOfLibid : Nat := 0
  Libid : List Byte := []
  Reserved1 : Nat := 0
  Reserved2 : Nat := 0
  deriving DecidableEq, Repr

/-- REFERENCEORIGINAL record; `ReferenceRecord` is a pointer. -/
structure dirstream.ReferenceOriginal where
  SizeOfLibidOriginal : Nat := 0
  LibidOriginal : List Byte := []
  ReferenceRecord : Option dirstream.ReferenceControl := none
  deriving DecidableEq, Repr

/-- REFERENCEPROJECT record; `MinorVersion` is a `uint16`, the other numbers
are `uint32`. -/
structure dirstream.ReferenceProject where
  Size : Nat := 0
  SizeOfLibidAbsolute : Nat := 0
  LibidAbsolute : List Byte := []
  SizeOfLibidRelative : Nat := 0
  LibidRelative : List Byte := []
  MajorVersion : Nat := 0
  MinorVersion : Nat := 0
  deriving DecidableEq, Repr

/-- REFERENCE record: five pointers. -/
structure dirstream.Reference where
  NameRecord : Option dirstream.ReferenceName := none
  ControlReference : Option dirstream.ReferenceControl := none
  RegisteredReference : Option dirstream.ReferenceRegistered := none
  OriginalReference : Option dirstream.ReferenceOriginal := none
  ProjectReference : Option dirstream.ReferenceProject := none
  deriving DecidableEq, Repr

/-- Go type `dirstream.ProjectReferences`. -/
structure dirstream.ProjectReferences where
  ReferenceArray : List dirstream.Reference := []
  deriving DecidableEq, Repr

/-- MODULENAME record. -/
structure dirstream.ModuleNameRecord where
  SizeOfModuleName : Nat := 0
  ModuleName : List Byte := []
  deriving DecidableEq, Repr

/-- MODULENAMEUNICODE record. -/
structure dirstream.ModuleNameUnicodeRecord where
  SizeOfModuleNameUnicode : Nat := 0
  ModuleNameUnicode : List Byte := []
  deriving DecidableEq, Repr

/-- MODULESTREAMNAME record. -/
structure dirstream.ModuleStreamNameRecord where
  SizeOfStreamName : Nat := 0
  StreamName : List Byte := []
  Reserved : Nat := 0
  SizeOfStreamNameUnicode : Nat := 0
  StreamNameUnicode : List Byte := []
  deriving DecidableEq, Repr

/-- MODULEDOCSTRING record. -/
structure dirstream.ModuleDocStringRecord where
  SizeOfDocString : Nat := 0
  DocString : List Byte := []
  Reserved : Nat := 0
  SizeOfDocStringUnicode : Nat := 0
  DocStringUnicode : List Byte := []
  deriving DecidableEq, Repr

/-- MODULEOFFSET record. -/
structure dirstream.ModuleOffsetRecord where
  Size : Nat := 0
  TextOffset : Nat := 0
  deriving DecidableEq, Repr

/-- MODULEHELPCONTEXT record. -/
structure dirstream.ModuleHelpContextRecord where
  Size : Nat := 0
  HelpContext : Nat := 0
  deriving DecidableEq, Repr

/-- MODULECOOKIE record. -/
structure dirstream.ModuleCookieRecord where
  Size : Nat := 0
  Cookie : Nat := 0
  deriving DecidableEq, Repr

/-- MODULETYPE record. -/
structure dirstream.ModuleTypeRecord where
  Id : Nat := 0
  Reserved : Nat := 0
  deriving DecidableEq, Repr

/-- MODULEREADONLY record. -/
structure dirstream.ModuleReadOnlyRecord where
  Reserved : Nat := 0
  deriving DecidableEq, Repr

/-- MODULEPRIVATE record. -/
structure dirstream.ModulePrivateRecord where
  Reserved : Nat := 0
  deriving DecidableEq, Repr

/-- MODULE record (projectModules.go 24-37); `NameUnicodeRecord`,
`ReadOnlyRecord` and `PrivateRecord` are pointers. -/
structure dirstream.Module where
  NameRecord : dirstream.ModuleNameRecord := {}
  NameUnicodeRecord : Option dirstream.ModuleNameUnicodeRecord := none
  StreamNameRecord : dirstream.ModuleStreamNameRecord := {}
  DocStringRecord : dirstream.ModuleDocStringRecord := {}
  OffsetRecord : dirstream.ModuleOffsetRecord := {}
  HelpContextRecord : dirstream.ModuleHelpContextRecord := {}
  CookieRecord : dirstream.ModuleCookieRecord := {}
  TypeRecord : dirstream.ModuleTypeRecord := {}
  ReadOnlyRecord : Option dirstream.ModuleReadOnlyRecord := none
  PrivateRecord : Option dirstream.ModulePrivateRecord := none
  Reserved : Nat := 0
  deriving DecidableEq, Repr

/-- PROJECTCOOKIE record. -/
structure dirstream.ProjectCookie where
  Size : Nat := 0
  Cookie : Nat := 0
  deriving DecidableEq, Repr

/-- PROJECTMODULES record. -/
structure dirstream.ProjectModules where
  Size : Nat := 0
  Count : Nat := 0
  ProjectCookie : Option dirstream.ProjectCookie := none
  Modules : List dirstream.Module := []
  deriving DecidableEq, Repr

/-- Go type `dirstream.DirStream`. -/
structure dirstream.DirStream where
  InformationRecord : dirstream.ProjectInformation := {}
  ReferencesRecord : dirstream.ProjectReferences := {}
  ModulesRecord : dirstream.ProjectModules := {}
  Terminator : Nat := 0
  Reserved : Nat := 0
  deriving DecidableEq, Repr

/-- Go type `modulestream.ChildStream`. -/
structure modulestream.ChildStream where
  Name : List Byte := []
  Path : List (List Byte) := []
  Raw : List Byte := []
  deriving DecidableEq, Repr

/-- Go type `modulestream.Module`. -/
structure modulestream.Module where
  Name : List Byte := []
  CompressedSourceCode : List Byte := []
  SourceCode : List Byte := []
  ChildStreams : List modulestream.ChildStream := []
  Raw : List Byte := []
  deriving DecidableEq, Repr

/-- Go type `modulestream.ModuleStream`; the elements of `Modules` are
non-nil pointers. -/
structure modulestream.ModuleStream where
  Modules : List modulestream.Module := []
  deriving DecidableEq, Repr

/-- Go type `projectstream.ProjectProperty`. -/
structure projectstream.ProjectProperty where
  Key : List Byte := []
  Value : List Byte := []
  Line : List Byte := []
  deriving DecidableEq, Repr

/-- Go type `projectstream.ProjectStream`. -/
structure projectstream.ProjectStream where
  ID : List Byte := []
  ProjectDocModules : List (List Byte) := []
  ProjectStdModules : List (List Byte) := []
  ProjectDesignerModules : List (List Byte) := []
  ProjectClassModules : List (List Byte) := []
  Name : List Byte := []
  HelpContextID : List Byte := []
  VersionCompatible32 : List Byte := []
  CMG : List Byte := []
  DPB : List Byte := []
  GC : List Byte := []
  MainProperties : List projectstream.ProjectProperty := []
  HostExtenderProperties : List projectstream.ProjectProperty := []
  OtherProperties : List projectstream.ProjectProperty := []
  Raw : List Byte := []
  deriving DecidableEq, Repr

/-- Go type `vbaproject.VbaProject`. -/
structure VbaProject where
  DirStream : dirstream.DirStream := {}
  ProjectStream : projectstream.ProjectStream := {}
  ModuleStream : modulestream.ModuleStream := {}
  deriving DecidableEq, Repr

/-! ### Standard-library functions -/

/-- The four character maps that `util.ConvertFromCodepageToUtf8` selects. -/
inductive Charmap where
  | Windows1250
  | Windows1251
  | Windows1252
  | CodePage037
  deriving DecidableEq, Repr

/-- Behaviour of the Go libraries that depends on tables outside the
repository: the Unicode path of `strings.ToLower` and the `x/text` character
map decoders. Every statement below holds for every value of it. -/
structure GoLib where
  /-- `strings.Map(unicode.ToLower, s)`, which `strings.ToLower` returns for a
  string with a byte `≥ 0x80`. -/
  mapUnicodeToLower : List Byte → List Byte
  /-- `transform.Bytes(decoder.NewDecoder(), encData)`; `none` is an error. -/
  charmapDecode : Charmap → List Byte → Option (List Byte)

/-- A value of the library parameter for closed examples: no table is
consulted, both functions return their argument. The examples use strings of
ASCII bytes, which `strings.ToLower` lower-cases without the Unicode tables. -/
def GoLib.identity : GoLib :=
  { mapUnicodeToLower := fun s => s, charmapDecode := fun _ s => some s }

/-- Lower-casing of one ASCII byte. -/
def asciiToLower (b : Byte) : Byte :=
  if 0x41 ≤ b.val ∧ b.val ≤ 0x5A then Fin.ofNat (b.val + 0x20) else b

/-- Go function `strings.ToLower`: a string of ASCII bytes is lower-cased byte
by byte; any other string goes through `strings.Map(unicode.ToLower, s)`. -/
def stringsToLower (lib : GoLib) (s : List Byte) : List Byte :=
  if s.all (fun c => decide (c.val < 0x80)) then s.map asciiToLower
  else lib.mapUnicodeToLower s

/-- Go function `strings.HasPrefix`. -/
def HasPrefix (s pre : List Byte) : Bool := pre.isPrefixOf s

/-! ### V1 content normalization (`signatureV1.go`) -/

/-- The call `binary.Encode(tmp, binary.LittleEndian, v)`: the encoding `enc` of
`v` overwrites the first bytes of `tmp`, the rest of `tmp` stays. -/
def binaryEncodeInto (tmp enc : List Byte) : List Byte := enc ++ tmp.drop enc.length

/-- The temporary buffer `refBuf` that `contentNormalizedData` builds for a
project reference (signatureV1.go 69-88); `tmp4` is reused for all four
numbers and `MinorVersion` is a `uint16`. -/
def projectReferenceBuffer (ref : dirstream.ReferenceProject) : List Byte :=
  let tmp4 : List Byte := List.replicate 4 0
  let tmp4 := binaryEncodeInto tmp4 (u32le ref.SizeOfLibidAbsolute)
  let refBuf := tmp4
  let refBuf := refBuf ++ ref.LibidAbsolute
  let tmp4 := binaryEncodeInto tmp4 (u32le ref.SizeOfLibidRelative)
  let refBuf := refBuf ++ tmp4
  let refBuf := refBuf ++ ref.LibidRelative
  let tmp4 := binaryEncodeInto tmp4 (u32le ref.MajorVersion)
  let refBuf := refBuf ++ tmp4
  let tmp4 := binaryEncodeInto tmp4 (u16le ref.MinorVersion)
  let refBuf := refBuf ++ tmp4
  refBuf ++ [0x00]

/-- The loop `for b, _ = refBuf.ReadByte(); b != 0x00; ...` (signatureV1.go
90-93): bytes are copied until a zero byte is read; at the end of the buffer
`ReadByte` returns 0. -/
def readUntilZero : List Byte → List Byte
  | [] => []
  | b :: rest => if b = 0x00 then [] else b :: readUntilZero rest

/-- One iteration of the reference loop of `contentNormalizedData`
(signatureV1.go 61-95). -/
def referenceStepV1 (buf : List Byte) (ref : dirstream.Reference) : List Byte :=
  if ref.RegisteredReference.isSome then buf ++ [0x7B]
  else
    match ref.ProjectReference with
    | some pr => buf ++ readUntilZero (projectReferenceBuffer pr)
    | none => buf

/-- One iteration of the line loop of `contentNormalizedData` (signatureV1.go
100-106). -/
def lineStepV1 (lib : GoLib) (buf line : List Byte) : List Byte :=
  if HasPrefix (stringsToLower lib line) (asciiBytes "attribute") then buf
  else buf ++ line

/-- One iteration of the module loop of `contentNormalizedData`
(signatureV1.go 97-107). -/
def moduleStepV1 (lib : GoLib) (buf : List Byte) (ms : modulestream.Module) : List Byte :=
  (parseModule ms.SourceCode).foldl (lineStepV1 lib) buf

/-- Go function `contentNormalizedData` (signatureV1.go 54-109). -/
def contentNormalizedData (lib : GoLib) (p : VbaProject) : List Byte :=
  let buf : List Byte := []
  let buf := buf ++ p.DirStream.InformationRecord.Name.ProjectName
  let buf := buf ++ p.DirStream.InformationRecord.Constants.Constants
  let buf := p.DirStream.ReferencesRecord.ReferenceArray.foldl referenceStepV1 buf
  p.ModuleStream.Modules.foldl (moduleStepV1 lib) buf

/-! ### Forms normalization (`signatureV2Agile.go`) -/

/-- Go function `normalizeDesignerStorage` (signatureV2Agile.go 102-111), for
a non-nil module. -/
def normalizeDesignerStorage (m : modulestream.Module) : List Byte :=
  m.ChildStreams.foldl
    (fun buf cs => buf ++ cs.Raw ++ List.replicate (1023 - cs.Raw.length % 1023) 0) []

/-- Go function `formsNormalizedData` (signatureV2Agile.go 90-99). -/
def formsNormalizedData (p : VbaProject) : List Byte :=
  p.ModuleStream.Modules.foldl
    (fun buf m =>
      if p.ProjectStream.ProjectDesignerModules.contains m.Name then
        buf ++ normalizeDesignerStorage m
      else buf) []

/-! ### V3 content normalization (`signatureV3.go`, `util.go`) -/

/-- Go function `util.GetFixedWidthString16` (util.go 86-93): every byte is
appended as a little-endian `uint16`. -/
def GetFixedWidthString16 (input : List Byte) : List Byte :=
  input.foldl (fun res b => res ++ u16le b.val) []

/-- The character map that `util.ConvertFromCodepageToUtf8` selects for a code
page (util.go 25-36). -/
def selectCharmap (codePage : Nat) : Charmap :=
  if codePage = 1250 then .Windows1250
  else if codePage = 1251 then .Windows1251
  else if codePage = 1252 then .Windows1252
  else if codePage = 936 then .CodePage037
  else .Windows1252

/-- Go function `util.ConvertFromCodepageToUtf8` (util.go 22-44) as its callers
use it: the error is dropped and the string is empty when decoding fails. -/
def ConvertFromCodepageToUtf8 (lib : GoLib) (encData : List Byte) (codePage : Nat) :
    List Byte :=
  match lib.charmapDecode (selectCharmap codePage) encData with
  | some utf8Bytes => utf8Bytes
  | none => []

/-- Go method `ModuleStream.GetModule` (moduleStream.go 35-42); `none` is the
nil pointer. -/
def modulestream.ModuleStream.GetModule (ms : modulestream.ModuleStream) (name : List Byte) :
    Option modulestream.Module :=
  ms.Modules.find? (fun m => m.Name == name)

/-- Go function `writeControlReference` (signatureV3.go 281-324). The test
`ref.NameRecordExtended.Reserved > 0` of line 301 is outside the nil check of
line 292 and dereferences the pointer. -/
def writeControlReference (buf : List Byte) (ref : dirstream.ReferenceControl) :
    Res (List Byte) :=
  let buf := buf ++ u16le 0x002f
  let buf := buf ++ u32le ref.SizeOfLibidTwiddled
  let buf := buf ++ ref.LibidTwiddled
  let buf := buf ++ u32le 0x00000000
  let buf := buf ++ u16le 0x0000
  let buf :=
    match ref.NameRecordExtended with
    | some n => buf ++ u16le 0x0016 ++ u32le n.SizeOfName ++ n.Name
    | none => buf
  match ref.NameRecordExtended with
  | none => .panic
  | some n =>
    let buf :=
      if n.Reserved > 0 then buf ++ u16le 0x003e ++ u32le n.SizeOfNameUnicode ++ n.NameUnicode
      else buf
    let buf := buf ++ u16le 0x0030
    let buf := buf ++ u32le ref.SizeOfLibidExtended
    let buf := buf ++ ref.LibidExtended
    let buf := buf ++ u32le 0x00000000
    let buf := buf ++ u16le 0x0000
    let buf := buf ++ ref.OriginalTypeLib.val
    let buf := buf ++ u32le ref.Cookie
    .ok buf

/-- Go function `writeOriginalReference` (signatureV3.go 326-337). -/
def writeOriginalReference (buf : List Byte) (ref : dirstream.ReferenceOriginal) :
    Res (List Byte) :=
  let buf := buf ++ u16le 0x0033
  let buf := buf ++ u32le ref.SizeOfLibidOriginal
  let buf := buf ++ ref.LibidOriginal
  match ref.ReferenceRecord with
  | some rc => writeControlReference buf rc
  | none => .ok buf

/-- Go function `writeRegisteredReference` (signatureV3.go 339-350). -/
def writeRegisteredReference (buf : List Byte) (ref : dirstream.ReferenceRegistered) :
    List Byte :=
  let buf := buf ++ u16le 0x000d
  let buf := buf ++ u32le ref.SizeOfLibid
  let buf := buf ++ GetFixedWidthString16 ref.Libid
  let buf := buf ++ u32le 0x00000000
  buf ++ u16le 0x0000

/-- Go function `writeProjectReference` (signatureV3.go 352-367). -/
def writeProjectReference (buf : List Byte) (ref : dirstream.ReferenceProject) : List Byte :=
  let buf := buf ++ u16le 0x000e
  let buf := buf ++ u32le ref.SizeOfLibidAbsolute
  let buf := buf ++ ref.LibidAbsolute
  let buf := buf ++ u32le ref.SizeOfLibidRelative
  let buf := buf ++ ref.LibidRelative
  let buf := buf ++ u32le ref.MajorVersion
  buf ++ u16le ref.MinorVersion

/-- One iteration of the reference loop of `contentNormalizedDataV3`
(signatureV3.go 171-198); `ref.NameRecord` is dereferenced. -/
def referenceStepV3 (buf : List Byte) (ref : dirstream.Reference) : Res (List Byte) :=
  match ref.NameRecord with
  | none => .panic
  | some name =>
    let buf := buf ++ u16le 0x0016
    let buf := buf ++ u32le name.SizeOfName
    let buf := buf ++ name.Name
    let buf := buf ++ u16le 0x003e
    let buf := buf ++ u32le name.SizeOfNameUnicode
    let buf := buf ++ name.NameUnicode
    match ref.ControlReference with
    | some rc => writeControlReference buf rc
    | none =>
      match ref.OriginalReference with
      | some ro => writeOriginalReference buf ro
      | none =>
        match ref.RegisteredReference with
        | some rr => .ok (writeRegisteredReference buf rr)
        | none =>
          match ref.ProjectReference with
          | some rp => .ok (writeProjectReference buf rp)
          | none => .ok buf

/-- The reference loop of `contentNormalizedDataV3`. -/
def referencesV3 : List dirstream.Reference → List Byte → Res (List Byte)
  | [], buf => .ok buf
  | ref :: rest, buf => (referenceStepV3 buf ref).bind (referencesV3 rest)

/-- The array `defaultAttributesV3` (signatureV3.go 208-216). -/
def defaultAttributesV3 : List (List Byte) :=
  [asciiBytes "Attribute VB_Base = \"0\x7b00020820-0000-0000-C000-000000000046\x7d\"",
   asciiBytes "Attribute VB_GlobalNameSpace = False",
   asciiBytes "Attribute VB_Creatable = False",
   asciiBytes "Attribute VB_PredeclaredId = True",
   asciiBytes "Attribute VB_Exposed = True",
   asciiBytes "Attribute VB_TemplateDerived = False",
   asciiBytes "Attribute VB_Customizable = True"]

/-- One iteration of the line loop of `contentNormalizedDataV3` (signatureV3.go
249-262) on the pair of `buf` and `hashModuleNameFlag`. -/
def lineStepV3 (lib : GoLib) (st : List Byte × Bool) (lineBytes : List Byte) :
    List Byte × Bool :=
  if !HasPrefix (stringsToLower lib lineBytes) (asciiBytes "attribute") then
    (st.1 ++ lineBytes ++ [0x0a], true)
  else if HasPrefix (stringsToLower lib lineBytes) (asciiBytes "attribute vb_name = ") then
    st
  else if !defaultAttributesV3.contains lineBytes then
    (st.1 ++ lineBytes ++ [0x0a], true)
  else st

/-- The module-name block of `contentNormalizedDataV3` (signatureV3.go
263-272); `m.NameUnicodeRecord` is a pointer and is dereferenced. -/
def moduleNameV3 (buf : List Byte) (hashModuleNameFlag : Bool) (m : dirstream.Module) :
    Res (List Byte) :=
  if hashModuleNameFlag then
    match m.NameUnicodeRecord with
    | none => .panic
    | some nu =>
      let buf :=
        if nu.ModuleNameUnicode.length > 0 then buf ++ nu.ModuleNameUnicode
        else if m.NameRecord.ModuleName.length > 0 then buf ++ m.NameRecord.ModuleName
        else buf
      .ok (buf ++ [0x0a])
  else .ok buf

/-- One iteration of the module loop of `contentNormalizedDataV3`
(signatureV3.go 219-273); an unknown module is the explicit `panic` of line
242. -/
def moduleStepV3 (lib : GoLib) (p : VbaProject) (buf : List Byte) (m : dirstream.Module) :
    Res (List Byte) :=
  let buf := if m.TypeRecord.Id = 0x0021 then buf ++ u16le m.TypeRecord.Id ++ u32le 0 else buf
  let buf := if m.ReadOnlyRecord.isSome then buf ++ u16le 0x0025 ++ u32le 0 else buf
  let buf := if m.PrivateRecord.isSome then buf ++ u16le 0x0028 ++ u32le 0 else buf
  let moduleName := ConvertFromCodepageToUtf8 lib m.NameRecord.ModuleName
    p.DirStream.InformationRecord.CodePage.CodePage
  match p.ModuleStream.GetModule moduleName with
  | none => .panic
  | some ms =>
    let lines := parseModuleV3 ms.SourceCode
    let st := lines.foldl (lineStepV3 lib) (buf, false)
    moduleNameV3 st.1 st.2 m

/-- The module loop of `contentNormalizedDataV3`. -/
def modulesV3 (lib : GoLib) (p : VbaProject) : List dirstream.Module → List Byte →
    Res (List Byte)
  | [], buf => .ok buf
  | m :: rest, buf => (moduleStepV3 lib p buf m).bind (modulesV3 lib p rest)

/-- The part of `contentNormalizedDataV3` that precedes the reference loop
(signatureV3.go 96-168). -/
def informationV3 (pi : dirstream.ProjectInformation) : List Byte :=
  let buf : List Byte := []
  let buf := buf ++ u16le 0x0001
  let buf := buf ++ u32le 0x00000004
  let buf := buf ++ u16le 0x0002
  let buf := buf ++ u32le 0x00000004
  let buf := buf ++ u32le 0x00000409
  let buf := buf ++ u16le 0x0014
  let buf := buf ++ u32le 0x00000004
  let buf := buf ++ u32le 0x00000409
  let buf := buf ++ u16le 0x0003
  let buf := buf ++ u32le 0x00000002
  let buf := buf ++ u16le 0x0004
  let buf := buf ++ u32le pi.Name.SizeOfProjectName
  let buf := buf ++ pi.Name.ProjectName
  let buf := buf ++ u16le 0x0005
  let buf := buf ++ u32le pi.DocString.SizeOfDocString
  let buf := buf ++ u16le 0x0040
  let buf := buf ++ u32le pi.DocString.SizeOfDocStringUnicode
  let buf := buf ++ u16le 0x0006
  let buf := buf ++ u32le pi.HelpFilePath.SizeOfHelpFile1
  let buf := buf ++ u16le 0x003d
  let buf := buf ++ u32le pi.HelpFilePath.SizeOfHelpFile2
  let buf := buf ++ u16le 0x0007
  let buf := buf ++ u32le 0x00000004
  let buf := buf ++ u16le 0x0008
  let buf := buf ++ u32le 0x00000004
  let buf := buf ++ u32le 0x00000000
  let buf := buf ++ u16le 0x0009
  let buf := buf ++ u32le 0x00000004
  let buf := buf ++ u32le pi.Version.VersionMajor
  let buf := buf ++ u16le pi.Version.VersionMinor
  let buf := buf ++ u16le 0x000c
  let buf := buf ++ u32le pi.Constants.SizeOfConstants
  let buf := buf ++ pi.Constants.Constants
  let buf := buf ++ u16le 0x003c
  let buf := buf ++ u32le pi.Constants.SizeOfConstantsUnicode
  buf ++ pi.Constants.ConstantsUnicode

/-- Go function `contentNormalizedDataV3` (signatureV3.go 95-279). -/
def contentNormalizedDataV3 (lib : GoLib) (p : VbaProject) : Res (List Byte) :=
  let buf := informationV3 p.DirStream.InformationRecord
  (referencesV3 p.DirStream.ReferencesRecord.ReferenceArray buf).bind fun buf =>
    let buf := buf ++ u16le 0x000f
    let buf := buf ++ u32le 0x00000002
    let buf := buf ++ u16le 0x0013
    let buf := buf ++ u32le 0x00000002
    (modulesV3 lib p p.DirStream.ModulesRecord.Modules buf).bind fun buf =>
      let buf := buf ++ u16le 0x0010
      let buf := buf ++ u32le 0x00000000
      .ok buf

/-! ### Contributions and reference byte strings -/

/-- The bytes that one iteration of the reference loop of
`contentNormalizedData` appends: the iteration run on the empty buffer. -/
def referenceContributionV1 (ref : dirstream.Reference) : List Byte :=
  referenceStepV1 [] ref

/-- The bytes that one iteration of the module loop of `contentNormalizedData`
appends: the iteration run on the empty buffer. -/
def moduleContributionV1 (lib : GoLib) (ms : modulestream.Module) : List Byte :=
  moduleStepV1 lib [] ms

/-- The sub-buffer of a project reference as the specification words it, with
the minor version zero-extended to 32 bits; `projectReferenceBuffer` is the
buffer of the code. -/
def projectReferenceBufferSpec (ref : dirstream.ReferenceProject) : List Byte :=
  u32le ref.SizeOfLibidAbsolute ++ ref.LibidAbsolute ++ u32le ref.SizeOfLibidRelative
    ++ ref.LibidRelative ++ u32le ref.MajorVersion ++ u32le (ref.MinorVersion % 65536)
    ++ [0x00]

/-- The bytes that the specification lists for `contentNormalizedDataV3` of a
project without references and modules, every constant written out. -/
def emptyProjectBytesV3 (pi : dirstream.ProjectInformation) : List Byte :=
  [0x01, 0x00, 0x04, 0x00, 0x00, 0x00]
    ++ [0x02, 0x00, 0x04, 0x00, 0x00, 0x00, 0x09, 0x04, 0x00, 0x00]
    ++ [0x14, 0x00, 0x04, 0x00, 0x00, 0x00, 0x09, 0x04, 0x00, 0x00]
    ++ [0x03, 0x00, 0x02, 0x00, 0x00, 0x00]
    ++ [0x04, 0x00] ++ u32le pi.Name.SizeOfProjectName ++ pi.Name.ProjectName
    ++ [0x05, 0x00] ++ u32le pi.DocString.SizeOfDocString
    ++ [0x40, 0x00] ++ u32le pi.DocString.SizeOfDocStringUnicode
    ++ [0x06, 0x00] ++ u32le pi.HelpFilePath.SizeOfHelpFile1
    ++ [0x3d, 0x00] ++ u32le pi.HelpFilePath.SizeOfHelpFile2
    ++ [0x07, 0x00, 0x04, 0x00, 0x00, 0x00]
    ++ [0x08, 0x00, 0x04, 0x00, 0x00, 0x00, 0x00, 0x00, 0x00, 0x00]
    ++ [0x09, 0x00, 0x04, 0x00, 0x00, 0x00] ++ u32le pi.Version.VersionMajor
    ++ u16le pi.Version.VersionMinor
    ++ [0x0c, 0x00] ++ u32le pi.Constants.SizeOfConstants ++ pi.Constants.Constants
    ++ [0x3c, 0x00] ++ u32le pi.Constants.SizeOfConstantsUnicode
    ++ pi.Constants.ConstantsUnicode
    ++ [0x0f, 0x00, 0x02, 0x00, 0x00, 0x00, 0x13, 0x00, 0x02, 0x00, 0x00, 0x00]
    ++ [0x10, 0x00, 0x00, 0x00, 0x00, 0x00]

/-- The test of the specification for a line of a module in the V3 normalizer:
the line neither begins (ignoring case) with `attribute vb_name = ` nor both
begins (ignoring case) with `attribute` and equals one of the seven default
attributes; `lineStepV3` is the test of the code. -/
def lineAppendedV3 (lib : GoLib) (l : List Byte) : Bool :=
  !HasPrefix (stringsToLower lib l) (asciiBytes "attribute vb_name = ")
    && !(HasPrefix (stringsToLower lib l) (asciiBytes "attribute")
          && defaultAttributesV3.contains l)

/-- The bytes that `moduleStepV3` writes for the type, read-only and private
records of a module, before its lines. -/
def moduleRecordsV3 (m : dirstream.Module) : List Byte :=
  (if m.TypeRecord.Id = 0x0021 then u16le m.TypeRecord.Id ++ u32le 0 else [])
    ++ (if m.ReadOnlyRecord.isSome then u16le 0x0025 ++ u32le 0 else [])
    ++ (if m.PrivateRecord.isSome then u16le 0x0028 ++ u32le 0 else [])

/-! ### Project stream parser (`projectStream.go`) -/

/-- Behaviour of the Go package `strings` that depends on the Unicode tables
and on UTF-8 decoding: the paths that `strings.TrimSpace` takes when it meets
a byte `≥ 0x80`. Every statement below holds for every value of it. -/
structure GoStrings where
  /-- `strings.TrimFunc(s, unicode.IsSpace)`. -/
  trimFuncIsSpace : List Byte → List Byte
  /-- `strings.TrimRightFunc(s, unicode.IsSpace)`. -/
  trimRightFuncIsSpace : List Byte → List Byte

/-- A value of the parameter for closed examples: no table is consulted, both
functions return their argument. The examples use strings of ASCII bytes, on
which `strings.TrimSpace` does not leave its ASCII path. -/
def GoStrings.identity : GoStrings :=
  { trimFuncIsSpace := fun s => s, trimRightFuncIsSpace := fun s => s }

/-- The table `asciiSpace` of package `strings`: tab, line feed, vertical tab,
form feed, carriage return and space. -/
def asciiSpace (c : Byte) : Bool :=
  c == 0x09 || c == 0x0a || c == 0x0b || c == 0x0c || c == 0x0d || c == 0x20

/-- The second loop of `strings.TrimSpace`, on `s[start:]`: ASCII white space
is removed from the end; a byte `≥ 0x80` met there hands over to
`TrimRightFunc`. -/
def trimSpaceRight (str : GoStrings) (s : List Byte) : List Byte :=
  match s.reverse.dropWhile asciiSpace with
  | [] => []
  | c :: rest =>
    if 0x80 ≤ c.val then str.trimRightFuncIsSpace (c :: rest).reverse
    else (c :: rest).reverse

/-- Go function `strings.TrimSpace`: ASCII white space is removed from the
start; a byte `≥ 0x80` met there hands over to `TrimFunc`; then the end is
trimmed. -/
def TrimSpace (str : GoStrings) (s : List Byte) : List Byte :=
  match s.dropWhile asciiSpace with
  | [] => []
  | c :: rest =>
    if 0x80 ≤ c.val then str.trimFuncIsSpace (c :: rest)
    else trimSpaceRight str (c :: rest)

/-- Go call `strings.Trim(s, "\"")`: for a cutset of one ASCII byte, every
such byte is removed from the end and then from the start. -/
def TrimQuotes (s : List Byte) : List Byte :=
  ((s.reverse.dropWhile (fun c => c == 0x22)).reverse).dropWhile (fun c => c == 0x22)

/-- Go call `strings.Split(s, "\r\n")`, with the segment read so far. -/
def splitCrLfFrom : List Byte → List Byte → List (List Byte)
  | [], cur => [cur]
  | [c], cur => [cur ++ [c]]
  | c :: d :: rest, cur =>
    if c = 0x0d ∧ d = 0x0a then cur :: splitCrLfFrom rest []
    else splitCrLfFrom (d :: rest) (cur ++ [c])

/-- Go call `strings.Split(input, "\r\n")`. -/
def splitCrLf (input : List Byte) : List (List Byte) := splitCrLfFrom input []

/-- Go call `strings.SplitN(line, "=", 2)`, with `none` for a result that does
not have two parts: the text before the first `=` and the text after it. -/
def splitFirstEq (line : List Byte) : Option (List Byte × List Byte) :=
  if (0x3d : Byte) ∈ line then
    some (line.takeWhile (fun c => c != 0x3d), (line.dropWhile (fun c => c != 0x3d)).drop 1)
  else none

/-- Go function `strings.HasSuffix`. -/
def HasSuffix (s suf : List Byte) : Bool := suf.isSuffixOf s

/-- The loop variables of `ParseProjectStream`: the result `ps` and the
variable `section`. -/
structure ProjectParseState where
  ps : projectstream.ProjectStream := {}
  sectionName : List Byte := []
  deriving DecidableEq, Repr

/-- The first `switch` of the loop of `ParseProjectStream` (projectStream.go
57-64): the property is appended to the group of the current section. -/
def appendToGroup (ps : projectstream.ProjectStream) (sectionName : List Byte)
    (prop : projectstream.ProjectProperty) : projectstream.ProjectStream :=
  if sectionName = [] then { ps with MainProperties := ps.MainProperties ++ [prop] }
  else if sectionName = asciiBytes "Host Extender Info" then
    { ps with HostExtenderProperties := ps.HostExtenderProperties ++ [prop] }
  else { ps with OtherProperties := ps.OtherProperties ++ [prop] }

/-- The second `switch` of the loop of `ParseProjectStream` (projectStream.go
67-90); `Class` appends to `ProjectStdModules` as in the source. -/
def extractValue (ps : projectstream.ProjectStream) (key value : List Byte) :
    projectstream.ProjectStream :=
  if key = asciiBytes "ID" then { ps with ID := value }
  else if key = asciiBytes "Document" then
    { ps with ProjectDocModules := ps.ProjectDocModules ++ [value] }
  else if key = asciiBytes "Module" then
    { ps with ProjectStdModules := ps.ProjectStdModules ++ [value] }
  else if key = asciiBytes "BaseClass" then
    { ps with ProjectDesignerModules := ps.ProjectDesignerModules ++ [value] }
  else if key = asciiBytes "Class" then
    { ps with ProjectStdModules := ps.ProjectStdModules ++ [value] }
  else if key = asciiBytes "Name" then { ps with Name := value }
  else if key = asciiBytes "HelpContextID" then { ps with HelpContextID := value }
  else if key = asciiBytes "VersionCompatible32" then { ps with VersionCompatible32 := value }
  else if key = asciiBytes "CMG" then { ps with CMG := value }
  else if key = asciiBytes "DPB" then { ps with DPB := value }
  else if key = asciiBytes "GC" then { ps with GC := value }
  else ps

/-- One iteration of the loop of `ParseProjectStream` (projectStream.go
35-91). A trimmed line that starts with `[` and ends with `]` has at least two
bytes, so the slice `line[1 : len(line)-1]` is in range. -/
def parseProjectStreamStep (str : GoStrings) (st : ProjectParseState) (rawLine : List Byte) :
    ProjectParseState :=
  let line := TrimSpace str rawLine
  if line = [] then st
  else if HasPrefix line (asciiBytes "[") && HasSuffix line (asciiBytes "]") then
    { st with sectionName := (line.take (line.length - 1)).drop 1 }
  else
    match splitFirstEq line with
    | none => st
    | some parts =>
      let key := TrimSpace str parts.1
      let value := TrimQuotes parts.2
      let ps := appendToGroup st.ps st.sectionName { Key := key, Value := value, Line := line }
      { st with ps := extractValue ps key value }

/-- Go function `ParseProjectStream` (projectStream.go 29-93). -/
def ParseProjectStream (str : GoStrings) (input : List Byte) : projectstream.ProjectStream :=
  ((splitCrLf input).foldl (parseProjectStreamStep str)
    { ps := { Raw := input }, sectionName := [] }).ps

/-! ### Project normalized data and the V3 hash input (`signatureV3.go`) -/

/-- Go function `strings.Contains`. -/
def Contains : List Byte → List Byte → Bool
  | [], substr => substr.isPrefixOf []
  | c :: rest, substr => substr.isPrefixOf (c :: rest) || Contains rest substr

/-- The key test of `projectNormalizedData` (signatureV3.go 382): the key is
none of `ID`, `Document`, `CMG`, `DPB`, `GC` and does not start with `&H`. -/
def propertyHashed (key : List Byte) : Bool :=
  !([asciiBytes "ID", asciiBytes "Document", asciiBytes "CMG", asciiBytes "DPB",
      asciiBytes "GC"].contains key)
    && !HasPrefix key (asciiBytes "&H")

/-- One iteration of the first loop of `projectNormalizedData` (signatureV3.go
373-387); `normalizeDesignerStorage` dereferences the module that `GetModule`
returns, which is nil for an unknown name. -/
def propertyStepPN (p : VbaProject) (buf : List Byte) (prop : projectstream.ProjectProperty) :
    Res (List Byte) :=
  let designer : Res (List Byte) :=
    if prop.Key = asciiBytes "BaseClass" then
      match p.ModuleStream.GetModule prop.Value with
      | none => .panic
      | some mod => .ok (buf ++ normalizeDesignerStorage mod)
    else .ok buf
  designer.bind fun buf =>
    if propertyHashed prop.Key then .ok (buf ++ prop.Key ++ prop.Value) else .ok buf

/-- The first loop of `projectNormalizedData`. -/
def propertiesPN (p : VbaProject) : List projectstream.ProjectProperty → List Byte →
    Res (List Byte)
  | [], buf => .ok buf
  | prop :: rest, buf => (propertyStepPN p buf prop).bind (propertiesPN p rest)

/-- One iteration of the second loop of `projectNormalizedData` (signatureV3.go
392-397). -/
def hostExtenderStepPN (buf : List Byte) (prop : projectstream.ProjectProperty) : List Byte :=
  if HasPrefix prop.Key (asciiBytes "&H") then buf ++ prop.Line else buf

/-- Go function `projectNormalizedData` (signatureV3.go 370-400). -/
def projectNormalizedData (p : VbaProject) : Res (List Byte) :=
  (propertiesPN p p.ProjectStream.MainProperties []).bind fun buf =>
    if Contains p.ProjectStream.Raw (asciiBytes "Host Extender Info") then
      let buf := buf ++ asciiBytes "Host Extender Info"
      .ok (p.ProjectStream.HostExtenderProperties.foldl hostExtenderStepPN buf)
    else .ok buf

/-- The buffer that `getHashV3` (signatureV3.go 84-92) hands to the hash:
`contentNormalizedDataV3(p)` followed by `projectNormalizedData(p)`. -/
def hashBufferV3 (lib : GoLib) (p : VbaProject) : Res (List Byte) :=
  (contentNormalizedDataV3 lib p).bind fun buf =>
    (projectNormalizedData p).bind fun pn => .ok (buf ++ pn)

/-! ### Signature file (`digSigInfoSerialized.go`, `vbaSigSerializedCertStore.go`) -/

/-- Truncation to a `uint32`. -/
def u32 (n : Nat) : Nat := n % 4294967296

/-- Go type `DigSigInfoSerializedHeader`: nine `uint32` fields. -/
structure DigSigInfoSerializedHeader where
  CbSignature : Nat := 0
  SignatureOffset : Nat := 0
  CbSigningCertStore : Nat := 0
  CertStoreOffset : Nat := 0
  CbProjectName : Nat := 0
  ProjectNameOffset : Nat := 0
  FTimestamp : Nat := 0
  CbTimestampUrl : Nat := 0
  TimestampUrlOffset : Nat := 0
  deriving DecidableEq, Repr

/-- Go type `DigSigInfoSerialized`, without the two pointers to parsed data,
which `NewDigSigInfoSerialized` leaves nil and `Serialize` does not read. -/
structure DigSigInfoSerialized extends DigSigInfoSerializedHeader where
  PbSignatureBuffer : List Byte := []
  PbSigningCertStoreBuffer : List Byte := []
  RgchProjectNameBuffer : List Byte := []
  RgchTimestampBuffer : List Byte := []
  deriving DecidableEq, Repr

/-- Go method `FixOffsets` (digSigInfoSerialized.go 53-57). -/
def DigSigInfoSerialized.FixOffsets (sigBlob : DigSigInfoSerialized) : DigSigInfoSerialized :=
  let sigBlob := { sigBlob with
    CertStoreOffset := u32 (sigBlob.SignatureOffset + sigBlob.CbSignature) }
  let sigBlob := { sigBlob with
    ProjectNameOffset := u32 (sigBlob.CertStoreOffset + sigBlob.CbSigningCertStore) }
  { sigBlob with
    TimestampUrlOffset :=
      u32 (sigBlob.ProjectNameOffset + u32 sigBlob.RgchProjectNameBuffer.length) }

/-- Go method `ReplaceSigBuffer` (digSigInfoSerialized.go 59-63). -/
def DigSigInfoSerialized.ReplaceSigBuffer (sigBlob : DigSigInfoSerialized) (b : List Byte) :
    DigSigInfoSerialized :=
  let sigBlob := { sigBlob with CbSignature := u32 b.length }
  let sigBlob := { sigBlob with PbSignatureBuffer := b }
  sigBlob.FixOffsets

/-- Go method `ReplaceCertStore` (digSigInfoSerialized.go 65-69). -/
def DigSigInfoSerialized.ReplaceCertStore (sigBlob : DigSigInfoSerialized) (s : List Byte) :
    DigSigInfoSerialized :=
  let sigBlob := { sigBlob with PbSigningCertStoreBuffer := s }
  let sigBlob := { sigBlob with CbSigningCertStore := u32 sigBlob.PbSigningCertStoreBuffer.length }
  sigBlob.FixOffsets

/-- Go function `NewVbaSigSerializedCertStore` (vbaSigSerializedCertStore.go
39-60) on the field `Raw` of the certificate, the only one it reads; its error
is always nil. -/
def NewVbaSigSerializedCertStore (certRaw : List Byte) : List Byte :=
  u32le 0x00000000 ++ u32le 0x54524543 ++ [0x20, 0x00, 0x00, 0x00] ++ [0x01, 0x00, 0x00, 0x00]
    ++ u32le certRaw.length ++ certRaw ++ [0x00, 0x00, 0x00, 0x00]
    ++ [0x00, 0x00, 0x00, 0x00, 0x00, 0x00, 0x00, 0x00]

/-- Go function `NewDigSigInfoSerialized` (digSigInfoSerialized.go 37-51) on
the signature bytes and the field `Raw` of the certificate; the error of
`NewVbaSigSerializedCertStore` is always nil, so a value is returned. -/
def NewDigSigInfoSerialized (pbSignature certRaw : List Byte) : DigSigInfoSerialized :=
  let res : DigSigInfoSerialized := {}
  let res := { res with CbProjectName := 0x00000000 }
  let res := { res with FTimestamp := 0x00000000 }
  let res := { res with RgchProjectNameBuffer := [0, 0] }
  let res := { res with RgchTimestampBuffer := [0, 0] }
  let res := { res with SignatureOffset := 44 }
  let res := res.ReplaceSigBuffer pbSignature
  let certStore := NewVbaSigSerializedCertStore certRaw
  res.ReplaceCertStore certStore

/-- The call `binary.Encode(buf, binary.LittleEndian, header)`: the nine
fields in declaration order, four bytes each. -/
def encodeHeader (h : DigSigInfoSerializedHeader) : List Byte :=
  u32le h.CbSignature ++ u32le h.SignatureOffset ++ u32le h.CbSigningCertStore
    ++ u32le h.CertStoreOffset ++ u32le h.CbProjectName ++ u32le h.ProjectNameOffset
    ++ u32le h.FTimestamp ++ u32le h.CbTimestampUrl ++ u32le h.TimestampUrlOffset

/-- Go method `Serialize` (digSigInfoSerialized.go 121-129). -/
def DigSigInfoSerialized.Serialize (sigBlob : DigSigInfoSerialized) : List Byte :=
  let buf : List Byte := List.replicate 36 0
  let buf := binaryEncodeInto buf (encodeHeader sigBlob.toDigSigInfoSerializedHeader)
  let buf := buf ++ sigBlob.PbSignatureBuffer
  let buf := buf ++ sigBlob.PbSigningCertStoreBuffer
  let buf := buf ++ sigBlob.RgchProjectNameBuffer
  buf ++ sigBlob.RgchTimestampBuffer

/-! ### Vocabulary of the statements about the project stream -/

/-- The host-extender part of `projectNormalizedData` as the specification
words it: empty when the raw text does not contain `Host Extender Info`, else
that string followed by the `Line` of every host-extender property whose key
starts with `&H`. -/
def hostExtenderPart (ps : projectstream.ProjectStream) : List Byte :=
  if Contains ps.Raw (asciiBytes "Host Extender Info") then
    asciiBytes "Host Extender Info"
      ++ ((ps.HostExtenderProperties.filter
            (fun prop => HasPrefix prop.Key (asciiBytes "&H"))).map (fun prop => prop.Line)).flatten
  else []

/-- A trimmed line that `ParseProjectStream` takes as a section header: it
starts with `[` and ends with `]`. -/
def isSectionLine (line : List Byte) : Bool :=
  HasPrefix line (asciiBytes "[") && HasSuffix line (asciiBytes "]")

/-- A trimmed line that is not empty, is not a section header and contains
`=`. -/
def isPropertyLine (line : List Byte) : Bool :=
  line != [] && !isSectionLine line && line.contains 0x3d

/-- The name between the brackets of a section header. -/
def sectionNameOf (line : List Byte) : List Byte := (line.take (line.length - 1)).drop 1

/-- The name of the most recent section header among the lines read so far,
if there is one. -/
def lastSectionName (before : List (List Byte)) : Option (List Byte) :=
  ((before.filter isSectionLine).getLast?).map sectionNameOf

/-- The three groups of properties of a project stream. -/
inductive PropertyGroup where
  | main
  | hostExtender
  | other
  deriving DecidableEq, Repr

/-- The group that a property belongs to, given the name of the most recent
section header: the main group when there is no header or its name is empty,
the host-extender group for `Host Extender Info`, the other group else. -/
def groupOfSection (name : Option (List Byte)) : PropertyGroup :=
  match name with
  | none => .main
  | some n =>
    if n = [] then .main
    else if n = asciiBytes "Host Extender Info" then .hostExtender
    else .other

/-- The property that a trimmed line `k=v` stands for: the key is `k` trimmed
of white space, where `k` is the text before the first `=`, and the value is
the text after the first `=` trimmed of double quotes. -/
def propertyOfLine (str : GoStrings) (line : List Byte) : projectstream.ProjectProperty :=
  { Key := TrimSpace str (line.takeWhile (fun c => c != 0x3d)),
    Value := TrimQuotes ((line.dropWhile (fun c => c != 0x3d)).drop 1),
    Line := line }

/-- The properties of group `g` among the trimmed lines `lines`, in order,
where `before` are the trimmed lines that precede them. -/
def groupProperties (str : GoStrings) (g : PropertyGroup) :
    List (List Byte) → List (List Byte) → List projectstream.ProjectProperty
  | _, [] => []
  | before, l :: rest =>
    (if isPropertyLine l && decide (groupOfSection (lastSectionName before) = g) then
        [propertyOfLine str l]
      else [])
      ++ groupProperties str g (before ++ [l]) rest

/-- The field of a project stream that holds a group. -/
def groupField (g : PropertyGroup) (ps : projectstream.ProjectStream) :
    List projectstream.ProjectProperty :=
  match g with
  | .main => ps.MainProperties
  | .hostExtender => ps.HostExtenderProperties
  | .other => ps.OtherProperties

/-! ### Module names (`vbaproject.go`) -/

/-- Go type `ModuleWithOffset`. -/
structure ModuleWithOffset where
  Name : List Byte := []
  Offset : Nat := 0
  deriving DecidableEq, Repr

/-- Go method `GetModulesWithOffset` (vbaproject.go 20-29): the name is the
MBCS module name of the dir stream, byte for byte. -/
def VbaProject.GetModulesWithOffset (p : VbaProject) : List ModuleWithOffset :=
  p.DirStream.ModulesRecord.Modules.map
    (fun m => { Name := m.NameRecord.ModuleName, Offset := m.OffsetRecord.TextOffset })

/-- A value of the library parameter for closed examples with bytes `≥ 0x80`:
every decoder maps a byte below `0x80` to itself and a byte `b ≥ 0x80` to the
two bytes of the UTF-8 form of the code point `b`, as the decoder of
`charmap.Windows1252` does for every byte outside `0x80`-`0x9f`. -/
def GoLib.latin1 : GoLib :=
  { mapUnicodeToLower := fun s => s,
    charmapDecode := fun _ s =>
      some ((s.map (fun b : Byte =>
        if b.val < 0x80 then [b]
        else [Fin.ofNat (0xc0 + b.val / 64), Fin.ofNat (0x80 + b.val % 64)])).flatten) }

/-! ### Outcomes of the parsers -/

/-- Outcome of a Go call with errors of type `ε`: a normal return, a returned
`error`, a run-time panic, or a loop that did not finish within the fuel
given. -/
inductive Outcome (ε α : Type) where
  | ok (a : α)
  | error (e : ε)
  | panic
  | outOfFuel
  deriving DecidableEq, Repr

/-- Sequencing of Go calls: the continuation runs on a normal return. -/
def Outcome.bind {ε α β : Type} (r : Outcome ε α) (f : α → Outcome ε β) : Outcome ε β :=
  match r with
  | .ok a => f a
  | .error e => .error e
  | .panic => .panic
  | .outOfFuel => .outOfFuel

/-- The number that `binary.LittleEndian` reads from a byte slice. -/
def leNat : List Byte → Nat
  | [] => 0
  | b :: rest => b.val + 256 * leNat rest

/-! ### Serialized property entries (`serializedPropertyEntry.go`) -/

/-- Go type `SerializedPropertyEntry`. -/
structure SerializedPropertyEntry where
  ID : Nat := 0
  EncodingType : Nat := 0
  Length : Nat := 0
  Value : List Byte := []
  deriving DecidableEq, Repr

/-- The five errors that `ReadSerializedPropertyEntry` returns. -/
inductive PropertyEntryError where
  | dataTooShort
  | reservedId (id : Nat)
  | idTooLarge (id : Nat)
  | invalidEncodingType (encodingType : Nat)
  | valueTooShort (length : Nat)
  deriving DecidableEq, Repr

/-- Go function `ReadSerializedPropertyEntry` (serializedPropertyEntry.go
17-52). `12+property.Length` is a `uint32` sum; `int` has 64 bits, so the
conversion of a `uint32` keeps its value. The slice expressions
`data[12 : 12+property.Length]` and `data[12+property.Length:]` panic unless
`12 ≤ 12+property.Length ≤ len(data)`. -/
def ReadSerializedPropertyEntry (data : List Byte) :
    Outcome PropertyEntryError (SerializedPropertyEntry × List Byte) :=
  if data.length < 12 then .error .dataTooShort
  else
    let ID := leNat (data.take 4)
    if ID = 0x00000000 ∨ ID = 0x00000020 then .error (.reservedId ID)
    else if ID > 0x0000FFFF then .error (.idTooLarge ID)
    else
      let EncodingType := leNat ((data.drop 4).take 4)
      if EncodingType ≠ 0x00000001 then .error (.invalidEncodingType EncodingType)
      else
        let Length := leNat ((data.drop 8).take 4)
        if data.length < u32 (12 + Length) then .error (.valueTooShort Length)
        else if 12 ≤ u32 (12 + Length) ∧ u32 (12 + Length) ≤ data.length then
          .ok ({ ID := ID, EncodingType := EncodingType, Length := Length,
                 Value := (data.drop 12).take (u32 (12 + Length) - 12) },
               data.drop (u32 (12 + Length)))
        else .panic

/-! ### The `SigDataV1Serialized` blob (`signatureV2Agile.go`, `signatureV3.go`) -/

/-- Conversion of an integer to `int32`. -/
def i32 (n : Int) : Int := (n + 2147483648) % 4294967296 - 2147483648

/-- The four bytes of a little-endian `int32`. -/
def i32le (v : Int) : List Byte := u32le (v % 4294967296).toNat

/-- Go type `SigDataV1SerializedHeader`: six `int32` fields. -/
structure SigDataV1SerializedHeader where
  AlgorithmIdSize : Int := 0
  CompiledHashSize : Int := 0
  SourceHashSize : Int := 0
  AlgorithmIdOffset : Int := 0
  CompiledHashOffset : Int := 0
  SourceHashOffset : Int := 0
  deriving DecidableEq, Repr

/-- The call `binary.Append(sdv1Bytes, binary.LittleEndian, sdv1)` on an empty
slice: the six fields in declaration order, four bytes each. -/
def encodeSigDataHeader (h : SigDataV1SerializedHeader) : List Byte :=
  i32le h.AlgorithmIdSize ++ i32le h.CompiledHashSize ++ i32le h.SourceHashSize
    ++ i32le h.AlgorithmIdOffset ++ i32le h.CompiledHashOffset ++ i32le h.SourceHashOffset

/-- The header `sdv1` that `GetContentInfoV2` builds (signatureV2Agile.go
46-56), as a function of `sourceHash`, the result of `p.getHashAgile()`. -/
def sigDataHeaderV2 (sourceHash : List Byte) : SigDataV1SerializedHeader :=
  let algorithmId : List Byte := asciiBytes "2.16.840.1.101.3.4.2.1\x00"
  let algorithmIdSize := i32 algorithmId.length
  { AlgorithmIdSize := algorithmIdSize,
    CompiledHashSize := 0,
    SourceHashSize := i32 sourceHash.length,
    AlgorithmIdOffset := 6 * 4,
    CompiledHashOffset := i32 (6 * 4 + algorithmIdSize),
    SourceHashOffset := i32 (6 * 4 + algorithmIdSize) }

/-- The value `sdv1Bytes` that `GetContentInfoV2` stores in
`content.MessageDigest.Digest` (signatureV2Agile.go 46-74), as a function of
`sourceHash`. -/
def sigDataV1SerializedV2 (sourceHash : List Byte) : List Byte :=
  let algorithmId : List Byte := asciiBytes "2.16.840.1.101.3.4.2.1\x00"
  let sdv1Bytes : List Byte := []
  let sdv1Bytes := sdv1Bytes ++ encodeSigDataHeader (sigDataHeaderV2 sourceHash)
  let sdv1Bytes := sdv1Bytes ++ algorithmId
  sdv1Bytes ++ sourceHash

/-- The header `sdv1` that `GetContentInfoV3` builds (signatureV3.go 48-58),
as a function of `sourceHash`, the result of `getHashV3(p)`. -/
def sigDataHeaderV3 (sourceHash : List Byte) : SigDataV1SerializedHeader :=
  let algorithmId : List Byte := asciiBytes "2.16.840.1.101.3.4.2.1\x00"
  let algorithmIdSize := i32 algorithmId.length
  { AlgorithmIdSize := algorithmIdSize,
    CompiledHashSize := 0,
    SourceHashSize := i32 sourceHash.length,
    AlgorithmIdOffset := 6 * 4,
    CompiledHashOffset := i32 (6 * 4 + algorithmIdSize),
    SourceHashOffset := i32 (6 * 4 + algorithmIdSize) }

/-- The value `sdv1Bytes` that `GetContentInfoV3` stores in
`content.MessageDigest.Digest` (signatureV3.go 48-76), as a function of
`sourceHash`. -/
def sigDataV1SerializedV3 (sourceHash : List Byte) : List Byte :=
  let algorithmId : List Byte := asciiBytes "2.16.840.1.101.3.4.2.1\x00"
  let sdv1Bytes : List Byte := []
  let sdv1Bytes := sdv1Bytes ++ encodeSigDataHeader (sigDataHeaderV3 sourceHash)
  let sdv1Bytes := sdv1Bytes ++ algorithmId
  sdv1Bytes ++ sourceHash

/-! ### Vocabulary of the statements about the signature file -/

/-- The five relations between the header fields and the buffers of a
`DigSigInfoSerialized`, each modulo `2^32`. -/
def DigSigInfoSerialized.Consistent (d : DigSigInfoSerialized) : Prop :=
  d.CertStoreOffset = u32 (d.SignatureOffset + d.CbSignature) ∧
  d.ProjectNameOffset = u32 (d.CertStoreOffset + d.CbSigningCertStore) ∧
  d.TimestampUrlOffset = u32 (d.ProjectNameOffset + d.RgchProjectNameBuffer.length) ∧
  d.CbSignature = u32 d.PbSignatureBuffer.length ∧
  d.CbSigningCertStore = u32 d.PbSigningCertStoreBuffer.length

instance (d : DigSigInfoSerialized) : Decidable d.Consistent := by
  unfold DigSigInfoSerialized.Consistent; infer_instance

/-! ### Dir stream parser (`dirStream.go`, `projectInformation.go`, `projectReferences.go`, `projectModules.go`)

The `bytes.Reader` is the list of its unread bytes. `make` is taken to
succeed for every `uint32` size. The parameter `pi` of
`ParseProjectReferences` and `ParseProjectModules` is not read by them and is
left out. -/

/-- The errors that the dir stream parser returns. -/
inductive DirStreamError where
  /-- The error `failed to read id (record)`. -/
  | readRecordId
  /-- The error `failed to read id (reference)`. -/
  | readReferenceId
  /-- The error `failed to read id (module)`. -/
  | readModuleId
  /-- The error of a `binary.Read`, returned as it is. -/
  | read
  /-- The error `unknown project info record id`. -/
  | unknownProjectInfoId (nid : Nat)
  /-- The error `unknown project reference record id`. -/
  | unknownReferenceId (nid : Nat)
  /-- The error `unknown module record id`. -/
  | unknownModuleId (nid : Nat)
  /-- The error `reserved constant of MODULESTREAM record incorrect`. -/
  | streamNameReserved (reserved : Nat)
  /-- The error `invalid id for project cookie`. -/
  | invalidProjectCookieId
  deriving DecidableEq, Repr

/-- The call `binary.Read(reader, binary.LittleEndian, data)` for `data` of
`n` bytes: with `n` unread bytes or more (also for `n = 0`) it takes the next
`n` bytes; with fewer it fails, `data` is not written, and `io.ReadFull` has
consumed what was left. The first component is the bytes read, `none` for an
error. -/
def binaryRead (reader : List Byte) (n : Nat) : Option (List Byte) × List Byte :=
  if n ≤ reader.length then (some (reader.take n), reader.drop n) else (none, [])

/-- A `binary.Read` into an unsigned integer of `n` bytes whose error is
dropped: the variable keeps its value `old` when the read fails. -/
def readUint (n : Nat) (reader : List Byte) (old : Nat) : Nat × List Byte :=
  match (binaryRead reader n).1 with
  | some b => (leNat b, (binaryRead reader n).2)
  | none => (old, (binaryRead reader n).2)

/-- Result of `x = make([]byte, size)` followed by
`err = binary.Read(reader, binary.LittleEndian, &x)`. -/
structure SliceRead where
  value : List Byte
  failed : Bool
  reader : List Byte
  deriving DecidableEq, Repr

/-- The statements `x = make([]byte, size)` and
`err = binary.Read(reader, binary.LittleEndian, &x)`: when the read fails `x`
stays the `size` zero bytes of `make`. -/
def readSlice (reader : List Byte) (size : Nat) : SliceRead :=
  match (binaryRead reader size).1 with
  | some b => { value := b, failed := false, reader := (binaryRead reader size).2 }
  | none =>
    { value := List.replicate size 0, failed := true, reader := (binaryRead reader size).2 }

/-- A `binary.Read` into a `GUID`, a `[16]byte`, whose error is dropped. -/
def readGUID (reader : List Byte) : dirstream.GUID × List Byte :=
  if h : 16 ≤ reader.length then
    (⟨reader.take 16, by rw [List.length_take]; exact Nat.min_eq_left h⟩, reader.drop 16)
  else (dirstream.GUID.zero, [])

/-- The `uint16` values of a byte sequence of even length, little-endian. -/
def uint16s : List Byte → List Nat
  | lo :: hi :: rest => (lo.val + 256 * hi.val) :: uint16s rest
  | _ => []

/-- Go function `utf16.Decode`: a surrogate pair gives one code point, any
other surrogate the replacement character `U+FFFD`. -/
def utf16Decode : List Nat → List Nat
  | [] => []
  | [r] => [if r < 0xd800 ∨ 0xe000 ≤ r then r else 0xFFFD]
  | r :: r2 :: rest =>
    if r < 0xd800 ∨ 0xe000 ≤ r then r :: utf16Decode (r2 :: rest)
    else if 0xd800 ≤ r ∧ r < 0xdc00 ∧ 0xdc00 ≤ r2 ∧ r2 < 0xe000 then
      ((r - 0xd800) * 1024 + (r2 - 0xdc00) + 0x10000) :: utf16Decode rest
    else 0xFFFD :: utf16Decode (r2 :: rest)

/-- The UTF-8 bytes of one rune in the conversion `string([]rune)`: a
surrogate or a value above `U+10FFFF` is written as `U+FFFD`. -/
def utf8EncodeRune (r : Nat) : List Byte :=
  if r < 0x80 then [Fin.ofNat r]
  else if r < 0x800 then [Fin.ofNat (0xC0 + r / 64), Fin.ofNat (0x80 + r % 64)]
  else if (0xD800 ≤ r ∧ r < 0xE000) ∨ 0x10FFFF < r then [0xEF, 0xBF, 0xBD]
  else if r < 0x10000 then
    [Fin.ofNat (0xE0 + r / 4096), Fin.ofNat (0x80 + r / 64 % 64), Fin.ofNat (0x80 + r % 64)]
  else
    [Fin.ofNat (0xF0 + r / 262144), Fin.ofNat (0x80 + r / 4096 % 64),
      Fin.ofNat (0x80 + r / 64 % 64), Fin.ofNat (0x80 + r % 64)]

/-- The expression `string(utf16.Decode(tmp16))` on the bytes of `tmp16`. -/
def utf16ToString (raw : List Byte) : List Byte :=
  ((utf16Decode (uint16s raw)).map utf8EncodeRune).flatten

/-- What the `switch` of a record loop does with one record: the loop goes on
with a new state, the function returns a value, or it returns an error. -/
inductive RecordStep (σ α : Type) where
  | next (s : σ) (reader : List Byte)
  | done (a : α) (reader : List Byte)
  | fail (e : DirStreamError)
  deriving DecidableEq, Repr

/-- The loop shared by `ParseProjectInfo`, `ParseProjectReferences` and
`ParseProjectModules`: while `guard` holds, read the `uint16` record id `nid`,
return `readIdError` when that read fails, and run the `switch` on `nid`.
When `guard` fails the function returns `finish` of the state. The result
comes with the unread bytes. -/
def recordLoop {σ α : Type} (readIdError : DirStreamError) (guard : σ → Bool) (finish : σ → α)
    (step : Nat → σ → List Byte → RecordStep σ α) :
    Nat → σ → List Byte → Outcome DirStreamError (α × List Byte)
  | 0, s, reader => if guard s then .outOfFuel else .ok (finish s, reader)
  | fuel + 1, s, reader =>
    if guard s then
      match (binaryRead reader 2).1 with
      | none => .error readIdError
      | some b =>
        match step (leNat b) s (binaryRead reader 2).2 with
        | .next s' reader' => recordLoop readIdError guard finish step fuel s' reader'
        | .done a reader' => .ok (a, reader')
        | .fail e => .error e
    else .ok (finish s, reader)

/-- The `switch` of `ParseProjectInfo` (projectInformation.go 119-186) with
the test of `err` that follows it. -/
def parseProjectInfoStep (nid : Nat) (pi : dirstream.ProjectInformation) (reader : List Byte) :
    RecordStep dirstream.ProjectInformation dirstream.ProjectInformation :=
  if nid = 0x0001 then
    match (binaryRead reader 8).1 with
    | some b =>
      .next { pi with SysKind := { Size := leNat (b.take 4), SysKind := leNat (b.drop 4) } }
        (binaryRead reader 8).2
    | none => .fail .read
  else if nid = 0x004a then
    match (binaryRead reader 8).1 with
    | some b =>
      .next { pi with
          CompatVersion := { Size := leNat (b.take 4), CompatVersion := leNat (b.drop 4) } }
        (binaryRead reader 8).2
    | none => .fail .read
  else if nid = 0x0002 then
    match (binaryRead reader 8).1 with
    | some b =>
      .next { pi with Lcid := { Size := leNat (b.take 4), Lcid := leNat (b.drop 4) } }
        (binaryRead reader 8).2
    | none => .fail .read
  else if nid = 0x0014 then
    match (binaryRead reader 8).1 with
    | some b =>
      .next { pi with
          LcidInvoke := { Size := leNat (b.take 4), LcidInvoke := leNat (b.drop 4) } }
        (binaryRead reader 8).2
    | none => .fail .read
  else if nid = 0x0003 then
    match (binaryRead reader 6).1 with
    | some b =>
      .next { pi with CodePage := { Size := leNat (b.take 4), CodePage := leNat (b.drop 4) } }
        (binaryRead reader 6).2
    | none => .fail .read
  else if nid = 0x0004 then
    let size := readUint 4 reader pi.Name.SizeOfProjectName
    let name := readSlice size.2 size.1
    if name.failed then .fail .read
    else
      .next { pi with Name := { SizeOfProjectName := size.1, ProjectName := name.value } }
        name.reader
  else if nid = 0x0005 then
    let size := readUint 4 reader pi.DocString.SizeOfDocString
    let doc := readSlice size.2 size.1
    if doc.failed then .fail .read
    else
      let reserved := readUint 2 doc.reader pi.DocString.Reserved
      let sizeUnicode := readUint 4 reserved.2 pi.DocString.SizeOfDocStringUnicode
      let tmp16 := readSlice sizeUnicode.2 (2 * (sizeUnicode.1 / 2))
      if tmp16.failed then .fail .read
      else
        .next { pi with
            DocString :=
              { SizeOfDocString := size.1, DocString := doc.value, Reserved := reserved.1,
                SizeOfDocStringUnicode := sizeUnicode.1,
                DocStringUnicode := utf16ToString tmp16.value } }
          tmp16.reader
  else if nid = 0x0006 then
    let size1 := readUint 4 reader pi.HelpFilePath.SizeOfHelpFile1
    let file1 := readSlice size1.2 size1.1
    if file1.failed then .fail .read
    else
      let reserved := readUint 2 file1.reader pi.HelpFilePath.Reserved
      let size2 := readUint 4 reserved.2 pi.HelpFilePath.SizeOfHelpFile2
      let file2 := readSlice size2.2 size2.1
      if file2.failed then .fail .read
      else
        .next { pi with
            HelpFilePath :=
              { SizeOfHelpFile1 := size1.1, HelpFile1 := file1.value, Reserved := reserved.1,
                SizeOfHelpFile2 := size2.1, HelpFile2 := file2.value } }
          file2.reader
  else if nid = 0x0007 then
    match (binaryRead reader 8).1 with
    | some b =>
      .next { pi with
          HelpContext := { Size := leNat (b.take 4), HelpContext := leNat (b.drop 4) } }
        (binaryRead reader 8).2
    | none => .fail .read
  else if nid = 0x0008 then
    match (binaryRead reader 8).1 with
    | some b =>
      .next { pi with
          LibFlags := { Size := leNat (b.take 4), ProjectLibFlags := leNat (b.drop 4) } }
        (binaryRead reader 8).2
    | none => .fail .read
  else if nid = 0x0009 then
    match (binaryRead reader 10).1 with
    | some b =>
      .next { pi with
          Version :=
            { Reserved := leNat (b.take 4), VersionMajor := leNat ((b.drop 4).take 4),
              VersionMinor := leNat (b.drop 8) } }
        (binaryRead reader 10).2
    | none => .fail .read
  else if nid = 0x000c then
    let size := readUint 4 reader pi.Constants.SizeOfConstants
    let constants := readSlice size.2 size.1
    if constants.failed then .fail .read
    else
      let reserved := readUint 2 constants.reader pi.Constants.Reserved
      let sizeUnicode := readUint 4 reserved.2 pi.Constants.SizeOfConstantsUnicode
      let constantsUnicode := readSlice sizeUnicode.2 sizeUnicode.1
      if constantsUnicode.failed then .fail .read
      else
        .done { pi with
            Constants :=
              { SizeOfConstants := size.1, Constants := constants.value,
                Reserved := reserved.1, SizeOfConstantsUnicode := sizeUnicode.1,
                ConstantsUnicode := constantsUnicode.value } }
          constantsUnicode.reader
  else .fail (.unknownProjectInfoId nid)

/-- Go function `ParseProjectInfo` (projectInformation.go 109-187); the loop
has no condition. -/
def ParseProjectInfo (fuel : Nat) (reader : List Byte) :
    Outcome DirStreamError (dirstream.ProjectInformation × List Byte) :=
  recordLoop .readRecordId (fun _ => true) (fun pi => pi) parseProjectInfoStep fuel {} reader

/-- Go function `parseNameRecord` (projectReferences.go 143-153); its error
is always nil. -/
def parseNameRecord (reader : List Byte) : dirstream.ReferenceName × List Byte :=
  let size := readUint 4 reader 0
  let name := readSlice size.2 size.1
  let reserved := readUint 2 name.reader 0
  let sizeUnicode := readUint 4 reserved.2 0
  let nameUnicode := readSlice sizeUnicode.2 sizeUnicode.1
  ({ SizeOfName := size.1, Name := name.value, Reserved := reserved.1,
     SizeOfNameUnicode := sizeUnicode.1, NameUnicode := nameUnicode.value },
   nameUnicode.reader)

/-- Go function `parseControlRecord` (projectReferences.go 155-185); its error
is always nil. The two bytes `n2b` are zero when they cannot be read. -/
def parseControlRecord (reader : List Byte) : dirstream.ReferenceControl × List Byte :=
  let sizeTwiddled := readUint 4 reader 0
  let sizeOfLibidTwiddled := readUint 4 sizeTwiddled.2 0
  let libidTwiddled := readSlice sizeOfLibidTwiddled.2 sizeOfLibidTwiddled.1
  let reserved1 := readUint 4 libidTwiddled.reader 0
  let reserved2 := readUint 2 reserved1.2 0
  let n2b := readUint 2 reserved2.2 0
  let extended : Option dirstream.ReferenceName × Nat × List Byte :=
    if n2b.1 = 0x0030 then (none, 0x0030, n2b.2)
    else
      let name := parseNameRecord n2b.2
      let reserved3 := readUint 2 name.2 0
      (some name.1, reserved3.1, reserved3.2)
  let sizeExtended := readUint 4 extended.2.2 0
  let sizeOfLibidExtended := readUint 4 sizeExtended.2 0
  let libidExtended := readSlice sizeOfLibidExtended.2 sizeOfLibidExtended.1
  let reserved4 := readUint 4 libidExtended.reader 0
  let reserved5 := readUint 2 reserved4.2 0
  let originalTypeLib := readGUID reserved5.2
  let cookie := readUint 4 originalTypeLib.2 0
  ({ SizeTwiddled := sizeTwiddled.1, SizeOfLibidTwiddled := sizeOfLibidTwiddled.1,
     LibidTwiddled := libidTwiddled.value, Reserved1 := reserved1.1, Reserved2 := reserved2.1,
     NameRecordExtended := extended.1, Reserved3 := extended.2.1,
     SizeExtended := sizeExtended.1,
     SizeOfLibidExtended := sizeOfLibidExtended.1, LibidExtended := libidExtended.value,
     Reserved4 := reserved4.1, Reserved5 := reserved5.1,
     OriginalTypeLib := originalTypeLib.1, Cookie := cookie.1 },
   cookie.2)

/-- The loop variables of `ParseProjectReferences`. -/
structure ReferencesState where
  tmp : dirstream.Reference := {}
  pr : dirstream.ProjectReferences := {}
  deriving DecidableEq, Repr

/-- The `switch` of `ParseProjectReferences` (projectReferences.go 92-139)
with the test of `err` that follows it; `err` is nil after every case but the
default. -/
def parseProjectReferencesStep (nid : Nat) (st : ReferencesState) (reader : List Byte) :
    RecordStep ReferencesState dirstream.ProjectReferences :=
  if nid = 0x0016 then
    let name := parseNameRecord reader
    .next { st with tmp := { NameRecord := some name.1 } } name.2
  else if nid = 0x002f then
    let control := parseControlRecord reader
    let tmp := { st.tmp with ControlReference := some control.1 }
    .next { tmp := tmp, pr := { ReferenceArray := st.pr.ReferenceArray ++ [tmp] } } control.2
  else if nid = 0x000d then
    let size := readUint 4 reader 0
    let sizeOfLibid := readUint 4 size.2 0
    let libid := readSlice sizeOfLibid.2 sizeOfLibid.1
    let reserved1 := readUint 4 libid.reader 0
    let reserved2 := readUint 2 reserved1.2 0
    let tmp := { st.tmp with
      RegisteredReference := some
        { Size := size.1, SizeOfLibid := sizeOfLibid.1, Libid := libid.value,
          Reserved1 := reserved1.1, Reserved2 := reserved2.1 } }
    .next { tmp := tmp, pr := { ReferenceArray := st.pr.ReferenceArray ++ [tmp] } } reserved2.2
  else if nid = 0x0033 then
    let sizeOfLibidOriginal := readUint 4 reader 0
    let libidOriginal := readSlice sizeOfLibidOriginal.2 sizeOfLibidOriginal.1
    let control := parseControlRecord (libidOriginal.reader.drop 2)
    let tmp := { st.tmp with
      OriginalReference := some
        { SizeOfLibidOriginal := sizeOfLibidOriginal.1, LibidOriginal := libidOriginal.value,
          ReferenceRecord := some control.1 } }
    .next { tmp := tmp, pr := { ReferenceArray := st.pr.ReferenceArray ++ [tmp] } } control.2
  else if nid = 0x000e then
    let size := readUint 4 reader 0
    let sizeOfLibidAbsolute := readUint 4 size.2 0
    let libidAbsolute := readSlice sizeOfLibidAbsolute.2 sizeOfLibidAbsolute.1
    let sizeOfLibidRelative := readUint 4 libidAbsolute.reader 0
    let libidRelative := readSlice sizeOfLibidRelative.2 sizeOfLibidRelative.1
    let majorVersion := readUint 4 libidRelative.reader 0
    let minorVersion := readUint 2 majorVersion.2 0
    let tmp := { st.tmp with
      ProjectReference := some
        { Size := size.1, SizeOfLibidAbsolute := sizeOfLibidAbsolute.1,
          LibidAbsolute := libidAbsolute.value,
          SizeOfLibidRelative := sizeOfLibidRelative.1,
          LibidRelative := libidRelative.value, MajorVersion := majorVersion.1,
          MinorVersion := minorVersion.1 } }
    .next { tmp := tmp, pr := { ReferenceArray := st.pr.ReferenceArray ++ [tmp] } }
      minorVersion.2
  else if nid = 0x000F then .done st.pr reader
  else .fail (.unknownReferenceId nid)

/-- Go function `ParseProjectReferences` (projectReferences.go 82-141); the
loop has no condition. -/
def ParseProjectReferences (fuel : Nat) (reader : List Byte) :
    Outcome DirStreamError (dirstream.ProjectReferences × List Byte) :=
  recordLoop .readReferenceId (fun _ => true) (fun st => st.pr) parseProjectReferencesStep
    fuel {} reader

/-- Go function `parseProjectCookie` (projectModules.go 187-198); `nid` is
zero when it cannot be read. -/
def parseProjectCookie (reader : List Byte) :
    Outcome DirStreamError (dirstream.ProjectCookie × List Byte) :=
  let nid := readUint 2 reader 0
  if nid.1 ≠ 0x0013 then .error .invalidProjectCookieId
  else
    let size := readUint 4 nid.2 0
    let cookie := readUint 2 size.2 0
    .ok ({ Size := size.1, Cookie := cookie.1 }, cookie.2)

/-- The loop variables of `ParseProjectModules`. -/
structure ModulesState where
  tmp : dirstream.Module := {}
  pm : dirstream.ProjectModules := {}
  deriving DecidableEq, Repr

/-- The `switch` of `ParseProjectModules` (projectModules.go 124-182) with
the test of `err` that follows it; `err` is nil after every case but the
default. -/
def parseProjectModulesStep (nid : Nat) (st : ModulesState) (reader : List Byte) :
    RecordStep ModulesState dirstream.ProjectModules :=
  if nid = 0x0019 then
    let size := readUint 4 reader 0
    let name := readSlice size.2 size.1
    .next { st with tmp := { NameRecord := { SizeOfModuleName := size.1, ModuleName := name.value } } }
      name.reader
  else if nid = 0x0047 then
    let size := readUint 4 reader 0
    let name := readSlice size.2 size.1
    .next { st with
        tmp := { st.tmp with
          NameUnicodeRecord := some
            { SizeOfModuleNameUnicode := size.1, ModuleNameUnicode := name.value } } }
      name.reader
  else if nid = 0x001a then
    let size := readUint 4 reader st.tmp.StreamNameRecord.SizeOfStreamName
    let name := readSlice size.2 size.1
    let reserved := readUint 2 name.reader st.tmp.StreamNameRecord.Reserved
    if reserved.1 ≠ 0x0032 then .fail (.streamNameReserved reserved.1)
    else
      let sizeUnicode := readUint 4 reserved.2 st.tmp.StreamNameRecord.SizeOfStreamNameUnicode
      let nameUnicode := readSlice sizeUnicode.2 sizeUnicode.1
      .next { st with
          tmp := { st.tmp with
            StreamNameRecord :=
              { SizeOfStreamName := size.1, StreamName := name.value, Reserved := reserved.1,
                SizeOfStreamNameUnicode := sizeUnicode.1,
                StreamNameUnicode := nameUnicode.value } } }
        nameUnicode.reader
  else if nid = 0x001c then
    let size := readUint 4 reader st.tmp.DocStringRecord.SizeOfDocString
    let doc := readSlice size.2 size.1
    let reserved := readUint 2 doc.reader st.tmp.DocStringRecord.Reserved
    let sizeUnicode := readUint 4 reserved.2 st.tmp.DocStringRecord.SizeOfDocStringUnicode
    let docUnicode := readSlice sizeUnicode.2 sizeUnicode.1
    .next { st with
        tmp := { st.tmp with
          DocStringRecord :=
            { SizeOfDocString := size.1, DocString := doc.value, Reserved := reserved.1,
              SizeOfDocStringUnicode := sizeUnicode.1,
              DocStringUnicode := docUnicode.value } } }
      docUnicode.reader
  else if nid = 0x0031 then
    let size := readUint 4 reader st.tmp.OffsetRecord.Size
    let textOffset := readUint 4 size.2 st.tmp.OffsetRecord.TextOffset
    .next { st with
        tmp := { st.tmp with OffsetRecord := { Size := size.1, TextOffset := textOffset.1 } } }
      textOffset.2
  else if nid = 0x001e then
    let size := readUint 4 reader st.tmp.HelpContextRecord.Size
    let helpContext := readUint 4 size.2 st.tmp.HelpContextRecord.HelpContext
    .next { st with
        tmp := { st.tmp with
          HelpContextRecord := { Size := size.1, HelpContext := helpContext.1 } } }
      helpContext.2
  else if nid = 0x002c then
    let size := readUint 4 reader st.tmp.CookieRecord.Size
    let cookie := readUint 2 size.2 st.tmp.CookieRecord.Cookie
    .next { st with
        tmp := { st.tmp with CookieRecord := { Size := size.1, Cookie := cookie.1 } } }
      cookie.2
  else if nid = 0x0021 then
    let reserved := readUint 4 reader st.tmp.TypeRecord.Reserved
    .next { st with
        tmp := { st.tmp with TypeRecord := { Id := 0x0021, Reserved := reserved.1 } } }
      reserved.2
  else if nid = 0x0022 then
    let reserved := readUint 4 reader st.tmp.TypeRecord.Reserved
    .next { st with
        tmp := { st.tmp with TypeRecord := { Id := 0x0022, Reserved := reserved.1 } } }
      reserved.2
  else if nid = 0x0025 then
    let reserved := readUint 4 reader 0
    .next { st with tmp := { st.tmp with ReadOnlyRecord := some { Reserved := reserved.1 } } }
      reserved.2
  else if nid = 0x0028 then
    let reserved := readUint 4 reader 0
    .next { st with tmp := { st.tmp with PrivateRecord := some { Reserved := reserved.1 } } }
      reserved.2
  else if nid = 0x002b then
    let reserved := readUint 4 reader st.tmp.Reserved
    let tmp := { st.tmp with Reserved := reserved.1 }
    .next { tmp := tmp, pm := { st.pm with Modules := st.pm.Modules ++ [tmp] } } reserved.2
  else .fail (.unknownModuleId nid)

/-- The statements of `ParseProjectModules` before its loop
(projectModules.go 105-116): `Size`, `Count` and the project cookie. -/
def parseProjectModulesHeader (reader : List Byte) :
    Outcome DirStreamError (dirstream.ProjectModules × List Byte) :=
  let size := readUint 4 reader 0
  let count := readUint 2 size.2 0
  (parseProjectCookie count.2).bind fun cookie =>
    .ok ({ Size := size.1, Count := count.1, ProjectCookie := some cookie.1 }, cookie.2)

/-- The loop of `ParseProjectModules` (projectModules.go 119-183), which
runs while `len(pm.Modules) < int(pm.Count)`. -/
def parseProjectModulesLoop (fuel : Nat) (st : ModulesState) (reader : List Byte) :
    Outcome DirStreamError (dirstream.ProjectModules × List Byte) :=
  recordLoop .readModuleId (fun st => decide (st.pm.Modules.length < st.pm.Count))
    (fun st => st.pm) parseProjectModulesStep fuel st reader

/-- Go function `ParseProjectModules` (projectModules.go 104-185). -/
def ParseProjectModules (fuel : Nat) (reader : List Byte) :
    Outcome DirStreamError (dirstream.ProjectModules × List Byte) :=
  (parseProjectModulesHeader reader).bind fun header =>
    parseProjectModulesLoop fuel { tmp := {}, pm := header.1 } header.2

/-- Go function `ParseDirStream` (dirStream.go 16-33); `fuel` bounds the
number of records that each of the three loops reads. -/
def ParseDirStream (fuel : Nat) (reader : List Byte) :
    Outcome DirStreamError dirstream.DirStream :=
  (ParseProjectInfo fuel reader).bind fun information =>
    (ParseProjectReferences fuel information.2).bind fun references =>
      (ParseProjectModules fuel references.2).bind fun modules =>
        .ok { InformationRecord := information.1, ReferencesRecord := references.1,
              ModulesRecord := modules.1 }

/-! ### Vocabulary of the statements about the dir stream parser -/

/-- One record that a record loop reads: its id, the loop state before the
`switch`, the unread bytes after the id, and what the `switch` does. -/
structure RecordEvent (σ α : Type) where
  nid : Nat
  before : σ
  payload : List Byte
  result : RecordStep σ α

/-- The records that a record loop reads with the fuel given, in order: the
loop of `recordLoop` with the record noted at each iteration. -/
def recordEvents {σ α : Type} (guard : σ → Bool)
    (step : Nat → σ → List Byte → RecordStep σ α) :
    Nat → σ → List Byte → List (RecordEvent σ α)
  | 0, _, _ => []
  | fuel + 1, s, reader =>
    if guard s then
      match (binaryRead reader 2).1 with
      | none => []
      | some b =>
        { nid := leNat b, before := s, payload := (binaryRead reader 2).2,
          result := step (leNat b) s (binaryRead reader 2).2 }
          :: match step (leNat b) s (binaryRead reader 2).2 with
             | .next s' reader' => recordEvents guard step fuel s' reader'
             | .done _ _ => []
             | .fail _ => []
    else []

/-- The records that `ParseProjectInfo` reads. -/
def projectInfoEvents (fuel : Nat) (reader : List Byte) :
    List (RecordEvent dirstream.ProjectInformation dirstream.ProjectInformation) :=
  recordEvents (fun _ => true) parseProjectInfoStep fuel {} reader

/-- The records that `ParseProjectReferences` reads. -/
def projectReferencesEvents (fuel : Nat) (reader : List Byte) :
    List (RecordEvent ReferencesState dirstream.ProjectReferences) :=
  recordEvents (fun _ => true) parseProjectReferencesStep fuel {} reader

/-- The records that the loop of `ParseProjectModules` reads after the
header `header`. -/
def projectModulesEvents (fuel : Nat) (header : dirstream.ProjectModules) (reader : List Byte) :
    List (RecordEvent ModulesState dirstream.ProjectModules) :=
  recordEvents (fun st => decide (st.pm.Modules.length < st.pm.Count)) parseProjectModulesStep
    fuel { tmp := {}, pm := header } reader

/-- The loop state after a record, when the loop goes on. -/
def RecordStep.state? {σ α : Type} : RecordStep σ α → Option σ
  | .next s _ => some s
  | .done _ _ => none
  | .fail _ => none

/-- The property `Q` holds for the state with which the loop goes on, or `R`
for the value returned; nothing is said of an error. -/
def RecordStep.Forall {σ α : Type} (Q : σ → Prop) (R : α → Prop) : RecordStep σ α → Prop
  | .next s _ => Q s
  | .done a _ => R a
  | .fail _ => True

/-- The unread bytes that the `switch` leaves are at most `n`. -/
def RecordStep.ReaderAtMost {σ α : Type} (n : Nat) : RecordStep σ α → Prop
  | .next _ reader => reader.length ≤ n
  | .done _ reader => reader.length ≤ n
  | .fail _ => True

/-- The record ids that `ParseProjectInfo` recognises. -/
def projectInfoIds : List Nat :=
  [0x0001, 0x004a, 0x0002, 0x0014, 0x0003, 0x0004, 0x0005, 0x0006, 0x0007, 0x0008, 0x0009,
    0x000c]

/-- The record ids that `ParseProjectReferences` recognises. -/
def projectReferencesIds : List Nat := [0x0016, 0x002f, 0x000d, 0x0033, 0x000e, 0x000f]

/-- The record ids that the loop of `ParseProjectModules` recognises. -/
def projectModulesIds : List Nat :=
  [0x0019, 0x0047, 0x001a, 0x001c, 0x0031, 0x001e, 0x002c, 0x0021, 0x0022, 0x0025, 0x0028,
    0x002b]

/-- The ids of the four variant records of a reference. -/
def isVariantId (nid : Nat) : Bool :=
  nid == 0x002f || nid == 0x000d || nid == 0x0033 || nid == 0x000e

/-- The variant that the record id `nid` stands for is set in `r`. -/
def hasVariant (nid : Nat) (r : dirstream.Reference) : Bool :=
  if nid = 0x002f then r.ControlReference.isSome
  else if nid = 0x000d then r.RegisteredReference.isSome
  else if nid = 0x0033 then r.OriginalReference.isSome
  else if nid = 0x000e then r.ProjectReference.isSome
  else false

/-- The number of variants that are set in a reference. -/
def variantCount (r : dirstream.Reference) : Nat :=
  (if r.ControlReference.isSome then 1 else 0) + (if r.RegisteredReference.isSome then 1 else 0)
    + (if r.OriginalReference.isSome then 1 else 0) + (if r.ProjectReference.isSome then 1 else 0)

/-- The sizes of a REFERENCENAME record are the lengths of its arrays. -/
def dirstream.ReferenceName.SizesMatch (n : dirstream.ReferenceName) : Prop :=
  n.Name.length = n.SizeOfName ∧ n.NameUnicode.length = n.SizeOfNameUnicode

/-- The sizes of a REFERENCECONTROL record, its extended name included, are
the lengths of its arrays. -/
def dirstream.ReferenceControl.SizesMatch (c : dirstream.ReferenceControl) : Prop :=
  c.LibidTwiddled.length = c.SizeOfLibidTwiddled ∧
  (∀ n ∈ c.NameRecordExtended, n.SizesMatch) ∧
  c.LibidExtended.length = c.SizeOfLibidExtended

/-- The size of a REFERENCEREGISTERED record is the length of its array. -/
def dirstream.ReferenceRegistered.SizesMatch (r : dirstream.ReferenceRegistered) : Prop :=
  r.Libid.length = r.SizeOfLibid

/-- The sizes of a REFERENCEORIGINAL record, its control record included, are
the lengths of its arrays. -/
def dirstream.ReferenceOriginal.SizesMatch (o : dirstream.ReferenceOriginal) : Prop :=
  o.LibidOriginal.length = o.SizeOfLibidOriginal ∧ (∀ c ∈ o.ReferenceRecord, c.SizesMatch)

/-- The sizes of a REFERENCEPROJECT record are the lengths of its arrays. -/
def dirstream.ReferenceProject.SizesMatch (p : dirstream.ReferenceProject) : Prop :=
  p.LibidAbsolute.length = p.SizeOfLibidAbsolute ∧
  p.LibidRelative.length = p.SizeOfLibidRelative

/-- Every size field of a reference is the length of the array stored next to
it, in each of the sub-records that are set. -/
def dirstream.Reference.SizesMatch (r : dirstream.Reference) : Prop :=
  (∀ n ∈ r.NameRecord, n.SizesMatch) ∧
  (∀ c ∈ r.ControlReference, c.SizesMatch) ∧
  (∀ g ∈ r.RegisteredReference, g.SizesMatch) ∧
  (∀ o ∈ r.OriginalReference, o.SizesMatch) ∧
  (∀ p ∈ r.ProjectReference, p.SizesMatch)

/-- Every size field of the project information that is stored next to a
byte array is the length of that array. The pair `SizeOfDocStringUnicode`,
`DocStringUnicode` is left out: the field `DocStringUnicode` is a Go `string`,
the UTF-8 form of the decoded text, and its length is in general not the
size. -/
def dirstream.ProjectInformation.SizesMatch (pi : dirstream.ProjectInformation) : Prop :=
  pi.Name.ProjectName.length = pi.Name.SizeOfProjectName ∧
  pi.DocString.DocString.length = pi.DocString.SizeOfDocString ∧
  pi.HelpFilePath.HelpFile1.length = pi.HelpFilePath.SizeOfHelpFile1 ∧
  pi.HelpFilePath.HelpFile2.length = pi.HelpFilePath.SizeOfHelpFile2 ∧
  pi.Constants.Constants.length = pi.Constants.SizeOfConstants ∧
  pi.Constants.ConstantsUnicode.length = pi.Constants.SizeOfConstantsUnicode

/-- Every size field of a module is the length of the array stored next to
it. -/
def dirstream.Module.SizesMatch (m : dirstream.Module) : Prop :=
  m.NameRecord.ModuleName.length = m.NameRecord.SizeOfModuleName ∧
  (∀ u ∈ m.NameUnicodeRecord, u.ModuleNameUnicode.length = u.SizeOfModuleNameUnicode) ∧
  m.StreamNameRecord.StreamName.length = m.StreamNameRecord.SizeOfStreamName ∧
  m.StreamNameRecord.StreamNameUnicode.length = m.StreamNameRecord.SizeOfStreamNameUnicode ∧
  m.DocStringRecord.DocString.length = m.DocStringRecord.SizeOfDocString ∧
  m.DocStringRecord.DocStringUnicode.length = m.DocStringRecord.SizeOfDocStringUnicode

/-- Every size field of a dir stream that is stored next to a byte array is
the length of that array. -/
def dirstream.DirStream.SizesMatch (ds : dirstream.DirStream) : Prop :=
  ds.InformationRecord.SizesMatch ∧
  (∀ r ∈ ds.ReferencesRecord.ReferenceArray, r.SizesMatch) ∧
  (∀ m ∈ ds.ModulesRecord.Modules, m.SizesMatch)

/-- A dir stream of 126 bytes: code page 1252, project name `AB`, empty
constants; one registered reference with name `R` and libid `L`; one
procedural module `M` with stream name `M` and text offset 0; and the
terminator, which `ParseDirStream` does not read. -/
def sampleDirStream : List Byte :=
  [0x03, 0x00, 0x02, 0x00, 0x00, 0x00, 0xE4, 0x04,
   0x04, 0x00, 0x02, 0x00, 0x00, 0x00, 0x41, 0x42,
   0x0c, 0x00, 0x00, 0x00, 0x00, 0x00, 0x3c, 0x00, 0x00, 0x00, 0x00, 0x00,
   0x16, 0x00, 0x01, 0x00, 0x00, 0x00, 0x52, 0x3e, 0x00, 0x02, 0x00, 0x00, 0x00, 0x52, 0x00,
   0x0d, 0x00, 0x09, 0x00, 0x00, 0x00, 0x01, 0x00, 0x00, 0x00, 0x4c, 0x00, 0x00, 0x00, 0x00,
   0x00, 0x00,
   0x0f, 0x00,
   0x02, 0x00, 0x00, 0x00, 0x01, 0x00, 0x13, 0x00, 0x02, 0x00, 0x00, 0x00, 0xff, 0xff,
   0x19, 0x00, 0x01, 0x00, 0x00, 0x00, 0x4d,
   0x1a, 0x00, 0x01, 0x00, 0x00, 0x00, 0x4d, 0x32, 0x00, 0x02, 0x00, 0x00, 0x00, 0x4d, 0x00,
   0x31, 0x00, 0x04, 0x00, 0x00, 0x00, 0x00, 0x00, 0x00, 0x00,
   0x21, 0x00, 0x00, 0x00, 0x00, 0x00,
   0x2b, 0x00, 0x00, 0x00, 0x00, 0x00,
   0x10, 0x00, 0x00, 0x00, 0x00, 0x00]

/-- The project that `ParseDirStream` returns for `sampleDirStream`. -/
def sampleDirStreamParsed : dirstream.DirStream :=
  { InformationRecord :=
      { CodePage := { Size := 2, CodePage := 1252 },
        Name := { SizeOfProjectName := 2, ProjectName := [0x41, 0x42] },
        Constants := { Reserved := 0x3c } },
    ReferencesRecord :=
      { ReferenceArray :=
          [{ NameRecord := some
               { SizeOfName := 1, Name := [0x52], Reserved := 0x3e, SizeOfNameUnicode := 2,
                 NameUnicode := [0x52, 0x00] },
             RegisteredReference := some { Size := 9, SizeOfLibid := 1, Libid := [0x4c] } }] },
    ModulesRecord :=
      { Size := 2, Count := 1, ProjectCookie := some { Size := 2, Cookie := 0xffff },
        Modules :=
          [{ NameRecord := { SizeOfModuleName := 1, ModuleName := [0x4d] },
             StreamNameRecord :=
               { SizeOfStreamName := 1, StreamName := [0x4d], Reserved := 0x32,
                 SizeOfStreamNameUnicode := 2, StreamNameUnicode := [0x4d, 0x00] },
             OffsetRecord := { Size := 4 },
             TypeRecord := { Id := 0x21 } }] } }

/-- A dir stream whose six kinds of UTF-16 size fields are odd: project doc
string 3, constants 1, reference name 1, module name 1, stream name 3, module
doc string 5. It has empty MBCS strings, one registered reference and one
module. -/
def oddSizesDirStream : List Byte :=
  [0x05, 0x00, 0x00, 0x00, 0x00, 0x00, 0x40, 0x00, 0x03, 0x00, 0x00, 0x00, 0x41, 0x00,
   0x0c, 0x00, 0x00, 0x00, 0x00, 0x00, 0x3c, 0x00, 0x01, 0x00, 0x00, 0x00, 0x41,
   0x16, 0x00, 0x00, 0x00, 0x00, 0x00, 0x3e, 0x00, 0x01, 0x00, 0x00, 0x00, 0x41,
   0x0d, 0x00, 0x06, 0x00, 0x00, 0x00, 0x00, 0x00, 0x00, 0x00, 0x00, 0x00, 0x00, 0x00,
   0x00, 0x00,
   0x0f, 0x00,
   0x02, 0x00, 0x00, 0x00, 0x01, 0x00, 0x13, 0x00, 0x02, 0x00, 0x00, 0x00, 0xff, 0xff,
   0x47, 0x00, 0x01, 0x00, 0x00, 0x00, 0x41,
   0x1a, 0x00, 0x00, 0x00, 0x00, 0x00, 0x32, 0x00, 0x03, 0x00, 0x00, 0x00, 0x41, 0x42, 0x43,
   0x1c, 0x00, 0x00, 0x00, 0x00, 0x00, 0x48, 0x00, 0x05, 0x00, 0x00, 0x00, 0x41, 0x42, 0x43,
   0x44, 0x45,
   0x2b, 0x00, 0x00, 0x00, 0x00, 0x00]

/-- The bytes of a control record with empty libids and no extended name:
`SizeTwiddled`, `SizeOfLibidTwiddled`, `Reserved1`, `Reserved2`, the marker
`0x0030`, `SizeExtended`, `SizeOfLibidExtended`, `Reserved4`, `Reserved5`, a
zero GUID and the cookie 7. -/
def emptyControlBytes : List Byte :=
  [0x00, 0x00, 0x00, 0x00, 0x00, 0x00, 0x00, 0x00, 0x00, 0x00, 0x00, 0x00, 0x00, 0x00,
   0x30, 0x00,
   0x00, 0x00, 0x00, 0x00, 0x00, 0x00, 0x00, 0x00, 0x00, 0x00, 0x00, 0x00, 0x00, 0x00,
   0x00, 0x00, 0x00, 0x00, 0x00, 0x00, 0x00, 0x00, 0x00, 0x00, 0x00, 0x00, 0x00, 0x00, 0x00,
   0x00,
   0x07, 0x00, 0x00, 0x00]

/-- A project-information section that holds only an empty constants
record. -/
def emptyInfoBytes : List Byte :=
  [0x0c, 0x00, 0x00, 0x00, 0x00, 0x00, 0x3c, 0x00, 0x00, 0x00, 0x00, 0x00]

/-- A reference name record with empty names. -/
def emptyNameBytes : List Byte :=
  [0x16, 0x00, 0x00, 0x00, 0x00, 0x00, 0x3e, 0x00, 0x00, 0x00, 0x00, 0x00]

/-- The header of a modules section with the module count `count`, which is
below 256. -/
def modulesHeaderBytes (count : Byte) : List Byte :=
  [0x02, 0x00, 0x00, 0x00, count, 0x00, 0x13, 0x00, 0x02, 0x00, 0x00, 0x00, 0xff, 0xff]

/-- A registered reference record with an empty libid. -/
def emptyRegisteredBytes : List Byte :=
  [0x0d, 0x00, 0x06, 0x00, 0x00, 0x00, 0x00, 0x00, 0x00, 0x00, 0x00, 0x00, 0x00, 0x00,
   0x00, 0x00]

/-- A project reference record with empty libids, major version 1 and minor
version 2. -/
def emptyProjectBytes : List Byte :=
  [0x0e, 0x00, 0x0e, 0x00, 0x00, 0x00, 0x00, 0x00, 0x00, 0x00, 0x00, 0x00, 0x00, 0x00,
   0x01, 0x00, 0x00, 0x00, 0x02, 0x00]

/-! ## Theorems -/

/-! ### Arithmetic, headers and slices -/

/-- A normal return is passed to the continuation. -/
@[simp]
theorem Res.bind_ok {α β : Type} (a : α) (f : α → Res β) : (Res.ok a).bind f = f a := rfl

/-- Truncation to `uint16` leaves a value below `65536` unchanged. -/
theorem u16_of_lt {n : Nat} (h : n < 65536) : u16 n = n := Nat.mod_eq_of_lt h

/-- Shifting right distributes over bitwise and. -/
theorem shiftRight_and (a b i : Nat) : (a &&& b) >>> i = (a >>> i) &&& (b >>> i) := by
  apply Nat.eq_of_testBit_eq
  intro j
  simp

/-- The size field of a chunk header is the header modulo `4096`. -/
theorem hdr_size (h : Nat) : h &&& 0x0FFF = h % 4096 :=
  Nat.and_pow_two_sub_one_eq_mod h 12

/-- The signature field of a chunk header, arithmetically. -/
theorem hdr_signature (h : Nat) : (h &&& 0x7000) >>> 12 = h / 4096 % 8 := by
  rw [shiftRight_and, Nat.shiftRight_eq_div_pow]
  exact Nat.and_pow_two_sub_one_eq_mod _ 3

/-- The flag bit of a chunk header, arithmetically. -/
theorem hdr_flag (h : Nat) : (h &&& 0x8000) >>> 15 = h / 32768 % 2 := by
  rw [shiftRight_and, Nat.shiftRight_eq_div_pow]
  exact Nat.and_pow_two_sub_one_eq_mod _ 1

/-- A successful two-byte read lies inside the array read and below the `uint16` wrap. -/
theorem readUint16_some_bound {data : List Byte} {pos h : Nat}
    (hread : readUint16 data pos = some h) :
    pos + 2 < 65536 ∧ pos + 2 ≤ data.length := by
  unfold readUint16 at hread
  split_ifs at hread with hc
  unfold u16 at hc
  omega

/-- A two-byte read that lies within the length of the slice is not changed by
the spare capacity of the slice. -/
theorem readUint16_spare {data : List Byte} (spare : List Byte) {pos t : Nat}
    (h : readUint16 data pos = some t) : readUint16 (data ++ spare) pos = some t := by
  obtain ⟨h1, h2⟩ := readUint16_some_bound h
  unfold readUint16 at h ⊢
  have hc : pos ≤ u16 (pos + 2) ∧ u16 (pos + 2) ≤ data.length := by
    rw [u16_of_lt h1]; omega
  have hc' : pos ≤ u16 (pos + 2) ∧ u16 (pos + 2) ≤ (data ++ spare).length := by
    rw [u16_of_lt h1, List.length_append]; omega
  rw [if_pos hc] at h
  rw [if_pos hc', List.getElem?_append_left (by omega), List.getElem?_append_left (by omega)]
  exact h

/-- Reading the two bytes that follow a prefix `pre` gives their little-endian value. -/
theorem readUint16_append (pre rest : List Byte) (lo hi : Byte) (hpos : pre.length + 2 < 65536) :
    readUint16 (pre ++ lo :: hi :: rest) pre.length = some (lo.val + 256 * hi.val) := by
  have h1 : pre.length ≤ u16 (pre.length + 2)
      ∧ u16 (pre.length + 2) ≤ (pre ++ lo :: hi :: rest).length := by
    rw [u16_of_lt hpos]; simp
  have h2 : (pre ++ lo :: hi :: rest)[pre.length]? = some lo := by
    rw [List.getElem?_append_right (le_refl _)]
    simp
  have h3 : (pre ++ lo :: hi :: rest)[pre.length + 1]? = some hi := by
    rw [List.getElem?_append_right (by omega)]
    simp
  simp only [readUint16, h1, and_self, if_true, h2, h3]

/-- Reading back a header written by `u16le` right after the signature byte. -/
theorem readUint16_u16le (x : Byte) (v : Nat) (rest : List Byte) (hv : v < 65536) :
    readUint16 (x :: (u16le v ++ rest)) 1 = some v := by
  have h1 : (1 : Nat) ≤ u16 (1 + 2) ∧ u16 (1 + 2) ≤ (x :: (u16le v ++ rest)).length := by
    simp [u16, u16le]
  simp only [readUint16, h1, and_self, if_true]
  simp only [u16le, List.cons_append, List.nil_append, List.getElem?_cons_succ,
    List.getElem?_cons_zero, Fin.ofNat, Fin.val_mk, Option.some.injEq]
  omega

/-- If the data from `pos` on starts with `x`, then `x` is the byte at `pos`. -/
theorem getElem?_of_drop_eq_cons {data : List Byte} {pos : Nat} {x : Byte} {xs : List Byte}
    (h : data.drop pos = x :: xs) : data[pos]? = some x ∧ data.drop (pos + 1) = xs := by
  constructor
  · rw [← List.head?_drop, h]; rfl
  · have : data.drop (pos + 1) = (data.drop pos).drop 1 := by
      rw [List.drop_drop]
    rw [this, h]; rfl

/-- A non-empty remainder from `pos` on fixes the length of the data. -/
theorem length_of_drop_eq {data : List Byte} {pos : Nat} {l : List Byte}
    (h : data.drop pos = l) (hl : l ≠ []) : pos + l.length = data.length := by
  have h1 : l.length = data.length - pos := by rw [← h, List.length_drop]
  have h2 : l.length ≠ 0 := fun h0 => hl (List.length_eq_zero.mp h0)
  omega

/-- Indexing past three leading elements. -/
theorem getElem?_cons_cons_cons (x y z : Byte) (rest : List Byte) (i : Nat) :
    (x :: y :: z :: rest)[i + 3]? = rest[i]? := by
  rw [List.getElem?_cons_succ, List.getElem?_cons_succ, List.getElem?_cons_succ]

/-! ### Copy tokens -/

/-- The copy loop, as long as the source index stays below `65536`: it appends `n`
bytes, the `i`-th of which is the byte at index `cs + i` of the growing buffer. -/
theorem copyLoop_spec (n : Nat) :
    ∀ (buf : List Byte) (cs : Nat), cs < buf.length → cs + n ≤ 65536 →
      ∃ out, copyLoop n buf cs = some (buf ++ out) ∧ out.length = n ∧
        ∀ i, i < n → out[i]? = (buf ++ out)[cs + i]? := by
  induction n with
  | zero =>
    intro buf cs _ _
    exact ⟨[], by simp [copyLoop], rfl, fun i hi => absurd hi (Nat.not_lt_zero i)⟩
  | succ n ih =>
    intro buf cs hcs hfit
    obtain ⟨b, hb⟩ : ∃ b, buf[cs]? = some b := ⟨buf[cs], List.getElem?_eq_getElem hcs⟩
    have hstep : copyLoop (n + 1) buf cs = copyLoop n (buf ++ [b]) (u16 (cs + 1)) := by
      simp [copyLoop, hb]
    have hidx0 : ∀ out' : List Byte, (buf ++ b :: out')[cs]? = some b := by
      intro out'
      rw [List.getElem?_append_left hcs]; exact hb
    rcases Nat.eq_zero_or_pos n with hn | hn
    · subst hn
      refine ⟨[b], by rw [hstep]; simp [copyLoop], rfl, ?_⟩
      intro i hi
      have : i = 0 := by omega
      subst this
      rw [Nat.add_zero, hidx0]; rfl
    · have hu : u16 (cs + 1) = cs + 1 := u16_of_lt (by omega)
      obtain ⟨out', h1, h2, h3⟩ := ih (buf ++ [b]) (cs + 1) (by simp; omega) (by omega)
      refine ⟨b :: out', ?_, by simp [h2], ?_⟩
      · rw [hstep, hu, h1]; simp
      · intro i hi
        cases i with
        | zero => rw [Nat.add_zero, hidx0, List.getElem?_cons_zero]
        | succ i =>
          have := h3 i (by omega)
          rw [List.getElem?_cons_succ, this]
          have e1 : buf ++ [b] ++ out' = buf ++ b :: out' := by simp
          have e2 : cs + 1 + i = cs + (i + 1) := by omega
          rw [e1, e2]

/-- A bit count returned by `getCopyTokenOffsetBitCount` lies in `4..12`, and the
argument is at most `4096`. -/
theorem getCopyTokenOffsetBitCount_ok {D L : Nat} (h : getCopyTokenOffsetBitCount D = .ok L) :
    4 ≤ L ∧ L ≤ 12 ∧ D ≤ 4096 := by
  unfold getCopyTokenOffsetBitCount at h
  split_ifs at h <;> (injection h with h; omega)

/-- The length mask `^uint16(0) >> (16 - L)` is `(1 << L) - 1`, at most `4095`. -/
theorem lengthmask_eq (L : Nat) (h4 : 4 ≤ L) (h12 : L ≤ 12) :
    65535 >>> (16 - L) = 1 <<< L - 1 ∧ 1 <<< L - 1 ≤ 4095 := by
  interval_cases L <;> decide

/-- What `decodeCopyToken` does whenever the copied source range lies below index
`65536`: for a chunk start `s` with `D = len b - s`, bit count `L` for `D` and a
token `t` of offset `(t >> L) + 1 ≤ D`, it succeeds, advances the position by
2 and appends `(t & ((1 << L) - 1)) + 3` bytes, the `i`-th being the byte at
index `len b - offset + i` of the growing buffer. -/
theorem decodeCopyToken_spec (data spare : List Byte) (pos : Nat) (b : List Byte) (s t L : Nat)
    (hread : readUint16 (data ++ spare) pos = some t) (hs16 : s < 65536) (hs : s ≤ b.length)
    (hL : getCopyTokenOffsetBitCount (b.length - s) = .ok L)
    (hoff : t >>> L + 1 ≤ b.length - s)
    (hfit : b.length - (t >>> L + 1) + ((t &&& (1 <<< L - 1)) + 3) ≤ 65536) :
    ∃ out, decodeCopyToken data spare pos b s = .ok (b ++ out, pos + 2) ∧
      out.length = (t &&& (1 <<< L - 1)) + 3 ∧
      ∀ i, i < out.length → out[i]? = (b ++ out)[b.length - (t >>> L + 1) + i]? := by
  obtain ⟨h4, h12, hD⟩ := getCopyTokenOffsetBitCount_ok hL
  obtain ⟨hm1, hm2⟩ := lengthmask_eq L h4 h12
  have hpos := (readUint16_some_bound hread).1
  have hand : t &&& (1 <<< L - 1) ≤ 4095 := le_trans Nat.and_le_right hm2
  have hDeq : u16 (u16 b.length + 65536 - s) = b.length - s := by
    unfold u16; omega
  have hcs' : ∀ off len : Nat, off + 1 ≤ b.length - s → b.length - (off + 1) + (len + 3) ≤ 65536 →
      u16 (u16 b.length + 2 * 65536 - off - 1) = b.length - (off + 1)
        ∧ b.length - (off + 1) < b.length := by
    intro off len h1 h2; unfold u16; omega
  obtain ⟨hcs, hlt⟩ := hcs' (t >>> L) _ hoff hfit
  have hn : u16 ((t &&& 65535 >>> (16 - L)) + 3) = (t &&& (1 <<< L - 1)) + 3 := by
    rw [hm1]; exact u16_of_lt (by omega)
  obtain ⟨out, ho1, ho2, ho3⟩ := copyLoop_spec ((t &&& (1 <<< L - 1)) + 3) b
    (b.length - (t >>> L + 1)) hlt hfit
  refine ⟨out, ?_, ho2, fun i hi => ho3 i (by omega)⟩
  unfold decodeCopyToken
  rw [hread]
  simp only [hDeq, hL, Res.bind_ok, hn, hcs, ho1, u16_of_lt hpos]

/-- Evaluation of `decodeCopyToken` from the values of its intermediate variables. -/
theorem decodeCopyToken_eval (data spare : List Byte) (pos : Nat) (b : List Byte)
    (s t L n cs : Nat) (out : List Byte)
    (hread : readUint16 (data ++ spare) pos = some t)
    (hL : getCopyTokenOffsetBitCount (u16 (u16 b.length + 65536 - s)) = .ok L)
    (hn : u16 ((t &&& 65535 >>> (16 - L)) + 3) = n)
    (hcs : u16 (u16 b.length + 2 * 65536 - t >>> L - 1) = cs)
    (hcopy : copyLoop n b cs = some out) :
    decodeCopyToken data spare pos b s = .ok (out, u16 (pos + 2)) := by
  unfold decodeCopyToken
  simp only [hread, hL, hn, hcs, hcopy, Res.bind_ok]

/-- Three iterations of the copy loop from source index 0. -/
theorem copyLoop_three (x y z : Byte) (rest : List Byte) :
    copyLoop 3 (x :: y :: z :: rest) 0 = some ((x :: y :: z :: rest) ++ [x, y, z]) := by
  have h1 : u16 (0 + 1) = 1 := by decide
  have h2 : u16 (1 + 1) = 2 := by decide
  simp [copyLoop, h1, h2]

/-- With a buffer of 65537 bytes the token `0x0000` copies from index 0: the
buffer length is truncated to `1` before the offset is subtracted. -/
theorem decodeCopyToken_wrapped_source (spare : List Byte) (x y z : Byte) (rest : List Byte)
    (h : rest.length = 65534) :
    decodeCopyToken [0, 0] spare 0 (x :: y :: z :: rest) 65535
      = .ok ((x :: y :: z :: rest) ++ [x, y, z], 2) := by
  have hlen : (x :: y :: z :: rest).length = 65537 := by simp [h]
  exact decodeCopyToken_eval [0, 0] spare 0 _ 65535 0 12 3 0 _
    (readUint16_append [] spare 0 0 (by decide))
    (by rw [hlen]; decide) (by decide) (by rw [hlen]; decide) (copyLoop_three x y z rest)

/-! ### Chunks of literal tokens -/

/-- Length of an all-literal chunk body. -/
theorem literalBody_length (k : Nat) (d : List Byte) (hk : k ≤ 8) :
    (literalBody k d).length = d.length + (d.length - k + 7) / 8 := by
  induction d generalizing k with
  | nil => cases k <;> simp [literalBody]
  | cons b d ih =>
    cases k with
    | zero =>
      simp only [literalBody, List.length_cons, ih 7 (by omega)]
      omega
    | succ k =>
      simp only [literalBody, List.length_cons, ih k (by omega)]
      omega

/-- The container of `"abc"` is `01 03 B0 00 61 62 63`, and a sequence of nine
bytes takes two groups: `01 0A B0 00 b1 .. b8 00 b9`. -/
theorem literalContainer_examples :
    literalContainer [0x61, 0x62, 0x63] = [0x01, 0x03, 0xB0, 0x00, 0x61, 0x62, 0x63] ∧
    literalContainer [1, 2, 3, 4, 5, 6, 7, 8, 9]
      = [0x01, 0x0A, 0xB0, 0x00, 1, 2, 3, 4, 5, 6, 7, 8, 0x00, 9] := by
  decide

/-- A literal token that does not reach the end of the chunk. -/
theorem tokenLoop_literal_continue (data spare : List Byte) (E s n pos : Nat) (buf : List Byte)
    (b : Byte) (hb : data[pos]? = some b) (hlt : u16 (pos + 1) < E) :
    tokenLoop data spare E s (n + 1) 0 pos buf
      = tokenLoop data spare E s n 0 (u16 (pos + 1)) (buf ++ [b]) := by
  have : ¬ E ≤ u16 (pos + 1) := by omega
  simp [tokenLoop, decodeToken, hb, this]

/-- A literal token that stops on the last byte of the chunk: that byte is
appended as well. -/
theorem tokenLoop_literal_end (data spare : List Byte) (E s n pos : Nat) (buf : List Byte)
    (b c : Byte) (hb : data[pos]? = some b) (heq : u16 (pos + 1) = E) (hc : data[E]? = some c) :
    tokenLoop data spare E s (n + 1) 0 pos buf = .ok (buf ++ [b, c], u16 (E + 1)) := by
  simp [tokenLoop, decodeToken, hb, heq, hc]

/-- A literal token that is the last byte of the chunk. -/
theorem tokenLoop_literal_past (data spare : List Byte) (E s n pos : Nat) (buf : List Byte)
    (b : Byte) (hb : data[pos]? = some b) (hgt : E < u16 (pos + 1)) :
    tokenLoop data spare E s (n + 1) 0 pos buf = .ok (buf ++ [b], u16 (E + 1)) := by
  have h1 : E ≤ u16 (pos + 1) := by omega
  have h2 : ¬ u16 (pos + 1) = E := by omega
  simp [tokenLoop, decodeToken, hb, h1, h2]

/-- After eight tokens the token loop returns. -/
theorem tokenLoop_zero (data spare : List Byte) (E s f pos : Nat) (buf : List Byte) :
    tokenLoop data spare E s 0 f pos buf = .ok (buf, pos) := by
  simp [tokenLoop]

/-- The chunk loop stops once the position has reached the end of the chunk. -/
theorem chunkLoop_done (data spare : List Byte) (E s fuel pos : Nat) (buf : List Byte)
    (h : E ≤ pos) : chunkLoop data spare E s fuel pos buf = .ok (buf, pos) := by
  have : ¬ pos < E := by omega
  cases fuel <;> simp [chunkLoop, this]

/-- One iteration of the chunk loop: a flag byte, then the token loop. -/
theorem chunkLoop_step (data spare : List Byte) (E s fuel pos : Nat) (buf : List Byte) (fb : Byte)
    (h : pos < E) (hfb : data[pos]? = some fb) :
    chunkLoop data spare E s (fuel + 1) pos buf
      = (tokenLoop data spare E s 8 fb.val (u16 (pos + 1)) buf).bind
          fun r => chunkLoop data spare E s fuel r.2 r.1 := by
  simp [chunkLoop, h, decompressTokenSequence, hfb]

/-- Running `k` more iterations of the token loop on a literal body and then
the rest of the chunk loop emits exactly the literals. -/
theorem chunk_literals (data spare : List Byte) (E s : Nat) (hE : data.length = E + 1)
    (hsmall : E + 1 < 65536) (d : List Byte) :
    ∀ (k pos fuel : Nat) (buf : List Byte), 1 ≤ k → k ≤ 8 → d ≠ [] → d.length ≤ fuel →
      data.drop pos = literalBody k d →
      (tokenLoop data spare E s k 0 pos buf).bind (fun r => chunkLoop data spare E s fuel r.2 r.1)
        = .ok (buf ++ d, E + 1) := by
  induction d with
  | nil => intro k pos fuel buf _ _ h; exact absurd rfl h
  | cons b d ih =>
    intro k pos fuel buf hk1 hk8 _ hfuel hdrop
    obtain ⟨k, rfl⟩ : ∃ k', k = k' + 1 := ⟨k - 1, by omega⟩
    have hlen := length_of_drop_eq hdrop (by simp [literalBody])
    rw [literalBody] at hdrop hlen
    obtain ⟨hb, hdrop1⟩ := getElem?_of_drop_eq_cons hdrop
    rw [List.length_cons] at hlen
    have hpos : u16 (pos + 1) = pos + 1 := u16_of_lt (by omega)
    cases d with
    | nil =>
      -- `b` is the last byte of the chunk
      have hlast : pos = E := by simp [literalBody] at hlen; omega
      rw [tokenLoop_literal_past data spare E s k pos buf b hb (by omega), u16_of_lt hsmall,
        Res.bind_ok]
      exact chunkLoop_done data spare E s fuel (E + 1) _ (by omega)
    | cons b' d' =>
      cases k with
      | zero =>
        -- the group is full: back to the chunk loop, which reads the next flag byte
        rw [literalBody] at hdrop1 hlen
        obtain ⟨hflag, hdrop2⟩ := getElem?_of_drop_eq_cons hdrop1
        simp only [List.length_cons] at hlen hfuel
        obtain ⟨fuel, rfl⟩ : ∃ f, fuel = f + 1 := ⟨fuel - 1, by omega⟩
        have h2 : u16 (pos + 1 + 1) = pos + 1 + 1 := u16_of_lt (by omega)
        rw [tokenLoop_literal_continue data spare E s 0 pos buf b hb (by omega), hpos,
          tokenLoop_zero, Res.bind_ok]
        show chunkLoop data spare E s (fuel + 1) (pos + 1) (buf ++ [b]) = _
        rw [chunkLoop_step data spare E s fuel (pos + 1) _ 0 (by omega) hflag, h2]
        have := ih 8 (pos + 1 + 1) fuel (buf ++ [b]) (by omega) (le_refl _) (by simp)
          (by simp only [List.length_cons]; omega) (by rw [hdrop2, literalBody])
        simpa using this
      | succ k =>
        rw [literalBody] at hdrop1 hlen
        obtain ⟨hb', _⟩ := getElem?_of_drop_eq_cons hdrop1
        cases d' with
        | nil =>
          -- `b'` is the last byte of the chunk and is appended by the end-of-chunk branch
          have hlast : pos + 1 = E := by simp [literalBody] at hlen; omega
          rw [tokenLoop_literal_end data spare E s (k + 1) pos buf b b' hb (by omega)
            (by rw [← hlast]; exact hb'), u16_of_lt hsmall, Res.bind_ok]
          simpa using chunkLoop_done data spare E s fuel (E + 1) (buf ++ [b, b']) (by omega)
        | cons b'' d'' =>
          have hlt : pos + 1 < E := by
            cases k <;> simp [literalBody] at hlen <;> omega
          rw [tokenLoop_literal_continue data spare E s (k + 1) pos buf b hb (by omega), hpos]
          have := ih (k + 1) (pos + 1) fuel (buf ++ [b]) (by omega) (by omega) (by simp)
            (by simp only [List.length_cons] at hfuel ⊢; omega)
            (by rw [hdrop1, literalBody])
          simpa using this

/-- The container loop stops once the position has reached its bound. -/
theorem containerLoop_done (data spare : List Byte) (cf fuel pos : Nat) (buf : List Byte)
    (h : u16 (data.length - 1) ≤ pos) : containerLoop data spare cf fuel pos buf = .ok (buf, pos) := by
  have : ¬ pos < u16 (data.length - 1) := by omega
  cases fuel <;> simp [containerLoop, this]

/-! ### Chunk headers and the container loop -/

/-- A raw chunk whose header sits at position 61438 makes the `uint16` slice bound
`pos + 4096` wrap, and the slice expression panics. -/
theorem decompressChunk_raw_wrap (fuel : Nat) (pre spare rest buf : List Byte)
    (hpre : pre.length = 61438) :
    decompressChunk fuel (pre ++ 0xFF :: 0x3F :: rest) spare 61438 buf = .panic := by
  have hread : readUint16 (pre ++ 0xFF :: 0x3F :: rest ++ spare) 61438 = some 0x3FFF := by
    have := readUint16_append pre (rest ++ spare) 0xFF 0x3F (by omega)
    rw [hpre] at this
    rw [List.append_assoc]
    exact this
  unfold decompressChunk
  rw [hread]
  have hsig : (0x3FFF &&& 0x7000) >>> 12 = 3 := by decide
  have hflag : (0x3FFF &&& 0x8000) >>> 15 = 0 := by decide
  have hsz : 0x3FFF &&& 0x0FFF = 4095 := by decide
  have hp : u16 (61438 + 2) = 61440 := by decide
  have hq : u16 (61440 + 4096) = 0 := by decide
  have hck : ¬ ((4095 : Nat) < 3 ∨ ((0 : Nat) = 1 ∧ (4095 : Nat) > 4095)
      ∨ ((0 : Nat) = 0 ∧ (4095 : Nat) ≠ 4095)) := by omega
  have hcond : ¬ ((61440 : Nat) ≤ 0 ∧ 0 ≤ (pre ++ 0xFF :: 0x3F :: rest ++ spare).length) := by
    omega
  simp only [hsig, hflag, hsz, hp, hq, ne_eq, not_true_eq_false, if_false, hck,
      zero_ne_one, hcond]
  rw [if_neg (by simp)]

/-- A non-empty input whose first byte is not `0x01` is rejected. -/
theorem DecompressContainer_bad_signature_byte (fuel : Nat) (x : Byte) (rest spare : List Byte)
    (hx : x ≠ 1) : DecompressContainer fuel (x :: rest) spare = .error .invalidSignatureByte := by
  simp [DecompressContainer, hx]

/-- An input of at most 65536 bytes whose first chunk header lacks the signature
`0b011` is rejected. -/
theorem DecompressContainer_bad_chunk_signature (fuel : Nat) (lo hi : Byte)
    (rest spare : List Byte)
    (hlen : rest.length + 3 ≤ 65536)
    (hsig : ((lo.val + 256 * hi.val) &&& 0x7000) >>> 12 ≠ 3) :
    DecompressContainer (fuel + 1) (1 :: lo :: hi :: rest) spare = .error .invalidChunkSignature := by
  have hread : readUint16 (1 :: lo :: hi :: rest ++ spare) 1 = some (lo.val + 256 * hi.val) :=
    readUint16_append [1] (rest ++ spare) lo hi (by decide)
  have hlt : 1 < u16 ((1 :: lo :: hi :: rest).length - 1) := by
    simp only [List.length_cons, Nat.add_sub_cancel]
    rw [u16_of_lt (by omega)]; omega
  have hchunk : decompressChunk (fuel + 1) (1 :: lo :: hi :: rest) spare 1 []
      = .error .invalidChunkSignature := by
    unfold decompressChunk
    rw [hread]
    simp only [ne_eq, hsig, not_false_eq_true, if_true]
  simp only [DecompressContainer, List.getElem?_cons_zero, ne_eq, not_true_eq_false, if_false,
    containerLoop, hlt, if_true, hchunk]
  rfl

/-- For an input of 65537 bytes the loop bound `uint16(len - 1)` is 0: no chunk is
read and the empty buffer is returned. -/
theorem DecompressContainer_length_wrap (fuel : Nat) (rest spare : List Byte)
    (hlen : rest.length = 65536) : DecompressContainer fuel (1 :: rest) spare = .ok ([], 1) := by
  have hnot : ¬ 1 < u16 ((1 :: rest).length - 1) := by
    simp only [List.length_cons, Nat.add_sub_cancel, hlen]
    decide
  simp only [DecompressContainer, List.getElem?_cons_zero, ne_eq, not_true_eq_false, if_false]
  cases fuel <;> simp only [containerLoop, hnot, if_false]

/-! ### Reference examples -/

/-- The three worked examples of [MS-OVBA] section 3.2 run through the
embedding: no compression (`"abcdefghijklmnopqrstuv."`, which is also the
all-literal container of that text), normal compression
(`"#aaabcdefaaaaghijaaaaaklaaamnopqaaaaaaaaaaaarstuvwxyzaaa"`) and maximum
compression (73 bytes `"a"`). -/
theorem DecompressContainer_reference_examples :
    DecompressContainer 4
        [0x01, 0x19, 0xB0, 0x00, 0x61, 0x62, 0x63, 0x64, 0x65, 0x66, 0x67, 0x68, 0x00, 0x69,
          0x6A, 0x6B, 0x6C, 0x6D, 0x6E, 0x6F, 0x70, 0x00, 0x71, 0x72, 0x73, 0x74, 0x75, 0x76,
          0x2E] []
      = .ok ([0x61, 0x62, 0x63, 0x64, 0x65, 0x66, 0x67, 0x68, 0x69, 0x6A, 0x6B, 0x6C, 0x6D,
          0x6E, 0x6F, 0x70, 0x71, 0x72, 0x73, 0x74, 0x75, 0x76, 0x2E], 29) ∧
    literalContainer [0x61, 0x62, 0x63, 0x64, 0x65, 0x66, 0x67, 0x68, 0x69, 0x6A, 0x6B, 0x6C,
        0x6D, 0x6E, 0x6F, 0x70, 0x71, 0x72, 0x73, 0x74, 0x75, 0x76, 0x2E]
      = [0x01, 0x19, 0xB0, 0x00, 0x61, 0x62, 0x63, 0x64, 0x65, 0x66, 0x67, 0x68, 0x00, 0x69,
          0x6A, 0x6B, 0x6C, 0x6D, 0x6E, 0x6F, 0x70, 0x00, 0x71, 0x72, 0x73, 0x74, 0x75, 0x76,
          0x2E] ∧
    DecompressContainer 8
        [0x01, 0x2F, 0xB0, 0x00, 0x23, 0x61, 0x61, 0x61, 0x62, 0x63, 0x64, 0x65, 0x82, 0x66,
          0x00, 0x70, 0x61, 0x67, 0x68, 0x69, 0x6A, 0x01, 0x38, 0x08, 0x61, 0x6B, 0x6C, 0x00,
          0x30, 0x6D, 0x6E, 0x6F, 0x70, 0x06, 0x71, 0x02, 0x70, 0x04, 0x10, 0x72, 0x73, 0x74,
          0x75, 0x76, 0x10, 0x77, 0x78, 0x79, 0x7A, 0x00, 0x3C] []
      = .ok ([0x23, 0x61, 0x61, 0x61, 0x62, 0x63, 0x64, 0x65, 0x66, 0x61, 0x61, 0x61, 0x61,
          0x67, 0x68, 0x69, 0x6A, 0x61, 0x61, 0x61, 0x61, 0x61, 0x6B, 0x6C, 0x61, 0x61, 0x61,
          0x6D, 0x6E, 0x6F, 0x70, 0x71, 0x61, 0x61, 0x61, 0x61, 0x61, 0x61, 0x61, 0x61, 0x61,
          0x61, 0x61, 0x61, 0x72, 0x73, 0x74, 0x75, 0x76, 0x77, 0x78, 0x79, 0x7A, 0x61, 0x61,
          0x61], 51) ∧
    DecompressContainer 2 [0x01, 0x03, 0xB0, 0x02, 0x61, 0x45, 0x00] []
      = .ok (List.replicate 73 0x61, 7) := by
  refine ⟨by decide, by decide, by decide, by decide⟩

/-! ### A small container that decompresses past 65536 bytes -/

/-- Reading two bytes known by their indices. -/
theorem readUint16_of_getElem? {data : List Byte} {pos : Nat} {lo hi : Byte}
    (h0 : data[pos]? = some lo) (h1 : data[pos + 1]? = some hi) (hpos : pos + 2 < 65536) :
    readUint16 data pos = some (lo.val + 256 * hi.val) := by
  have hlen : pos + 1 < data.length := (List.getElem?_eq_some_iff.mp h1).1
  have hc : pos ≤ u16 (pos + 2) ∧ u16 (pos + 2) ≤ data.length := by
    rw [u16_of_lt hpos]; omega
  simp only [readUint16, hc, and_self, if_true, h0, h1]

/-- The bytes of the data from `pos` on, read off a known remainder. -/
theorem getElem?_of_drop_eq_append {data : List Byte} {pos : Nat} {l rest : List Byte}
    (h : data.drop pos = l ++ rest) (i : Nat) (hi : i < l.length) :
    data[pos + i]? = l[i]? := by
  rw [← List.getElem?_drop, h, List.getElem?_append_left hi]

/-- A list all of whose entries are `x` is a `replicate`. -/
theorem eq_replicate_of_getElem? (out : List Byte) (x : Byte)
    (h : ∀ i, i < out.length → out[i]? = some x) : out = List.replicate out.length x := by
  apply List.ext_getElem?
  intro i
  by_cases hi : i < out.length
  · rw [h i hi, List.getElem?_replicate, if_pos hi]
  · rw [List.getElem?_eq_none (by omega), List.getElem?_replicate, if_neg hi]

/-- A copy at offset 1 repeats the last byte of the buffer. -/
theorem copy_offset_one (buf out : List Byte) (x : Byte)
    (h : ∀ i, i < out.length → out[i]? = (buf ++ [x] ++ out)[(buf ++ [x]).length - 1 + i]?) :
    out = List.replicate out.length x := by
  apply eq_replicate_of_getElem?
  intro i
  induction i using Nat.strong_induction_on with
  | _ i ih =>
    intro hi
    rw [h i hi]
    have hl : (buf ++ [x]).length - 1 = buf.length := by simp
    rw [hl]
    cases i with
    | zero =>
      rw [Nat.add_zero, List.append_assoc, List.getElem?_append_right (le_refl _)]
      simp
    | succ i =>
      rw [List.getElem?_append_right (by simp)]
      have : buf.length + (i + 1) - (buf ++ [x]).length = i := by simp; omega
      rw [this]
      exact ih i (by omega) (by omega)

/-- The two tokens of a `runChunk`: a literal, then a copy token that ends the
chunk. -/
theorem tokenLoop_runChunk (data spare : List Byte) (p s : Nat) (buf : List Byte) (x : Byte)
    (r : List Byte × Nat) (hp : p + 6 < 65536) (h3 : data[p + 3]? = some x)
    (hcopy : decodeCopyToken data spare (p + 4) (buf ++ [x]) s = .ok (r.1, p + 6)) :
    tokenLoop data spare (p + 5) s 8 2 (p + 3) buf = .ok (r.1, p + 6) := by
  have e1 : u16 (p + 3 + 1) = p + 4 := u16_of_lt (by omega)
  have e2 : u16 (p + 5 + 1) = p + 6 := u16_of_lt (by omega)
  have n1 : ¬ p + 5 ≤ p + 4 := by omega
  have n2 : p + 5 ≤ p + 6 := by omega
  have n3 : ¬ p + 6 = p + 5 := by omega
  simp [tokenLoop, decodeToken, h3, e1, e2, n1, n2, n3, hcopy]

/-- A `runChunk` at position `p` is decompressed to whatever its copy token
yields after the literal. -/
theorem decompressChunk_runChunk (fuel : Nat) (data spare : List Byte) (p : Nat) (buf : List Byte)
    (x : Byte) (rest r : List Byte) (hdrop : data.drop p = runChunk x ++ rest)
    (hp : p + 6 < 65536)
    (hcopy : decodeCopyToken data spare (p + 4) (buf ++ [x]) (u16 buf.length) = .ok (r, p + 6)) :
    decompressChunk (fuel + 1) data spare p buf = .ok (r, p + 6) := by
  have h0 : data[p]? = some 0x03 := getElem?_of_drop_eq_append hdrop 0 (by simp [runChunk])
  have h1 : data[p + 1]? = some 0xB0 := getElem?_of_drop_eq_append hdrop 1 (by simp [runChunk])
  have h2 : data[p + 2]? = some 0x02 := getElem?_of_drop_eq_append hdrop 2 (by simp [runChunk])
  have h3 : data[p + 3]? = some x := getElem?_of_drop_eq_append hdrop 3 (by simp [runChunk])
  have hread : readUint16 (data ++ spare) p = some 0xB003 :=
    readUint16_spare spare (readUint16_of_getElem? h0 h1 (by omega))
  have hsz : 0xB003 &&& 0x0FFF = 3 := by decide
  have hsg : (0xB003 &&& 0x7000) >>> 12 = 3 := by decide
  have hfl : (0xB003 &&& 0x8000) >>> 15 = 1 := by decide
  have e2 : u16 (p + 2) = p + 2 := u16_of_lt (by omega)
  have e3 : u16 (p + 2 + 1) = p + 3 := u16_of_lt (by omega)
  have e5 : u16 (p + 2 + 3) = p + 5 := u16_of_lt (by omega)
  have hck : ¬ ((3 : Nat) < 3 ∨ ((1 : Nat) = 1 ∧ (3 : Nat) > 4095)
      ∨ ((1 : Nat) = 0 ∧ (3 : Nat) ≠ 4095)) := by omega
  unfold decompressChunk
  rw [hread]
  simp only [hsz, hsg, hfl, e2, e5, ne_eq, not_true_eq_false, if_false, hck, if_true]
  rw [chunkLoop_step data spare (p + 5) _ fuel (p + 2) buf 0x02 (by omega) h2, e3]
  have := tokenLoop_runChunk data spare p (u16 buf.length) buf x (r, p + 6) hp h3 hcopy
  rw [show ((0x02 : Byte) : Nat) = 2 from rfl, this, Res.bind_ok]
  exact chunkLoop_done data spare (p + 5) _ fuel (p + 6) r (by omega)

/-- The copy token of a `runChunk` while the buffer stays within 65536 bytes:
4095 more copies of the literal. -/
theorem decodeCopyToken_runChunk (data spare : List Byte) (p : Nat) (buf : List Byte) (x : Byte)
    (rest : List Byte) (hdrop : data.drop p = runChunk x ++ rest) (hp : p + 6 < 65536)
    (hbuf : buf.length + 4096 ≤ 65536) :
    decodeCopyToken data spare (p + 4) (buf ++ [x]) (u16 buf.length)
      = .ok (buf ++ List.replicate 4096 x, p + 6) := by
  have h4 : data[p + 4]? = some 0xFC := getElem?_of_drop_eq_append hdrop 4 (by simp [runChunk])
  have h5 : data[p + 4 + 1]? = some 0x0F := getElem?_of_drop_eq_append hdrop 5 (by simp [runChunk])
  have hread : readUint16 (data ++ spare) (p + 4) = some 4092 :=
    readUint16_spare spare (readUint16_of_getElem? h4 h5 (by omega))
  have hlen : (buf ++ [x]).length = buf.length + 1 := by simp
  have hL : getCopyTokenOffsetBitCount ((buf ++ [x]).length - buf.length) = .ok 12 := by
    rw [hlen, Nat.add_sub_cancel_left]; decide
  have ht1 : 4092 >>> 12 + 1 = 1 := by decide
  have ht2 : (4092 &&& (1 <<< 12 - 1)) + 3 = 4095 := by decide
  obtain ⟨out, ho1, ho2, ho3⟩ := decodeCopyToken_spec data spare (p + 4) (buf ++ [x]) buf.length
    4092 12 hread (by omega) (by omega) hL (by rw [ht1, hlen]; omega)
    (by rw [ht1, ht2, hlen]; omega)
  rw [ht1] at ho3
  rw [ht2] at ho2
  have hout := copy_offset_one buf out x ho3
  rw [ho2] at hout
  have e : buf ++ [x] ++ List.replicate 4095 x = buf ++ List.replicate (4095 + 1) x := by
    rw [List.append_assoc, List.singleton_append, ← List.replicate_succ]
  rw [u16_of_lt (by omega), ho1, hout, e]

/-- The copy token of a `runChunk` once the buffer holds 65536 bytes: the
source index wraps to 0 and the first 4095 bytes of the buffer are copied. -/
theorem decodeCopyToken_runChunk_wrapped (data spare : List Byte) (p : Nat) (buf : List Byte)
    (x : Byte) (rest : List Byte) (hdrop : data.drop p = runChunk x ++ rest)
    (hp : p + 6 < 65536) (hbuf : buf.length = 65536) :
    decodeCopyToken data spare (p + 4) (buf ++ [x]) (u16 buf.length)
      = .ok (buf ++ [x] ++ buf.take 4095, p + 6) := by
  have h4 : data[p + 4]? = some 0xFC := getElem?_of_drop_eq_append hdrop 4 (by simp [runChunk])
  have h5 : data[p + 4 + 1]? = some 0x0F := getElem?_of_drop_eq_append hdrop 5 (by simp [runChunk])
  have hread : readUint16 (data ++ spare) (p + 4) = some 4092 :=
    readUint16_spare spare (readUint16_of_getElem? h4 h5 (by omega))
  have hlen : (buf ++ [x]).length = 65537 := by rw [List.length_append, hbuf]; rfl
  obtain ⟨out, ho1, ho2, ho3⟩ := copyLoop_spec 4095 (buf ++ [x]) 0 (by omega) (by omega)
  have hout : out = buf.take 4095 := by
    apply List.ext_getElem?
    intro i
    by_cases hi : i < 4095
    · rw [ho3 i hi, Nat.zero_add, List.getElem?_append_left (by omega),
        List.getElem?_append_left (by omega), List.getElem?_take_of_lt hi]
    · rw [List.getElem?_eq_none (by omega), List.getElem?_eq_none (by simp; omega)]
  rw [hout] at ho1
  have := decodeCopyToken_eval data spare (p + 4) (buf ++ [x]) (u16 buf.length) 4092 12 4095 0 _
    hread (by rw [hlen, hbuf]; decide) (by decide) (by rw [hlen]; decide) ho1
  rw [this, u16_of_lt (by omega)]

/-- The remainder of `runContainer` at the start of chunk `k`. -/
theorem runContainer_drop (k : Nat) (hk : k ≤ 16) :
    runContainer.drop (1 + 6 * k)
      = runChunk (if k < 16 then 0x41 else 0x42) ++ runContainer.drop (1 + 6 * (k + 1)) := by
  interval_cases k <;> rfl

/-- The container loop on `runContainer`, from chunk `k` on. -/
theorem containerLoop_runContainer (spare : List Byte) (cf : Nat) :
    ∀ (j k fuel : Nat), j + k = 16 →
      containerLoop runContainer spare (cf + 1) (fuel + j + 1) (1 + 6 * k)
          (List.replicate (4096 * k) 0x41)
        = .ok (List.replicate 65536 0x41 ++ [0x42] ++ List.replicate 4095 0x41, 103) := by
  have hbound : u16 (runContainer.length - 1) = 102 := by decide
  intro j
  induction j with
  | zero =>
    intro k fuel hk
    obtain rfl : k = 16 := by omega
    have hdrop := runContainer_drop 16 (le_refl _)
    have hcopy := decodeCopyToken_runChunk_wrapped runContainer spare (1 + 6 * 16)
      (List.replicate (4096 * 16) 0x41) 0x42 _ hdrop (by decide) (List.length_replicate _ _)
    have hchunk := decompressChunk_runChunk cf runContainer spare (1 + 6 * 16)
      (List.replicate (4096 * 16) 0x41) 0x42 _ _ hdrop (by decide) hcopy
    have hlt : 1 + 6 * 16 < 102 := by decide
    rw [List.take_replicate] at hchunk
    simp only [containerLoop, hbound, hlt, if_true, hchunk, Res.bind_ok]
    exact containerLoop_done _ spare _ _ _ _ (by rw [hbound]; decide)
  | succ j ih =>
    intro k fuel hk
    have hk15 : k < 16 := by omega
    have hdrop := runContainer_drop k (by omega)
    rw [if_pos hk15] at hdrop
    have hblen : (List.replicate (4096 * k) (0x41 : Byte)).length = 4096 * k :=
      List.length_replicate _ _
    have hcopy := decodeCopyToken_runChunk runContainer spare (1 + 6 * k)
      (List.replicate (4096 * k) 0x41) 0x41 _ hdrop (by omega) (by rw [hblen]; omega)
    have hchunk := decompressChunk_runChunk cf runContainer spare (1 + 6 * k)
      (List.replicate (4096 * k) 0x41) 0x41 _ _ hdrop (by omega) hcopy
    have hlt : 1 + 6 * k < 102 := by omega
    have hrep : List.replicate (4096 * k) (0x41 : Byte) ++ List.replicate 4096 0x41
        = List.replicate (4096 * (k + 1)) 0x41 := by
      rw [List.append_replicate_replicate]; congr 1
    have hstep : fuel + (j + 1) + 1 = (fuel + j + 1) + 1 := by omega
    rw [hstep]
    simp only [containerLoop, hbound, hlt, if_true, hchunk, Res.bind_ok, hrep]
    have := ih (k + 1) fuel (by omega)
    rw [show 1 + 6 * k + 6 = 1 + 6 * (k + 1) by omega]
    exact this

/-- The 103-byte `runContainer` decompresses without error, but its last 4096
bytes are `0x42` followed by 4095 bytes `0x41`, not 4096 bytes `0x42`. -/
theorem DecompressContainer_runContainer (fuel : Nat) (spare : List Byte) :
    DecompressContainer (fuel + 17) runContainer spare
      = .ok (List.replicate 65536 0x41 ++ [0x42] ++ List.replicate 4095 0x41, 103) := by
  have h0 : runContainer[0]? = some 1 := by decide
  have := containerLoop_runContainer spare (fuel + 16) 16 0 fuel (by omega)
  simp only [DecompressContainer, h0, ne_eq, not_true_eq_false, if_false]
  exact this

/-! ### Line-parser lemmas -/

/-- Appending a byte does not change `precededByCr` inside the text. -/
theorem precededByCr_snoc_of_le (t : List Byte) (c : Byte) (i : Nat) (h : i ≤ t.length) :
    precededByCr (t ++ [c]) i = precededByCr t i := by
  unfold precededByCr
  rcases Nat.eq_zero_or_pos i with h0 | h0
  · subst h0; simp
  · rw [List.getElem?_append_left (by omega)]

/-- The index after an appended byte is preceded by that byte. -/
theorem precededByCr_snoc_last (t : List Byte) (c : Byte) :
    precededByCr (t ++ [c]) (t.length + 1) = (c == 0x0d) := by
  unfold precededByCr
  simp

/-- Index sets selected by a predicate that is stable under appending a byte. -/
theorem filter_range_snoc (t : List Byte) (c : Byte) (p : List Byte → Nat → Bool)
    (hp : ∀ i, i < t.length → p (t ++ [c]) i = p t i) :
    (List.range (t ++ [c]).length).filter (p (t ++ [c]))
      = (List.range t.length).filter (p t) ++ (if p (t ++ [c]) t.length then [t.length] else []) := by
  rw [List.length_append, List.length_singleton, List.range_succ, List.filter_append]
  congr 1
  · apply List.filter_congr
    intro i hi
    exact hp i (List.mem_range.mp hi)
  · simp [List.filter_cons]

/-- The bare line feeds of a text extended by one byte. -/
theorem bareLfIndices_snoc (t : List Byte) (c : Byte) :
    bareLfIndices (t ++ [c])
      = bareLfIndices t ++ (if c = 0x0a ∧ precededByCr t t.length = false then [t.length] else []) := by
  unfold bareLfIndices
  rw [filter_range_snoc t c (fun t i => (t[i]? == some 0x0a) && !precededByCr t i)]
  · congr 1
    simp [precededByCr_snoc_of_le t c t.length (le_refl _)]
  · intro i hi
    rw [precededByCr_snoc_of_le t c i (by omega), List.getElem?_append_left hi]

/-- The V3 boundaries of a text extended by one byte. -/
theorem v3Boundaries_snoc (t : List Byte) (c : Byte) :
    v3Boundaries (t ++ [c])
      = v3Boundaries t ++
        (if (c = 0x0a ∨ c = 0x0d) ∧ precededByCr t t.length = true then [t.length] else []) := by
  unfold v3Boundaries
  rw [filter_range_snoc t c
    (fun t i => ((t[i]? == some 0x0a) || (t[i]? == some 0x0d)) && precededByCr t i)]
  · congr 1
    simp [precededByCr_snoc_of_le t c t.length (le_refl _)]
  · intro i hi
    rw [precededByCr_snoc_of_le t c i (by omega), List.getElem?_append_left hi]

/-- Stripping a text extended by one byte. -/
theorem stripCrLf_snoc (t : List Byte) (c : Byte) :
    stripCrLf (t ++ [c]) = stripCrLf t ++ (if isCrLf c then [] else [c]) := by
  unfold stripCrLf
  rw [List.filter_append]
  congr 1
  by_cases h : isCrLf c <;> simp [h]

/-- The byte `0x0D` is a line-break byte. -/
theorem isCrLf_cr : isCrLf (0x0d : Byte) = true := rfl

/-- The byte `0x0A` is a line-break byte. -/
theorem isCrLf_lf : isCrLf (0x0a : Byte) = true := rfl

/-- Any other byte is not a line-break byte. -/
theorem isCrLf_eq_false {c : Byte} (h1 : c ≠ 0x0d) (h2 : c ≠ 0x0a) : isCrLf c = false := by
  simp [isCrLf, h1, h2]

/-- Characterisation of the bytes that are not line breaks. -/
theorem isCrLf_eq_false_iff (c : Byte) : isCrLf c = false ↔ c ≠ 0x0d ∧ c ≠ 0x0a := by
  simp [isCrLf]

/-- A property of all lines extends to one more line. -/
theorem forall_mem_snoc_lines {p : List Byte → Prop} {ls : List (List Byte)} {b : List Byte}
    (h1 : ∀ l ∈ ls, p l) (h2 : p b) : ∀ l ∈ ls ++ [b], p l := by
  intro l hl
  rcases List.mem_append.mp hl with hl | hl
  · exact h1 l hl
  · rw [List.mem_singleton.mp hl]; exact h2

/-- Invariant of the loop of `parseModule`. -/
theorem parseModule_fold_inv (t : List Byte) :
    (t.foldl parseModuleStep ParseState.init).lines.length
        = t.count 0x0d + (bareLfIndices t).length ∧
    (∀ l ∈ (t.foldl parseModuleStep ParseState.init).lines, ∀ c ∈ l, isCrLf c = false) ∧
    (∀ c ∈ (t.foldl parseModuleStep ParseState.init).textBuffer, isCrLf c = false) ∧
    (t.foldl parseModuleStep ParseState.init).lines.flatten
        ++ (t.foldl parseModuleStep ParseState.init).textBuffer = stripCrLf t ∧
    ((t.foldl parseModuleStep ParseState.init).previousChar = 0x0d ↔
      precededByCr t t.length = true) := by
  induction t using List.reverseRecOn with
  | nil => simp [ParseState.init, bareLfIndices, stripCrLf, precededByCr]
  | append_singleton t c ih =>
    obtain ⟨h1, h2, h3, h4, h5⟩ := ih
    have hlen : (t ++ [c]).length = t.length + 1 := by simp
    rw [List.foldl_append, List.foldl_cons, List.foldl_nil, bareLfIndices_snoc,
      hlen, precededByCr_snoc_last, stripCrLf_snoc, List.count_append, List.count_singleton]
    generalize t.foldl parseModuleStep ParseState.init = st at *
    by_cases hcr : c = 0x0d
    · subst hcr
      have hs : parseModuleStep st 0x0d = ⟨st.lines ++ [st.textBuffer], [], 0x0d⟩ := by
        simp [parseModuleStep]
      rw [hs, isCrLf_cr]
      refine ⟨?_, forall_mem_snoc_lines h2 h3, by simp, ?_, by simp⟩
      · simp [h1]; omega
      · simp [← h4]
    · by_cases hlf : c = 0x0a
      · subst hlf
        by_cases hp : st.previousChar = 0x0d
        · have hq := h5.mp hp
          have hs : parseModuleStep st 0x0a = ⟨st.lines, st.textBuffer, 0x0a⟩ := by
            simp [parseModuleStep, hp]
          rw [hs, isCrLf_lf]
          refine ⟨?_, h2, h3, ?_, by simp⟩
          · simp [h1, hq]
          · simp [← h4]
        · have hq : precededByCr t t.length = false := by
            rw [← Bool.not_eq_true]; exact fun h => hp (h5.mpr h)
          have hs : parseModuleStep st 0x0a = ⟨st.lines ++ [st.textBuffer], [], 0x0a⟩ := by
            simp [parseModuleStep, hp]
          rw [hs, isCrLf_lf]
          refine ⟨?_, forall_mem_snoc_lines h2 h3, by simp, ?_, by simp⟩
          · simp [h1, hq]; omega
          · simp [← h4]
      · have hc : isCrLf c = false := isCrLf_eq_false hcr hlf
        have hs : parseModuleStep st c = ⟨st.lines, st.textBuffer ++ [c], c⟩ := by
          simp [parseModuleStep, hcr, hlf]
        rw [hs, hc]
        refine ⟨?_, h2, ?_, ?_, ?_⟩
        · simp [h1, hcr, hlf]
        · intro x hx
          rcases List.mem_append.mp hx with hx | hx
          · exact h3 x hx
          · rw [List.mem_singleton.mp hx]; exact hc
        · simp [← h4]
        · simp [hcr]

/-- The V3 prefix length of a text extended by one byte. -/
theorem v3PrefixLen_snoc (t : List Byte) (c : Byte) :
    v3PrefixLen (t ++ [c])
      = if (c = 0x0a ∨ c = 0x0d) ∧ precededByCr t t.length = true then t.length + 1
        else v3PrefixLen t := by
  unfold v3PrefixLen
  rw [v3Boundaries_snoc]
  split_ifs with h
  · simp
  · simp

/-- Invariant of the loop of `parseModuleV3`. -/
theorem parseModuleV3_fold_inv (t : List Byte) :
    (t.foldl parseModuleV3Step ParseState.init).lines.length = (v3Boundaries t).length ∧
    (∀ l ∈ (t.foldl parseModuleV3Step ParseState.init).lines, ∀ c ∈ l, isCrLf c = false) ∧
    (t.foldl parseModuleV3Step ParseState.init).lines.flatten
        = stripCrLf (t.take (v3PrefixLen t)) ∧
    (t.foldl parseModuleV3Step ParseState.init).textBuffer
        = stripCrLf (t.drop (v3PrefixLen t)) ∧
    ((t.foldl parseModuleV3Step ParseState.init).previousChar = 0x0d ↔
      precededByCr t t.length = true) ∧
    v3PrefixLen t ≤ t.length := by
  induction t using List.reverseRecOn with
  | nil => simp [ParseState.init, v3Boundaries, v3PrefixLen, stripCrLf, precededByCr]
  | append_singleton t c ih =>
    obtain ⟨h1, h2, h3, h4, h5, h6⟩ := ih
    have hlen : (t ++ [c]).length = t.length + 1 := by simp
    have hbuf : ∀ x ∈ stripCrLf (t.drop (v3PrefixLen t)), isCrLf x = false := by
      intro x hx
      unfold stripCrLf at hx
      simpa using (List.mem_filter.mp hx).2
    rw [List.foldl_append, List.foldl_cons, List.foldl_nil, v3Boundaries_snoc, v3PrefixLen_snoc,
      hlen, precededByCr_snoc_last]
    generalize t.foldl parseModuleV3Step ParseState.init = st at *
    by_cases hc : c = 0x0a ∨ c = 0x0d
    · have hcc : isCrLf c = true := by
        rcases hc with h | h <;> subst h <;> rfl
      by_cases hp : st.previousChar = 0x0d
      · have hq := h5.mp hp
        have hs : parseModuleV3Step st c = ⟨st.lines ++ [st.textBuffer], [], c⟩ := by
          simp [parseModuleV3Step, hc, hp]
        rw [hs, if_pos ⟨hc, hq⟩, if_pos ⟨hc, hq⟩]
        refine ⟨by simp [h1], forall_mem_snoc_lines h2 (h4 ▸ hbuf), ?_, ?_, by simp, le_refl _⟩
        · have e : List.take (t.length + 1) (t ++ [c]) = t ++ [c] := by
            rw [← hlen]; exact List.take_length _
          rw [e, stripCrLf_snoc, hcc]
          simp only [List.flatten_append, List.flatten_cons, List.flatten_nil, List.append_nil,
            if_true, h3, h4]
          unfold stripCrLf
          rw [← List.filter_append, List.take_append_drop]
        · have e : List.drop (t.length + 1) (t ++ [c]) = [] := by
            rw [← hlen]; exact List.drop_length _
          rw [e]; rfl
      · have hq : ¬ precededByCr t t.length = true := fun h => hp (h5.mpr h)
        have hs : parseModuleV3Step st c = ⟨st.lines, st.textBuffer, c⟩ := by
          simp [parseModuleV3Step, hc, hp]
        rw [hs, if_neg (fun h => hq h.2), if_neg (fun h => hq h.2)]
        refine ⟨by simp [h1], h2, ?_, ?_, by simp, by omega⟩
        · rw [List.take_append_of_le_length h6]; exact h3
        · rw [List.drop_append_of_le_length h6, stripCrLf_snoc, hcc]
          simpa using h4
    · have hcc : isCrLf c = false :=
        isCrLf_eq_false (fun h => hc (Or.inr h)) (fun h => hc (Or.inl h))
      have hs : parseModuleV3Step st c = ⟨st.lines, st.textBuffer ++ [c], c⟩ := by
        simp [parseModuleV3Step, hc]
      rw [hs, if_neg (fun h => hc h.1), if_neg (fun h => hc h.1)]
      refine ⟨by simp [h1], h2, ?_, ?_, ?_, by omega⟩
      · rw [List.take_append_of_le_length h6]; exact h3
      · rw [List.drop_append_of_le_length h6, stripCrLf_snoc, hcc]
        simp [h4]
      · have : c ≠ 0x0d := fun h => hc (Or.inr h)
        simp [this]

/-- The loop of `parseModuleV3` only ever appends lines. -/
theorem parseModuleV3_fold_lines_extend (u : List Byte) (st : ParseState) :
    ∃ more, (u.foldl parseModuleV3Step st).lines = st.lines ++ more := by
  induction u generalizing st with
  | nil => exact ⟨[], by simp⟩
  | cons c u ih =>
    obtain ⟨more, hm⟩ := ih (parseModuleV3Step st c)
    rw [List.foldl_cons, hm]
    unfold parseModuleV3Step
    split_ifs
    · exact ⟨[st.textBuffer] ++ more, by simp⟩
    · exact ⟨more, rfl⟩
    · exact ⟨more, rfl⟩

/-- Bytes that add no boundary leave the output of `parseModuleV3` unchanged. -/
theorem parseModuleV3_no_residual (t u : List Byte)
    (h : v3Boundaries (t ++ u) = v3Boundaries t) :
    parseModuleV3 (t ++ u) = parseModuleV3 t := by
  have h1 := (parseModuleV3_fold_inv (t ++ u)).1
  have h2 := (parseModuleV3_fold_inv t).1
  unfold parseModuleV3
  rw [List.foldl_append] at h1 ⊢
  obtain ⟨more, hm⟩ := parseModuleV3_fold_lines_extend u (t.foldl parseModuleV3Step ParseState.init)
  rw [hm] at h1 ⊢
  rw [h, List.length_append, h2] at h1
  have : more = [] := List.length_eq_zero.mp (by omega)
  simp [this]

/-- The variable `previousChar` is the last byte read. -/
theorem parseModuleV3_fold_previousChar (t : List Byte) (st : ParseState) :
    (t.foldl parseModuleV3Step st).previousChar = t.getLast?.getD st.previousChar := by
  induction t using List.reverseRecOn with
  | nil => simp
  | append_singleton t c _ =>
    rw [List.foldl_append, List.foldl_cons, List.foldl_nil, List.getLast?_concat]
    unfold parseModuleV3Step
    split_ifs <;> rfl

/-- The lines produced from two states that agree except for a `previousChar`
that is `0x0D` in neither or in both. -/
theorem parseModuleV3_fold_congr (v : List Byte) (st st' : ParseState)
    (hl : st.lines = st'.lines) (hb : st.textBuffer = st'.textBuffer)
    (hp : st.previousChar = 0x0d ↔ st'.previousChar = 0x0d) :
    (v.foldl parseModuleV3Step st).lines = (v.foldl parseModuleV3Step st').lines := by
  cases v with
  | nil => simpa using hl
  | cons c v =>
    have : parseModuleV3Step st c = parseModuleV3Step st' c := by
      unfold parseModuleV3Step
      by_cases h : st.previousChar = 0x0d
      · simp [h, hp.mp h, hl, hb]
      · have h' : ¬ st'.previousChar = 0x0d := fun h' => h (hp.mpr h')
        simp [h, h', hl, hb]
    rw [List.foldl_cons, List.foldl_cons, this]

/-- A line feed that does not follow a carriage return can be deleted from the text
without changing the output of `parseModuleV3`. -/
theorem parseModuleV3_bare_lf (u v : List Byte) (h : u.getLast? ≠ some 0x0d) :
    parseModuleV3 (u ++ 0x0a :: v) = parseModuleV3 (u ++ v) := by
  unfold parseModuleV3
  rw [List.foldl_append, List.foldl_append, List.foldl_cons]
  have hprev := parseModuleV3_fold_previousChar u ParseState.init
  have hne : (u.foldl parseModuleV3Step ParseState.init).previousChar ≠ 0x0d := by
    rw [hprev]
    cases hu : u.getLast? with
    | none => simp [ParseState.init]
    | some x =>
      rw [hu] at h
      simpa using h
  generalize u.foldl parseModuleV3Step ParseState.init = st at *
  apply parseModuleV3_fold_congr
  · simp [parseModuleV3Step, hne]
  · simp [parseModuleV3Step, hne]
  · simp [parseModuleV3Step, hne]

/-! ### Buffers of the V1 and forms normalizers -/

/-- The read loop copies the longest prefix without a zero byte. -/
theorem readUntilZero_eq_takeWhile (l : List Byte) :
    readUntilZero l = l.takeWhile (fun b => b != 0x00) := by
  induction l with
  | nil => rfl
  | cons b rest ih =>
    by_cases hb : b = 0x00
    · simp [readUntilZero, hb]
    · simp [readUntilZero, hb, ih, List.takeWhile_cons]

/-- A loop that appends one contribution per element appends their
concatenation. -/
theorem foldl_append_contribution {α : Type} (f : List Byte → α → List Byte)
    (g : α → List Byte) (h : ∀ buf a, f buf a = buf ++ g a) (l : List α) (buf : List Byte) :
    l.foldl f buf = buf ++ (l.map g).flatten := by
  induction l generalizing buf with
  | nil => simp
  | cons a l ih => simp [List.foldl_cons, ih, h, List.append_assoc]

/-- An iteration of the V1 reference loop appends the contribution of the
reference. -/
theorem referenceStepV1_eq (buf : List Byte) (ref : dirstream.Reference) :
    referenceStepV1 buf ref = buf ++ referenceContributionV1 ref := by
  unfold referenceContributionV1 referenceStepV1
  split_ifs
  · simp
  · cases ref.ProjectReference <;> simp

/-- An iteration of the V1 line loop appends the line or nothing. -/
theorem lineStepV1_eq (lib : GoLib) (buf line : List Byte) :
    lineStepV1 lib buf line
      = buf ++ (if HasPrefix (stringsToLower lib line) (asciiBytes "attribute") then []
          else line) := by
  unfold lineStepV1
  split_ifs <;> simp

/-- An iteration of the V1 module loop appends the lines that pass the prefix
test, without separators. -/
theorem moduleStepV1_eq_filter (lib : GoLib) (buf : List Byte) (ms : modulestream.Module) :
    moduleStepV1 lib buf ms
      = buf ++ ((parseModule ms.SourceCode).filter
          (fun l => !HasPrefix (stringsToLower lib l) (asciiBytes "attribute"))).flatten := by
  unfold moduleStepV1
  rw [foldl_append_contribution (lineStepV1 lib) _ (lineStepV1_eq lib)]
  congr 1
  induction parseModule ms.SourceCode with
  | nil => rfl
  | cons l ls ih =>
    by_cases h : HasPrefix (stringsToLower lib l) (asciiBytes "attribute") = true
    · simp [h, ih]
    · simp [h, ih]

/-- An iteration of the V1 module loop appends the contribution of the
module. -/
theorem moduleStepV1_eq (lib : GoLib) (buf : List Byte) (ms : modulestream.Module) :
    moduleStepV1 lib buf ms = buf ++ moduleContributionV1 lib ms := by
  unfold moduleContributionV1
  rw [moduleStepV1_eq_filter, moduleStepV1_eq_filter]
  simp

/-- A registered reference contributes the byte `0x7B`. -/
theorem referenceContributionV1_registered (ref : dirstream.Reference)
    (h : ref.RegisteredReference ≠ none) : referenceContributionV1 ref = [0x7B] := by
  unfold referenceContributionV1 referenceStepV1
  cases hr : ref.RegisteredReference with
  | none => exact absurd hr h
  | some r => simp

/-- A reference that is neither registered nor a project reference contributes
nothing. -/
theorem referenceContributionV1_other (ref : dirstream.Reference)
    (h1 : ref.RegisteredReference = none) (h2 : ref.ProjectReference = none) :
    referenceContributionV1 ref = [] := by
  unfold referenceContributionV1 referenceStepV1
  simp [h1, h2]

/-- Without project references the reference loop appends one `0x7B` per
registered reference. -/
theorem referenceContributions_no_project (refs : List dirstream.Reference)
    (h : ∀ ref ∈ refs, ref.ProjectReference = none) :
    (refs.map referenceContributionV1).flatten
      = List.replicate ((refs.filter (fun ref => ref.RegisteredReference.isSome)).length)
          0x7B := by
  induction refs with
  | nil => rfl
  | cons ref refs ih =>
    have ih' := ih (fun r hr => h r (List.mem_cons_of_mem _ hr))
    have hp := h ref (List.mem_cons_self _ _)
    cases hr : ref.RegisteredReference with
    | none =>
      simp [referenceContributionV1_other ref hr hp, ih', hr]
    | some r =>
      have : ref.RegisteredReference ≠ none := by rw [hr]; simp
      simp [referenceContributionV1_registered ref this, ih', hr, List.replicate_succ]

/-- A `uint32` is encoded in four bytes. -/
theorem u32le_length (v : Nat) : (u32le v).length = 4 := rfl

/-- A `uint16` is encoded in two bytes. -/
theorem u16le_length (v : Nat) : (u16le v).length = 2 := rfl

/-- The temporary buffer of a project reference, field by field: the two bytes
after `MinorVersion` are bytes 2 and 3 of `MajorVersion`. -/
theorem projectReferenceBuffer_eq (ref : dirstream.ReferenceProject) :
    projectReferenceBuffer ref
      = u32le ref.SizeOfLibidAbsolute ++ ref.LibidAbsolute ++ u32le ref.SizeOfLibidRelative
        ++ ref.LibidRelative ++ u32le ref.MajorVersion
        ++ (u16le ref.MinorVersion ++ (u32le ref.MajorVersion).drop 2) ++ [0x00] := by
  simp [projectReferenceBuffer, binaryEncodeInto, u32le, u16le]

/-- With `MajorVersion` below `65536` the temporary buffer is the one of the
specification. -/
theorem projectReferenceBuffer_small_major (ref : dirstream.ReferenceProject)
    (h : ref.MajorVersion % 4294967296 < 65536) :
    projectReferenceBuffer ref = projectReferenceBufferSpec ref := by
  rw [projectReferenceBuffer_eq]
  unfold projectReferenceBufferSpec
  have h1 : ref.MajorVersion / 65536 % 256 = 0 := by omega
  have h2 : ref.MajorVersion / 16777216 % 256 = 0 := by omega
  have h3 : ref.MinorVersion % 65536 / 65536 % 256 = 0 := by omega
  have h4 : ref.MinorVersion % 65536 / 16777216 % 256 = 0 := by omega
  have h5 : ref.MinorVersion % 65536 % 256 = ref.MinorVersion % 256 := by omega
  have h6 : ref.MinorVersion % 65536 / 256 % 256 = ref.MinorVersion / 256 % 256 := by omega
  simp [u32le, u16le, h1, h2, h3, h4, h5, h6]

/-- Lower-casing a string of ASCII bytes. -/
theorem stringsToLower_ascii (lib : GoLib) (l : List Byte) (h : ∀ c ∈ l, c.val < 0x80) :
    stringsToLower lib l = l.map asciiToLower := by
  unfold stringsToLower
  rw [if_pos]
  simpa using h

/-- The prefix test compares the first bytes. -/
theorem HasPrefix_iff_take (s pre : List Byte) :
    HasPrefix s pre = true ↔ s.take pre.length = pre := by
  unfold HasPrefix
  rw [List.isPrefixOf_iff_prefix, List.prefix_iff_eq_take]
  exact eq_comm

/-! ### The V3 normalizer -/

/-- The function `contentNormalizedDataV3` as two loops between constant byte
strings. -/
theorem contentNormalizedDataV3_eq (lib : GoLib) (p : VbaProject) :
    contentNormalizedDataV3 lib p
      = (referencesV3 p.DirStream.ReferencesRecord.ReferenceArray
          (informationV3 p.DirStream.InformationRecord)).bind (fun b1 =>
            (modulesV3 lib p p.DirStream.ModulesRecord.Modules
              (b1 ++ [0x0f, 0x00, 0x02, 0x00, 0x00, 0x00, 0x13, 0x00, 0x02, 0x00, 0x00, 0x00])).bind
              (fun b2 => .ok (b2 ++ [0x10, 0x00, 0x00, 0x00, 0x00, 0x00]))) := by
  unfold contentNormalizedDataV3
  simp [u16le, u32le, Fin.ofNat]

/-- The information part followed by the modules preamble and the terminator
is the byte string of the specification. -/
theorem informationV3_eq (pi : dirstream.ProjectInformation) :
    informationV3 pi ++ [0x0f, 0x00, 0x02, 0x00, 0x00, 0x00, 0x13, 0x00, 0x02, 0x00, 0x00, 0x00]
      ++ [0x10, 0x00, 0x00, 0x00, 0x00, 0x00] = emptyProjectBytesV3 pi := by
  unfold informationV3 emptyProjectBytesV3
  simp [u16le, u32le, Fin.ofNat]

/-- Without references and modules `contentNormalizedDataV3` returns the byte
string of the specification. -/
theorem contentNormalizedDataV3_empty (lib : GoLib) (p : VbaProject)
    (hrefs : p.DirStream.ReferencesRecord.ReferenceArray = [])
    (hmods : p.DirStream.ModulesRecord.Modules = []) :
    contentNormalizedDataV3 lib p
      = .ok (emptyProjectBytesV3 p.DirStream.InformationRecord) := by
  rw [contentNormalizedDataV3_eq, hrefs, hmods]
  simp only [referencesV3, modulesV3, Res.bind_ok, informationV3_eq]

/-- The length of the byte string of a project without references and
modules. -/
theorem emptyProjectBytesV3_length (pi : dirstream.ProjectInformation) :
    (emptyProjectBytesV3 pi).length
      = 120 + pi.Name.ProjectName.length + pi.Constants.Constants.length
        + pi.Constants.ConstantsUnicode.length := by
  unfold emptyProjectBytesV3
  simp only [List.length_append, u32le_length, u16le_length, List.length_cons, List.length_nil]
  omega

/-- A sequence of two steps returns normally only if the first step does. -/
theorem Res.bind_eq_ok {α β : Type} (r : Res α) (f : α → Res β) (b : β)
    (h : r.bind f = .ok b) : ∃ a, r = .ok a ∧ f a = .ok b := by
  cases r with
  | ok a => exact ⟨a, rfl, h⟩
  | error e => simp [Res.bind] at h
  | panic => simp [Res.bind] at h
  | outOfFuel => simp [Res.bind] at h

/-- A sequence of steps that return or panic returns or panics. -/
theorem Res.bind_panic_or_ok {α β : Type} (r : Res α) (f : α → Res β)
    (hr : r = .panic ∨ ∃ a, r = .ok a) (hf : ∀ a, f a = .panic ∨ ∃ b, f a = .ok b) :
    r.bind f = .panic ∨ ∃ b, r.bind f = .ok b := by
  rcases hr with hr | ⟨a, hr⟩
  · left; rw [hr]; rfl
  · rw [hr]; exact hf a

/-- The function `writeControlReference` returns or panics. -/
theorem writeControlReference_panic_or_ok (buf : List Byte) (ref : dirstream.ReferenceControl) :
    writeControlReference buf ref = .panic ∨ ∃ b, writeControlReference buf ref = .ok b := by
  unfold writeControlReference
  cases ref.NameRecordExtended with
  | none => left; rfl
  | some n => right; exact ⟨_, rfl⟩

/-- The function `writeOriginalReference` returns or panics. -/
theorem writeOriginalReference_panic_or_ok (buf : List Byte)
    (ref : dirstream.ReferenceOriginal) :
    writeOriginalReference buf ref = .panic ∨ ∃ b, writeOriginalReference buf ref = .ok b := by
  unfold writeOriginalReference
  cases ref.ReferenceRecord with
  | none => right; exact ⟨_, rfl⟩
  | some rc => exact writeControlReference_panic_or_ok _ rc

/-- An iteration of the V3 reference loop returns or panics. -/
theorem referenceStepV3_panic_or_ok (buf : List Byte) (ref : dirstream.Reference) :
    referenceStepV3 buf ref = .panic ∨ ∃ b, referenceStepV3 buf ref = .ok b := by
  unfold referenceStepV3
  cases ref.NameRecord with
  | none => left; rfl
  | some name =>
    cases ref.ControlReference with
    | some rc => exact writeControlReference_panic_or_ok _ rc
    | none =>
      cases ref.OriginalReference with
      | some ro => exact writeOriginalReference_panic_or_ok _ ro
      | none =>
        cases ref.RegisteredReference with
        | some rr => right; exact ⟨_, rfl⟩
        | none =>
          cases ref.ProjectReference with
          | some rp => right; exact ⟨_, rfl⟩
          | none => right; exact ⟨_, rfl⟩

/-- The V3 reference loop returns or panics. -/
theorem referencesV3_panic_or_ok (refs : List dirstream.Reference) (buf : List Byte) :
    referencesV3 refs buf = .panic ∨ ∃ b, referencesV3 refs buf = .ok b := by
  induction refs generalizing buf with
  | nil => right; exact ⟨_, rfl⟩
  | cons ref rest ih =>
    unfold referencesV3
    exact Res.bind_panic_or_ok _ _ (referenceStepV3_panic_or_ok buf ref) ih

/-- The module-name block returns or panics. -/
theorem moduleNameV3_panic_or_ok (buf : List Byte) (flag : Bool) (m : dirstream.Module) :
    moduleNameV3 buf flag m = .panic ∨ ∃ b, moduleNameV3 buf flag m = .ok b := by
  unfold moduleNameV3
  cases flag with
  | false => right; exact ⟨_, rfl⟩
  | true =>
    cases m.NameUnicodeRecord with
    | none => left; rfl
    | some nu => right; exact ⟨_, rfl⟩

/-- An iteration of the V3 module loop returns or panics. -/
theorem moduleStepV3_panic_or_ok (lib : GoLib) (p : VbaProject) (buf : List Byte)
    (m : dirstream.Module) :
    moduleStepV3 lib p buf m = .panic ∨ ∃ b, moduleStepV3 lib p buf m = .ok b := by
  unfold moduleStepV3
  dsimp only
  split
  · left; rfl
  · exact moduleNameV3_panic_or_ok _ _ m

/-- The V3 module loop returns or panics. -/
theorem modulesV3_panic_or_ok (lib : GoLib) (p : VbaProject) (mods : List dirstream.Module)
    (buf : List Byte) :
    modulesV3 lib p mods buf = .panic ∨ ∃ b, modulesV3 lib p mods buf = .ok b := by
  induction mods generalizing buf with
  | nil => right; exact ⟨_, rfl⟩
  | cons m rest ih =>
    unfold modulesV3
    exact Res.bind_panic_or_ok _ _ (moduleStepV3_panic_or_ok lib p buf m) ih

/-- For every project `contentNormalizedDataV3` panics or returns a buffer
that ends with the terminator. -/
theorem contentNormalizedDataV3_panic_or_terminated (lib : GoLib) (p : VbaProject) :
    contentNormalizedDataV3 lib p = .panic ∨
      ∃ pre, contentNormalizedDataV3 lib p
        = .ok (pre ++ [0x10, 0x00, 0x00, 0x00, 0x00, 0x00]) := by
  rw [contentNormalizedDataV3_eq]
  rcases referencesV3_panic_or_ok p.DirStream.ReferencesRecord.ReferenceArray
      (informationV3 p.DirStream.InformationRecord) with hr | ⟨b1, hr⟩
  · left; rw [hr]; rfl
  · rw [hr, Res.bind_ok]
    rcases modulesV3_panic_or_ok lib p p.DirStream.ModulesRecord.Modules
        (b1 ++ [0x0f, 0x00, 0x02, 0x00, 0x00, 0x00, 0x13, 0x00, 0x02, 0x00, 0x00, 0x00])
      with hm | ⟨b2, hm⟩
    · left; rw [hm]; rfl
    · right; exact ⟨b2, by rw [hm, Res.bind_ok]⟩

/-- A byte widened to a little-endian `uint16`. -/
theorem u16le_byte (b : Byte) : u16le b.val = [b, 0] := by
  have h1 : b.val % 256 = b.val := Nat.mod_eq_of_lt b.isLt
  have h2 : b.val / 256 % 256 = 0 := by have := b.isLt; omega
  unfold u16le
  rw [h1, h2]
  simp only [Fin.ofNat]
  congr 1
  exact Fin.ext h1

/-- The widened string is the input with a zero byte after every byte. -/
theorem GetFixedWidthString16_eq (x : List Byte) :
    GetFixedWidthString16 x = (x.map (fun b => [b, 0])).flatten := by
  unfold GetFixedWidthString16
  rw [foldl_append_contribution _ (fun b => [b, 0]) (fun buf b => by rw [u16le_byte])]
  simp

/-- The widened string is twice as long as the input. -/
theorem widened_length (x : List Byte) :
    ((x.map (fun b => [b, (0 : Byte)])).flatten).length = 2 * x.length := by
  induction x with
  | nil => rfl
  | cons b x ih => simp [ih]; omega

/-- Byte `2i` of the widened string is byte `i` of the input and byte `2i+1`
is zero. -/
theorem widened_getElem? (x : List Byte) (i : Nat) :
    ((x.map (fun b => [b, (0 : Byte)])).flatten)[2 * i]? = x[i]? ∧
    (i < x.length → ((x.map (fun b => [b, (0 : Byte)])).flatten)[2 * i + 1]? = some 0) := by
  induction x generalizing i with
  | nil => simp
  | cons b x ih =>
    cases i with
    | zero => simp
    | succ j =>
      have e1 : 2 * (j + 1) = (2 * j) + 1 + 1 := by omega
      rw [e1]
      simp only [List.map_cons, List.flatten_cons, List.cons_append, List.nil_append,
        List.getElem?_cons_succ, List.length_cons, Nat.add_lt_add_iff_right]
      exact ih j

/-- A control reference without an extended name record makes
`writeControlReference` dereference a nil pointer. -/
theorem writeControlReference_none (buf : List Byte) (ref : dirstream.ReferenceControl)
    (h : ref.NameRecordExtended = none) : writeControlReference buf ref = .panic := by
  unfold writeControlReference
  simp [h]

/-- The bytes of a control reference with an extended name record. -/
theorem writeControlReference_some (buf : List Byte) (ref : dirstream.ReferenceControl)
    (n : dirstream.ReferenceName) (h : ref.NameRecordExtended = some n) :
    writeControlReference buf ref
      = .ok (buf ++ u16le 0x002f ++ u32le ref.SizeOfLibidTwiddled ++ ref.LibidTwiddled
          ++ u32le 0 ++ u16le 0
          ++ u16le 0x0016 ++ u32le n.SizeOfName ++ n.Name
          ++ (if n.Reserved > 0 then u16le 0x003e ++ u32le n.SizeOfNameUnicode ++ n.NameUnicode
              else [])
          ++ u16le 0x0030 ++ u32le ref.SizeOfLibidExtended ++ ref.LibidExtended
          ++ u32le 0 ++ u16le 0 ++ ref.OriginalTypeLib.val ++ u32le ref.Cookie) := by
  unfold writeControlReference
  simp only [h]
  split_ifs <;> simp [List.append_assoc]

/-- A line that starts with `attribute vb_name = ` starts with `attribute`. -/
theorem HasPrefix_attribute_of_vb_name (s : List Byte)
    (h : HasPrefix s (asciiBytes "attribute vb_name = ") = true) :
    HasPrefix s (asciiBytes "attribute") = true := by
  unfold HasPrefix at *
  rw [List.isPrefixOf_iff_prefix] at *
  have h9 : asciiBytes "attribute" <+: asciiBytes "attribute vb_name = " :=
    ⟨asciiBytes " vb_name = ", by decide⟩
  exact h9.trans h

/-- The three tests of the line loop of the code amount to the test of the
specification. -/
theorem lineStepV3_eq (lib : GoLib) (st : List Byte × Bool) (l : List Byte) :
    lineStepV3 lib st l
      = if lineAppendedV3 lib l then (st.1 ++ l ++ [0x0a], true) else st := by
  unfold lineStepV3 lineAppendedV3
  by_cases h20 : HasPrefix (stringsToLower lib l) (asciiBytes "attribute vb_name = ") = true
  · have h9 := HasPrefix_attribute_of_vb_name _ h20
    simp [h20, h9]
  · by_cases h9 : HasPrefix (stringsToLower lib l) (asciiBytes "attribute") = true
    · by_cases hd : defaultAttributesV3.contains l = true
      · simp [h20, h9, hd]
      · simp [h20, h9, hd]
    · simp [h20, h9]

/-- The line loop appends every line that passes the test, followed by
`0x0a`, and sets the flag when there is one. -/
theorem foldl_lineStepV3 (lib : GoLib) (lines : List (List Byte)) (buf : List Byte)
    (flag : Bool) :
    lines.foldl (lineStepV3 lib) (buf, flag)
      = (buf ++ ((lines.filter (lineAppendedV3 lib)).map (fun l => l ++ [0x0a])).flatten,
          flag || lines.any (lineAppendedV3 lib)) := by
  induction lines generalizing buf flag with
  | nil => simp
  | cons l ls ih =>
    rw [List.foldl_cons, lineStepV3_eq]
    by_cases h : lineAppendedV3 lib l = true
    · simp [h, ih, List.append_assoc]
    · simp [h, ih]

/-- With the flag set, a module without a MODULENAMEUNICODE record makes the
module-name block dereference a nil pointer. -/
theorem moduleNameV3_none (buf : List Byte) (m : dirstream.Module)
    (h : m.NameUnicodeRecord = none) : moduleNameV3 buf true m = .panic := by
  unfold moduleNameV3
  simp [h]

/-- With the flag set and a MODULENAMEUNICODE record, the module-name block
appends the UTF-16 name if it is not empty, else the MBCS name, and `0x0a`. -/
theorem moduleNameV3_some (buf : List Byte) (m : dirstream.Module)
    (nu : dirstream.ModuleNameUnicodeRecord) (h : m.NameUnicodeRecord = some nu) :
    moduleNameV3 buf true m
      = .ok (buf ++ (if nu.ModuleNameUnicode ≠ [] then nu.ModuleNameUnicode
                      else m.NameRecord.ModuleName) ++ [0x0a]) := by
  unfold moduleNameV3
  simp only [h, if_true]
  by_cases h1 : nu.ModuleNameUnicode = []
  · by_cases h2 : m.NameRecord.ModuleName = []
    · simp [h1, h2]
    · simp [h1, h2, List.length_pos]
  · simp [h1, List.length_pos]

/-- Without the flag the module-name block appends nothing. -/
theorem moduleNameV3_false (buf : List Byte) (m : dirstream.Module) :
    moduleNameV3 buf false m = .ok buf := by
  unfold moduleNameV3
  simp

/-- An iteration of the V3 module loop for a module whose stream is found:
the records, the appended lines, then the module-name block. -/
theorem moduleStepV3_eq (lib : GoLib) (p : VbaProject) (buf : List Byte) (m : dirstream.Module)
    (ms : modulestream.Module)
    (hms : p.ModuleStream.GetModule (ConvertFromCodepageToUtf8 lib m.NameRecord.ModuleName
      p.DirStream.InformationRecord.CodePage.CodePage) = some ms) :
    moduleStepV3 lib p buf m
      = moduleNameV3
          (buf ++ moduleRecordsV3 m
            ++ (((parseModuleV3 ms.SourceCode).filter (lineAppendedV3 lib)).map
                (fun l => l ++ [0x0a])).flatten)
          ((parseModuleV3 ms.SourceCode).any (lineAppendedV3 lib)) m := by
  unfold moduleStepV3
  simp only [hms, foldl_lineStepV3, Bool.false_or]
  congr 2
  unfold moduleRecordsV3
  split_ifs <;> simp [List.append_assoc]

/-- An iteration of the V3 module loop panics for a module with an appended
line and no MODULENAMEUNICODE record. -/
theorem moduleStepV3_nil_name_record (lib : GoLib) (p : VbaProject) (buf : List Byte)
    (m : dirstream.Module) (ms : modulestream.Module)
    (hms : p.ModuleStream.GetModule (ConvertFromCodepageToUtf8 lib m.NameRecord.ModuleName
      p.DirStream.InformationRecord.CodePage.CodePage) = some ms)
    (hline : (parseModuleV3 ms.SourceCode).any (lineAppendedV3 lib) = true)
    (hnil : m.NameUnicodeRecord = none) :
    moduleStepV3 lib p buf m = .panic := by
  rw [moduleStepV3_eq lib p buf m ms hms, hline, moduleNameV3_none _ _ hnil]

/-- An iteration of the V3 module loop for a module with a MODULENAMEUNICODE
record: after the records and the appended lines, the name and `0x0a` are
appended if a line was appended, nothing otherwise. -/
theorem moduleStepV3_some_name_record (lib : GoLib) (p : VbaProject) (buf : List Byte)
    (m : dirstream.Module) (ms : modulestream.Module)
    (nu : dirstream.ModuleNameUnicodeRecord)
    (hms : p.ModuleStream.GetModule (ConvertFromCodepageToUtf8 lib m.NameRecord.ModuleName
      p.DirStream.InformationRecord.CodePage.CodePage) = some ms)
    (hnu : m.NameUnicodeRecord = some nu) :
    moduleStepV3 lib p buf m
      = .ok (buf ++ moduleRecordsV3 m
          ++ (((parseModuleV3 ms.SourceCode).filter (lineAppendedV3 lib)).map
              (fun l => l ++ [0x0a])).flatten
          ++ (if (parseModuleV3 ms.SourceCode).any (lineAppendedV3 lib) then
                (if nu.ModuleNameUnicode ≠ [] then nu.ModuleNameUnicode
                  else m.NameRecord.ModuleName) ++ [0x0a]
              else [])) := by
  rw [moduleStepV3_eq lib p buf m ms hms]
  cases hany : (parseModuleV3 ms.SourceCode).any (lineAppendedV3 lib) with
  | false => rw [moduleNameV3_false]; simp
  | true => rw [moduleNameV3_some _ _ nu hnu]; simp [List.append_assoc]

/-! ### Signature file and project normalized data -/

/-- The header is encoded in 36 bytes. -/
theorem encodeHeader_length (h : DigSigInfoSerializedHeader) : (encodeHeader h).length = 36 :=
  rfl

/-- The bytes of `Serialize`: header, signature, certificate store and the two
reserved buffers. -/
theorem Serialize_eq (d : DigSigInfoSerialized) :
    d.Serialize = encodeHeader d.toDigSigInfoSerializedHeader ++ d.PbSignatureBuffer
      ++ d.PbSigningCertStoreBuffer ++ d.RgchProjectNameBuffer ++ d.RgchTimestampBuffer := by
  unfold DigSigInfoSerialized.Serialize binaryEncodeInto
  simp [encodeHeader_length]

/-- The buffers of the value that `NewDigSigInfoSerialized` builds. -/
theorem NewDigSigInfoSerialized_buffers (sig certRaw : List Byte) :
    (NewDigSigInfoSerialized sig certRaw).PbSignatureBuffer = sig ∧
    (NewDigSigInfoSerialized sig certRaw).PbSigningCertStoreBuffer
      = NewVbaSigSerializedCertStore certRaw ∧
    (NewDigSigInfoSerialized sig certRaw).RgchProjectNameBuffer = [0, 0] ∧
    (NewDigSigInfoSerialized sig certRaw).RgchTimestampBuffer = [0, 0] :=
  ⟨rfl, rfl, rfl, rfl⟩

/-- The length of the certificate store built from a certificate. -/
theorem NewVbaSigSerializedCertStore_length (certRaw : List Byte) :
    (NewVbaSigSerializedCertStore certRaw).length = 32 + certRaw.length := by
  unfold NewVbaSigSerializedCertStore
  simp only [List.length_append, u32le_length, List.length_cons, List.length_nil]
  omega

/-- The key test of `projectNormalizedData` in the words of the
specification. -/
theorem propertyHashed_iff (key : List Byte) :
    propertyHashed key = true ↔
      key ≠ asciiBytes "ID" ∧ key ≠ asciiBytes "Document" ∧ key ≠ asciiBytes "CMG" ∧
      key ≠ asciiBytes "DPB" ∧ key ≠ asciiBytes "GC" ∧ key.take 2 ≠ asciiBytes "&H" := by
  unfold propertyHashed
  have hp : HasPrefix key (asciiBytes "&H") = true ↔ key.take 2 = asciiBytes "&H" :=
    HasPrefix_iff_take key (asciiBytes "&H")
  by_cases h : HasPrefix key (asciiBytes "&H") = true
  · have h2 := hp.mp h
    simp [h, h2]
  · have h2 : ¬ key.take 2 = asciiBytes "&H" := fun e => h (hp.mpr e)
    simp [h, h2, List.contains_cons, List.elem_nil]

/-- An iteration of the first loop of `projectNormalizedData` for a property
whose key is not `BaseClass`. -/
theorem propertyStepPN_eq (p : VbaProject) (buf : List Byte)
    (prop : projectstream.ProjectProperty) (h : prop.Key ≠ asciiBytes "BaseClass") :
    propertyStepPN p buf prop
      = .ok (buf ++ (if propertyHashed prop.Key then prop.Key ++ prop.Value else [])) := by
  unfold propertyStepPN
  simp only [h, if_false, Res.bind_ok]
  split_ifs <;> simp [List.append_assoc]

/-- The first loop of `projectNormalizedData` without a `BaseClass` key. -/
theorem propertiesPN_eq (p : VbaProject) (props : List projectstream.ProjectProperty)
    (buf : List Byte) (h : ∀ prop ∈ props, prop.Key ≠ asciiBytes "BaseClass") :
    propertiesPN p props buf
      = .ok (buf ++ ((props.filter (fun prop => propertyHashed prop.Key)).map
          (fun prop => prop.Key ++ prop.Value)).flatten) := by
  induction props generalizing buf with
  | nil => simp [propertiesPN]
  | cons prop rest ih =>
    unfold propertiesPN
    rw [propertyStepPN_eq p buf prop (h prop (List.mem_cons_self _ _)), Res.bind_ok,
      ih _ (fun q hq => h q (List.mem_cons_of_mem _ hq))]
    by_cases hk : propertyHashed prop.Key = true
    · simp [hk, List.append_assoc]
    · simp [hk]

/-- An iteration of the first loop of `projectNormalizedData` returns or
panics. -/
theorem propertyStepPN_panic_or_ok (p : VbaProject) (buf : List Byte)
    (prop : projectstream.ProjectProperty) :
    propertyStepPN p buf prop = .panic ∨ ∃ b, propertyStepPN p buf prop = .ok b := by
  unfold propertyStepPN
  apply Res.bind_panic_or_ok
  · split_ifs
    · cases p.ModuleStream.GetModule prop.Value with
      | none => left; rfl
      | some m => right; exact ⟨_, rfl⟩
    · right; exact ⟨_, rfl⟩
  · intro a
    split_ifs <;> exact Or.inr ⟨_, rfl⟩

/-- The first loop of `projectNormalizedData` returns or panics. -/
theorem propertiesPN_panic_or_ok (p : VbaProject) (props : List projectstream.ProjectProperty)
    (buf : List Byte) :
    propertiesPN p props buf = .panic ∨ ∃ b, propertiesPN p props buf = .ok b := by
  induction props generalizing buf with
  | nil => right; exact ⟨_, rfl⟩
  | cons prop rest ih =>
    unfold propertiesPN
    exact Res.bind_panic_or_ok _ _ (propertyStepPN_panic_or_ok p buf prop) ih

/-- The second loop of `projectNormalizedData` appends the `Line` of the
properties whose key starts with `&H`. -/
theorem foldl_hostExtenderStepPN (props : List projectstream.ProjectProperty) (buf : List Byte) :
    props.foldl hostExtenderStepPN buf
      = buf ++ ((props.filter (fun prop => HasPrefix prop.Key (asciiBytes "&H"))).map
          (fun prop => prop.Line)).flatten := by
  induction props generalizing buf with
  | nil => simp
  | cons prop rest ih =>
    rw [List.foldl_cons, ih]
    unfold hostExtenderStepPN
    by_cases hk : HasPrefix prop.Key (asciiBytes "&H") = true
    · simp [hk, List.append_assoc]
    · simp [hk]

/-- The function `projectNormalizedData` is its first loop followed by the
host-extender part. -/
theorem projectNormalizedData_eq (p : VbaProject) :
    projectNormalizedData p
      = (propertiesPN p p.ProjectStream.MainProperties []).bind
          (fun main => .ok (main ++ hostExtenderPart p.ProjectStream)) := by
  unfold projectNormalizedData hostExtenderPart
  congr 1
  funext main
  split_ifs
  · simp [foldl_hostExtenderStepPN, List.append_assoc]
  · simp

/-! ### The project stream parser -/

/-- The result of `strings.Split` has at least one segment. -/
theorem splitCrLfFrom_ne_nil (s cur : List Byte) : splitCrLfFrom s cur ≠ [] := by
  induction s, cur using splitCrLfFrom.induct with
  | case1 cur => simp [splitCrLfFrom]
  | case2 c cur => simp [splitCrLfFrom]
  | case3 c d rest cur h ih => rw [splitCrLfFrom, if_pos h]; simp
  | case4 c d rest cur h ih => rw [splitCrLfFrom, if_neg h]; exact ih

/-- Joining a first segment to at least one more. -/
theorem intercalate_cons_of_ne_nil (sep a : List Byte) (l : List (List Byte)) (h : l ≠ []) :
    List.intercalate sep (a :: l) = a ++ sep ++ List.intercalate sep l := by
  cases l with
  | nil => exact absurd rfl h
  | cons b l => simp [List.intercalate, List.intersperse]

/-- Joining the segments of `strings.Split(s, "\r\n")` with `"\r\n"` gives
back the text. -/
theorem splitCrLfFrom_intercalate (s cur : List Byte) :
    List.intercalate [0x0d, 0x0a] (splitCrLfFrom s cur) = cur ++ s := by
  induction s, cur using splitCrLfFrom.induct with
  | case1 cur => simp [splitCrLfFrom, List.intercalate]
  | case2 c cur => simp [splitCrLfFrom, List.intercalate]
  | case3 c d rest cur h ih =>
    rw [splitCrLfFrom, if_pos h, intercalate_cons_of_ne_nil _ _ _ (splitCrLfFrom_ne_nil _ _), ih]
    obtain ⟨hc, hd⟩ := h
    subst hc hd
    simp
  | case4 c d rest cur h ih =>
    rw [splitCrLfFrom, if_neg h, ih]
    simp

/-- On a string of ASCII bytes `strings.TrimSpace` removes the ASCII white
space at both ends and consults no table. -/
theorem TrimSpace_ascii (str : GoStrings) (s : List Byte) (h : ∀ c ∈ s, c.val < 0x80) :
    TrimSpace str s = ((s.dropWhile asciiSpace).reverse.dropWhile asciiSpace).reverse := by
  unfold TrimSpace
  have hsub : ∀ c ∈ s.dropWhile asciiSpace, c.val < 0x80 :=
    fun c hc => h c ((List.dropWhile_sublist _).subset hc)
  cases hd : s.dropWhile asciiSpace with
  | nil => simp
  | cons c rest =>
    rw [hd] at hsub
    have hc : ¬ 0x80 ≤ c.val := by
      have := hsub c (List.mem_cons_self _ _)
      omega
    simp only [hc, if_false]
    unfold trimSpaceRight
    have hsub2 : ∀ x ∈ (c :: rest).reverse.dropWhile asciiSpace, x.val < 0x80 :=
      fun x hx => hsub x (List.mem_reverse.mp ((List.dropWhile_sublist _).subset hx))
    cases hr : (c :: rest).reverse.dropWhile asciiSpace with
    | nil => simp
    | cons x xs =>
      rw [hr] at hsub2
      have hx : ¬ 0x80 ≤ x.val := by
        have := hsub2 x (List.mem_cons_self _ _)
        omega
      simp only [hx, if_false]

/-- The first `=` splits a line into the text before it and the text after
it. -/
theorem splitFirstEq_append (k v : List Byte) (h : (0x3d : Byte) ∉ k) :
    splitFirstEq (k ++ 0x3d :: v) = some (k, v) := by
  unfold splitFirstEq
  have h1 : (k ++ 0x3d :: v).takeWhile (fun c => c != 0x3d) = k := by
    rw [List.takeWhile_append_of_pos]
    · simp
    · intro c hc
      have : c ≠ 0x3d := fun e => h (e ▸ hc)
      simpa using this
  have h2 : (k ++ 0x3d :: v).dropWhile (fun c => c != 0x3d) = 0x3d :: v := by
    rw [List.dropWhile_append_of_pos]
    · simp
    · intro c hc
      have : c ≠ 0x3d := fun e => h (e ▸ hc)
      simpa using this
  simp [h1, h2]

/-- Removing the quotes around a text that neither starts nor ends with a
quote: every leading and trailing quote goes. -/
theorem TrimQuotes_replicate (a b : Nat) (mid : List Byte) (h1 : mid.head? ≠ some 0x22)
    (h2 : mid.getLast? ≠ some 0x22) :
    TrimQuotes (List.replicate a 0x22 ++ mid ++ List.replicate b 0x22) = mid := by
  unfold TrimQuotes
  have hdrop : ∀ (n : Nat) (l : List Byte), l.head? ≠ some 0x22 →
      (List.replicate n (0x22 : Byte) ++ l).dropWhile (fun c => c == 0x22) = l := by
    intro n l hl
    induction n with
    | zero =>
      cases l with
      | nil => rfl
      | cons x xs =>
        have : x ≠ 0x22 := fun e => hl (by simp [e])
        simp [List.dropWhile_cons, this]
    | succ n ih => simpa [List.replicate_succ, List.dropWhile_cons] using ih
  cases hmid : mid with
  | nil =>
    have e : (List.replicate a (0x22 : Byte) ++ [] ++ List.replicate b 0x22).reverse
        = List.replicate (b + a) 0x22 ++ [] := by
      rw [List.append_nil, List.append_nil, List.reverse_append, List.reverse_replicate,
        List.reverse_replicate, List.replicate_add]
    rw [e, hdrop (b + a) [] (by simp)]
    rfl
  | cons m ms =>
    rw [← hmid]
    have hrev : (List.replicate a 0x22 ++ mid ++ List.replicate b 0x22).reverse
        = List.replicate b 0x22 ++ (mid.reverse ++ List.replicate a 0x22) := by
      simp [List.reverse_append, List.append_assoc]
    rw [hrev, hdrop b]
    · rw [List.reverse_append, List.reverse_reverse, List.reverse_replicate, hdrop a mid h1]
    · cases hm : mid.reverse with
      | nil =>
        rw [List.reverse_eq_nil_iff] at hm
        rw [hm] at hmid
        exact absurd hmid (by simp)
      | cons x xs =>
        have : mid.getLast? = some x := by
          rw [← List.head?_reverse, hm]; rfl
        rw [this] at h2
        simpa using h2

/-- A field of a conditional value that is the same in both branches. -/
theorem groupField_ite (g : PropertyGroup) (c : Prop) [Decidable c]
    (a b : projectstream.ProjectStream) (x : List projectstream.ProjectProperty)
    (ha : groupField g a = x) (hb : groupField g b = x) :
    groupField g (if c then a else b) = x := by
  split_ifs <;> assumption

/-- The second `switch` of the parser loop leaves the three groups as they
are. -/
theorem groupField_extractValue (g : PropertyGroup) (ps : projectstream.ProjectStream)
    (key value : List Byte) : groupField g (extractValue ps key value) = groupField g ps := by
  unfold extractValue
  repeat (apply groupField_ite; · cases g <;> rfl)
  cases g <;> rfl

/-- The first `switch` of the parser loop appends the property to the group
of the section name and to no other group. -/
theorem groupField_appendToGroup (g : PropertyGroup) (ps : projectstream.ProjectStream)
    (name : List Byte) (prop : projectstream.ProjectProperty) :
    groupField g (appendToGroup ps name prop)
      = groupField g ps ++ (if groupOfSection (some name) = g then [prop] else []) := by
  unfold appendToGroup groupOfSection
  split_ifs <;> cases g <;> simp_all [groupField]

/-- The group depends on the section name only, an absent header counting as
the empty name. -/
theorem groupOfSection_getD (o : Option (List Byte)) :
    groupOfSection (some (o.getD [])) = groupOfSection o := by
  cases o <;> rfl

/-- The most recent section header after one more line. -/
theorem lastSectionName_snoc (before : List (List Byte)) (l : List Byte) :
    lastSectionName (before ++ [l])
      = if isSectionLine l then some (sectionNameOf l) else lastSectionName before := by
  unfold lastSectionName
  rw [List.filter_append]
  by_cases h : isSectionLine l = true
  · simp [h, List.filter_cons, List.getLast?_append]
  · simp [h, List.filter_cons]

/-- The empty line is neither a section header nor a property line. -/
theorem isSectionLine_nil : isSectionLine [] = false := rfl

/-- One iteration of the parser loop in terms of the trimmed line. -/
theorem parseProjectStreamStep_eq (str : GoStrings) (st : ProjectParseState)
    (rawLine : List Byte) :
    parseProjectStreamStep str st rawLine
      = if isSectionLine (TrimSpace str rawLine) then
          { st with sectionName := sectionNameOf (TrimSpace str rawLine) }
        else if isPropertyLine (TrimSpace str rawLine) then
          { st with
            ps := extractValue
                    (appendToGroup st.ps st.sectionName
                      (propertyOfLine str (TrimSpace str rawLine)))
                    (propertyOfLine str (TrimSpace str rawLine)).Key
                    (propertyOfLine str (TrimSpace str rawLine)).Value }
        else st := by
  unfold parseProjectStreamStep
  generalize TrimSpace str rawLine = l
  by_cases hl : l = []
  · subst hl
    simp [isSectionLine_nil, isPropertyLine]
  · by_cases hs : isSectionLine l = true
    · have hs' := hs
      unfold isSectionLine at hs'
      simp [hl, hs, hs', sectionNameOf]
    · have hs' := hs
      unfold isSectionLine at hs'
      by_cases he : (0x3d : Byte) ∈ l
      · have hp : isPropertyLine l = true := by
          unfold isPropertyLine
          simp [hl, hs, he]
        simp only [hl, if_false, hs', hs, hp, if_true, splitFirstEq, he, propertyOfLine]
        rfl
      · have hp : isPropertyLine l = false := by
          unfold isPropertyLine
          simp [he]
        simp [hl, hs, hs', hp, splitFirstEq, he]

/-- The loop of the parser appends to each group the properties of that group
among the lines it reads. -/
theorem parseProjectStream_fold (str : GoStrings) (g : PropertyGroup) (raws : List (List Byte))
    (st : ProjectParseState) (before : List (List Byte))
    (hsec : st.sectionName = (lastSectionName before).getD []) :
    groupField g ((raws.foldl (parseProjectStreamStep str) st).ps)
      = groupField g st.ps
        ++ groupProperties str g before (raws.map (TrimSpace str)) := by
  induction raws generalizing st before with
  | nil => simp [groupProperties]
  | cons r rest ih =>
    rw [List.foldl_cons, List.map_cons, groupProperties]
    have hg : groupOfSection (lastSectionName before) = groupOfSection (some st.sectionName) := by
      rw [hsec, groupOfSection_getD]
    rw [parseProjectStreamStep_eq]
    by_cases hs : isSectionLine (TrimSpace str r) = true
    · have hp : isPropertyLine (TrimSpace str r) = false := by
        unfold isPropertyLine
        simp [hs]
      rw [if_pos hs, ih _ (before ++ [TrimSpace str r])]
      · simp [hp]
      · rw [lastSectionName_snoc, if_pos hs]
        rfl
    · rw [if_neg hs]
      have hsnoc : lastSectionName (before ++ [TrimSpace str r]) = lastSectionName before := by
        rw [lastSectionName_snoc, if_neg hs]
      by_cases hp : isPropertyLine (TrimSpace str r) = true
      · rw [if_pos hp]
        refine (ih _ (before ++ [TrimSpace str r]) ?_).trans ?_
        · rw [hsnoc]; exact hsec
        · simp only [groupField_extractValue, groupField_appendToGroup, hp, Bool.true_and, hg,
            List.append_assoc]
          by_cases hgg : groupOfSection (some st.sectionName) = g
          · simp [hgg]
          · simp [hgg]
      · rw [if_neg hp]
        refine (ih _ (before ++ [TrimSpace str r]) ?_).trans ?_
        · rw [hsnoc]; exact hsec
        · simp [hp]

/-- The groups that `ParseProjectStream` returns. -/
theorem ParseProjectStream_groupField (str : GoStrings) (g : PropertyGroup) (input : List Byte) :
    groupField g (ParseProjectStream str input)
      = groupProperties str g [] ((splitCrLf input).map (TrimSpace str)) := by
  unfold ParseProjectStream
  rw [parseProjectStream_fold str g _ _ [] rfl]
  cases g <;> rfl

/-- Every property line belongs to exactly one group: the sizes of the three
groups add up to the number of property lines. -/
theorem groupProperties_length (str : GoStrings) (before lines : List (List Byte)) :
    (groupProperties str .main before lines).length
      + (groupProperties str .hostExtender before lines).length
      + (groupProperties str .other before lines).length
      = (lines.filter isPropertyLine).length := by
  induction lines generalizing before with
  | nil => rfl
  | cons l rest ih =>
    have := ih (before ++ [l])
    simp only [groupProperties, List.length_append, List.filter_cons]
    by_cases hp : isPropertyLine l = true
    · cases hg : groupOfSection (lastSectionName before) <;> simp [hp] <;> omega
    · simp [hp]
      omega

/-- Every property of a group is the property of one of the property lines. -/
theorem mem_groupProperties (str : GoStrings) (g : PropertyGroup) (before lines : List (List Byte))
    (prop : projectstream.ProjectProperty) (h : prop ∈ groupProperties str g before lines) :
    ∃ l ∈ lines, isPropertyLine l = true ∧ prop = propertyOfLine str l := by
  induction lines generalizing before with
  | nil => simp [groupProperties] at h
  | cons l rest ih =>
    rw [groupProperties, List.mem_append] at h
    rcases h with h | h
    · split_ifs at h with hc
      · rw [List.mem_singleton] at h
        rw [Bool.and_eq_true] at hc
        exact ⟨l, List.mem_cons_self _ _, hc.1, h⟩
      · simp at h
    · obtain ⟨l', hl', hp, he⟩ := ih _ h
      exact ⟨l', List.mem_cons_of_mem _ hl', hp, he⟩

/-- Every property that `ParseProjectStream` records is the property of the
trimmed form of a segment of the input that is a property line. -/
theorem mem_ParseProjectStream (str : GoStrings) (input : List Byte)
    (prop : projectstream.ProjectProperty)
    (h : prop ∈ (ParseProjectStream str input).MainProperties ∨
      prop ∈ (ParseProjectStream str input).HostExtenderProperties ∨
      prop ∈ (ParseProjectStream str input).OtherProperties) :
    ∃ seg ∈ splitCrLf input, isPropertyLine (TrimSpace str seg) = true ∧
      prop = propertyOfLine str (TrimSpace str seg) := by
  have key : ∀ g, prop ∈ groupField g (ParseProjectStream str input) →
      ∃ seg ∈ splitCrLf input, isPropertyLine (TrimSpace str seg) = true ∧
        prop = propertyOfLine str (TrimSpace str seg) := by
    intro g hg
    rw [ParseProjectStream_groupField] at hg
    obtain ⟨l, hl, hp, he⟩ := mem_groupProperties str g _ _ prop hg
    obtain ⟨seg, hseg, rfl⟩ := List.mem_map.mp hl
    exact ⟨seg, hseg, hp, he⟩
  rcases h with h | h | h
  · exact key .main h
  · exact key .hostExtender h
  · exact key .other h

/-- A line that contains `=` is the text before the first `=`, the `=`, and
the text after it. -/
theorem eq_append_first_eq (l : List Byte) (h : (0x3d : Byte) ∈ l) :
    l = l.takeWhile (fun c => c != 0x3d) ++ 0x3d :: (l.dropWhile (fun c => c != 0x3d)).drop 1 ∧
    (0x3d : Byte) ∉ l.takeWhile (fun c => c != 0x3d) := by
  induction l with
  | nil => simp at h
  | cons c l ih =>
    by_cases hc : c = 0x3d
    · subst hc
      simp
    · have hin : (0x3d : Byte) ∈ l := by
        rcases List.mem_cons.mp h with h | h
        · exact absurd h.symm hc
        · exact h
      obtain ⟨h1, h2⟩ := ih hin
      have hb : (c != 0x3d) = true := by simpa using hc
      constructor
      · rw [List.takeWhile_cons, List.dropWhile_cons]
        simp only [hb, if_true, List.cons_append]
        rw [← h1]
      · rw [List.takeWhile_cons]
        simp only [hb, if_true]
        intro hm
        rcases List.mem_cons.mp hm with hm | hm
        · exact hc hm.symm
        · exact h2 hm

/-- A property line contains `=`. -/
theorem mem_of_isPropertyLine (l : List Byte) (h : isPropertyLine l = true) :
    (0x3d : Byte) ∈ l := by
  unfold isPropertyLine at h
  simp only [Bool.and_eq_true] at h
  simpa using h.2

/-- The field `Raw` of a conditional value, when both branches have the same
one. -/
theorem Raw_ite (c : Prop) [Decidable c] (a b : projectstream.ProjectStream) (r : List Byte)
    (ha : a.Raw = r) (hb : b.Raw = r) : (if c then a else b).Raw = r := by
  split_ifs <;> assumption

/-- The function `extractValue` does not write the field `Raw`. -/
theorem extractValue_Raw (ps : projectstream.ProjectStream) (key value : List Byte) :
    (extractValue ps key value).Raw = ps.Raw := by
  unfold extractValue
  repeat (apply Raw_ite; · rfl)
  rfl

/-- Appending a property to its group does not write the field `Raw`. -/
theorem appendToGroup_Raw (ps : projectstream.ProjectStream) (sectionName : List Byte)
    (prop : projectstream.ProjectProperty) :
    (appendToGroup ps sectionName prop).Raw = ps.Raw := by
  unfold appendToGroup
  repeat (apply Raw_ite; · rfl)
  rfl

/-- The loop of `ParseProjectStream` does not write the field `Raw`. -/
theorem parseProjectStreamStep_Raw (str : GoStrings) (st : ProjectParseState)
    (rawLine : List Byte) :
    (parseProjectStreamStep str st rawLine).ps.Raw = st.ps.Raw := by
  rw [parseProjectStreamStep_eq]
  split_ifs
  · rfl
  · show (extractValue _ _ _).Raw = _
    rw [extractValue_Raw, appendToGroup_Raw]
  · rfl

/-- The field `Raw` of the parsed project stream is the input. -/
theorem ParseProjectStream_Raw (str : GoStrings) (input : List Byte) :
    (ParseProjectStream str input).Raw = input := by
  unfold ParseProjectStream
  have key : ∀ (raws : List (List Byte)) (st : ProjectParseState),
      (raws.foldl (parseProjectStreamStep str) st).ps.Raw = st.ps.Raw := by
    intro raws
    induction raws with
    | nil => intro st; rfl
    | cons r rest ih =>
      intro st
      rw [List.foldl_cons, ih, parseProjectStreamStep_Raw]
  rw [key]

/-! ### One module source changed -/

/-- The lines of the start state are a prefix of the lines of the loop of
`parseModuleV3`; the rest does not depend on them. -/
theorem parseModuleV3_fold_lines_carried (v : List Byte) (st : ParseState) :
    (v.foldl parseModuleV3Step st).lines
      = st.lines ++ (v.foldl parseModuleV3Step { st with lines := [] }).lines := by
  induction v generalizing st with
  | nil => simp
  | cons c v ih =>
    rw [List.foldl_cons, List.foldl_cons, ih (parseModuleV3Step st c),
      ih (parseModuleV3Step { st with lines := [] } c)]
    unfold parseModuleV3Step
    split_ifs <;> simp

/-- Bytes other than `0x0D` and `0x0A` go to the text buffer. -/
theorem parseModuleV3_fold_no_crlf (w : List Byte) (st : ParseState)
    (h : ∀ c ∈ w, isCrLf c = false) :
    (w.foldl parseModuleV3Step st).lines = st.lines ∧
    (w.foldl parseModuleV3Step st).textBuffer = st.textBuffer ++ w ∧
    ((w.foldl parseModuleV3Step st).previousChar = 0x0d → st.previousChar = 0x0d) := by
  induction w generalizing st with
  | nil => simp
  | cons c w ih =>
    have hc := (isCrLf_eq_false_iff c).mp (h c (List.mem_cons_self _ _))
    obtain ⟨h1, h2, h3⟩ := ih (parseModuleV3Step st c) (fun x hx => h x (List.mem_cons_of_mem _ hx))
    have hstep : parseModuleV3Step st c
        = { lines := st.lines, textBuffer := st.textBuffer ++ [c], previousChar := c } := by
      unfold parseModuleV3Step
      simp [hc.1, hc.2]
    rw [List.foldl_cons]
    rw [hstep] at h1 h2 h3 ⊢
    refine ⟨h1, ?_, ?_⟩
    · rw [h2]; simp
    · intro hp
      exact absurd (h3 hp) hc.1

/-- After the empty text or a text that ends with CRLF the text buffer is
empty and the previous byte is not `0x0D`. -/
theorem parseModuleV3_fold_line_start (pre : List Byte)
    (hpre : pre = [] ∨ ∃ pre', pre = pre' ++ [0x0d, 0x0a]) :
    (pre.foldl parseModuleV3Step ParseState.init).textBuffer = [] ∧
    (pre.foldl parseModuleV3Step ParseState.init).previousChar ≠ 0x0d := by
  rcases hpre with rfl | ⟨pre', rfl⟩
  · exact ⟨rfl, by decide⟩
  · rw [List.foldl_append]
    generalize pre'.foldl parseModuleV3Step ParseState.init = st
    by_cases h : st.previousChar = 0x0d <;> simp [parseModuleV3Step, h]

/-- A line without `0x0D` and `0x0A`, followed by CRLF and inserted at the
start of a line, adds exactly that line to the output of `parseModuleV3`. -/
theorem parseModuleV3_insert_line (pre post attr : List Byte)
    (hattr : ∀ c ∈ attr, isCrLf c = false)
    (hpre : pre = [] ∨ ∃ pre', pre = pre' ++ [0x0d, 0x0a]) :
    ∃ B, parseModuleV3 (pre ++ attr ++ [0x0d, 0x0a] ++ post) = parseModuleV3 pre ++ attr :: B ∧
      parseModuleV3 (pre ++ post) = parseModuleV3 pre ++ B := by
  obtain ⟨htb, hpc⟩ := parseModuleV3_fold_line_start pre hpre
  refine ⟨(post.foldl parseModuleV3Step
    { lines := [], textBuffer := [], previousChar := 0x0a }).lines, ?_, ?_⟩
  · unfold parseModuleV3
    rw [List.foldl_append, List.foldl_append, List.foldl_append]
    generalize pre.foldl parseModuleV3Step ParseState.init = st at htb hpc ⊢
    obtain ⟨h1, h2, h3⟩ := parseModuleV3_fold_no_crlf attr st hattr
    have hne : (attr.foldl parseModuleV3Step st).previousChar ≠ 0x0d := fun e => hpc (h3 e)
    generalize attr.foldl parseModuleV3Step st = st2 at h1 h2 hne ⊢
    have hst : [0x0d, 0x0a].foldl parseModuleV3Step st2
        = { lines := st.lines ++ [attr], textBuffer := [], previousChar := 0x0a } := by
      simp [parseModuleV3Step, hne, h1, h2, htb]
    rw [hst, parseModuleV3_fold_lines_carried]
    simp
  · unfold parseModuleV3
    rw [List.foldl_append]
    generalize pre.foldl parseModuleV3Step ParseState.init = st at htb hpc ⊢
    rw [parseModuleV3_fold_lines_carried]
    congr 1
    apply parseModuleV3_fold_congr
    · rfl
    · exact htb
    · constructor
      · intro e; exact absurd e hpc
      · intro e; exact absurd e (by decide)

/-- The default attributes contain neither `0x0D` nor `0x0A`. -/
theorem defaultAttributesV3_no_crlf :
    ∀ attr ∈ defaultAttributesV3, ∀ c ∈ attr, isCrLf c = false := by
  have h : defaultAttributesV3.all (fun attr => attr.all (fun c => !isCrLf c)) = true := by rfl
  intro attr hattr c hc
  have h1 := List.all_eq_true.mp h attr hattr
  have h2 := List.all_eq_true.mp h1 c hc
  simpa using h2

/-- The V3 normalizer appends no default attribute. -/
theorem lineAppendedV3_default (lib : GoLib) (attr : List Byte)
    (h : attr ∈ defaultAttributesV3) : lineAppendedV3 lib attr = false := by
  unfold defaultAttributesV3 at h
  simp only [List.mem_cons, List.mem_singleton, List.not_mem_nil, or_false] at h
  rcases h with rfl | rfl | rfl | rfl | rfl | rfl | rfl <;> rfl

/-- The lookup of a module after one module of the list was replaced by a
module of the same name: the same result, or the replaced module and its
replacement. -/
theorem find?_replace {α : Type} (f : α → Bool) (l1 l2 : List α) (x y : α) (h : f y = f x) :
    (l1 ++ y :: l2).find? f = (l1 ++ x :: l2).find? f ∨
      ((l1 ++ x :: l2).find? f = some x ∧ (l1 ++ y :: l2).find? f = some y) := by
  induction l1 with
  | nil =>
    by_cases hx : f x = true
    · right
      simp [List.find?_cons, hx, h]
    · left
      simp [List.find?_cons, hx, h]
  | cons a l1 ih =>
    by_cases ha : f a = true
    · left
      simp [List.find?_cons, ha]
    · simpa [List.find?_cons, ha] using ih

/-- The lookup of the name of the first module with that name. -/
theorem find?_first {α : Type} (f : α → Bool) (l1 l2 : List α) (x : α)
    (h1 : ∀ a ∈ l1, f a = false) (hx : f x = true) : (l1 ++ x :: l2).find? f = some x := by
  induction l1 with
  | nil => simp [List.find?_cons, hx]
  | cons a l1 ih =>
    have ha := h1 a (List.mem_cons_self _ _)
    simp only [List.cons_append, List.find?_cons, ha]
    exact ih (fun b hb => h1 b (List.mem_cons_of_mem _ hb))

/-- An unknown module is the explicit panic of the module loop. -/
theorem moduleStepV3_none (lib : GoLib) (p : VbaProject) (buf : List Byte) (m : dirstream.Module)
    (h : p.ModuleStream.GetModule (ConvertFromCodepageToUtf8 lib m.NameRecord.ModuleName
      p.DirStream.InformationRecord.CodePage.CodePage) = none) :
    moduleStepV3 lib p buf m = .panic := by
  unfold moduleStepV3
  simp only [h]

/-- The module loop reads a project through its dir stream and the lookup of
module streams only. -/
theorem modulesV3_congr (lib : GoLib) (p q : VbaProject)
    (h : ∀ (buf : List Byte) (m : dirstream.Module),
      moduleStepV3 lib q buf m = moduleStepV3 lib p buf m)
    (mods : List dirstream.Module) (buf : List Byte) :
    modulesV3 lib q mods buf = modulesV3 lib p mods buf := by
  induction mods generalizing buf with
  | nil => rfl
  | cons m rest ih =>
    unfold modulesV3
    rw [h]
    congr 1
    funext b
    exact ih b

/-- A line loop with the same appended lines gives the same iteration of the
module loop. -/
theorem moduleStepV3_congr_lines (lib : GoLib) (p q : VbaProject) (buf : List Byte)
    (m : dirstream.Module) (x y : modulestream.Module)
    (hdir : q.DirStream = p.DirStream)
    (hrel : ∀ name, q.ModuleStream.GetModule name = p.ModuleStream.GetModule name ∨
      (p.ModuleStream.GetModule name = some x ∧ q.ModuleStream.GetModule name = some y))
    (hlines : (parseModuleV3 y.SourceCode).filter (lineAppendedV3 lib)
      = (parseModuleV3 x.SourceCode).filter (lineAppendedV3 lib)) :
    moduleStepV3 lib q buf m = moduleStepV3 lib p buf m := by
  have hany : ∀ l : List (List Byte), l.any (lineAppendedV3 lib)
      = !(l.filter (lineAppendedV3 lib)).isEmpty := by
    intro l
    induction l with
    | nil => rfl
    | cons a l ih =>
      by_cases ha : lineAppendedV3 lib a = true
      · simp [ha]
      · simp [ha, ih]
  rcases hrel (ConvertFromCodepageToUtf8 lib m.NameRecord.ModuleName
      p.DirStream.InformationRecord.CodePage.CodePage) with hsame | ⟨hx, hy⟩
  · unfold moduleStepV3
    simp only [hdir, hsame]
  · have hy' : q.ModuleStream.GetModule (ConvertFromCodepageToUtf8 lib m.NameRecord.ModuleName
        q.DirStream.InformationRecord.CodePage.CodePage) = some y := by
      rw [hdir]; exact hy
    rw [moduleStepV3_eq lib q buf m y hy', moduleStepV3_eq lib p buf m x hx, hany, hany, hlines]

/-- The function `contentNormalizedDataV3` reads a project through its dir
stream and its module loop only. -/
theorem contentNormalizedDataV3_congr (lib : GoLib) (p q : VbaProject)
    (hdir : q.DirStream = p.DirStream)
    (h : ∀ (buf : List Byte) (m : dirstream.Module),
      moduleStepV3 lib q buf m = moduleStepV3 lib p buf m) :
    contentNormalizedDataV3 lib q = contentNormalizedDataV3 lib p := by
  rw [contentNormalizedDataV3_eq, contentNormalizedDataV3_eq, hdir]
  congr 1
  funext b1
  rw [modulesV3_congr lib p q h]

/-- The function `projectNormalizedData` reads the module streams through the
lookup and the child streams only. -/
theorem projectNormalizedData_congr (p q : VbaProject) (x y : modulestream.Module)
    (hps : q.ProjectStream = p.ProjectStream)
    (hrel : ∀ name, q.ModuleStream.GetModule name = p.ModuleStream.GetModule name ∨
      (p.ModuleStream.GetModule name = some x ∧ q.ModuleStream.GetModule name = some y))
    (hcs : y.ChildStreams = x.ChildStreams) :
    projectNormalizedData q = projectNormalizedData p := by
  have hstep : ∀ (buf : List Byte) (prop : projectstream.ProjectProperty),
      propertyStepPN q buf prop = propertyStepPN p buf prop := by
    intro buf prop
    unfold propertyStepPN
    rcases hrel prop.Value with h | ⟨hx, hy⟩
    · rw [h]
    · rw [hx, hy]
      simp only [normalizeDesignerStorage, hcs]
  have hloop : ∀ (props : List projectstream.ProjectProperty) (buf : List Byte),
      propertiesPN q props buf = propertiesPN p props buf := by
    intro props
    induction props with
    | nil => intro buf; rfl
    | cons prop rest ih =>
      intro buf
      unfold propertiesPN
      rw [hstep]
      congr 1
      funext b
      exact ih b
  unfold projectNormalizedData
  rw [hps, hloop]

/-- Replacing the source of one module keeps its name: the lookup finds the
same module as before, or the replaced module and its replacement. -/
theorem GetModule_replace_source (ms1 ms2 : List modulestream.Module) (m : modulestream.Module)
    (src : List Byte) (name : List Byte) :
    (modulestream.ModuleStream.mk (ms1 ++ { m with SourceCode := src } :: ms2)).GetModule name
        = (modulestream.ModuleStream.mk (ms1 ++ m :: ms2)).GetModule name ∨
      ((modulestream.ModuleStream.mk (ms1 ++ m :: ms2)).GetModule name = some m ∧
        (modulestream.ModuleStream.mk (ms1 ++ { m with SourceCode := src } :: ms2)).GetModule name
          = some { m with SourceCode := src }) := by
  unfold modulestream.ModuleStream.GetModule
  exact find?_replace _ ms1 ms2 m { m with SourceCode := src } rfl

/-- Two runs of the loop of `parseModuleV3` whose text buffers differ in one
byte: either no line ends in the rest of the text and both keep their lines,
or the line that ends first holds the byte and all other lines are equal. -/
theorem parseModuleV3_fold_lockstep (c : List Byte) (A : List (List Byte)) (t w : List Byte)
    (b b' pc pc' : Byte) (hpc : pc = 0x0d ↔ pc' = 0x0d) :
    ((c.foldl parseModuleV3Step
          { lines := A, textBuffer := t ++ b :: w, previousChar := pc }).lines = A ∧
      (c.foldl parseModuleV3Step
          { lines := A, textBuffer := t ++ b' :: w, previousChar := pc' }).lines = A) ∨
    ∃ v L2,
      (c.foldl parseModuleV3Step
          { lines := A, textBuffer := t ++ b :: w, previousChar := pc }).lines
        = A ++ (t ++ b :: v) :: L2 ∧
      (c.foldl parseModuleV3Step
          { lines := A, textBuffer := t ++ b' :: w, previousChar := pc' }).lines
        = A ++ (t ++ b' :: v) :: L2 := by
  induction c generalizing w pc pc' with
  | nil => left; exact ⟨rfl, rfl⟩
  | cons x c ih =>
    rw [List.foldl_cons, List.foldl_cons]
    by_cases hx : x = 0x0a ∨ x = 0x0d
    · by_cases hp : pc = 0x0d
      · have hp' : pc' = 0x0d := hpc.mp hp
        right
        refine ⟨w, (c.foldl parseModuleV3Step
          { lines := [], textBuffer := [], previousChar := x }).lines, ?_, ?_⟩
        · rw [parseModuleV3_fold_lines_carried]
          simp [parseModuleV3Step, hx, hp]
        · rw [parseModuleV3_fold_lines_carried]
          simp [parseModuleV3Step, hx, hp']
      · have hp' : ¬ pc' = 0x0d := fun e => hp (hpc.mpr e)
        have h1 : parseModuleV3Step
            { lines := A, textBuffer := t ++ b :: w, previousChar := pc } x
            = { lines := A, textBuffer := t ++ b :: w, previousChar := x } := by
          simp [parseModuleV3Step, hx, hp]
        have h2 : parseModuleV3Step
            { lines := A, textBuffer := t ++ b' :: w, previousChar := pc' } x
            = { lines := A, textBuffer := t ++ b' :: w, previousChar := x } := by
          simp [parseModuleV3Step, hx, hp']
        rw [h1, h2]
        exact ih w x x Iff.rfl
    · have h1 : parseModuleV3Step
          { lines := A, textBuffer := t ++ b :: w, previousChar := pc } x
          = { lines := A, textBuffer := t ++ b :: (w ++ [x]), previousChar := x } := by
        simp [parseModuleV3Step, hx]
      have h2 : parseModuleV3Step
          { lines := A, textBuffer := t ++ b' :: w, previousChar := pc' } x
          = { lines := A, textBuffer := t ++ b' :: (w ++ [x]), previousChar := x } := by
        simp [parseModuleV3Step, hx]
      rw [h1, h2]
      exact ih (w ++ [x]) x x Iff.rfl

/-- Replacing one byte of a text by another, neither being `0x0D` or `0x0A`:
either no line ends after the byte and the output of `parseModuleV3` is that
of the text before the byte in both cases, or the two outputs differ in that
byte of one line only. -/
theorem parseModuleV3_change_byte (a c : List Byte) (b b' : Byte)
    (hb : isCrLf b = false) (hb' : isCrLf b' = false) :
    (parseModuleV3 (a ++ b :: c) = parseModuleV3 a ∧
      parseModuleV3 (a ++ b' :: c) = parseModuleV3 a) ∨
    ∃ u v L2,
      parseModuleV3 (a ++ b :: c) = parseModuleV3 a ++ (u ++ b :: v) :: L2 ∧
      parseModuleV3 (a ++ b' :: c) = parseModuleV3 a ++ (u ++ b' :: v) :: L2 := by
  have hbn := (isCrLf_eq_false_iff b).mp hb
  have hbn' := (isCrLf_eq_false_iff b').mp hb'
  unfold parseModuleV3
  rw [List.foldl_append, List.foldl_append, List.foldl_cons, List.foldl_cons]
  generalize a.foldl parseModuleV3Step ParseState.init = st
  have h1 : parseModuleV3Step st b
      = { lines := st.lines, textBuffer := st.textBuffer ++ b :: [], previousChar := b } := by
    simp [parseModuleV3Step, hbn.1, hbn.2]
  have h2 : parseModuleV3Step st b'
      = { lines := st.lines, textBuffer := st.textBuffer ++ b' :: [], previousChar := b' } := by
    simp [parseModuleV3Step, hbn'.1, hbn'.2]
  rw [h1, h2]
  rcases parseModuleV3_fold_lockstep c st.lines st.textBuffer [] b b' b b'
      ⟨fun e => absurd e hbn.1, fun e => absurd e hbn'.1⟩ with h | ⟨v, L2, h, h'⟩
  · left; exact h
  · right; exact ⟨st.textBuffer, v, L2, h, h'⟩

/-- The module-name block appends to the buffer it is given. -/
theorem moduleNameV3_buf (buf y : List Byte) (flag : Bool) (m : dirstream.Module) :
    moduleNameV3 (buf ++ y) flag m = (moduleNameV3 y flag m).bind (fun x => .ok (buf ++ x)) := by
  unfold moduleNameV3
  cases flag with
  | false => simp
  | true =>
    cases m.NameUnicodeRecord with
    | none => rfl
    | some nu =>
      simp only [if_true, Res.bind_ok]
      split_ifs <;> simp [List.append_assoc]

/-- An iteration of the module loop appends to the buffer it is given. -/
theorem moduleStepV3_buf (lib : GoLib) (p : VbaProject) (buf : List Byte) (m : dirstream.Module) :
    moduleStepV3 lib p buf m = (moduleStepV3 lib p [] m).bind (fun x => .ok (buf ++ x)) := by
  cases hms : p.ModuleStream.GetModule (ConvertFromCodepageToUtf8 lib m.NameRecord.ModuleName
      p.DirStream.InformationRecord.CodePage.CodePage) with
  | none =>
    rw [moduleStepV3_none lib p buf m hms, moduleStepV3_none lib p [] m hms]
    rfl
  | some ms =>
    rw [moduleStepV3_eq lib p buf m ms hms, moduleStepV3_eq lib p [] m ms hms,
      List.append_assoc, List.append_assoc, moduleNameV3_buf, List.nil_append]

/-- A module loop that returns appends one contribution per module. -/
theorem modulesV3_ok (lib : GoLib) (p : VbaProject) (mods : List dirstream.Module)
    (buf out : List Byte) (h : modulesV3 lib p mods buf = .ok out) :
    ∃ cs, List.Forall₂ (fun d c => moduleStepV3 lib p [] d = .ok c) mods cs ∧
      out = buf ++ cs.flatten := by
  induction mods generalizing buf out with
  | nil =>
    unfold modulesV3 at h
    injection h with h
    exact ⟨[], List.Forall₂.nil, by simp [h]⟩
  | cons d rest ih =>
    unfold modulesV3 at h
    obtain ⟨b1, h1, h2⟩ := Res.bind_eq_ok _ _ _ h
    rw [moduleStepV3_buf] at h1
    obtain ⟨c, hc, h3⟩ := Res.bind_eq_ok _ _ _ h1
    injection h3 with h3
    obtain ⟨cs, hcs, hout⟩ := ih b1 out h2
    exact ⟨c :: cs, List.Forall₂.cons hc hcs, by rw [hout, ← h3]; simp⟩

/-- A module loop whose iterations return returns their contributions. -/
theorem modulesV3_of_forall₂ (lib : GoLib) (p : VbaProject) (mods : List dirstream.Module)
    (cs : List (List Byte)) (buf : List Byte)
    (h : List.Forall₂ (fun d c => moduleStepV3 lib p [] d = .ok c) mods cs) :
    modulesV3 lib p mods buf = .ok (buf ++ cs.flatten) := by
  induction h generalizing buf with
  | nil => simp [modulesV3]
  | cons hc _ ih =>
    unfold modulesV3
    rw [moduleStepV3_buf, hc, Res.bind_ok, Res.bind_ok, ih]
    simp

/-- An iteration of the module loop reads a project through its dir stream and
the lookup of the module stream only. -/
theorem moduleStepV3_congr_lookup (lib : GoLib) (p q : VbaProject) (buf : List Byte)
    (d : dirstream.Module) (hdir : q.DirStream = p.DirStream)
    (hsame : q.ModuleStream.GetModule (ConvertFromCodepageToUtf8 lib d.NameRecord.ModuleName
        p.DirStream.InformationRecord.CodePage.CodePage)
      = p.ModuleStream.GetModule (ConvertFromCodepageToUtf8 lib d.NameRecord.ModuleName
        p.DirStream.InformationRecord.CodePage.CodePage)) :
    moduleStepV3 lib q buf d = moduleStepV3 lib p buf d := by
  unfold moduleStepV3
  simp only [hdir, hsame]

/-- The contribution of a module whose source changed in one appended line:
the new contribution is not longer and is different. -/
theorem moduleStepV3_source_changed (lib : GoLib) (p q : VbaProject)
    (m m' : modulestream.Module) (d : dirstream.Module) (A L2 : List (List Byte))
    (l l' : List Byte) (hdir : q.DirStream = p.DirStream)
    (hx : p.ModuleStream.GetModule (ConvertFromCodepageToUtf8 lib d.NameRecord.ModuleName
      p.DirStream.InformationRecord.CodePage.CodePage) = some m)
    (hy : q.ModuleStream.GetModule (ConvertFromCodepageToUtf8 lib d.NameRecord.ModuleName
      p.DirStream.InformationRecord.CodePage.CodePage) = some m')
    (hl : parseModuleV3 m.SourceCode = A ++ l :: L2)
    (hl' : parseModuleV3 m'.SourceCode = A ++ l' :: L2)
    (hk : lineAppendedV3 lib l = true) (hlen : l'.length = l.length) (hne : l' ≠ l)
    (c : List Byte) (hc : moduleStepV3 lib p [] d = .ok c) :
    ∃ c', moduleStepV3 lib q [] d = .ok c' ∧ c'.length ≤ c.length ∧ c' ≠ c := by
  have hy' : q.ModuleStream.GetModule (ConvertFromCodepageToUtf8 lib d.NameRecord.ModuleName
      q.DirStream.InformationRecord.CodePage.CodePage) = some m' := by
    rw [hdir]; exact hy
  rw [moduleStepV3_eq lib p [] d m hx, hl] at hc
  rw [moduleStepV3_eq lib q [] d m' hy', hl']
  have hany : (A ++ l :: L2).any (lineAppendedV3 lib) = true := by
    simp [hk]
  rw [hany] at hc
  cases hnu : d.NameUnicodeRecord with
  | none =>
    rw [moduleNameV3_none _ _ hnu] at hc
    exact absurd hc (by simp)
  | some nu =>
    rw [moduleNameV3_some _ _ nu hnu] at hc
    injection hc with hc
    rw [List.filter_append, List.filter_cons, if_pos hk] at hc
    by_cases hk' : lineAppendedV3 lib l' = true
    · have hany' : (A ++ l' :: L2).any (lineAppendedV3 lib) = true := by
        simp [hk']
      rw [hany', moduleNameV3_some _ _ nu hnu, List.filter_append, List.filter_cons, if_pos hk']
      refine ⟨_, rfl, ?_, ?_⟩
      · rw [← hc]
        simp only [List.length_append, List.map_append, List.map_cons, List.flatten_append,
          List.flatten_cons, List.length_cons, List.length_nil, hlen]
        omega
      · rw [← hc]
        intro e
        simp only [List.nil_append, List.map_append, List.map_cons, List.flatten_append,
          List.flatten_cons, List.append_assoc, List.append_cancel_left_eq] at e
        have e2 := List.append_inj_left e hlen
        exact hne e2
    · rw [List.filter_append, List.filter_cons, if_neg hk']
      have hshort : ∀ c', moduleNameV3
          ([] ++ moduleRecordsV3 d ++ (List.map (fun l => l ++ [0x0a])
            (List.filter (lineAppendedV3 lib) A ++ List.filter (lineAppendedV3 lib) L2)).flatten)
          ((A ++ l' :: L2).any (lineAppendedV3 lib)) d = .ok c' → c'.length < c.length := by
        intro c' hc'
        cases hflag : (A ++ l' :: L2).any (lineAppendedV3 lib) with
        | false =>
          rw [hflag, moduleNameV3_false] at hc'
          injection hc' with hc'
          rw [← hc, ← hc']
          simp only [List.length_append, List.map_append, List.map_cons, List.flatten_append,
            List.flatten_cons, List.length_cons, List.length_nil]
          omega
        | true =>
          rw [hflag, moduleNameV3_some _ _ nu hnu] at hc'
          injection hc' with hc'
          rw [← hc, ← hc']
          simp only [List.length_append, List.map_append, List.map_cons, List.flatten_append,
            List.flatten_cons, List.length_cons, List.length_nil]
          omega
      rcases moduleNameV3_panic_or_ok
          ([] ++ moduleRecordsV3 d ++ (List.map (fun l => l ++ [0x0a])
            (List.filter (lineAppendedV3 lib) A ++ List.filter (lineAppendedV3 lib) L2)).flatten)
          ((A ++ l' :: L2).any (lineAppendedV3 lib)) d with hp | ⟨c', hc'⟩
      · exfalso
        cases hflag : (A ++ l' :: L2).any (lineAppendedV3 lib) with
        | false => rw [hflag, moduleNameV3_false] at hp; exact absurd hp (by simp)
        | true => rw [hflag, moduleNameV3_some _ _ nu hnu] at hp; exact absurd hp (by simp)
      · have hlt := hshort c' hc'
        refine ⟨c', hc', by omega, ?_⟩
        intro e
        rw [e] at hlt
        exact absurd hlt (by omega)

/-- Contributions that are not longer, one of them different, along a list of
modules. -/
theorem forall₂_changed {α : Type} (Rp Rq : α → List Byte → Prop) (P : α → Prop)
    (hstep : ∀ d c, Rp d c → ∃ c', Rq d c' ∧ c'.length ≤ c.length ∧ (P d → c' ≠ c))
    (mods : List α) (cs : List (List Byte)) (h : List.Forall₂ Rp mods cs) :
    ∃ cs', List.Forall₂ Rq mods cs' ∧
      List.Forall₂ (fun c c' : List Byte => c'.length ≤ c.length) cs cs' ∧
      ((∃ d ∈ mods, P d) → cs' ≠ cs) := by
  induction h with
  | nil => exact ⟨[], List.Forall₂.nil, List.Forall₂.nil, by simp⟩
  | @cons d c mods cs hc _ ih =>
    obtain ⟨c', h1, h2, h3⟩ := hstep d c hc
    obtain ⟨cs', g1, g2, g3⟩ := ih
    refine ⟨c' :: cs', List.Forall₂.cons h1 g1, List.Forall₂.cons h2 g2, ?_⟩
    rintro ⟨x, hx, hP⟩ e
    injection e with e1 e2
    rcases List.mem_cons.mp hx with rfl | hx
    · exact h3 hP e1
    · exact g3 ⟨x, hx, hP⟩ e2

/-- The concatenation of byte strings that are not longer is not longer. -/
theorem flatten_length_le (cs cs' : List (List Byte))
    (hlen : List.Forall₂ (fun c c' : List Byte => c'.length ≤ c.length) cs cs') :
    cs'.flatten.length ≤ cs.flatten.length := by
  induction hlen with
  | nil => simp
  | cons hl _ ih =>
    simp only [List.flatten_cons, List.length_append]
    omega

/-- Lists of byte strings, the second pairwise not longer, with equal
concatenation are equal. -/
theorem eq_of_flatten_eq_of_le (cs cs' : List (List Byte))
    (hlen : List.Forall₂ (fun c c' : List Byte => c'.length ≤ c.length) cs cs')
    (h : cs'.flatten = cs.flatten) : cs' = cs := by
  induction hlen with
  | nil => rfl
  | @cons c c' cs cs' hl hrest ih =>
    rw [List.flatten_cons, List.flatten_cons] at h
    have hle := flatten_length_le cs cs' hrest
    have htot := congrArg List.length h
    rw [List.length_append, List.length_append] at htot
    obtain ⟨h1, h2⟩ := List.append_inj h (by omega)
    rw [h1, ih h2]

/-- The lookup after the source of the first module with a given name was
replaced. -/
theorem GetModule_first_replaced (ms1 ms2 : List modulestream.Module) (m : modulestream.Module)
    (src : List Byte) (hfirst : ∀ x ∈ ms1, x.Name ≠ m.Name) :
    (modulestream.ModuleStream.mk (ms1 ++ m :: ms2)).GetModule m.Name = some m ∧
    (modulestream.ModuleStream.mk (ms1 ++ { m with SourceCode := src } :: ms2)).GetModule m.Name
      = some { m with SourceCode := src } := by
  unfold modulestream.ModuleStream.GetModule
  have h1 : ∀ a ∈ ms1, (fun x : modulestream.Module => x.Name == m.Name) a = false := by
    intro a ha
    simpa using hfirst a ha
  exact ⟨find?_first _ ms1 ms2 m h1 (by simp),
    find?_first _ ms1 ms2 { m with SourceCode := src } h1 (by simp)⟩

/-- The hashed buffer after one byte of an appended line of a module source
was replaced. -/
theorem hashBufferV3_changed (lib : GoLib) (p : VbaProject)
    (ms1 ms2 : List modulestream.Module) (m : modulestream.Module) (src : List Byte)
    (A L2 : List (List Byte)) (l l' : List Byte) (md : dirstream.Module) (out : List Byte)
    (hmods : p.ModuleStream.Modules = ms1 ++ m :: ms2)
    (hl : parseModuleV3 m.SourceCode = A ++ l :: L2)
    (hl' : parseModuleV3 src = A ++ l' :: L2)
    (hk : lineAppendedV3 lib l = true) (hlen : l'.length = l.length) (hne : l' ≠ l)
    (hfirst : ∀ x ∈ ms1, x.Name ≠ m.Name)
    (hmd : md ∈ p.DirStream.ModulesRecord.Modules)
    (hname : ConvertFromCodepageToUtf8 lib md.NameRecord.ModuleName
      p.DirStream.InformationRecord.CodePage.CodePage = m.Name)
    (hret : hashBufferV3 lib p = .ok out) :
    ∃ out', hashBufferV3 lib
        { p with ModuleStream := { Modules := ms1 ++ { m with SourceCode := src } :: ms2 } }
        = .ok out' ∧ out' ≠ out := by
  have hp : p.ModuleStream = modulestream.ModuleStream.mk (ms1 ++ m :: ms2) := by
    cases hm : p.ModuleStream with
    | mk mods => rw [hm] at hmods; simp only at hmods; rw [hmods]
  have hrel : ∀ name,
      (modulestream.ModuleStream.mk (ms1 ++ { m with SourceCode := src } :: ms2)).GetModule name
        = p.ModuleStream.GetModule name ∨
      (p.ModuleStream.GetModule name = some m ∧
        (modulestream.ModuleStream.mk (ms1 ++ { m with SourceCode := src } :: ms2)).GetModule name
          = some { m with SourceCode := src }) := by
    intro name
    rw [hp]
    exact GetModule_replace_source ms1 ms2 m _ name
  have hpn := projectNormalizedData_congr p
    { p with ModuleStream := { Modules := ms1 ++ { m with SourceCode := src } :: ms2 } }
    m { m with SourceCode := src } rfl hrel rfl
  -- the parts of the buffer of `p`
  unfold hashBufferV3 at hret
  obtain ⟨o1, ho1, hret⟩ := Res.bind_eq_ok _ _ _ hret
  obtain ⟨pn, hpn1, hret⟩ := Res.bind_eq_ok _ _ _ hret
  injection hret with hout
  rw [contentNormalizedDataV3_eq] at ho1
  obtain ⟨b1, hb1, ho1⟩ := Res.bind_eq_ok _ _ _ ho1
  obtain ⟨b2, hb2, ho1⟩ := Res.bind_eq_ok _ _ _ ho1
  injection ho1 with ho1
  obtain ⟨cs, hcs, hb2'⟩ := modulesV3_ok lib p _ _ _ hb2
  -- the contributions of the changed project
  obtain ⟨cs', hcs', hle, hdiff⟩ := forall₂_changed
    (fun d c => moduleStepV3 lib p [] d = .ok c)
    (fun d c => moduleStepV3 lib
      { p with ModuleStream := { Modules := ms1 ++ { m with SourceCode := src } :: ms2 } } [] d
        = .ok c)
    (fun d => ConvertFromCodepageToUtf8 lib d.NameRecord.ModuleName
      p.DirStream.InformationRecord.CodePage.CodePage = m.Name)
    (by
      intro d c hc
      by_cases hd : ConvertFromCodepageToUtf8 lib d.NameRecord.ModuleName
          p.DirStream.InformationRecord.CodePage.CodePage = m.Name
      · obtain ⟨g1, g2⟩ := GetModule_first_replaced ms1 ms2 m src hfirst
        obtain ⟨c', k1, k2, k3⟩ := moduleStepV3_source_changed lib p
          { p with ModuleStream := { Modules := ms1 ++ { m with SourceCode := src } :: ms2 } }
          m { m with SourceCode := src } d A L2 l l' rfl
          (by rw [hd, hp]; exact g1) (by rw [hd]; exact g2) hl hl' hk hlen hne c hc
        exact ⟨c', k1, k2, fun _ => k3⟩
      · rcases hrel (ConvertFromCodepageToUtf8 lib d.NameRecord.ModuleName
            p.DirStream.InformationRecord.CodePage.CodePage) with hsame | ⟨hx, hy⟩
        · refine ⟨c, ?_, le_refl _, fun h => absurd h hd⟩
          exact (moduleStepV3_congr_lookup lib p
            { p with ModuleStream := { Modules := ms1 ++ { m with SourceCode := src } :: ms2 } }
            [] d rfl hsame).trans hc
        · obtain ⟨c', k1, k2, _⟩ := moduleStepV3_source_changed lib p
            { p with ModuleStream := { Modules := ms1 ++ { m with SourceCode := src } :: ms2 } }
            m { m with SourceCode := src } d A L2 l l' rfl hx hy hl hl' hk hlen hne c hc
          exact ⟨c', k1, k2, fun h => absurd h hd⟩)
    _ _ hcs
  have hne' : cs' ≠ cs := hdiff ⟨md, hmd, hname⟩
  refine ⟨b1 ++ [0x0f, 0x00, 0x02, 0x00, 0x00, 0x00, 0x13, 0x00, 0x02, 0x00, 0x00, 0x00]
    ++ cs'.flatten ++ [0x10, 0x00, 0x00, 0x00, 0x00, 0x00] ++ pn, ?_, ?_⟩
  · unfold hashBufferV3
    rw [hpn, hpn1, contentNormalizedDataV3_eq]
    have hb1' : referencesV3 p.DirStream.ReferencesRecord.ReferenceArray
        (informationV3 p.DirStream.InformationRecord) = .ok b1 := hb1
    simp only [hb1', Res.bind_ok]
    rw [modulesV3_of_forall₂ lib _ _ cs' _ hcs']
    rfl
  · intro e
    rw [← hout, ← ho1, hb2'] at e
    simp only [List.append_assoc, List.append_cancel_left_eq] at e
    have e2 := List.append_cancel_right e
    exact hne' (eq_of_flatten_eq_of_le cs cs' hle e2)

/-- The element after a prefix. -/
theorem getD_append_cons (A : List (List Byte)) (l : List Byte) (L2 : List (List Byte)) :
    (A ++ l :: L2).getD A.length [] = l := by
  induction A with
  | nil => rfl
  | cons x A ih => simpa using ih

/-! ### Property entries, the certificate store and the signature data blob -/

/-- A little-endian number of `n` bytes is below `256 ^ n`. -/
theorem leNat_lt (l : List Byte) : leNat l < 256 ^ l.length := by
  induction l with
  | nil => simp [leNat]
  | cons b rest ih =>
    have hb := b.isLt
    simp only [leNat, List.length_cons, pow_succ]
    omega

/-- A little-endian number of at most four bytes is a `uint32`. -/
theorem leNat_take_four_lt (l : List Byte) : leNat (l.take 4) < 4294967296 := by
  have h := leNat_lt (l.take 4)
  have h4 : (l.take 4).length ≤ 4 := by simp
  calc leNat (l.take 4) < 256 ^ (l.take 4).length := h
    _ ≤ 256 ^ 4 := Nat.pow_le_pow_right (by norm_num) h4
    _ = 4294967296 := by norm_num

/-- A returned entry splits the input: header, value, remainder. -/
theorem ReadSerializedPropertyEntry_ok (data : List Byte) (e : SerializedPropertyEntry)
    (rem : List Byte) (h : ReadSerializedPropertyEntry data = .ok (e, rem)) :
    data = data.take 12 ++ e.Value ++ rem ∧ e.Value.length = e.Length ∧
      e.ID = leNat (data.take 4) ∧ e.ID ≠ 0 ∧ e.ID ≠ 0x20 ∧ e.ID ≤ 0xFFFF ∧
      e.EncodingType = 1 ∧ 12 + e.Length ≤ data.length := by
  unfold ReadSerializedPropertyEntry at h
  have hL := leNat_take_four_lt (data.drop 8)
  dsimp only at h
  split_ifs at h with h1 h2 h3 h4 h5 h6
  simp only [Outcome.ok.injEq, Prod.mk.injEq] at h
  obtain ⟨he, hr⟩ := h
  subst he hr
  unfold u32 at h5 h6 ⊢
  simp only
  have hlt : 12 + leNat ((data.drop 8).take 4) < 4294967296 := by
    by_contra hc
    omega
  rw [Nat.mod_eq_of_lt hlt] at h5 h6 ⊢
  push_neg at h2 h4
  refine ⟨?_, ?_, trivial, h2.1, h2.2, by omega, h4, by omega⟩
  · have hd : data.drop (12 + leNat ((data.drop 8).take 4))
        = (data.drop 12).drop (leNat ((data.drop 8).take 4)) := by
      simp [List.drop_drop, Nat.add_comm]
    rw [Nat.add_sub_cancel_left, hd, List.append_assoc, List.take_append_drop,
      List.take_append_drop]
  · rw [List.length_take, List.length_drop]
    omega

/-- The function panics when `12 + Length` does not fit a `uint32`. -/
theorem ReadSerializedPropertyEntry_overflow (data : List Byte) (h12 : 12 ≤ data.length)
    (hid0 : leNat (data.take 4) ≠ 0) (hid20 : leNat (data.take 4) ≠ 0x20)
    (hid : leNat (data.take 4) ≤ 0xFFFF) (henc : leNat ((data.drop 4).take 4) = 1)
    (hlen : 0xFFFFFFF4 ≤ leNat ((data.drop 8).take 4)) :
    ReadSerializedPropertyEntry data = .panic := by
  unfold ReadSerializedPropertyEntry
  have hL := leNat_take_four_lt (data.drop 8)
  have hu : u32 (12 + leNat ((data.drop 8).take 4)) < 12 := by
    unfold u32
    omega
  have h1 : ¬ data.length < 12 := by omega
  have h2 : ¬ (leNat (data.take 4) = 0 ∨ leNat (data.take 4) = 0x20) := by
    rintro (h | h)
    · exact hid0 h
    · exact hid20 h
  have h3 : ¬ leNat (data.take 4) > 0xFFFF := by omega
  have h5 : ¬ data.length < u32 (12 + leNat ((data.drop 8).take 4)) := by omega
  have h6 : ¬ (12 ≤ u32 (12 + leNat ((data.drop 8).take 4))
      ∧ u32 (12 + leNat ((data.drop 8).take 4)) ≤ data.length) := by omega
  simp only [h1, h2, h3, henc, h5, h6, if_false, ne_eq, not_true_eq_false]

/-- The errors of `ReadSerializedPropertyEntry` for a `Length` below
`0xFFFFFFF4`. -/
theorem ReadSerializedPropertyEntry_error (data : List Byte) :
    (data.length < 12 → ReadSerializedPropertyEntry data = .error .dataTooShort) ∧
    (12 ≤ data.length → (leNat (data.take 4) = 0 ∨ leNat (data.take 4) = 0x20) →
      ReadSerializedPropertyEntry data = .error (.reservedId (leNat (data.take 4)))) ∧
    (12 ≤ data.length → 0xFFFF < leNat (data.take 4) →
      ReadSerializedPropertyEntry data = .error (.idTooLarge (leNat (data.take 4)))) ∧
    (12 ≤ data.length → leNat (data.take 4) ≠ 0 → leNat (data.take 4) ≠ 0x20 →
      leNat (data.take 4) ≤ 0xFFFF → leNat ((data.drop 4).take 4) ≠ 1 →
      ReadSerializedPropertyEntry data
        = .error (.invalidEncodingType (leNat ((data.drop 4).take 4)))) ∧
    (12 ≤ data.length → leNat (data.take 4) ≠ 0 → leNat (data.take 4) ≠ 0x20 →
      leNat (data.take 4) ≤ 0xFFFF → leNat ((data.drop 4).take 4) = 1 →
      leNat ((data.drop 8).take 4) < 0xFFFFFFF4 →
      data.length < 12 + leNat ((data.drop 8).take 4) →
      ReadSerializedPropertyEntry data
        = .error (.valueTooShort (leNat ((data.drop 8).take 4)))) := by
  refine ⟨?_, ?_, ?_, ?_, ?_⟩
  · intro h
    simp [ReadSerializedPropertyEntry, h]
  · intro h hid
    have h1 : ¬ data.length < 12 := by omega
    simp [ReadSerializedPropertyEntry, h1, hid]
  · intro h hid
    have h1 : ¬ data.length < 12 := by omega
    have h2 : ¬ (leNat (data.take 4) = 0 ∨ leNat (data.take 4) = 0x20) := by omega
    simp only [ReadSerializedPropertyEntry, h1, h2, if_false]
    simp [hid]
  · intro h hid0 hid20 hid henc
    have h1 : ¬ data.length < 12 := by omega
    have h2 : ¬ (leNat (data.take 4) = 0 ∨ leNat (data.take 4) = 0x20) := by omega
    have h3 : ¬ leNat (data.take 4) > 0xFFFF := by omega
    simp only [ReadSerializedPropertyEntry, h1, h2, h3, if_false]
    simp [henc]
  · intro h hid0 hid20 hid henc hlen hshort
    have h1 : ¬ data.length < 12 := by omega
    have h2 : ¬ (leNat (data.take 4) = 0 ∨ leNat (data.take 4) = 0x20) := by omega
    have h3 : ¬ leNat (data.take 4) > 0xFFFF := by omega
    have hu : u32 (12 + leNat ((data.drop 8).take 4)) = 12 + leNat ((data.drop 8).take 4) := by
      unfold u32
      omega
    simp only [ReadSerializedPropertyEntry, h1, h2, h3, if_false, hu]
    simp [henc, hshort]

/-- The bytes of the certificate store. -/
theorem NewVbaSigSerializedCertStore_eq (d : List Byte) :
    NewVbaSigSerializedCertStore d
      = [0x00, 0x00, 0x00, 0x00] ++ [0x43, 0x45, 0x52, 0x54] ++ [0x20, 0x00, 0x00, 0x00]
        ++ [0x01, 0x00, 0x00, 0x00] ++ u32le d.length ++ d ++ List.replicate 12 0 := by
  unfold NewVbaSigSerializedCertStore
  have h1 : u32le 0x00000000 = [0x00, 0x00, 0x00, 0x00] := rfl
  have h2 : u32le 0x54524543 = [0x43, 0x45, 0x52, 0x54] := by decide
  have h3 : (List.replicate 12 0 : List Byte)
      = [0x00, 0x00, 0x00, 0x00] ++ [0x00, 0x00, 0x00, 0x00, 0x00, 0x00, 0x00, 0x00] := rfl
  rw [h1, h2, h3]
  simp only [List.append_assoc]

/-- The values of `i32` and `i32le` on a number below `2^31`. -/
theorem i32_of_lt (n : Nat) (h : n < 2147483648) : i32 (n : Int) = n := by
  unfold i32
  omega

/-- The bytes of the `int32` conversion of a length. -/
theorem i32le_i32_natCast (n : Nat) : i32le (i32 (n : Int)) = u32le n := by
  have h : (i32 (n : Int)) % 4294967296 = ((n % 4294967296 : Nat) : Int) := by
    unfold i32
    omega
  unfold i32le
  rw [h, Int.toNat_ofNat]
  unfold u32le
  have e1 : n % 4294967296 % 256 = n % 256 := by omega
  have e2 : n % 4294967296 / 256 % 256 = n / 256 % 256 := by omega
  have e3 : n % 4294967296 / 65536 % 256 = n / 65536 % 256 := by omega
  have e4 : n % 4294967296 / 16777216 % 256 = n / 16777216 % 256 := by omega
  rw [e1, e2, e3, e4]

/-- The header of the signature data blob. -/
theorem sigDataHeaderV2_eq (h : List Byte) :
    sigDataHeaderV2 h
      = { AlgorithmIdSize := 23, CompiledHashSize := 0, SourceHashSize := i32 h.length,
          AlgorithmIdOffset := 24, CompiledHashOffset := 47, SourceHashOffset := 47 } := by
  unfold sigDataHeaderV2
  have e : (asciiBytes "2.16.840.1.101.3.4.2.1\x00").length = 23 := by decide
  simp only [e]
  have e1 : i32 ((23 : Nat) : Int) = 23 := by decide
  have e2 : i32 (6 * 4 + 23) = 47 := by decide
  rw [e1, e2]
  rfl

/-- The two functions build the same header and the same blob. -/
theorem sigDataV1Serialized_same (h : List Byte) :
    sigDataHeaderV3 h = sigDataHeaderV2 h ∧ sigDataV1SerializedV3 h = sigDataV1SerializedV2 h :=
  ⟨rfl, rfl⟩

/-- The bytes of the signature data blob. -/
theorem sigDataV1SerializedV2_eq (h : List Byte) :
    sigDataV1SerializedV2 h
      = [23, 0, 0, 0] ++ [0, 0, 0, 0] ++ u32le h.length ++ [24, 0, 0, 0] ++ [47, 0, 0, 0]
        ++ [47, 0, 0, 0] ++ asciiBytes "2.16.840.1.101.3.4.2.1" ++ [0] ++ h := by
  unfold sigDataV1SerializedV2
  simp only [sigDataHeaderV2_eq, encodeSigDataHeader, i32le_i32_natCast, List.nil_append]
  have e1 : i32le 23 = [23, 0, 0, 0] := by decide
  have e2 : i32le 0 = [0, 0, 0, 0] := by decide
  have e3 : i32le 24 = [24, 0, 0, 0] := by decide
  have e4 : i32le 47 = [47, 0, 0, 0] := by decide
  have e5 : asciiBytes "2.16.840.1.101.3.4.2.1\x00" = asciiBytes "2.16.840.1.101.3.4.2.1" ++ [0] := by
    decide
  rw [e1, e2, e3, e4, e5]
  simp only [List.append_assoc]

/-- Truncation of a sum whose second summand is truncated. -/
theorem u32_add_u32 (a b : Nat) : u32 (a + u32 b) = u32 (a + b) := by
  unfold u32
  omega

/-- The method `FixOffsets` sets the three offsets and keeps the rest. -/
theorem FixOffsets_eq (d : DigSigInfoSerialized) :
    d.FixOffsets.CertStoreOffset = u32 (d.SignatureOffset + d.CbSignature) ∧
    d.FixOffsets.ProjectNameOffset
      = u32 (d.FixOffsets.CertStoreOffset + d.CbSigningCertStore) ∧
    d.FixOffsets.TimestampUrlOffset
      = u32 (d.FixOffsets.ProjectNameOffset + d.RgchProjectNameBuffer.length) ∧
    d.FixOffsets.CbSignature = d.CbSignature ∧
    d.FixOffsets.SignatureOffset = d.SignatureOffset ∧
    d.FixOffsets.CbSigningCertStore = d.CbSigningCertStore ∧
    d.FixOffsets.CbProjectName = d.CbProjectName ∧
    d.FixOffsets.FTimestamp = d.FTimestamp ∧
    d.FixOffsets.CbTimestampUrl = d.CbTimestampUrl ∧
    d.FixOffsets.PbSignatureBuffer = d.PbSignatureBuffer ∧
    d.FixOffsets.PbSigningCertStoreBuffer = d.PbSigningCertStoreBuffer ∧
    d.FixOffsets.RgchProjectNameBuffer = d.RgchProjectNameBuffer ∧
    d.FixOffsets.RgchTimestampBuffer = d.RgchTimestampBuffer := by
  refine ⟨rfl, rfl, ?_, rfl, rfl, rfl, rfl, rfl, rfl, rfl, rfl, rfl, rfl⟩
  exact u32_add_u32 _ _

/-- The method `FixOffsets` makes the offsets consistent. -/
theorem FixOffsets_consistent (d : DigSigInfoSerialized)
    (h4 : d.CbSignature = u32 d.PbSignatureBuffer.length)
    (h5 : d.CbSigningCertStore = u32 d.PbSigningCertStoreBuffer.length) :
    d.FixOffsets.Consistent := by
  obtain ⟨e1, e2, e3, e4, e5, e6, -, -, -, e10, e11, e12, -⟩ := FixOffsets_eq d
  refine ⟨?_, ?_, ?_, ?_, ?_⟩
  · rw [e1, e4, e5]
  · rw [e2, e6]
  · rw [e3, e12]
  · rw [e4, e10, h4]
  · rw [e6, e11, h5]

/-- A `BaseClass` property whose value names no module makes the first loop
of `projectNormalizedData` panic. -/
theorem propertiesPN_unknown_base_class (p : VbaProject)
    (props : List projectstream.ProjectProperty) (buf : List Byte)
    (prop : projectstream.ProjectProperty) (hmem : prop ∈ props)
    (hkey : prop.Key = asciiBytes "BaseClass")
    (hmod : p.ModuleStream.GetModule prop.Value = none) :
    propertiesPN p props buf = .panic := by
  induction props generalizing buf with
  | nil => exact absurd hmem (List.not_mem_nil _)
  | cons q rest ih =>
    unfold propertiesPN
    rcases List.mem_cons.mp hmem with rfl | hrest
    · have hstep : propertyStepPN p buf prop = .panic := by
        unfold propertyStepPN
        simp only [hkey, if_true, hmod]
        rfl
      rw [hstep]
      rfl
    · rcases propertyStepPN_panic_or_ok p buf q with hq | ⟨b, hq⟩
      · rw [hq]
        rfl
      · rw [hq, Res.bind_ok]
        exact ih b hrest

/-! ### Positions advance: termination of the decompression loops -/

/-- A bind that returns went through a returning first call. -/
theorem Res.bind_ok_inv {α β : Type} {r : Res α} {f : α → Res β} {b : β}
    (h : r.bind f = .ok b) : ∃ a, r = .ok a ∧ f a = .ok b := by
  cases r with
  | ok a => exact ⟨a, rfl, h⟩
  | error e => exact absurd h (by simp [Res.bind])
  | panic => exact absurd h (by simp [Res.bind])
  | outOfFuel => exact absurd h (by simp [Res.bind])

/-- A bind runs out of fuel only if one of its two calls does. -/
theorem Res.bind_ne_outOfFuel {α β : Type} {r : Res α} {f : α → Res β}
    (h1 : r ≠ .outOfFuel) (h2 : ∀ a, r = .ok a → f a ≠ .outOfFuel) :
    r.bind f ≠ .outOfFuel := by
  cases r with
  | ok a => exact h2 a rfl
  | error e => simp [Res.bind]
  | panic => simp [Res.bind]
  | outOfFuel => exact absurd rfl h1

/-- A copy token that is decoded moves the position by two, without a wrap of
the `uint16` position: a slice expression whose upper bound has wrapped
panics. The two bytes may lie in the spare capacity. -/
theorem decodeCopyToken_pos {data spare : List Byte} {pos s : Nat} {buf : List Byte}
    {r : List Byte × Nat} (h : decodeCopyToken data spare pos buf s = .ok r) :
    r.2 = pos + 2 ∧ r.2 ≤ 65535 := by
  unfold decodeCopyToken at h
  cases hread : readUint16 (data ++ spare) pos with
  | none => rw [hread] at h; exact absurd h (by simp)
  | some t =>
    rw [hread] at h
    obtain ⟨hlt, -⟩ := readUint16_some_bound hread
    obtain ⟨L, -, h⟩ := Res.bind_ok_inv h
    dsimp only at h
    split at h
    · injection h with h
      subst h
      simp only [u16, Nat.mod_eq_of_lt hlt]
      exact ⟨trivial, by omega⟩
    · exact absurd h (by simp)

/-- A token that is decoded moves the position forward by one or two, without
a wrap. -/
theorem decodeToken_pos {data spare : List Byte} (hlen : data.length ≤ 65535)
    {s flag pos : Nat} {buf : List Byte} {r : List Byte × Nat}
    (h : decodeToken data spare s flag pos buf = .ok r) :
    pos < r.2 ∧ r.2 ≤ 65535 := by
  unfold decodeToken at h
  split_ifs at h with hf
  · cases hget : data[pos]? with
    | none => rw [hget] at h; exact absurd h (by simp)
    | some b =>
      rw [hget] at h
      injection h with h
      subst h
      have hp : pos < data.length := (List.getElem?_eq_some_iff.mp hget).1
      have hu : u16 (pos + 1) = pos + 1 := Nat.mod_eq_of_lt (by omega)
      simp only [hu]
      omega
  · obtain ⟨h1, h2⟩ := decodeCopyToken_pos h
    omega

/-- The token loop does not move the position backwards, and the position
stays a `uint16`. -/
theorem tokenLoop_pos {data spare : List Byte} (hlen : data.length ≤ 65535) (E s : Nat)
    (n : Nat) :
    ∀ (flag pos : Nat) (buf : List Byte) (r : List Byte × Nat),
      pos ≤ E → pos ≤ 65535 → tokenLoop data spare E s n flag pos buf = .ok r →
      pos ≤ r.2 ∧ r.2 ≤ 65535 := by
  induction n with
  | zero =>
    intro flag pos buf r _ hp h
    unfold tokenLoop at h
    injection h with h
    subst h
    exact ⟨le_refl _, hp⟩
  | succ n ih =>
    intro flag pos buf r hE hp h
    unfold tokenLoop at h
    obtain ⟨r1, hr1, h⟩ := Res.bind_ok_inv h
    obtain ⟨h1, h2⟩ := decodeToken_pos hlen hr1
    split_ifs at h with hge heq
    · cases hget : data[r1.2]? with
      | none => rw [hget] at h; exact absurd h (by simp)
      | some b =>
        rw [hget] at h
        injection h with h
        subst h
        have hp1 : r1.2 < data.length := (List.getElem?_eq_some_iff.mp hget).1
        have hu : u16 (E + 1) = E + 1 := Nat.mod_eq_of_lt (by omega)
        simp only [hu]
        omega
    · injection h with h
      subst h
      have hu : u16 (E + 1) = E + 1 := Nat.mod_eq_of_lt (by omega)
      simp only [hu]
      omega
    · obtain ⟨h3, h4⟩ := ih _ _ _ _ (by omega) h2 h
      omega

/-- A call of `decompressTokenSequence` at a position before the end of the
chunk that returns has read its flag byte within the length of the input and
moves the position forward, without a wrap. -/
theorem decompressTokenSequence_pos {data spare : List Byte} (hlen : data.length ≤ 65535)
    {pos E s : Nat} {buf : List Byte} {r : List Byte × Nat} (hE : pos < E)
    (h : decompressTokenSequence data spare pos buf E s = .ok r) :
    pos < data.length ∧ pos + 1 ≤ r.2 ∧ r.2 ≤ 65535 := by
  unfold decompressTokenSequence at h
  cases hget : data[pos]? with
  | none => rw [hget] at h; exact absurd h (by simp)
  | some b =>
    rw [hget] at h
    dsimp only at h
    have hp : pos < data.length := (List.getElem?_eq_some_iff.mp hget).1
    have hu : u16 (pos + 1) = pos + 1 := Nat.mod_eq_of_lt (by omega)
    rw [hu] at h
    exact ⟨hp, tokenLoop_pos hlen E s 8 _ _ _ _ (by omega) (by omega) h⟩

/-- The loop of `decompressChunk` does not move the position backwards. -/
theorem chunkLoop_pos {data spare : List Byte} (hlen : data.length ≤ 65535) (E s : Nat)
    (fuel : Nat) :
    ∀ (pos : Nat) (buf : List Byte) (r : List Byte × Nat),
      pos ≤ 65535 → chunkLoop data spare E s fuel pos buf = .ok r →
      pos ≤ r.2 ∧ r.2 ≤ 65535 := by
  induction fuel with
  | zero =>
    intro pos buf r hp h
    unfold chunkLoop at h
    split_ifs at h
    injection h with h
    subst h
    exact ⟨le_refl _, hp⟩
  | succ fuel ih =>
    intro pos buf r hp h
    unfold chunkLoop at h
    split_ifs at h with hE
    · obtain ⟨r1, hr1, h⟩ := Res.bind_ok_inv h
      obtain ⟨-, h1, h2⟩ := decompressTokenSequence_pos hlen hE hr1
      obtain ⟨h3, h4⟩ := ih _ _ _ h2 h
      omega
    · injection h with h
      subst h
      exact ⟨le_refl _, hp⟩

/-- A call of `decompressTokenSequence` does not run out of fuel: its loop has
eight iterations. -/
theorem decompressTokenSequence_returns (data spare : List Byte) (pos : Nat) (buf : List Byte)
    (E s : Nat) : decompressTokenSequence data spare pos buf E s ≠ .outOfFuel := by
  unfold decompressTokenSequence
  cases hget : data[pos]? with
  | none => simp
  | some b =>
    dsimp only
    generalize u16 (pos + 1) = p1
    generalize hn : (8 : Nat) = n
    clear hn
    generalize b.val = flag
    induction n generalizing flag p1 buf with
    | zero => simp [tokenLoop]
    | succ n ihn =>
      unfold tokenLoop
      apply Res.bind_ne_outOfFuel
      · unfold decodeToken
        split_ifs
        · cases data[p1]? <;> simp
        · unfold decodeCopyToken
          cases readUint16 (data ++ spare) p1 with
          | none => simp
          | some t =>
            dsimp only
            apply Res.bind_ne_outOfFuel
            · unfold getCopyTokenOffsetBitCount
              split_ifs <;> simp
            · intro L _
              dsimp only
              split <;> simp
      · intro r1 _
        dsimp only
        split_ifs
        · cases data[r1.2]? <;> simp
        · simp
        · exact ihn _ _ _

/-- The loop of `decompressChunk` ends within `len(compressedData) + 1 - pos`
iterations, and within one iteration from a position at or beyond the
length: every iteration reads its flag byte by an index expression. -/
theorem chunkLoop_terminates {data spare : List Byte} (hlen : data.length ≤ 65535) (E s : Nat)
    (fuel : Nat) :
    ∀ (pos : Nat) (buf : List Byte),
      0 < fuel → data.length + 1 ≤ fuel + pos →
      chunkLoop data spare E s fuel pos buf ≠ .outOfFuel := by
  induction fuel with
  | zero =>
    intro pos buf h0 hf
    omega
  | succ fuel ih =>
    intro pos buf _ hf
    unfold chunkLoop
    split_ifs with hE
    · apply Res.bind_ne_outOfFuel (decompressTokenSequence_returns data spare pos buf E s)
      intro r1 hr1
      obtain ⟨h0, h1, h2⟩ := decompressTokenSequence_pos hlen hE hr1
      exact ih _ _ (by omega) (by omega)
    · simp

/-- A chunk that is decompressed moves the position forward, without a wrap of
the `uint16` position. -/
theorem decompressChunk_pos {data spare : List Byte} (hlen : data.length ≤ 65535)
    {fuel pos : Nat} {buf : List Byte} {r : List Byte × Nat}
    (h : decompressChunk fuel data spare pos buf = .ok r) :
    pos < r.2 ∧ r.2 ≤ 65535 := by
  unfold decompressChunk at h
  cases hread : readUint16 (data ++ spare) pos with
  | none => rw [hread] at h; exact absurd h (by simp)
  | some hdr =>
    rw [hread] at h
    obtain ⟨hlt, -⟩ := readUint16_some_bound hread
    have hu : u16 (pos + 2) = pos + 2 := Nat.mod_eq_of_lt hlt
    dsimp only at h
    rw [hu] at h
    split_ifs at h with h1 h2 h3 h4
    · obtain ⟨h5, h6⟩ := chunkLoop_pos hlen _ _ fuel _ _ _ (by omega) h
      omega
    · injection h with h
      subst h
      obtain ⟨h5, h6⟩ := h4
      have hlt2 : u16 (pos + 2 + 4096) < 65536 := Nat.mod_lt _ (by decide)
      simp only
      omega

/-- The loop of `decompressChunk` ends when the fuel is positive and at least
the length of the input. -/
theorem decompressChunk_terminates {data spare : List Byte} (hlen : data.length ≤ 65535)
    (fuel pos : Nat) (buf : List Byte) (hpos : 0 < fuel) (hfuel : data.length ≤ fuel) :
    decompressChunk fuel data spare pos buf ≠ .outOfFuel := by
  unfold decompressChunk
  cases hread : readUint16 (data ++ spare) pos with
  | none => simp
  | some hdr =>
    obtain ⟨hlt, -⟩ := readUint16_some_bound hread
    have hu : u16 (pos + 2) = pos + 2 := Nat.mod_eq_of_lt hlt
    dsimp only
    rw [hu]
    split_ifs
    · simp
    · simp
    · exact chunkLoop_terminates hlen _ _ fuel _ _ hpos (by omega)
    · simp
    · simp

/-- The loop of `DecompressContainer` ends within `len(compressedData) + 1 -
pos` iterations. -/
theorem containerLoop_terminates {data spare : List Byte} (hlen : data.length ≤ 65535)
    (cf : Nat) (hcf0 : 0 < cf) (hcf : data.length ≤ cf) (fuel : Nat) :
    ∀ (pos : Nat) (buf : List Byte),
      data.length + 1 ≤ fuel + pos →
      containerLoop data spare cf fuel pos buf ≠ .outOfFuel := by
  induction fuel with
  | zero =>
    intro pos buf hf
    have hu : u16 (data.length - 1) ≤ data.length - 1 := Nat.mod_le _ _
    unfold containerLoop
    rw [if_neg (by omega)]
    simp
  | succ fuel ih =>
    intro pos buf hf
    unfold containerLoop
    split_ifs with hc
    · apply Res.bind_ne_outOfFuel (decompressChunk_terminates hlen cf pos buf hcf0 hcf)
      intro r hr
      obtain ⟨h1, h2⟩ := decompressChunk_pos hlen hr
      exact ih _ _ (by omega)
    · simp

/-- The function `DecompressContainer` ends when the fuel is at least the
length of the input. -/
theorem DecompressContainer_terminates {data spare : List Byte} (hlen : data.length ≤ 65535)
    (fuel : Nat) (hfuel : data.length ≤ fuel) :
    DecompressContainer fuel data spare ≠ .outOfFuel := by
  unfold DecompressContainer
  cases hget : data[0]? with
  | none => simp
  | some b =>
    have hp : 0 < data.length := (List.getElem?_eq_some_iff.mp hget).1
    dsimp only
    split_ifs
    · simp
    · exact containerLoop_terminates hlen fuel (by omega) hfuel fuel _ _ (by omega)

/-! ### The record loops of the dir stream parser -/

/-- A bind of outcomes that returns went through a returning first call. -/
theorem Outcome.ok_of_bind_ok {ε α β : Type} {r : Outcome ε α} {f : α → Outcome ε β} {b : β}
    (h : r.bind f = .ok b) : ∃ a, r = .ok a ∧ f a = .ok b := by
  cases r with
  | ok a => exact ⟨a, rfl, h⟩
  | error e => exact absurd h (by simp [Outcome.bind])
  | panic => exact absurd h (by simp [Outcome.bind])
  | outOfFuel => exact absurd h (by simp [Outcome.bind])

/-- The array that `make` and `binary.Read` leave has the size asked for. -/
theorem readSlice_length (reader : List Byte) (size : Nat) :
    (readSlice reader size).value.length = size := by
  unfold readSlice binaryRead
  split_ifs with h
  · simp [h]
  · simp

/-- The event of a record holds what the `switch` does with it. -/
theorem recordEvents_result {σ α : Type} (guard : σ → Bool)
    (step : Nat → σ → List Byte → RecordStep σ α) (fuel : Nat) :
    ∀ (s : σ) (reader : List Byte) (e : RecordEvent σ α),
      e ∈ recordEvents guard step fuel s reader → e.result = step e.nid e.before e.payload := by
  induction fuel with
  | zero => intro s reader e he; simp [recordEvents] at he
  | succ fuel ih =>
    intro s reader e he
    unfold recordEvents at he
    split_ifs at he with hg
    · cases hb : (binaryRead reader 2).1 with
      | none => simp [hb] at he
      | some b =>
        simp only [hb, List.mem_cons] at he
        rcases he with rfl | he
        · rfl
        · cases hs : step (leNat b) s (binaryRead reader 2).2 with
          | next s' reader' => rw [hs] at he; exact ih _ _ _ he
          | done a reader' => rw [hs] at he; simp at he
          | fail err => rw [hs] at he; simp at he
    · simp at he

/-- A record on which the `switch` fails makes the loop return that error. -/
theorem recordLoop_of_fail {σ α : Type} (rid : DirStreamError) (guard : σ → Bool)
    (finish : σ → α) (step : Nat → σ → List Byte → RecordStep σ α) (fuel : Nat) :
    ∀ (s : σ) (reader : List Byte) (e : RecordEvent σ α) (err : DirStreamError),
      e ∈ recordEvents guard step fuel s reader → e.result = .fail err →
      recordLoop rid guard finish step fuel s reader = .error err := by
  induction fuel with
  | zero => intro s reader e err he; simp [recordEvents] at he
  | succ fuel ih =>
    intro s reader e err he hres
    unfold recordEvents at he
    split_ifs at he with hg
    · cases hb : (binaryRead reader 2).1 with
      | none => simp [hb] at he
      | some b =>
        simp only [hb, List.mem_cons] at he
        cases hs : step (leNat b) s (binaryRead reader 2).2 with
        | next s' reader' =>
          rw [hs] at he
          rw [recordLoop]
          simp only [hg, if_true, hb, hs]
          rcases he with rfl | he
          · simp at hres
          · exact ih _ _ _ _ he hres
        | done a reader' =>
          rw [hs] at he
          rcases he with rfl | he
          · simp at hres
          · simp at he
        | fail err' =>
          rw [hs] at he
          rw [recordLoop]
          simp only [hg, if_true, hb, hs]
          rcases he with rfl | he
          · simp only [RecordStep.fail.injEq] at hres
            rw [hres]
          · simp at he
    · simp at he

/-- Two records read one after the other: the loop went on after the first,
with the state that the second starts from. -/
theorem recordEvents_chain {σ α : Type} (guard : σ → Bool)
    (step : Nat → σ → List Byte → RecordStep σ α) (fuel : Nat) :
    ∀ (s : σ) (reader : List Byte) (l1 l2 : List (RecordEvent σ α)) (e1 e2 : RecordEvent σ α),
      recordEvents guard step fuel s reader = l1 ++ e1 :: e2 :: l2 →
      ∃ reader', e1.result = .next e2.before reader' := by
  induction fuel with
  | zero =>
    intro s reader l1 l2 e1 e2 h
    simp [recordEvents] at h
  | succ fuel ih =>
    intro s reader l1 l2 e1 e2 h
    unfold recordEvents at h
    split_ifs at h with hg
    · cases hb : (binaryRead reader 2).1 with
      | none => simp [hb] at h
      | some b =>
        simp only [hb] at h
        cases hs : step (leNat b) s (binaryRead reader 2).2 with
        | next s' reader' =>
          rw [hs] at h
          cases l1 with
          | nil =>
            simp only [List.nil_append, List.cons.injEq] at h
            obtain ⟨h1, h2⟩ := h
            have hbefore : e2.before = s' := by
              cases fuel with
              | zero => simp [recordEvents] at h2
              | succ fuel =>
                unfold recordEvents at h2
                split_ifs at h2 with hg2
                cases hb2 : (binaryRead reader' 2).1 with
                | none => simp [hb2] at h2
                | some b2 =>
                  simp only [hb2, List.cons.injEq] at h2
                  rw [← h2.1]
            refine ⟨reader', ?_⟩
            rw [← h1, hbefore]
          | cons x l1 =>
            simp only [List.cons_append, List.cons.injEq] at h
            exact ih _ _ _ _ _ _ h.2
        | done a reader' =>
          rw [hs] at h
          cases l1 with
          | nil => simp at h
          | cons x l1 =>
            simp only [List.cons_append, List.cons.injEq] at h
            exact absurd h.2 (by simp)
        | fail err =>
          rw [hs] at h
          cases l1 with
          | nil => simp at h
          | cons x l1 =>
            simp only [List.cons_append, List.cons.injEq] at h
            exact absurd h.2 (by simp)
    · simp at h

/-- A property that holds for both branches holds for the conditional. -/
theorem RecordStep.Forall_ite {σ α : Type} {Q : σ → Prop} {R : α → Prop} {c : Prop}
    [Decidable c] {a b : RecordStep σ α} (ha : c → a.Forall Q R) (hb : ¬ c → b.Forall Q R) :
    (if c then a else b).Forall Q R := by
  split_ifs with h
  · exact ha h
  · exact hb h

/-- An invariant of the `switch` holds for what the loop returns. -/
theorem recordLoop_invariant {σ α : Type} (rid : DirStreamError) (guard : σ → Bool)
    (finish : σ → α) (step : Nat → σ → List Byte → RecordStep σ α)
    (I : σ → Prop) (Q : α → Prop)
    (hstep : ∀ nid s r, I s → (step nid s r).Forall I Q)
    (hfin : ∀ s, I s → Q (finish s)) (fuel : Nat) :
    ∀ (s : σ) (reader : List Byte) (res : α × List Byte),
      I s → recordLoop rid guard finish step fuel s reader = .ok res → Q res.1 := by
  induction fuel with
  | zero =>
    intro s reader res hI h
    unfold recordLoop at h
    split_ifs at h
    injection h with h
    subst h
    exact hfin s hI
  | succ fuel ih =>
    intro s reader res hI h
    unfold recordLoop at h
    split_ifs at h with hg
    · cases hb : (binaryRead reader 2).1 with
      | none => simp [hb] at h
      | some b =>
        simp only [hb] at h
        have hst := hstep (leNat b) s (binaryRead reader 2).2 hI
        cases hs : step (leNat b) s (binaryRead reader 2).2 with
        | next s' reader' =>
          rw [hs] at h hst
          exact ih _ _ _ hst h
        | done a reader' =>
          rw [hs] at h hst
          injection h with h
          subst h
          exact hst
        | fail err => rw [hs] at h; simp at h
    · injection h with h
      subst h
      exact hfin s hI

/-! ### Record ids -/

/-- An id that `ParseProjectInfo` does not recognise is refused. -/
theorem parseProjectInfoStep_unknown (nid : Nat) (pi : dirstream.ProjectInformation)
    (reader : List Byte) (h : nid ∉ projectInfoIds) :
    parseProjectInfoStep nid pi reader = .fail (.unknownProjectInfoId nid) := by
  simp only [projectInfoIds, List.mem_cons, List.mem_singleton, not_or, List.not_mem_nil,
    or_false] at h
  obtain ⟨h1, h2, h3, h4, h5, h6, h7, h8, h9, h10, h11, h12⟩ := h
  unfold parseProjectInfoStep
  simp only [h1, h2, h3, h4, h5, h6, h7, h8, h9, h10, h11, h12, if_false]

/-- An id that `ParseProjectReferences` does not recognise is refused. -/
theorem parseProjectReferencesStep_unknown (nid : Nat) (st : ReferencesState)
    (reader : List Byte) (h : nid ∉ projectReferencesIds) :
    parseProjectReferencesStep nid st reader = .fail (.unknownReferenceId nid) := by
  simp only [projectReferencesIds, List.mem_cons, List.mem_singleton, not_or, List.not_mem_nil,
    or_false] at h
  obtain ⟨h1, h2, h3, h4, h5, h6⟩ := h
  unfold parseProjectReferencesStep
  simp only [h1, h2, h3, h4, h5, h6, if_false]

/-- An id that the loop of `ParseProjectModules` does not recognise is
refused. -/
theorem parseProjectModulesStep_unknown (nid : Nat) (st : ModulesState)
    (reader : List Byte) (h : nid ∉ projectModulesIds) :
    parseProjectModulesStep nid st reader = .fail (.unknownModuleId nid) := by
  simp only [projectModulesIds, List.mem_cons, List.mem_singleton, not_or, List.not_mem_nil,
    or_false] at h
  obtain ⟨h1, h2, h3, h4, h5, h6, h7, h8, h9, h10, h11, h12⟩ := h
  unfold parseProjectModulesStep
  simp only [h1, h2, h3, h4, h5, h6, h7, h8, h9, h10, h11, h12, if_false]

/-- The little-endian number of the bytes of a `uint32`. -/
theorem leNat_u32le (n : Nat) (h : n < 4294967296) : leNat (u32le n) = n := by
  unfold u32le leNat leNat leNat leNat leNat
  simp only [Fin.ofNat, Fin.val_mk]
  omega

/-- The little-endian number of the bytes of a `uint16`. -/
theorem leNat_u16le (n : Nat) (h : n < 65536) : leNat (u16le n) = n := by
  unfold u16le leNat leNat leNat
  simp only [Fin.ofNat, Fin.val_mk]
  omega

/-- A `binary.Read` of the bytes `b` that the reader starts with. -/
theorem binaryRead_append (b rest : List Byte) :
    binaryRead (b ++ rest) b.length = (some b, rest) := by
  unfold binaryRead
  simp

/-- A read of an unsigned integer whose bytes the reader starts with. -/
theorem readUint_append (b rest : List Byte) (old : Nat) :
    readUint b.length (b ++ rest) old = (leNat b, rest) := by
  unfold readUint
  rw [binaryRead_append]

/-- A read of an array whose bytes the reader starts with. -/
theorem readSlice_append (b rest : List Byte) :
    readSlice (b ++ rest) b.length = { value := b, failed := false, reader := rest } := by
  unfold readSlice
  rw [binaryRead_append]

/-- A MODULESTREAMNAME record whose reserved field is not `0x0032` is
refused. -/
theorem parseProjectModulesStep_reserved (st : ModulesState) (name rest : List Byte)
    (v : Nat) (hname : name.length < 4294967296) (hv : v < 65536) (hne : v ≠ 0x0032) :
    parseProjectModulesStep 0x001a st (u32le name.length ++ name ++ u16le v ++ rest)
      = .fail (.streamNameReserved v) := by
  have h1 : readUint 4 (u32le name.length ++ name ++ u16le v ++ rest)
      st.tmp.StreamNameRecord.SizeOfStreamName = (name.length, name ++ u16le v ++ rest) := by
    have := readUint_append (u32le name.length) (name ++ u16le v ++ rest)
      st.tmp.StreamNameRecord.SizeOfStreamName
    rw [u32le_length, leNat_u32le _ hname] at this
    simpa [List.append_assoc] using this
  have h2 : readSlice (name ++ u16le v ++ rest) name.length
      = { value := name, failed := false, reader := u16le v ++ rest } := by
    have := readSlice_append name (u16le v ++ rest)
    simpa [List.append_assoc] using this
  have h3 : readUint 2 (u16le v ++ rest) st.tmp.StreamNameRecord.Reserved = (v, rest) := by
    have := readUint_append (u16le v) rest st.tmp.StreamNameRecord.Reserved
    rw [u16le_length, leNat_u16le _ hv] at this
    exact this
  unfold parseProjectModulesStep
  rw [if_neg (show ¬ ((0x001a : Nat) = 0x0019) by decide),
    if_neg (show ¬ ((0x001a : Nat) = 0x0047) by decide), if_pos rfl]
  dsimp only
  rw [h1]
  dsimp only
  rw [h2]
  dsimp only
  rw [h3]
  dsimp only
  rw [if_pos hne]

/-! ### Sizes and lengths -/

/-- The name record that `parseNameRecord` returns has matching sizes. -/
theorem parseNameRecord_sizes (reader : List Byte) : (parseNameRecord reader).1.SizesMatch := by
  simp only [parseNameRecord, dirstream.ReferenceName.SizesMatch, readSlice_length, and_self]

/-- The control record that `parseControlRecord` returns has matching
sizes. -/
theorem parseControlRecord_sizes (reader : List Byte) :
    (parseControlRecord reader).1.SizesMatch := by
  simp only [parseControlRecord, dirstream.ReferenceControl.SizesMatch, readSlice_length,
    true_and, and_true]
  intro n hn
  simp only [Option.mem_def] at hn
  split_ifs at hn with h
  simp only [Option.some.injEq] at hn
  rw [← hn]
  exact parseNameRecord_sizes _

/-- A read of a structure of fixed size keeps a property that every value of
the structure keeps. -/
theorem RecordStep.Forall_read {σ α : Type} {Q : σ → Prop} {R : α → Prop} (reader : List Byte)
    (n : Nat) (f : List Byte → σ) (hf : ∀ b, Q (f b)) :
    (match (binaryRead reader n).1 with
      | some b => RecordStep.next (f b) (binaryRead reader n).2
      | none => (RecordStep.fail .read : RecordStep σ α)).Forall Q R := by
  cases (binaryRead reader n).1 with
  | none => trivial
  | some b => exact hf b

/-- The `switch` of `ParseProjectInfo` keeps the sizes equal to the
lengths. -/
theorem parseProjectInfoStep_sizes (nid : Nat) (pi : dirstream.ProjectInformation)
    (reader : List Byte) (hpi : pi.SizesMatch) :
    (parseProjectInfoStep nid pi reader).Forall dirstream.ProjectInformation.SizesMatch
      dirstream.ProjectInformation.SizesMatch := by
  obtain ⟨h1, h2, h3, h4, h5, h6⟩ := hpi
  unfold parseProjectInfoStep
  refine RecordStep.Forall_ite (fun _ => ?_) (fun _ => ?_)
  · exact RecordStep.Forall_read _ _ _ (fun _ => ⟨h1, h2, h3, h4, h5, h6⟩)
  refine RecordStep.Forall_ite (fun _ => ?_) (fun _ => ?_)
  · exact RecordStep.Forall_read _ _ _ (fun _ => ⟨h1, h2, h3, h4, h5, h6⟩)
  refine RecordStep.Forall_ite (fun _ => ?_) (fun _ => ?_)
  · exact RecordStep.Forall_read _ _ _ (fun _ => ⟨h1, h2, h3, h4, h5, h6⟩)
  refine RecordStep.Forall_ite (fun _ => ?_) (fun _ => ?_)
  · exact RecordStep.Forall_read _ _ _ (fun _ => ⟨h1, h2, h3, h4, h5, h6⟩)
  refine RecordStep.Forall_ite (fun _ => ?_) (fun _ => ?_)
  · exact RecordStep.Forall_read _ _ _ (fun _ => ⟨h1, h2, h3, h4, h5, h6⟩)
  refine RecordStep.Forall_ite (fun _ => ?_) (fun _ => ?_)
  · dsimp only
    refine RecordStep.Forall_ite (fun _ => trivial) (fun _ => ?_)
    exact ⟨readSlice_length _ _, h2, h3, h4, h5, h6⟩
  refine RecordStep.Forall_ite (fun _ => ?_) (fun _ => ?_)
  · dsimp only
    refine RecordStep.Forall_ite (fun _ => trivial) (fun _ => ?_)
    refine RecordStep.Forall_ite (fun _ => trivial) (fun _ => ?_)
    exact ⟨h1, readSlice_length _ _, h3, h4, h5, h6⟩
  refine RecordStep.Forall_ite (fun _ => ?_) (fun _ => ?_)
  · dsimp only
    refine RecordStep.Forall_ite (fun _ => trivial) (fun _ => ?_)
    refine RecordStep.Forall_ite (fun _ => trivial) (fun _ => ?_)
    exact ⟨h1, h2, readSlice_length _ _, readSlice_length _ _, h5, h6⟩
  refine RecordStep.Forall_ite (fun _ => ?_) (fun _ => ?_)
  · exact RecordStep.Forall_read _ _ _ (fun _ => ⟨h1, h2, h3, h4, h5, h6⟩)
  refine RecordStep.Forall_ite (fun _ => ?_) (fun _ => ?_)
  · exact RecordStep.Forall_read _ _ _ (fun _ => ⟨h1, h2, h3, h4, h5, h6⟩)
  refine RecordStep.Forall_ite (fun _ => ?_) (fun _ => ?_)
  · exact RecordStep.Forall_read _ _ _ (fun _ => ⟨h1, h2, h3, h4, h5, h6⟩)
  refine RecordStep.Forall_ite (fun _ => ?_) (fun _ => trivial)
  dsimp only
  refine RecordStep.Forall_ite (fun _ => trivial) (fun _ => ?_)
  refine RecordStep.Forall_ite (fun _ => trivial) (fun _ => ?_)
  exact ⟨h1, h2, h3, h4, readSlice_length _ _, readSlice_length _ _⟩

/-- The project information that `ParseProjectInfo` returns has matching
sizes. -/
theorem ParseProjectInfo_sizes (fuel : Nat) (reader : List Byte)
    (res : dirstream.ProjectInformation × List Byte)
    (h : ParseProjectInfo fuel reader = .ok res) : res.1.SizesMatch := by
  unfold ParseProjectInfo at h
  refine recordLoop_invariant _ _ _ _ dirstream.ProjectInformation.SizesMatch
    dirstream.ProjectInformation.SizesMatch parseProjectInfoStep_sizes (fun _ hs => hs) fuel _ _ _
    ?_ h
  exact ⟨rfl, rfl, rfl, rfl, rfl, rfl⟩

/-- The invariant of the loop of `ParseProjectReferences` for the sizes. -/
theorem parseProjectReferencesStep_sizes (nid : Nat) (st : ReferencesState)
    (reader : List Byte)
    (hst : st.tmp.SizesMatch ∧ ∀ r ∈ st.pr.ReferenceArray, r.SizesMatch) :
    (parseProjectReferencesStep nid st reader).Forall
      (fun st => st.tmp.SizesMatch ∧ ∀ r ∈ st.pr.ReferenceArray, r.SizesMatch)
      (fun pr => ∀ r ∈ pr.ReferenceArray, r.SizesMatch) := by
  obtain ⟨⟨t1, t2, t3, t4, t5⟩, harr⟩ := hst
  have hadd : ∀ tmp : dirstream.Reference, tmp.SizesMatch →
      tmp.SizesMatch ∧ ∀ r ∈ st.pr.ReferenceArray ++ [tmp], r.SizesMatch := by
    intro tmp htmp
    refine ⟨htmp, ?_⟩
    intro r hr
    rcases List.mem_append.mp hr with hr | hr
    · exact harr r hr
    · rw [List.mem_singleton.mp hr]
      exact htmp
  unfold parseProjectReferencesStep
  refine RecordStep.Forall_ite (fun _ => ?_) (fun _ => ?_)
  · refine ⟨⟨?_, ?_, ?_, ?_, ?_⟩, harr⟩
    · intro n hn
      simp only [Option.mem_def, Option.some.injEq] at hn
      rw [← hn]
      exact parseNameRecord_sizes _
    · intro c hc; simp at hc
    · intro c hc; simp at hc
    · intro c hc; simp at hc
    · intro c hc; simp at hc
  refine RecordStep.Forall_ite (fun _ => ?_) (fun _ => ?_)
  · refine hadd _ ⟨t1, ?_, t3, t4, t5⟩
    intro c hc
    simp only [Option.mem_def, Option.some.injEq] at hc
    rw [← hc]
    exact parseControlRecord_sizes _
  refine RecordStep.Forall_ite (fun _ => ?_) (fun _ => ?_)
  · refine hadd _ ⟨t1, t2, ?_, t4, t5⟩
    intro c hc
    simp only [Option.mem_def, Option.some.injEq] at hc
    rw [← hc]
    exact readSlice_length _ _
  refine RecordStep.Forall_ite (fun _ => ?_) (fun _ => ?_)
  · refine hadd _ ⟨t1, t2, t3, ?_, t5⟩
    intro c hc
    simp only [Option.mem_def, Option.some.injEq] at hc
    rw [← hc]
    refine ⟨readSlice_length _ _, ?_⟩
    intro c2 hc2
    simp only [Option.mem_def, Option.some.injEq] at hc2
    rw [← hc2]
    exact parseControlRecord_sizes _
  refine RecordStep.Forall_ite (fun _ => ?_) (fun _ => ?_)
  · refine hadd _ ⟨t1, t2, t3, t4, ?_⟩
    intro c hc
    simp only [Option.mem_def, Option.some.injEq] at hc
    rw [← hc]
    exact ⟨readSlice_length _ _, readSlice_length _ _⟩
  refine RecordStep.Forall_ite (fun _ => ?_) (fun _ => trivial)
  exact harr

/-- The references that `ParseProjectReferences` returns have matching
sizes. -/
theorem ParseProjectReferences_sizes (fuel : Nat) (reader : List Byte)
    (res : dirstream.ProjectReferences × List Byte)
    (h : ParseProjectReferences fuel reader = .ok res) :
    ∀ r ∈ res.1.ReferenceArray, r.SizesMatch := by
  unfold ParseProjectReferences at h
  refine recordLoop_invariant _ _ _ _
    (fun st : ReferencesState => st.tmp.SizesMatch ∧ ∀ r ∈ st.pr.ReferenceArray, r.SizesMatch)
    (fun pr : dirstream.ProjectReferences => ∀ r ∈ pr.ReferenceArray, r.SizesMatch)
    parseProjectReferencesStep_sizes (fun _ hs => hs.2) fuel _ _ _ ?_ h
  refine ⟨⟨?_, ?_, ?_, ?_, ?_⟩, ?_⟩
  · intro c hc; simp at hc
  · intro c hc; simp at hc
  · intro c hc; simp at hc
  · intro c hc; simp at hc
  · intro c hc; simp at hc
  · intro r hr; simp at hr

/-- The invariant of the loop of `ParseProjectModules` for the sizes. -/
theorem parseProjectModulesStep_sizes (nid : Nat) (st : ModulesState) (reader : List Byte)
    (hst : st.tmp.SizesMatch ∧ ∀ m ∈ st.pm.Modules, m.SizesMatch) :
    (parseProjectModulesStep nid st reader).Forall
      (fun st => st.tmp.SizesMatch ∧ ∀ m ∈ st.pm.Modules, m.SizesMatch)
      (fun pm => ∀ m ∈ pm.Modules, m.SizesMatch) := by
  obtain ⟨⟨t1, t2, t3, t4, t5, t6⟩, harr⟩ := hst
  unfold parseProjectModulesStep
  refine RecordStep.Forall_ite (fun _ => ?_) (fun _ => ?_)
  · refine ⟨⟨readSlice_length _ _, ?_, rfl, rfl, rfl, rfl⟩, harr⟩
    intro c hc; simp at hc
  refine RecordStep.Forall_ite (fun _ => ?_) (fun _ => ?_)
  · refine ⟨⟨t1, ?_, t3, t4, t5, t6⟩, harr⟩
    intro c hc
    simp only [Option.mem_def, Option.some.injEq] at hc
    rw [← hc]
    exact readSlice_length _ _
  refine RecordStep.Forall_ite (fun _ => ?_) (fun _ => ?_)
  · dsimp only
    refine RecordStep.Forall_ite (fun _ => trivial) (fun _ => ?_)
    exact ⟨⟨t1, t2, readSlice_length _ _, readSlice_length _ _, t5, t6⟩, harr⟩
  refine RecordStep.Forall_ite (fun _ => ?_) (fun _ => ?_)
  · exact ⟨⟨t1, t2, t3, t4, readSlice_length _ _, readSlice_length _ _⟩, harr⟩
  refine RecordStep.Forall_ite (fun _ => ?_) (fun _ => ?_)
  · exact ⟨⟨t1, t2, t3, t4, t5, t6⟩, harr⟩
  refine RecordStep.Forall_ite (fun _ => ?_) (fun _ => ?_)
  · exact ⟨⟨t1, t2, t3, t4, t5, t6⟩, harr⟩
  refine RecordStep.Forall_ite (fun _ => ?_) (fun _ => ?_)
  · exact ⟨⟨t1, t2, t3, t4, t5, t6⟩, harr⟩
  refine RecordStep.Forall_ite (fun _ => ?_) (fun _ => ?_)
  · exact ⟨⟨t1, t2, t3, t4, t5, t6⟩, harr⟩
  refine RecordStep.Forall_ite (fun _ => ?_) (fun _ => ?_)
  · exact ⟨⟨t1, t2, t3, t4, t5, t6⟩, harr⟩
  refine RecordStep.Forall_ite (fun _ => ?_) (fun _ => ?_)
  · exact ⟨⟨t1, t2, t3, t4, t5, t6⟩, harr⟩
  refine RecordStep.Forall_ite (fun _ => ?_) (fun _ => ?_)
  · exact ⟨⟨t1, t2, t3, t4, t5, t6⟩, harr⟩
  refine RecordStep.Forall_ite (fun _ => ?_) (fun _ => trivial)
  refine ⟨⟨t1, t2, t3, t4, t5, t6⟩, ?_⟩
  intro m hm
  rcases List.mem_append.mp hm with hm | hm
  · exact harr m hm
  · rw [List.mem_singleton.mp hm]
    exact ⟨t1, t2, t3, t4, t5, t6⟩

/-- The modules that `ParseProjectModules` returns have matching sizes. -/
theorem ParseProjectModules_sizes (fuel : Nat) (reader : List Byte)
    (res : dirstream.ProjectModules × List Byte)
    (h : ParseProjectModules fuel reader = .ok res) :
    ∀ m ∈ res.1.Modules, m.SizesMatch := by
  unfold ParseProjectModules at h
  obtain ⟨header, hheader, h⟩ := Outcome.ok_of_bind_ok h
  unfold parseProjectModulesHeader at hheader
  obtain ⟨cookie, -, hheader⟩ := Outcome.ok_of_bind_ok hheader
  injection hheader with hheader
  unfold parseProjectModulesLoop at h
  refine recordLoop_invariant _ _ _ _
    (fun st : ModulesState => st.tmp.SizesMatch ∧ ∀ m ∈ st.pm.Modules, m.SizesMatch)
    (fun pm : dirstream.ProjectModules => ∀ m ∈ pm.Modules, m.SizesMatch)
    parseProjectModulesStep_sizes (fun _ hs => hs.2) fuel _ _ _ ?_ h
  refine ⟨⟨rfl, ?_, rfl, rfl, rfl, rfl⟩, ?_⟩
  · intro c hc; simp at hc
  · intro m hm
    rw [← hheader] at hm
    simp at hm

/-- The three calls of `ParseDirStream`. -/
theorem ParseDirStream_ok (fuel : Nat) (reader : List Byte) (ds : dirstream.DirStream)
    (h : ParseDirStream fuel reader = .ok ds) :
    ∃ information references modules,
      ParseProjectInfo fuel reader = .ok information ∧
      ParseProjectReferences fuel information.2 = .ok references ∧
      ParseProjectModules fuel references.2 = .ok modules ∧
      ds = { InformationRecord := information.1, ReferencesRecord := references.1,
             ModulesRecord := modules.1 } := by
  unfold ParseDirStream at h
  obtain ⟨information, h1, h⟩ := Outcome.ok_of_bind_ok h
  obtain ⟨references, h2, h⟩ := Outcome.ok_of_bind_ok h
  obtain ⟨modules, h3, h⟩ := Outcome.ok_of_bind_ok h
  injection h with h
  exact ⟨information, references, modules, h1, h2, h3, h.symm⟩

/-! ### The elements of `ReferenceArray` -/

/-- What the `switch` of `ParseProjectReferences` does with a record: a name
record starts a reference with no variant, a variant record sets its variant
in `tmp`, keeps the rest of `tmp`, and appends `tmp`; the id `0x000f` ends the
loop. -/
theorem parseProjectReferencesStep_spec (nid : Nat) (st : ReferencesState)
    (reader : List Byte) :
    (parseProjectReferencesStep nid st reader).Forall
      (fun s' =>
        (nid = 0x0016 ∧ isVariantId nid = false ∧ s'.pr = st.pr
          ∧ s'.tmp.NameRecord.isSome = true ∧ variantCount s'.tmp = 0) ∨
        (isVariantId nid = true ∧ s'.pr.ReferenceArray = st.pr.ReferenceArray ++ [s'.tmp]
          ∧ s'.tmp.NameRecord = st.tmp.NameRecord ∧ hasVariant nid s'.tmp = true
          ∧ variantCount s'.tmp ≤ variantCount st.tmp + 1))
      (fun pr => isVariantId nid = false ∧ pr = st.pr) := by
  unfold parseProjectReferencesStep
  refine RecordStep.Forall_ite (fun h => ?_) (fun _ => ?_)
  · exact Or.inl ⟨h, by rw [h]; rfl, rfl, rfl, rfl⟩
  refine RecordStep.Forall_ite (fun h => ?_) (fun _ => ?_)
  · refine Or.inr ⟨by rw [h]; rfl, rfl, rfl, by rw [h]; rfl, ?_⟩
    simp only [variantCount, Option.isSome_some, if_true]
    split_ifs <;> omega
  refine RecordStep.Forall_ite (fun h => ?_) (fun _ => ?_)
  · refine Or.inr ⟨by rw [h]; rfl, rfl, rfl, by rw [h]; rfl, ?_⟩
    simp only [variantCount, Option.isSome_some, if_true]
    split_ifs <;> omega
  refine RecordStep.Forall_ite (fun h => ?_) (fun _ => ?_)
  · refine Or.inr ⟨by rw [h]; rfl, rfl, rfl, by rw [h]; rfl, ?_⟩
    simp only [variantCount, Option.isSome_some, if_true]
    split_ifs <;> omega
  refine RecordStep.Forall_ite (fun h => ?_) (fun _ => ?_)
  · refine Or.inr ⟨by rw [h]; rfl, rfl, rfl, by rw [h]; rfl, ?_⟩
    simp only [variantCount, Option.isSome_some, if_true]
    split_ifs <;> omega
  refine RecordStep.Forall_ite (fun h => ?_) (fun _ => trivial)
  exact ⟨by rw [h]; rfl, rfl⟩

/-- The array that the loop of `ParseProjectReferences` returns: the array it
started with, then `tmp` after each variant record read, in order. -/
theorem referencesLoop_array (fuel : Nat) :
    ∀ (st : ReferencesState) (reader : List Byte)
      (res : dirstream.ProjectReferences × List Byte),
      recordLoop .readReferenceId (fun _ => true) (fun st => st.pr) parseProjectReferencesStep
        fuel st reader = .ok res →
      res.1.ReferenceArray.map some
        = st.pr.ReferenceArray.map some
          ++ ((recordEvents (fun _ => true) parseProjectReferencesStep fuel st reader).filter
              (fun e => isVariantId e.nid)).map
            (fun e => e.result.state?.map (fun s => s.tmp)) := by
  induction fuel with
  | zero =>
    intro st reader res h
    simp [recordLoop] at h
  | succ fuel ih =>
    intro st reader res h
    unfold recordLoop at h
    unfold recordEvents
    simp only [if_true] at h ⊢
    cases hb : (binaryRead reader 2).1 with
    | none => simp [hb] at h
    | some b =>
      simp only [hb] at h ⊢
      have hspec := parseProjectReferencesStep_spec (leNat b) st (binaryRead reader 2).2
      cases hs : parseProjectReferencesStep (leNat b) st (binaryRead reader 2).2 with
      | next s' reader' =>
        rw [hs] at h hspec
        simp only [hs]
        have hrec := ih _ _ _ h
        rw [hrec]
        rcases hspec with ⟨-, hv, hpr, -, -⟩ | ⟨hv, harr, -, -, -⟩
        · rw [List.filter_cons_of_neg (by simp [hv]), hpr]
        · rw [List.filter_cons_of_pos (by simp [hv]), harr]
          simp [RecordStep.state?]
      | done a reader' =>
        rw [hs] at h hspec
        simp only [hs]
        injection h with h
        subst h
        obtain ⟨hv, ha⟩ := hspec
        rw [List.filter_cons_of_neg (by simp [hv])]
        simp [ha]
      | fail err =>
        rw [hs] at h
        simp at h

/-- The state with which the loop goes on after a variant record. -/
theorem referencesEvent_variant (fuel : Nat) (st : ReferencesState) (reader : List Byte)
    (e : RecordEvent ReferencesState dirstream.ProjectReferences)
    (he : e ∈ recordEvents (fun _ => true) parseProjectReferencesStep fuel st reader)
    (hv : isVariantId e.nid = true) :
    ∃ s r, e.result = .next s r ∧ s.tmp.NameRecord = e.before.tmp.NameRecord
      ∧ hasVariant e.nid s.tmp = true ∧ 1 ≤ variantCount s.tmp
      ∧ variantCount s.tmp ≤ variantCount e.before.tmp + 1 := by
  have hres := recordEvents_result _ _ fuel st reader e he
  have hspec := parseProjectReferencesStep_spec e.nid e.before e.payload
  rw [← hres] at hspec
  have hcount : ∀ r : dirstream.Reference, hasVariant e.nid r = true → 1 ≤ variantCount r := by
    intro r hr
    unfold hasVariant at hr
    unfold variantCount
    split_ifs at hr <;> simp_all <;> omega
  cases hr : e.result with
  | next s r =>
    rw [hr] at hspec
    rcases hspec with ⟨-, hnv, -, -, -⟩ | ⟨-, -, hname, hhas, hle⟩
    · rw [hv] at hnv
      exact absurd hnv (by simp)
    · exact ⟨s, r, rfl, hname, hhas, hcount _ hhas, hle⟩
  | done a r =>
    rw [hr] at hspec
    rw [hv] at hspec
    exact absurd hspec.1 (by simp)
  | fail err =>
    exfalso
    rw [hres] at hr
    have hmem : e.nid ∈ projectReferencesIds := by
      unfold isVariantId at hv
      simp only [Bool.or_eq_true, beq_iff_eq] at hv
      unfold projectReferencesIds
      rcases hv with ((h | h) | h) | h <;> simp [h]
    unfold parseProjectReferencesStep at hr
    unfold projectReferencesIds at hmem
    simp only [List.mem_cons, List.mem_singleton, List.not_mem_nil, or_false] at hmem
    rcases hmem with h | h | h | h | h | h <;> simp [h] at hr

/-- The state with which the loop goes on after a name record. -/
theorem referencesEvent_name (fuel : Nat) (st : ReferencesState) (reader : List Byte)
    (e : RecordEvent ReferencesState dirstream.ProjectReferences)
    (he : e ∈ recordEvents (fun _ => true) parseProjectReferencesStep fuel st reader)
    (hn : e.nid = 0x0016) (s : ReferencesState) (r : List Byte) (hr : e.result = .next s r) :
    s.tmp.NameRecord.isSome = true ∧ variantCount s.tmp = 0 := by
  have hres := recordEvents_result _ _ fuel st reader e he
  have hspec := parseProjectReferencesStep_spec e.nid e.before e.payload
  rw [← hres, hr] at hspec
  rcases hspec with ⟨-, -, -, h1, h2⟩ | ⟨hv, -⟩
  · exact ⟨h1, h2⟩
  · rw [hn] at hv
    exact absurd hv (by decide)

/-! ### The record loops end -/

/-- A `binary.Read` leaves no more unread bytes than there were. -/
theorem binaryRead_length_le (reader : List Byte) (n : Nat) :
    (binaryRead reader n).2.length ≤ reader.length := by
  unfold binaryRead
  split_ifs <;> simp

/-- A `binary.Read` that succeeds consumes the bytes it reads. -/
theorem binaryRead_some_length (reader : List Byte) (n : Nat) (b : List Byte)
    (h : (binaryRead reader n).1 = some b) :
    (binaryRead reader n).2.length + n = reader.length := by
  unfold binaryRead at h ⊢
  split_ifs at h ⊢ with hn
  simp only [List.length_drop]
  omega

/-- A read of an unsigned integer leaves no more unread bytes. -/
theorem readUint_length_le (n : Nat) (reader : List Byte) (old : Nat) :
    (readUint n reader old).2.length ≤ reader.length := by
  unfold readUint
  cases (binaryRead reader n).1 <;> exact binaryRead_length_le reader n

/-- A read of an array leaves no more unread bytes. -/
theorem readSlice_reader_length_le (reader : List Byte) (size : Nat) :
    (readSlice reader size).reader.length ≤ reader.length := by
  unfold readSlice
  cases (binaryRead reader size).1 <;> exact binaryRead_length_le reader size

/-- A read of a `GUID` leaves no more unread bytes. -/
theorem readGUID_length_le (reader : List Byte) :
    (readGUID reader).2.length ≤ reader.length := by
  unfold readGUID
  split_ifs <;> simp

/-- The function `parseNameRecord` leaves no more unread bytes. -/
theorem parseNameRecord_length_le (reader : List Byte) :
    (parseNameRecord reader).2.length ≤ reader.length := by
  simp only [parseNameRecord]
  refine le_trans (readSlice_reader_length_le _ _) ?_
  refine le_trans (readUint_length_le _ _ _) ?_
  refine le_trans (readUint_length_le _ _ _) ?_
  refine le_trans (readSlice_reader_length_le _ _) ?_
  exact readUint_length_le _ _ _

/-- The function `parseControlRecord` leaves no more unread bytes. -/
theorem parseControlRecord_length_le (reader : List Byte) :
    (parseControlRecord reader).2.length ≤ reader.length := by
  simp only [parseControlRecord]
  refine le_trans (readUint_length_le _ _ _) ?_
  refine le_trans (readGUID_length_le _) ?_
  refine le_trans (readUint_length_le _ _ _) ?_
  refine le_trans (readUint_length_le _ _ _) ?_
  refine le_trans (readSlice_reader_length_le _ _) ?_
  refine le_trans (readUint_length_le _ _ _) ?_
  refine le_trans (readUint_length_le _ _ _) ?_
  have hrest : ((readUint 2 (readUint 2 (readUint 4 (readSlice (readUint 4
      (readUint 4 reader 0).2 0).2 (readUint 4 (readUint 4 reader 0).2 0).1).reader 0).2 0).2
      0).2).length ≤ reader.length := by
    refine le_trans (readUint_length_le _ _ _) ?_
    refine le_trans (readUint_length_le _ _ _) ?_
    refine le_trans (readUint_length_le _ _ _) ?_
    refine le_trans (readSlice_reader_length_le _ _) ?_
    refine le_trans (readUint_length_le _ _ _) ?_
    exact readUint_length_le _ _ _
  split_ifs
  · exact hrest
  · dsimp only
    refine le_trans (readUint_length_le _ _ _) ?_
    exact le_trans (parseNameRecord_length_le _) hrest

/-- A bound that holds for both branches holds for the conditional. -/
theorem RecordStep.ReaderAtMost_ite {σ α : Type} {n : Nat} {c : Prop} [Decidable c]
    {a b : RecordStep σ α} (ha : a.ReaderAtMost n) (hb : b.ReaderAtMost n) :
    (if c then a else b).ReaderAtMost n := by
  split_ifs
  · exact ha
  · exact hb

/-- A read of a structure of fixed size leaves no more unread bytes. -/
theorem RecordStep.ReaderAtMost_read {σ α : Type} (reader : List Byte) (n : Nat)
    (f : List Byte → σ) :
    (match (binaryRead reader n).1 with
      | some b => RecordStep.next (f b) (binaryRead reader n).2
      | none => (RecordStep.fail .read : RecordStep σ α)).ReaderAtMost reader.length := by
  cases (binaryRead reader n).1 with
  | none => trivial
  | some b => exact binaryRead_length_le reader n

/-- The `switch` of `ParseProjectInfo` leaves no more unread bytes. -/
theorem parseProjectInfoStep_reader (nid : Nat) (pi : dirstream.ProjectInformation)
    (reader : List Byte) :
    (parseProjectInfoStep nid pi reader).ReaderAtMost reader.length := by
  unfold parseProjectInfoStep
  refine RecordStep.ReaderAtMost_ite (RecordStep.ReaderAtMost_read _ _ _) ?_
  refine RecordStep.ReaderAtMost_ite (RecordStep.ReaderAtMost_read _ _ _) ?_
  refine RecordStep.ReaderAtMost_ite (RecordStep.ReaderAtMost_read _ _ _) ?_
  refine RecordStep.ReaderAtMost_ite (RecordStep.ReaderAtMost_read _ _ _) ?_
  refine RecordStep.ReaderAtMost_ite (RecordStep.ReaderAtMost_read _ _ _) ?_
  refine RecordStep.ReaderAtMost_ite ?_ ?_
  · dsimp only
    refine RecordStep.ReaderAtMost_ite trivial ?_
    exact le_trans (readSlice_reader_length_le _ _) (readUint_length_le _ _ _)
  refine RecordStep.ReaderAtMost_ite ?_ ?_
  · dsimp only
    refine RecordStep.ReaderAtMost_ite trivial ?_
    refine RecordStep.ReaderAtMost_ite trivial ?_
    refine le_trans (readSlice_reader_length_le _ _) ?_
    refine le_trans (readUint_length_le _ _ _) ?_
    refine le_trans (readUint_length_le _ _ _) ?_
    exact le_trans (readSlice_reader_length_le _ _) (readUint_length_le _ _ _)
  refine RecordStep.ReaderAtMost_ite ?_ ?_
  · dsimp only
    refine RecordStep.ReaderAtMost_ite trivial ?_
    refine RecordStep.ReaderAtMost_ite trivial ?_
    refine le_trans (readSlice_reader_length_le _ _) ?_
    refine le_trans (readUint_length_le _ _ _) ?_
    refine le_trans (readUint_length_le _ _ _) ?_
    exact le_trans (readSlice_reader_length_le _ _) (readUint_length_le _ _ _)
  refine RecordStep.ReaderAtMost_ite (RecordStep.ReaderAtMost_read _ _ _) ?_
  refine RecordStep.ReaderAtMost_ite (RecordStep.ReaderAtMost_read _ _ _) ?_
  refine RecordStep.ReaderAtMost_ite (RecordStep.ReaderAtMost_read _ _ _) ?_
  refine RecordStep.ReaderAtMost_ite ?_ trivial
  dsimp only
  refine RecordStep.ReaderAtMost_ite trivial ?_
  refine RecordStep.ReaderAtMost_ite trivial ?_
  refine le_trans (readSlice_reader_length_le _ _) ?_
  refine le_trans (readUint_length_le _ _ _) ?_
  refine le_trans (readUint_length_le _ _ _) ?_
  exact le_trans (readSlice_reader_length_le _ _) (readUint_length_le _ _ _)

/-- The `switch` of `ParseProjectReferences` leaves no more unread bytes. -/
theorem parseProjectReferencesStep_reader (nid : Nat) (st : ReferencesState)
    (reader : List Byte) :
    (parseProjectReferencesStep nid st reader).ReaderAtMost reader.length := by
  unfold parseProjectReferencesStep
  refine RecordStep.ReaderAtMost_ite (parseNameRecord_length_le _) ?_
  refine RecordStep.ReaderAtMost_ite (parseControlRecord_length_le _) ?_
  refine RecordStep.ReaderAtMost_ite ?_ ?_
  · refine le_trans (readUint_length_le _ _ _) ?_
    refine le_trans (readUint_length_le _ _ _) ?_
    refine le_trans (readSlice_reader_length_le _ _) ?_
    exact le_trans (readUint_length_le _ _ _) (readUint_length_le _ _ _)
  refine RecordStep.ReaderAtMost_ite ?_ ?_
  · refine le_trans (parseControlRecord_length_le _) ?_
    refine le_trans (List.length_drop _ _ ▸ Nat.sub_le _ _) ?_
    exact le_trans (readSlice_reader_length_le _ _) (readUint_length_le _ _ _)
  refine RecordStep.ReaderAtMost_ite ?_ ?_
  · refine le_trans (readUint_length_le _ _ _) ?_
    refine le_trans (readUint_length_le _ _ _) ?_
    refine le_trans (readSlice_reader_length_le _ _) ?_
    refine le_trans (readUint_length_le _ _ _) ?_
    refine le_trans (readSlice_reader_length_le _ _) ?_
    exact le_trans (readUint_length_le _ _ _) (readUint_length_le _ _ _)
  exact RecordStep.ReaderAtMost_ite (le_refl _) trivial

/-- The `switch` of `ParseProjectModules` leaves no more unread bytes. -/
theorem parseProjectModulesStep_reader (nid : Nat) (st : ModulesState) (reader : List Byte) :
    (parseProjectModulesStep nid st reader).ReaderAtMost reader.length := by
  unfold parseProjectModulesStep
  refine RecordStep.ReaderAtMost_ite ?_ ?_
  · exact le_trans (readSlice_reader_length_le _ _) (readUint_length_le _ _ _)
  refine RecordStep.ReaderAtMost_ite ?_ ?_
  · exact le_trans (readSlice_reader_length_le _ _) (readUint_length_le _ _ _)
  refine RecordStep.ReaderAtMost_ite ?_ ?_
  · dsimp only
    refine RecordStep.ReaderAtMost_ite trivial ?_
    refine le_trans (readSlice_reader_length_le _ _) ?_
    refine le_trans (readUint_length_le _ _ _) ?_
    refine le_trans (readUint_length_le _ _ _) ?_
    exact le_trans (readSlice_reader_length_le _ _) (readUint_length_le _ _ _)
  refine RecordStep.ReaderAtMost_ite ?_ ?_
  · refine le_trans (readSlice_reader_length_le _ _) ?_
    refine le_trans (readUint_length_le _ _ _) ?_
    refine le_trans (readUint_length_le _ _ _) ?_
    exact le_trans (readSlice_reader_length_le _ _) (readUint_length_le _ _ _)
  refine RecordStep.ReaderAtMost_ite ?_ ?_
  · exact le_trans (readUint_length_le _ _ _) (readUint_length_le _ _ _)
  refine RecordStep.ReaderAtMost_ite ?_ ?_
  · exact le_trans (readUint_length_le _ _ _) (readUint_length_le _ _ _)
  refine RecordStep.ReaderAtMost_ite ?_ ?_
  · exact le_trans (readUint_length_le _ _ _) (readUint_length_le _ _ _)
  refine RecordStep.ReaderAtMost_ite (readUint_length_le _ _ _) ?_
  refine RecordStep.ReaderAtMost_ite (readUint_length_le _ _ _) ?_
  refine RecordStep.ReaderAtMost_ite (readUint_length_le _ _ _) ?_
  refine RecordStep.ReaderAtMost_ite (readUint_length_le _ _ _) ?_
  exact RecordStep.ReaderAtMost_ite (readUint_length_le _ _ _) trivial

/-- A record loop whose `switch` leaves no more unread bytes returns no more
unread bytes than it was given. -/
theorem recordLoop_reader {σ α : Type} (rid : DirStreamError) (guard : σ → Bool)
    (finish : σ → α) (step : Nat → σ → List Byte → RecordStep σ α)
    (hstep : ∀ nid s r, (step nid s r).ReaderAtMost r.length) (fuel : Nat) :
    ∀ (s : σ) (reader : List Byte) (res : α × List Byte),
      recordLoop rid guard finish step fuel s reader = .ok res →
      res.2.length ≤ reader.length := by
  induction fuel with
  | zero =>
    intro s reader res h
    unfold recordLoop at h
    split_ifs at h
    injection h with h
    subst h
    exact le_refl _
  | succ fuel ih =>
    intro s reader res h
    unfold recordLoop at h
    split_ifs at h with hg
    · cases hb : (binaryRead reader 2).1 with
      | none => simp [hb] at h
      | some b =>
        simp only [hb] at h
        have hst := hstep (leNat b) s (binaryRead reader 2).2
        have hle := binaryRead_length_le reader 2
        cases hs : step (leNat b) s (binaryRead reader 2).2 with
        | next s' reader' =>
          rw [hs] at h hst
          exact le_trans (ih _ _ _ h) (le_trans hst hle)
        | done a reader' =>
          rw [hs] at h hst
          injection h with h
          subst h
          exact le_trans hst hle
        | fail err => rw [hs] at h; simp at h
    · injection h with h
      subst h
      exact le_refl _

/-- A record loop whose `switch` leaves no more unread bytes ends within as
many records as there are unread bytes, and one more. -/
theorem recordLoop_terminates {σ α : Type} (rid : DirStreamError) (guard : σ → Bool)
    (finish : σ → α) (step : Nat → σ → List Byte → RecordStep σ α)
    (hstep : ∀ nid s r, (step nid s r).ReaderAtMost r.length) (fuel : Nat) :
    ∀ (s : σ) (reader : List Byte), reader.length < fuel →
      recordLoop rid guard finish step fuel s reader ≠ .outOfFuel := by
  induction fuel with
  | zero =>
    intro s reader h
    omega
  | succ fuel ih =>
    intro s reader h
    unfold recordLoop
    split_ifs with hg
    · cases hb : (binaryRead reader 2).1 with
      | none => simp
      | some b =>
        simp only
        have hst := hstep (leNat b) s (binaryRead reader 2).2
        have hlen := binaryRead_some_length reader 2 b hb
        cases hs : step (leNat b) s (binaryRead reader 2).2 with
        | next s' reader' =>
          rw [hs] at hst
          simp only
          apply ih
          have : reader'.length ≤ (binaryRead reader 2).2.length := hst
          omega
        | done a reader' => simp
        | fail err => simp
    · simp

/-- A bind of outcomes runs out of fuel only if one of its calls does. -/
theorem Outcome.bind_returns {ε α β : Type} {r : Outcome ε α} {f : α → Outcome ε β}
    (h1 : r ≠ .outOfFuel) (h2 : ∀ a, r = .ok a → f a ≠ .outOfFuel) :
    r.bind f ≠ .outOfFuel := by
  cases r with
  | ok a => exact h2 a rfl
  | error e => simp [Outcome.bind]
  | panic => simp [Outcome.bind]
  | outOfFuel => exact absurd rfl h1

/-- The header of the modules section leaves no more unread bytes and does
not loop. -/
theorem parseProjectModulesHeader_reader (reader : List Byte) :
    parseProjectModulesHeader reader ≠ .outOfFuel ∧
    ∀ header, parseProjectModulesHeader reader = .ok header →
      header.2.length ≤ reader.length := by
  unfold parseProjectModulesHeader parseProjectCookie
  dsimp only
  split_ifs with h
  · constructor
    · simp [Outcome.bind]
    · intro header hh
      simp [Outcome.bind] at hh
  · constructor
    · simp [Outcome.bind]
    · intro header hh
      simp only [Outcome.bind, Outcome.ok.injEq] at hh
      rw [← hh]
      refine le_trans (readUint_length_le _ _ _) ?_
      refine le_trans (readUint_length_le _ _ _) ?_
      refine le_trans (readUint_length_le _ _ _) ?_
      exact le_trans (readUint_length_le _ _ _) (readUint_length_le _ _ _)

/-- With fuel for more records than the input has bytes, `ParseDirStream`
returns a project or an error. -/
theorem ParseDirStream_terminates (fuel : Nat) (reader : List Byte)
    (h : reader.length < fuel) : ParseDirStream fuel reader ≠ .outOfFuel := by
  unfold ParseDirStream
  apply Outcome.bind_returns
  · exact recordLoop_terminates _ _ _ _ parseProjectInfoStep_reader fuel _ _ h
  intro information h1
  have hr1 : information.2.length ≤ reader.length :=
    recordLoop_reader _ _ _ _ parseProjectInfoStep_reader fuel _ _ _ h1
  apply Outcome.bind_returns
  · exact recordLoop_terminates _ _ _ _ parseProjectReferencesStep_reader fuel _ _ (by omega)
  intro references h2
  have hr2 : references.2.length ≤ information.2.length :=
    recordLoop_reader _ _ _ _ parseProjectReferencesStep_reader fuel _ _ _ h2
  apply Outcome.bind_returns
  · unfold ParseProjectModules
    apply Outcome.bind_returns (parseProjectModulesHeader_reader _).1
    intro header h3
    have hr3 := (parseProjectModulesHeader_reader _).2 header h3
    exact recordLoop_terminates _ _ _ _ parseProjectModulesStep_reader fuel _ _ (by omega)
  intro modules _
  simp

/-! ### Errors of the three sections -/

/-- An error of `ParseProjectInfo` is the error of `ParseDirStream`. -/
theorem ParseDirStream_info_error (fuel : Nat) (reader : List Byte) (err : DirStreamError)
    (h : ParseProjectInfo fuel reader = .error err) :
    ParseDirStream fuel reader = .error err := by
  unfold ParseDirStream
  rw [h]
  rfl

/-- An error of `ParseProjectReferences` is the error of `ParseDirStream`. -/
theorem ParseDirStream_references_error (fuel : Nat) (reader : List Byte)
    (information : dirstream.ProjectInformation × List Byte) (err : DirStreamError)
    (h1 : ParseProjectInfo fuel reader = .ok information)
    (h2 : ParseProjectReferences fuel information.2 = .error err) :
    ParseDirStream fuel reader = .error err := by
  unfold ParseDirStream
  rw [h1]
  show (ParseProjectReferences fuel information.2).bind _ = _
  rw [h2]
  rfl

/-- An error of the loop of `ParseProjectModules` is the error of
`ParseDirStream`. -/
theorem ParseDirStream_modules_error (fuel : Nat) (reader : List Byte)
    (information : dirstream.ProjectInformation × List Byte)
    (references : dirstream.ProjectReferences × List Byte)
    (header : dirstream.ProjectModules × List Byte) (err : DirStreamError)
    (h1 : ParseProjectInfo fuel reader = .ok information)
    (h2 : ParseProjectReferences fuel information.2 = .ok references)
    (h3 : parseProjectModulesHeader references.2 = .ok header)
    (h4 : parseProjectModulesLoop fuel { tmp := {}, pm := header.1 } header.2 = .error err) :
    ParseDirStream fuel reader = .error err := by
  unfold ParseDirStream
  rw [h1]
  show (ParseProjectReferences fuel information.2).bind _ = _
  rw [h2]
  show (ParseProjectModules fuel references.2).bind _ = _
  unfold ParseProjectModules
  rw [h3]
  show (parseProjectModulesLoop fuel { tmp := {}, pm := header.1 } header.2).bind _ = _
  rw [h4]
  rfl

/-- A record of the modules section on which the `switch` fails makes
`ParseDirStream` return that error. -/
theorem ParseDirStream_modules_fail (fuel : Nat) (reader : List Byte)
    (information : dirstream.ProjectInformation × List Byte)
    (references : dirstream.ProjectReferences × List Byte)
    (header : dirstream.ProjectModules × List Byte)
    (e : RecordEvent ModulesState dirstream.ProjectModules) (err : DirStreamError)
    (h1 : ParseProjectInfo fuel reader = .ok information)
    (h2 : ParseProjectReferences fuel information.2 = .ok references)
    (h3 : parseProjectModulesHeader references.2 = .ok header)
    (he : e ∈ projectModulesEvents fuel header.1 header.2)
    (hfail : parseProjectModulesStep e.nid e.before e.payload = .fail err) :
    ParseDirStream fuel reader = .error err := by
  apply ParseDirStream_modules_error fuel reader information references header err h1 h2 h3
  unfold parseProjectModulesLoop
  unfold projectModulesEvents at he
  refine recordLoop_of_fail _ _ _ _ fuel _ _ e err he ?_
  rw [recordEvents_result _ _ fuel _ _ e he]
  exact hfail

/-! ### Claims -/

/-- C1: `getCopyTokenOffsetBitCount` returns 12 for `D ≤ 16`; for
`16 < D ≤ 4096` the unique `L` in `4..11` with `2^(15-L) < D ≤ 2^(16-L)`; an
error for `D > 4096`; and the eighteen table entries of the specification. -/
theorem getCopyTokenOffsetBitCount_table (D : Nat) :
    (D ≤ 16 → getCopyTokenOffsetBitCount D = .ok 12) ∧
    (16 < D → D ≤ 4096 →
      ∃ L, getCopyTokenOffsetBitCount D = .ok L ∧ 4 ≤ L ∧ L ≤ 11 ∧
        2 ^ (15 - L) < D ∧ D ≤ 2 ^ (16 - L) ∧
        ∀ L', 4 ≤ L' → L' ≤ 11 → 2 ^ (15 - L') < D → D ≤ 2 ^ (16 - L') → L' = L) ∧
    (4096 < D → getCopyTokenOffsetBitCount D = .error .lengthTooHigh) ∧
    [0, 16, 17, 32, 33, 64, 65, 128, 129, 256, 257, 512, 513, 1024, 1025, 2048, 2049,
        4096].map getCopyTokenOffsetBitCount
      = [12, 12, 11, 11, 10, 10, 9, 9, 8, 8, 7, 7, 6, 6, 5, 5, 4, 4].map Res.ok := by
  refine ⟨?_, ?_, ?_, ?_⟩
  · intro h
    simp [getCopyTokenOffsetBitCount, h]
  · intro h1 h2
    unfold getCopyTokenOffsetBitCount
    split_ifs
    · omega
    all_goals
      refine ⟨_, rfl, by norm_num, by norm_num, by norm_num; omega, by norm_num; omega, ?_⟩
      intro L' h4 h11 hlo hhi
      interval_cases L' <;> norm_num at hlo hhi ⊢ <;> omega
  · intro h
    unfold getCopyTokenOffsetBitCount
    split_ifs <;> first | omega | rfl
  · decide

/-- C2 (the code at a failing input): the decompressed buffer `b` has 65537
bytes, `7` followed by zeros, the chunk start is `s = 65535` (so `D = 2`,
`L = 12`), and the copy token is `0x0000` (offset 1, length 3). The token is
decoded without error and three bytes are appended, but they are `b[0], b[1],
b[2]` (`7, 0, 0`), not three copies of the last byte `b[65536] = 0`: the copy
source is computed from the buffer length truncated to 16 bits. This holds
whatever the spare capacity of the compressed input. -/
theorem decodeCopyToken_oversized_buffer :
    (7 :: 0 :: 0 :: List.replicate 65534 (0 : Byte)).length = 65537 ∧
    getCopyTokenOffsetBitCount (65537 - 65535) = .ok 12 ∧
    readUint16 [0, 0] 0 = some 0 ∧
    (∀ spare : List Byte,
      decodeCopyToken [0, 0] spare 0 (7 :: 0 :: 0 :: List.replicate 65534 0) 65535
        = .ok ((7 :: 0 :: 0 :: List.replicate 65534 0) ++ [7, 0, 0], 2)) ∧
    (7 :: 0 :: 0 :: List.replicate 65534 (0 : Byte))[65536]? = some 0 := by
  refine ⟨?_, by decide, by decide,
    fun spare => decodeCopyToken_wrapped_source spare 7 0 0 _ (List.length_replicate _ _), ?_⟩
  · rw [List.length_cons, List.length_cons, List.length_cons, List.length_replicate]
  · rw [getElem?_cons_cons_cons 7 0 0 _ 65533, List.getElem?_replicate, if_pos (by decide)]

/-- C3: for every byte sequence `d` with `3 ≤ len d ≤ 3640`, the container made of
the signature byte, the header (flag 1, signature `0b011`, size = body length
- 1) and the all-literal body of `d` is decompressed by `DecompressContainer`
to exactly `d`, for every fuel above `len d` and every spare capacity of the
container; the position returned is the container length. -/
theorem DecompressContainer_literal_chunk (d spare : List Byte) (fuel : Nat)
    (h3 : 3 ≤ d.length)
    (hmax : d.length ≤ 3640) (hfuel : d.length < fuel) :
    DecompressContainer fuel (literalContainer d) spare = .ok (d, (literalContainer d).length) := by
  obtain ⟨fuel, rfl⟩ : ∃ f, fuel = f + 1 := ⟨fuel - 1, by omega⟩
  have hB := literalBody_length 0 d (by omega)
  obtain ⟨b, d', rfl⟩ : ∃ b d', d = b :: d' := by
    cases d with
    | nil => simp at h3
    | cons b d' => exact ⟨b, d', rfl⟩
  generalize hBdef : (literalBody 0 (b :: d')).length = B at hB
  have hB4 : 4 ≤ B := by omega
  have hB4095 : B ≤ 4095 := by omega
  have hlen : (literalContainer (b :: d')).length = B + 3 := by
    simp [literalContainer, u16le, hBdef]
  have hdrop3 : (literalContainer (b :: d')).drop 3 = literalBody 0 (b :: d') := by
    simp [literalContainer, u16le]
  have hhdr : chunkHeader 1 (B - 1) = 0xB000 + (B - 1) := by simp [chunkHeader]
  have hread : readUint16 (literalContainer (b :: d') ++ spare) 1
      = some (chunkHeader 1 (B - 1)) := by
    apply readUint16_spare
    unfold literalContainer
    rw [hBdef]
    exact readUint16_u16le _ _ _ (by rw [hhdr]; omega)
  have hsz : chunkHeader 1 (B - 1) &&& 0x0FFF = B - 1 := by rw [hdr_size, hhdr]; omega
  have hsg : (chunkHeader 1 (B - 1) &&& 0x7000) >>> 12 = 3 := by
    rw [hdr_signature, hhdr]; omega
  have hfl : (chunkHeader 1 (B - 1) &&& 0x8000) >>> 15 = 1 := by rw [hdr_flag, hhdr]; omega
  have hchunk : decompressChunk (fuel + 1) (literalContainer (b :: d')) spare 1 []
      = .ok (b :: d', B + 3) := by
    unfold decompressChunk
    rw [hread]
    have hp : u16 (1 + 2) = 3 := by decide
    have hend : u16 (3 + (B - 1)) = B + 2 := by rw [u16_of_lt (by omega)]; omega
    have hck : ¬ (B - 1 < 3 ∨ (1 = 1 ∧ B - 1 > 4095) ∨ ((1 : Nat) = 0 ∧ B - 1 ≠ 4095)) := by
      omega
    simp only [hsz, hsg, hfl, hp, hend, hck, ne_eq, not_true_eq_false, if_false, if_true,
      List.length_nil]
    rw [literalBody] at hdrop3
    obtain ⟨hflag, hdrop4⟩ := getElem?_of_drop_eq_cons hdrop3
    have hu0 : u16 0 = 0 := by decide
    rw [hu0, chunkLoop_step _ spare _ _ fuel 3 [] 0 (by omega) hflag]
    have h4 : u16 (3 + 1) = 4 := by decide
    rw [h4]
    have := chunk_literals (literalContainer (b :: d')) spare (B + 2) 0 (by rw [hlen]) (by omega)
      (b :: d') 8 4 fuel [] (by omega) (le_refl _) (by simp) (by omega)
      (by rw [hdrop4, literalBody])
    have hck2 : ¬ (B - 1 < 3 ∨ 4095 < B - 1) := by omega
    simpa [hck2] using this
  unfold DecompressContainer
  have h0 : (literalContainer (b :: d'))[0]? = some 1 := by simp [literalContainer]
  rw [h0]
  simp only [ne_eq, not_true_eq_false, if_false]
  have hlt : 1 < u16 ((literalContainer (b :: d')).length - 1) := by
    rw [hlen, u16_of_lt (by omega)]; omega
  simp only [containerLoop, hlt, if_true, hchunk, Res.bind_ok]
  rw [hlen]
  exact containerLoop_done _ spare _ _ _ _ (by rw [hlen, u16_of_lt (by omega)]; omega)

/-- Witness of C3 at `d = "abc"`, whose container is `01 03 B0 00 61 62 63`,
without spare capacity. -/
theorem DecompressContainer_literal_chunk_witness :
    3 ≤ ([0x61, 0x62, 0x63] : List Byte).length ∧
    ([0x61, 0x62, 0x63] : List Byte).length ≤ 3640 ∧
    ([0x61, 0x62, 0x63] : List Byte).length < 4 ∧
    DecompressContainer 4 (literalContainer [0x61, 0x62, 0x63]) []
      = .ok ([0x61, 0x62, 0x63], (literalContainer [0x61, 0x62, 0x63]).length) :=
  ⟨by decide, by decide, by decide,
    DecompressContainer_literal_chunk [0x61, 0x62, 0x63] [] 4 (by decide) (by decide)
      (by decide)⟩

/-- C4 (the code at a failing input): the container `01 | 01 B0 | 00 61`, whose
chunk header has flag 1, signature `0b011` and chunkSize 1, is rejected with the
chunk-size/flag error instead of being decompressed to `0x61`; more generally
`decompressChunk` rejects every token-compressed chunk whose chunkSize is 0, 1
or 2 (the `compressedChunkSize < 3` disjunct of the check), whatever the spare
capacity of the input. -/
theorem decompressChunk_rejects_small_chunkSize :
    (∀ (fuel : Nat) (spare : List Byte),
      DecompressContainer (fuel + 1) [0x01, 0x01, 0xB0, 0x00, 0x61] spare
        = .error .invalidFlagSize) ∧
    (∀ (fuel : Nat) (data spare : List Byte) (pos : Nat) (buf : List Byte) (h : Nat),
      readUint16 (data ++ spare) pos = some h → (h &&& 0x7000) >>> 12 = 3 →
      (h &&& 0x8000) >>> 15 = 1 →
      h &&& 0x0FFF < 3 → decompressChunk fuel data spare pos buf = .error .invalidFlagSize) := by
  have hgen : ∀ (fuel : Nat) (data spare : List Byte) (pos : Nat) (buf : List Byte) (h : Nat),
      readUint16 (data ++ spare) pos = some h → (h &&& 0x7000) >>> 12 = 3 →
      (h &&& 0x8000) >>> 15 = 1 →
      h &&& 0x0FFF < 3 → decompressChunk fuel data spare pos buf = .error .invalidFlagSize := by
    intro fuel data spare pos buf h hread hsig hflag hsz
    unfold decompressChunk
    rw [hread]
    simp only [hsig, ne_eq, not_true_eq_false, if_false]
    rw [if_pos (Or.inl hsz)]
  refine ⟨?_, hgen⟩
  intro fuel spare
  have hread : readUint16 ([0x01, 0x01, 0xB0, 0x00, 0x61] ++ spare) 1
      = some ((0x01 : Byte).val + 256 * (0xB0 : Byte).val) := by
    have h := readUint16_append [1] ([0x00, 0x61] ++ spare) 0x01 0xB0 (by decide)
    exact h
  have hchunk := hgen (fuel + 1) [0x01, 0x01, 0xB0, 0x00, 0x61] spare 1 [] _ hread
    (by decide) (by decide) (by decide)
  have hlt : 1 < u16 (([0x01, 0x01, 0xB0, 0x00, 0x61] : List Byte).length - 1) := by decide
  simp only [DecompressContainer, List.getElem?_cons_zero, ne_eq, not_true_eq_false, if_false,
    containerLoop, hlt, if_true, hchunk]
  rfl

/-- C5 (as stated, refuted): a chunk header with signature `0b011`, flag 0 and
chunkSize 4095 sits at position 61438 and exactly 4096 bytes follow it, yet
`decompressChunk` panics, whatever the spare capacity: the `uint16` upper
slice bound `pos + 4096` wraps to 0. -/
theorem decompressChunk_raw_position_wrap :
    readUint16 (List.replicate 61438 0 ++ 0xFF :: 0x3F :: List.replicate 4096 0) 61438
      = some 0x3FFF ∧
    (0x3FFF &&& 0x7000) >>> 12 = 3 ∧ (0x3FFF &&& 0x8000) >>> 15 = 0 ∧
    0x3FFF &&& 0x0FFF = 4095 ∧
    61438 + 2 + 4096
      ≤ (List.replicate 61438 (0 : Byte) ++ 0xFF :: 0x3F :: List.replicate 4096 0).length ∧
    ∀ fuel spare buf,
      decompressChunk fuel (List.replicate 61438 0 ++ 0xFF :: 0x3F :: List.replicate 4096 0)
        spare 61438 buf = .panic := by
  have hpre : (List.replicate 61438 (0 : Byte)).length = 61438 := List.length_replicate _ _
  refine ⟨?_, by decide, by decide, by decide, ?_,
    fun fuel spare buf => decompressChunk_raw_wrap fuel _ spare _ buf hpre⟩
  · have := readUint16_append (List.replicate 61438 0) (List.replicate 4096 0) 0xFF 0x3F
      (by rw [hpre]; decide)
    rw [hpre] at this
    exact this
  · rw [List.length_append, List.length_cons, List.length_cons, List.length_replicate,
      List.length_replicate]

/-- C5 (amended): for a readable chunk header with signature `0b011` and flag
bit 0: if chunkSize is not 4095, `decompressChunk` returns the
chunk-size/flag error; if chunkSize is 4095, at least 4096 bytes follow the
header and the position 4096 bytes past the header is at most 65535, it appends
exactly those 4096 bytes to the buffer and returns that position. The header
is read by a slice expression, within the capacity of the input; the 4096
bytes lie within its length. -/
theorem decompressChunk_raw_chunk (fuel : Nat) (data spare : List Byte) (pos : Nat)
    (buf : List Byte)
    (h : Nat) (hread : readUint16 (data ++ spare) pos = some h)
    (hsig : (h &&& 0x7000) >>> 12 = 3) (hflag : (h &&& 0x8000) >>> 15 = 0) :
    (h &&& 0x0FFF ≠ 4095 → decompressChunk fuel data spare pos buf = .error .invalidFlagSize) ∧
    (h &&& 0x0FFF = 4095 → pos + 2 + 4096 ≤ data.length → pos + 2 + 4096 ≤ 65535 →
      decompressChunk fuel data spare pos buf
          = .ok (buf ++ (data.drop (pos + 2)).take 4096, pos + 2 + 4096) ∧
        ((data.drop (pos + 2)).take 4096).length = 4096) := by
  have hb := readUint16_some_bound hread
  constructor
  · intro hne
    unfold decompressChunk
    rw [hread]
    simp only [hsig, hflag, ne_eq, not_true_eq_false, if_false]
    rw [if_pos (Or.inr (Or.inr ⟨trivial, hne⟩))]
  · intro hsz hlen hfit
    refine ⟨?_, by simp; omega⟩
    unfold decompressChunk
    rw [hread]
    have hp : u16 (pos + 2) = pos + 2 := u16_of_lt hb.1
    have hq : u16 (pos + 2 + 4096) = pos + 2 + 4096 := u16_of_lt (by omega)
    have hck : ¬ ((4095 : Nat) < 3 ∨ ((0 : Nat) = 1 ∧ (4095 : Nat) > 4095)
        ∨ ((0 : Nat) = 0 ∧ (4095 : Nat) ≠ 4095)) := by omega
    have hcond : pos + 2 ≤ pos + 2 + 4096 ∧ pos + 2 + 4096 ≤ (data ++ spare).length :=
      ⟨by omega, by rw [List.length_append]; omega⟩
    have hsub : pos + 2 + 4096 - (pos + 2) = 4096 := by omega
    have htake : ((data ++ spare).drop (pos + 2)).take 4096 = (data.drop (pos + 2)).take 4096 := by
      rw [List.drop_append_of_le_length (by omega),
        List.take_append_of_le_length (by rw [List.length_drop]; omega)]
    simp only [hsig, hflag, hsz, hp, hq, ne_eq, not_true_eq_false, if_false, hck,
      zero_ne_one, hcond, and_self, if_true, hsub, htake]
    rw [if_neg (by simp)]

/-- Witness of C5 (amended): the header `FF 3F` at position 0 followed by 4096
bytes `07`, without spare capacity. -/
theorem decompressChunk_raw_chunk_witness :
    readUint16 ((0xFF :: 0x3F :: List.replicate 4096 7) ++ []) 0 = some 0x3FFF ∧
    (0x3FFF &&& 0x7000) >>> 12 = 3 ∧ (0x3FFF &&& 0x8000) >>> 15 = 0 ∧
    decompressChunk 0 (0xFF :: 0x3F :: List.replicate 4096 7) [] 0 []
      = .ok ([] ++ ((0xFF :: 0x3F :: List.replicate 4096 7).drop (0 + 2)).take 4096,
          0 + 2 + 4096) :=
  ⟨readUint16_spare [] (readUint16_append [] _ 0xFF 0x3F (by decide)), by decide, by decide,
    ((decompressChunk_raw_chunk 0 (0xFF :: 0x3F :: List.replicate 4096 7) [] 0 [] 0x3FFF
      (readUint16_spare [] (readUint16_append [] _ 0xFF 0x3F (by decide))) (by decide)
      (by decide)).2 (by decide)
      (by rw [List.length_cons, List.length_cons, List.length_replicate]) (by decide)).1⟩

/-- C6 (the code at a failing input): on the empty input `DecompressContainer`
panics (index 0 of an empty slice, whatever its capacity) instead of returning
the signature error. -/
theorem DecompressContainer_empty_panics (fuel : Nat) (spare : List Byte) :
    DecompressContainer fuel [] spare = .panic :=
  rfl

/-- C7 (as stated, refuted): `parseModule` does not map `"a\r\nb\rc\nd"` to
the five lines `["a","b","c","d",""]`. -/
theorem parseModule_example_not_five_lines :
    parseModule [0x61, 0x0d, 0x0a, 0x62, 0x0d, 0x63, 0x0a, 0x64]
      ≠ [[0x61], [0x62], [0x63], [0x64], []] := by
  decide

/-- C7 (amended): `parseModule` maps `"a\r\nb\rc\nd"` to the four lines
`["a","b","c","d"]`; the residual line at end of input is `"d"`. -/
theorem parseModule_example_four_lines :
    parseModule [0x61, 0x0d, 0x0a, 0x62, 0x0d, 0x63, 0x0a, 0x64]
      = [[0x61], [0x62], [0x63], [0x64]] := by
  decide

/-- C8: for every text `t`, `parseModule t` has `k + 1` lines, `k` being the
number of `0x0D` bytes plus the number of `0x0A` bytes not immediately preceded
by `0x0D`; no line contains `0x0D` or `0x0A`; and the lines concatenated are
`t` with every `0x0D` and `0x0A` removed. -/
theorem parseModule_lines (t : List Byte) :
    (parseModule t).length = t.count 0x0d + (bareLfIndices t).length + 1 ∧
    (∀ l ∈ parseModule t, (0x0d : Byte) ∉ l ∧ (0x0a : Byte) ∉ l) ∧
    (parseModule t).flatten = t.filter (fun c => c != 0x0d && c != 0x0a) := by
  obtain ⟨h1, h2, h3, h4, _⟩ := parseModule_fold_inv t
  unfold parseModule
  refine ⟨by simp [h1], ?_, ?_⟩
  · intro l hl
    have hl' : ∀ c ∈ l, isCrLf c = false := forall_mem_snoc_lines h2 h3 l hl
    constructor
    · intro hm; exact absurd (hl' _ hm) (by decide)
    · intro hm; exact absurd (hl' _ hm) (by decide)
  · simp only [List.flatten_append, List.flatten_cons, List.flatten_nil, List.append_nil, h4]
    unfold stripCrLf
    apply List.filter_congr
    intro c _
    simp [isCrLf, bne]

/-- C9 (as stated, refuted): `parseModuleV3` does not keep a bare `0x0A` inside
the current line: `parseModuleV3 "x\ny\r\n"` is not the single line `"x\ny"`. -/
theorem parseModuleV3_bare_lf_not_kept :
    parseModuleV3 [0x78, 0x0a, 0x79, 0x0d, 0x0a] ≠ [[0x78, 0x0a, 0x79]] := by
  decide

/-- C9 (amended): `parseModuleV3` maps `"a\r\nb\r\nc"` to `["a","b"]`, maps
`"x\ny\r\n"` to the single line `"xy"`, and for every text a `0x0A` byte that
is not preceded by `0x0D` is dropped: removing it leaves the output unchanged. -/
theorem parseModuleV3_bare_lf_dropped (u v : List Byte) (h : u.getLast? ≠ some 0x0d) :
    parseModuleV3 [0x61, 0x0d, 0x0a, 0x62, 0x0d, 0x0a, 0x63] = [[0x61], [0x62]] ∧
    parseModuleV3 [0x78, 0x0a, 0x79, 0x0d, 0x0a] = [[0x78, 0x79]] ∧
    parseModuleV3 (u ++ 0x0a :: v) = parseModuleV3 (u ++ v) :=
  ⟨by decide, by decide, parseModuleV3_bare_lf u v h⟩

/-- Witness of C9 (amended) at `u = "x"`, `v = "y\r\n"`. -/
theorem parseModuleV3_bare_lf_dropped_witness :
    ([0x78] : List Byte).getLast? ≠ some 0x0d ∧
    (parseModuleV3 [0x61, 0x0d, 0x0a, 0x62, 0x0d, 0x0a, 0x63] = [[0x61], [0x62]] ∧
      parseModuleV3 [0x78, 0x0a, 0x79, 0x0d, 0x0a] = [[0x78, 0x79]] ∧
      parseModuleV3 ([0x78] ++ 0x0a :: [0x79, 0x0d, 0x0a])
        = parseModuleV3 ([0x78] ++ [0x79, 0x0d, 0x0a])) :=
  ⟨by decide, parseModuleV3_bare_lf_dropped [0x78] [0x79, 0x0d, 0x0a] (by decide)⟩

/-- C10: for every text `t`, `parseModuleV3 t` has as many lines as there are
indices `i ≥ 1` with `t[i] ∈ {0x0A, 0x0D}` and `t[i-1] = 0x0D`; no line
contains `0x0A` or `0x0D`; the lines concatenated are the prefix of `t` up to
the last such index with all `0x0A` and `0x0D` removed; and bytes that add no
boundary never change the output (no residual line). -/
theorem parseModuleV3_lines (t : List Byte) :
    (parseModuleV3 t).length = (v3Boundaries t).length ∧
    (∀ l ∈ parseModuleV3 t, (0x0a : Byte) ∉ l ∧ (0x0d : Byte) ∉ l) ∧
    (parseModuleV3 t).flatten
      = (t.take (v3PrefixLen t)).filter (fun c => c != 0x0a && c != 0x0d) ∧
    (∀ u, v3Boundaries (t ++ u) = v3Boundaries t → parseModuleV3 (t ++ u) = parseModuleV3 t) := by
  obtain ⟨h1, h2, h3, _, _, _⟩ := parseModuleV3_fold_inv t
  refine ⟨h1, ?_, ?_, fun u hu => parseModuleV3_no_residual t u hu⟩
  · intro l hl
    constructor
    · intro hm; exact absurd (h2 l hl _ hm) (by decide)
    · intro hm; exact absurd (h2 l hl _ hm) (by decide)
  · unfold parseModuleV3
    rw [h3]
    unfold stripCrLf
    apply List.filter_congr
    intro c _
    cases h1 : (c == 13) <;> cases h2 : (c == 10) <;> simp [isCrLf, bne, h1, h2]

/-- C11: for every project, `contentNormalizedData` is `ProjectName ++
Constants ++ R ++ M`, where `R` concatenates the contributions of the
references in array order and `M` those of the module streams in order; a
registered reference contributes exactly the byte `0x7B`, a reference that is
neither registered nor a project reference (a control or original reference)
contributes nothing; without project references and modules the result is
`ProjectName ++ Constants` followed by one `0x7B` per registered reference. -/
theorem contentNormalizedData_structure (lib : GoLib) (p : VbaProject) :
    contentNormalizedData lib p
      = p.DirStream.InformationRecord.Name.ProjectName
        ++ p.DirStream.InformationRecord.Constants.Constants
        ++ (p.DirStream.ReferencesRecord.ReferenceArray.map referenceContributionV1).flatten
        ++ (p.ModuleStream.Modules.map (moduleContributionV1 lib)).flatten ∧
    (∀ ref : dirstream.Reference, ref.RegisteredReference ≠ none →
      referenceContributionV1 ref = [0x7B]) ∧
    (∀ ref : dirstream.Reference, ref.RegisteredReference = none →
      ref.ProjectReference = none → referenceContributionV1 ref = []) ∧
    ((∀ ref ∈ p.DirStream.ReferencesRecord.ReferenceArray, ref.ProjectReference = none) →
      p.ModuleStream.Modules = [] →
      contentNormalizedData lib p
        = p.DirStream.InformationRecord.Name.ProjectName
          ++ p.DirStream.InformationRecord.Constants.Constants
          ++ List.replicate
              ((p.DirStream.ReferencesRecord.ReferenceArray.filter
                (fun ref => ref.RegisteredReference.isSome)).length) 0x7B) := by
  have hmain : contentNormalizedData lib p
      = p.DirStream.InformationRecord.Name.ProjectName
        ++ p.DirStream.InformationRecord.Constants.Constants
        ++ (p.DirStream.ReferencesRecord.ReferenceArray.map referenceContributionV1).flatten
        ++ (p.ModuleStream.Modules.map (moduleContributionV1 lib)).flatten := by
    unfold contentNormalizedData
    simp only [List.nil_append]
    rw [foldl_append_contribution (moduleStepV1 lib) _ (moduleStepV1_eq lib),
      foldl_append_contribution referenceStepV1 _ referenceStepV1_eq]
  refine ⟨hmain, referenceContributionV1_registered, referenceContributionV1_other, ?_⟩
  intro hproj hmod
  rw [hmain, hmod, referenceContributions_no_project _ hproj]
  simp

/-- C12 (code evaluated at the failing input): for the project reference with
empty libids, both sizes and `MajorVersion` equal to `0x01010101` and
`MinorVersion = 0x0101`, `contentNormalizedData` appends sixteen bytes `0x01`,
whereas the zero-free prefix of the sub-buffer with a zero-extended
`MinorVersion` has fourteen; for every project reference the appended bytes
are the zero-free prefix of a buffer whose two bytes after `MinorVersion` are
bytes 2 and 3 of `MajorVersion`. -/
theorem contentNormalizedData_project_reference_stale_bytes :
    referenceContributionV1
        { ProjectReference := some
            { SizeOfLibidAbsolute := 0x01010101, SizeOfLibidRelative := 0x01010101,
              MajorVersion := 0x01010101, MinorVersion := 0x0101 } }
      = List.replicate 16 0x01 ∧
    readUntilZero (projectReferenceBufferSpec
        { SizeOfLibidAbsolute := 0x01010101, SizeOfLibidRelative := 0x01010101,
          MajorVersion := 0x01010101, MinorVersion := 0x0101 })
      = List.replicate 14 0x01 ∧
    (∀ ref : dirstream.ReferenceProject,
      referenceContributionV1 { ProjectReference := some ref }
        = readUntilZero
            (u32le ref.SizeOfLibidAbsolute ++ ref.LibidAbsolute
              ++ u32le ref.SizeOfLibidRelative ++ ref.LibidRelative ++ u32le ref.MajorVersion
              ++ (u16le ref.MinorVersion ++ (u32le ref.MajorVersion).drop 2) ++ [0x00])) := by
  refine ⟨by decide, by decide, ?_⟩
  intro ref
  simp [referenceContributionV1, referenceStepV1, projectReferenceBuffer_eq]

/-- C13 (as stated, refuted): the module whose source is the single line
`Attributes = 1`, which begins with a longer identifier than `Attribute`,
contributes nothing to `contentNormalizedData`: the line is dropped. -/
theorem contentNormalizedData_drops_longer_identifier :
    parseModule (asciiBytes "Attributes = 1") = [asciiBytes "Attributes = 1"] ∧
    moduleContributionV1 GoLib.identity { SourceCode := asciiBytes "Attributes = 1" } = [] ∧
    contentNormalizedData GoLib.identity
      { ModuleStream := { Modules := [{ SourceCode := asciiBytes "Attributes = 1" }] } }
      = [] := by
  exact ⟨by decide, rfl, rfl⟩

/-- C13 (amended): for every module source the bytes appended for the module
are the concatenation, without separators, of exactly those lines of
`parseModule` whose lower-cased form does not start with the nine bytes
`attribute`; for a line of ASCII bytes that is a test of its first nine bytes
up to ASCII case, so `Attributes = 1` and `AttributeCount = 2` are dropped as
well, and `Sub Attribute()` is kept. -/
theorem contentNormalizedData_module_lines (lib : GoLib) (ms : modulestream.Module)
    (buf : List Byte) :
    moduleStepV1 lib buf ms
      = buf ++ ((parseModule ms.SourceCode).filter
          (fun l => !HasPrefix (stringsToLower lib l) (asciiBytes "attribute"))).flatten ∧
    (∀ l : List Byte, (∀ c ∈ l, c.val < 0x80) →
      (HasPrefix (stringsToLower lib l) (asciiBytes "attribute") = true
        ↔ (l.take 9).map asciiToLower = asciiBytes "attribute")) ∧
    HasPrefix (stringsToLower lib (asciiBytes "Attributes = 1")) (asciiBytes "attribute")
      = true ∧
    HasPrefix (stringsToLower lib (asciiBytes "AttributeCount = 2")) (asciiBytes "attribute")
      = true ∧
    HasPrefix (stringsToLower lib (asciiBytes "Sub Attribute()")) (asciiBytes "attribute")
      = false := by
  refine ⟨moduleStepV1_eq_filter lib buf ms, ?_, rfl, rfl, rfl⟩
  intro l hl
  rw [stringsToLower_ascii lib l hl, HasPrefix_iff_take, ← List.map_take]
  rfl

/-- C14: for every module, `normalizeDesignerStorage` is the concatenation over
the child streams, in order, of `raw ++ zeros(1023 - len(raw) mod 1023)`; each
block has between 1 and 1023 padding bytes (1023 when the length is a multiple
of 1023) and a length that is a positive multiple of 1023, and the total
length is a multiple of 1023. -/
theorem normalizeDesignerStorage_blocks (m : modulestream.Module) :
    normalizeDesignerStorage m
      = (m.ChildStreams.map
          (fun cs => cs.Raw ++ List.replicate (1023 - cs.Raw.length % 1023) 0)).flatten ∧
    (∀ cs : modulestream.ChildStream,
      1 ≤ 1023 - cs.Raw.length % 1023 ∧ 1023 - cs.Raw.length % 1023 ≤ 1023 ∧
      (cs.Raw.length % 1023 = 0 → 1023 - cs.Raw.length % 1023 = 1023) ∧
      (cs.Raw ++ List.replicate (1023 - cs.Raw.length % 1023) (0 : Byte)).length
        = 1023 * (cs.Raw.length / 1023 + 1)) ∧
    1023 ∣ (normalizeDesignerStorage m).length := by
  have hmain : normalizeDesignerStorage m
      = (m.ChildStreams.map
          (fun cs => cs.Raw ++ List.replicate (1023 - cs.Raw.length % 1023) 0)).flatten := by
    unfold normalizeDesignerStorage
    rw [foldl_append_contribution _
      (fun cs => cs.Raw ++ List.replicate (1023 - cs.Raw.length % 1023) 0)
      (fun buf cs => by simp [List.append_assoc])]
    simp
  have hblock : ∀ cs : modulestream.ChildStream,
      (cs.Raw ++ List.replicate (1023 - cs.Raw.length % 1023) (0 : Byte)).length
        = 1023 * (cs.Raw.length / 1023 + 1) := by
    intro cs
    rw [List.length_append, List.length_replicate]
    omega
  refine ⟨hmain, ?_, ?_⟩
  · intro cs
    refine ⟨by omega, by omega, by omega, hblock cs⟩
  · rw [hmain]
    induction m.ChildStreams with
    | nil => simp
    | cons cs rest ih =>
      rw [List.map_cons, List.flatten_cons, List.length_append, hblock cs]
      exact Dvd.dvd.add (Dvd.intro _ rfl) ih

/-- C15: for every project without references and modules,
`contentNormalizedDataV3` returns exactly the byte string that the
specification lists (`emptyProjectBytesV3`), of length `120 + len(ProjectName)
+ len(Constants) + len(ConstantsUnicode)`, and the result does not change with
SysKind, the LCIDs, the code page, or the contents of the doc strings and
help-file paths; for every project the function panics or returns a buffer
that ends with `10 00 00 00 00 00`, so every buffer it returns ends so; the
last conjunct evaluates one project. -/
theorem contentNormalizedDataV3_empty_project (lib : GoLib) :
    (∀ p : VbaProject, p.DirStream.ReferencesRecord.ReferenceArray = [] →
      p.DirStream.ModulesRecord.Modules = [] →
      contentNormalizedDataV3 lib p
        = .ok (emptyProjectBytesV3 p.DirStream.InformationRecord) ∧
      (emptyProjectBytesV3 p.DirStream.InformationRecord).length
        = 120 + p.DirStream.InformationRecord.Name.ProjectName.length
          + p.DirStream.InformationRecord.Constants.Constants.length
          + p.DirStream.InformationRecord.Constants.ConstantsUnicode.length ∧
      ∀ (sk : dirstream.ProjectSysKind) (lc : dirstream.ProjectLcid)
        (li : dirstream.ProjectLcidInvoke) (cp : dirstream.ProjectCodePage)
        (ds dsu h1 h2 : List Byte),
        contentNormalizedDataV3 lib
          { p with DirStream := { p.DirStream with InformationRecord :=
            { p.DirStream.InformationRecord with
              SysKind := sk, Lcid := lc, LcidInvoke := li, CodePage := cp,
              DocString := { p.DirStream.InformationRecord.DocString with
                DocString := ds, DocStringUnicode := dsu },
              HelpFilePath := { p.DirStream.InformationRecord.HelpFilePath with
                HelpFile1 := h1, HelpFile2 := h2 } } } }
          = contentNormalizedDataV3 lib p) ∧
    (∀ p : VbaProject, contentNormalizedDataV3 lib p = .panic ∨
      ∃ pre, contentNormalizedDataV3 lib p
        = .ok (pre ++ [0x10, 0x00, 0x00, 0x00, 0x00, 0x00])) ∧
    (∀ (p : VbaProject) (out : List Byte), contentNormalizedDataV3 lib p = .ok out →
      ∃ pre, out = pre ++ [0x10, 0x00, 0x00, 0x00, 0x00, 0x00]) ∧
    contentNormalizedDataV3 lib
        { DirStream := { InformationRecord :=
          { SysKind := { Size := 4, SysKind := 3 },
            Lcid := { Size := 4, Lcid := 0x0407 },
            CodePage := { Size := 2, CodePage := 1250 },
            Name := { SizeOfProjectName := 1, ProjectName := [0x50] },
            Version := { VersionMajor := 0x01020304, VersionMinor := 0x0506 } } } }
      = .ok ([0x01, 0x00, 0x04, 0x00, 0x00, 0x00]
          ++ [0x02, 0x00, 0x04, 0x00, 0x00, 0x00, 0x09, 0x04, 0x00, 0x00]
          ++ [0x14, 0x00, 0x04, 0x00, 0x00, 0x00, 0x09, 0x04, 0x00, 0x00]
          ++ [0x03, 0x00, 0x02, 0x00, 0x00, 0x00]
          ++ [0x04, 0x00, 0x01, 0x00, 0x00, 0x00, 0x50]
          ++ [0x05, 0x00, 0x00, 0x00, 0x00, 0x00, 0x40, 0x00, 0x00, 0x00, 0x00, 0x00]
          ++ [0x06, 0x00, 0x00, 0x00, 0x00, 0x00, 0x3d, 0x00, 0x00, 0x00, 0x00, 0x00]
          ++ [0x07, 0x00, 0x04, 0x00, 0x00, 0x00]
          ++ [0x08, 0x00, 0x04, 0x00, 0x00, 0x00, 0x00, 0x00, 0x00, 0x00]
          ++ [0x09, 0x00, 0x04, 0x00, 0x00, 0x00, 0x04, 0x03, 0x02, 0x01, 0x06, 0x05]
          ++ [0x0c, 0x00, 0x00, 0x00, 0x00, 0x00, 0x3c, 0x00, 0x00, 0x00, 0x00, 0x00]
          ++ [0x0f, 0x00, 0x02, 0x00, 0x00, 0x00, 0x13, 0x00, 0x02, 0x00, 0x00, 0x00]
          ++ [0x10, 0x00, 0x00, 0x00, 0x00, 0x00]) := by
  refine ⟨?_, contentNormalizedDataV3_panic_or_terminated lib, ?_, rfl⟩
  · intro p hrefs hmods
    refine ⟨contentNormalizedDataV3_empty lib p hrefs hmods, emptyProjectBytesV3_length _, ?_⟩
    intro sk lc li cp ds dsu h1 h2
    rw [contentNormalizedDataV3_empty lib p hrefs hmods]
    exact contentNormalizedDataV3_empty lib _ hrefs hmods
  · intro p out h
    rw [contentNormalizedDataV3_eq] at h
    obtain ⟨b1, _, h⟩ := Res.bind_eq_ok _ _ _ h
    obtain ⟨b2, _, h⟩ := Res.bind_eq_ok _ _ _ h
    injection h with h
    exact ⟨b2, h.symm⟩

/-- C16: for every registered reference, `writeRegisteredReference` appends
`u16le(0x000d) ++ u32le(SizeOfLibid) ++ widened(Libid) ++ u32le(0) ++
u16le(0)`, where `widened = GetFixedWidthString16` maps `x` to a sequence of
length `2*len(x)` whose byte `2i` is `x[i]` and whose byte `2i+1` is zero; the
appended body has `12 + 2*len(Libid)` bytes whatever `SizeOfLibid` is. -/
theorem writeRegisteredReference_bytes (buf : List Byte) (ref : dirstream.ReferenceRegistered) :
    writeRegisteredReference buf ref
      = buf ++ (u16le 0x000d ++ u32le ref.SizeOfLibid ++ GetFixedWidthString16 ref.Libid
          ++ u32le 0 ++ u16le 0) ∧
    (∀ x : List Byte, (GetFixedWidthString16 x).length = 2 * x.length ∧
      ∀ i, i < x.length →
        (GetFixedWidthString16 x)[2 * i]? = x[i]? ∧
        (GetFixedWidthString16 x)[2 * i + 1]? = some 0) ∧
    (u16le 0x000d ++ u32le ref.SizeOfLibid ++ GetFixedWidthString16 ref.Libid
      ++ u32le 0 ++ u16le 0).length = 12 + 2 * ref.Libid.length ∧
    writeRegisteredReference [] { SizeOfLibid := 7, Libid := [0x41, 0x42] }
      = [0x0d, 0x00, 0x07, 0x00, 0x00, 0x00, 0x41, 0x00, 0x42, 0x00,
          0x00, 0x00, 0x00, 0x00, 0x00, 0x00] := by
  refine ⟨?_, ?_, ?_, by decide⟩
  · unfold writeRegisteredReference
    simp [List.append_assoc]
  · intro x
    rw [GetFixedWidthString16_eq]
    refine ⟨widened_length x, fun i hi => ?_⟩
    exact ⟨(widened_getElem? x i).1, (widened_getElem? x i).2 hi⟩
  · rw [GetFixedWidthString16_eq]
    simp only [List.length_append, u32le_length, u16le_length, widened_length]
    omega

/-- C17 (code evaluated at the failing input): for a control reference whose
`NameRecordExtended` is nil, `writeControlReference` does not return: the test
`ref.NameRecordExtended.Reserved > 0` dereferences the nil pointer; so does
`contentNormalizedDataV3` for a project with such a reference. -/
theorem writeControlReference_nil_extended_name :
    writeControlReference [] {} = .panic ∧
    (∀ (buf : List Byte) (ref : dirstream.ReferenceControl),
      ref.NameRecordExtended = none → writeControlReference buf ref = .panic) ∧
    contentNormalizedDataV3 GoLib.identity
        { DirStream := { ReferencesRecord := { ReferenceArray :=
          [{ NameRecord := some {}, ControlReference := some {} }] } } }
      = .panic :=
  ⟨rfl, writeControlReference_none, rfl⟩

/-- C18 (as stated, refuted): with an extended name whose `Reserved` field is
`0x003e` and whose `NameUnicode` is empty, `writeControlReference` emits the
`0x003e` sub-record; with `Reserved = 0` and the non-empty `NameUnicode`
`41 00` it does not emit it. -/
theorem writeControlReference_reserved_decides :
    writeControlReference [] { NameRecordExtended := some { Reserved := 0x003e } }
      = .ok ([0x2f, 0x00, 0x00, 0x00, 0x00, 0x00, 0x00, 0x00, 0x00, 0x00, 0x00, 0x00]
          ++ [0x16, 0x00, 0x00, 0x00, 0x00, 0x00]
          ++ [0x3e, 0x00, 0x00, 0x00, 0x00, 0x00]
          ++ [0x30, 0x00, 0x00, 0x00, 0x00, 0x00, 0x00, 0x00, 0x00, 0x00, 0x00, 0x00]
          ++ List.replicate 16 0x00 ++ [0x00, 0x00, 0x00, 0x00]) ∧
    writeControlReference []
        { NameRecordExtended := some
            { Reserved := 0, SizeOfNameUnicode := 2, NameUnicode := [0x41, 0x00] } }
      = .ok ([0x2f, 0x00, 0x00, 0x00, 0x00, 0x00, 0x00, 0x00, 0x00, 0x00, 0x00, 0x00]
          ++ [0x16, 0x00, 0x00, 0x00, 0x00, 0x00]
          ++ [0x30, 0x00, 0x00, 0x00, 0x00, 0x00, 0x00, 0x00, 0x00, 0x00, 0x00, 0x00]
          ++ List.replicate 16 0x00 ++ [0x00, 0x00, 0x00, 0x00]) := by
  constructor <;> decide

/-- C18 (amended): for every control reference whose `NameRecordExtended` is
present, `writeControlReference` emits `u16le(0x0016) ++ u32le(SizeOfName) ++
Name` after Reserved2 and then `u16le(0x003e) ++ u32le(SizeOfNameUnicode) ++
NameUnicode` if and only if the `Reserved` field of the extended name is not
zero, whether `NameUnicode` is empty or not. -/
theorem writeControlReference_extended_name (buf : List Byte)
    (ref : dirstream.ReferenceControl) (n : dirstream.ReferenceName)
    (h : ref.NameRecordExtended = some n) :
    writeControlReference buf ref
      = .ok (buf ++ u16le 0x002f ++ u32le ref.SizeOfLibidTwiddled ++ ref.LibidTwiddled
          ++ u32le 0 ++ u16le 0
          ++ u16le 0x0016 ++ u32le n.SizeOfName ++ n.Name
          ++ (if n.Reserved > 0 then u16le 0x003e ++ u32le n.SizeOfNameUnicode ++ n.NameUnicode
              else [])
          ++ u16le 0x0030 ++ u32le ref.SizeOfLibidExtended ++ ref.LibidExtended
          ++ u32le 0 ++ u16le 0 ++ ref.OriginalTypeLib.val ++ u32le ref.Cookie) :=
  writeControlReference_some buf ref n h

/-- Witness of C18 (amended) at the control reference whose extended name is
`A` with `Reserved = 0x003e` and the UTF-16 name `41 00`. -/
theorem writeControlReference_extended_name_witness :
    ({ NameRecordExtended := some
          { SizeOfName := 1, Name := [0x41], Reserved := 0x003e, SizeOfNameUnicode := 2,
            NameUnicode := [0x41, 0x00] } } : dirstream.ReferenceControl).NameRecordExtended
        = some { SizeOfName := 1, Name := [0x41], Reserved := 0x003e, SizeOfNameUnicode := 2,
                  NameUnicode := [0x41, 0x00] } ∧
    writeControlReference []
        { NameRecordExtended := some
            { SizeOfName := 1, Name := [0x41], Reserved := 0x003e, SizeOfNameUnicode := 2,
              NameUnicode := [0x41, 0x00] } }
      = .ok ([] ++ u16le 0x002f ++ u32le 0 ++ [] ++ u32le 0 ++ u16le 0
          ++ u16le 0x0016 ++ u32le 1 ++ [0x41]
          ++ (if 0x003e > 0 then u16le 0x003e ++ u32le 2 ++ [0x41, 0x00] else [])
          ++ u16le 0x0030 ++ u32le 0 ++ [] ++ u32le 0 ++ u16le 0
          ++ dirstream.GUID.zero.val ++ u32le 0) :=
  ⟨rfl, writeControlReference_extended_name []
    { NameRecordExtended := some
        { SizeOfName := 1, Name := [0x41], Reserved := 0x003e, SizeOfNameUnicode := 2,
          NameUnicode := [0x41, 0x00] } }
    { SizeOfName := 1, Name := [0x41], Reserved := 0x003e, SizeOfNameUnicode := 2,
      NameUnicode := [0x41, 0x00] } rfl⟩

/-- C19: the V3 normalizer is the information and reference part followed by
the module loop, which runs `moduleStepV3` over the modules in order; for a
module whose stream is found, `moduleStepV3` runs the line loop over
`parseModuleV3` of its source `s`, and the line loop appends, in order,
`L ++ 0x0a` exactly for the lines `L` that neither begin (ignoring case) with
`attribute vb_name = ` nor both begin (ignoring case) with `attribute` and
equal one of the seven default attributes, and nothing for the other lines;
the flag is set when a line was appended. A default attribute in another
letter case or spacing is appended; the default attribute itself and a
`VB_Name` attribute are not. For the module `M` with the three lines
`Attribute VB_Exposed = True`, `attribute VB_Exposed = True` and `x = 1` the
normalizer appends the second and the third line. -/
theorem contentNormalizedDataV3_module_lines (lib : GoLib) :
    (∀ p : VbaProject,
      contentNormalizedDataV3 lib p
        = (referencesV3 p.DirStream.ReferencesRecord.ReferenceArray
            (informationV3 p.DirStream.InformationRecord)).bind (fun b1 =>
              (modulesV3 lib p p.DirStream.ModulesRecord.Modules
                (b1 ++ [0x0f, 0x00, 0x02, 0x00, 0x00, 0x00, 0x13, 0x00, 0x02, 0x00, 0x00,
                  0x00])).bind
                (fun b2 => .ok (b2 ++ [0x10, 0x00, 0x00, 0x00, 0x00, 0x00])))) ∧
    (∀ (p : VbaProject) (buf : List Byte), modulesV3 lib p [] buf = .ok buf) ∧
    (∀ (p : VbaProject) (m : dirstream.Module) (rest : List dirstream.Module)
      (buf : List Byte),
      modulesV3 lib p (m :: rest) buf = (moduleStepV3 lib p buf m).bind (modulesV3 lib p rest)) ∧
    (∀ (p : VbaProject) (buf : List Byte) (m : dirstream.Module) (ms : modulestream.Module),
      p.ModuleStream.GetModule (ConvertFromCodepageToUtf8 lib m.NameRecord.ModuleName
        p.DirStream.InformationRecord.CodePage.CodePage) = some ms →
      moduleStepV3 lib p buf m
        = moduleNameV3
            (buf ++ moduleRecordsV3 m
              ++ (((parseModuleV3 ms.SourceCode).filter (lineAppendedV3 lib)).map
                  (fun l => l ++ [0x0a])).flatten)
            ((parseModuleV3 ms.SourceCode).any (lineAppendedV3 lib)) m) ∧
    (∀ s buf : List Byte,
      (parseModuleV3 s).foldl (lineStepV3 lib) (buf, false)
        = (buf ++ (((parseModuleV3 s).filter (lineAppendedV3 lib)).map
              (fun l => l ++ [0x0a])).flatten,
            (parseModuleV3 s).any (lineAppendedV3 lib))) ∧
    (∀ (st : List Byte × Bool) (l : List Byte),
      lineStepV3 lib st l
        = if lineAppendedV3 lib l then (st.1 ++ l ++ [0x0a], true) else st) ∧
    lineAppendedV3 lib (asciiBytes "attribute VB_Exposed = True") = true ∧
    lineAppendedV3 lib (asciiBytes "Attribute VB_Exposed  = True") = true ∧
    lineAppendedV3 lib (asciiBytes "Attribute VB_Exposed = True") = false ∧
    lineAppendedV3 lib (asciiBytes "ATTRIBUTE VB_NAME = \"Module1\"") = false ∧
    lineAppendedV3 lib (asciiBytes "Sub Main()") = true ∧
    contentNormalizedDataV3 GoLib.identity
        { DirStream := { ModulesRecord := { Modules :=
            [{ NameRecord := { SizeOfModuleName := 1, ModuleName := [0x4d] },
               NameUnicodeRecord := some
                { SizeOfModuleNameUnicode := 2, ModuleNameUnicode := [0x4d, 0x00] } }] } },
          ModuleStream := { Modules :=
            [{ Name := [0x4d],
               SourceCode := asciiBytes
                "Attribute VB_Exposed = True\r\nattribute VB_Exposed = True\r\nx = 1\r\n" }] } }
      = .ok (informationV3 {}
          ++ [0x0f, 0x00, 0x02, 0x00, 0x00, 0x00, 0x13, 0x00, 0x02, 0x00, 0x00, 0x00]
          ++ asciiBytes "attribute VB_Exposed = True\nx = 1\n" ++ [0x4d, 0x00, 0x0a]
          ++ [0x10, 0x00, 0x00, 0x00, 0x00, 0x00]) := by
  refine ⟨contentNormalizedDataV3_eq lib, fun _ _ => rfl, fun _ _ _ _ => rfl,
    moduleStepV3_eq lib, ?_, lineStepV3_eq lib, rfl, rfl, rfl, rfl, rfl, by decide⟩
  intro s buf
  rw [foldl_lineStepV3, Bool.false_or]

/-- C20 (code evaluated at the failing input): when a line of the module was
appended and the module has no MODULENAMEUNICODE record, the module-name block
dereferences the nil `NameUnicodeRecord` and the normalizer does not return;
the project with the module `M` of source `x` panics without the record and
returns the name with it (the UTF-16 name, or the MBCS name when the UTF-16
name is empty). -/
theorem contentNormalizedDataV3_nil_name_record :
    (∀ (buf : List Byte) (m : dirstream.Module),
      m.NameUnicodeRecord = none → moduleNameV3 buf true m = .panic) ∧
    (∀ (lib : GoLib) (p : VbaProject) (buf : List Byte) (m : dirstream.Module)
      (ms : modulestream.Module),
      p.ModuleStream.GetModule (ConvertFromCodepageToUtf8 lib m.NameRecord.ModuleName
        p.DirStream.InformationRecord.CodePage.CodePage) = some ms →
      (parseModuleV3 ms.SourceCode).any (lineAppendedV3 lib) = true →
      m.NameUnicodeRecord = none → moduleStepV3 lib p buf m = .panic) ∧
    contentNormalizedDataV3 GoLib.identity
        { DirStream := { ModulesRecord := { Modules :=
            [{ NameRecord := { SizeOfModuleName := 1, ModuleName := [0x4d] } }] } },
          ModuleStream := { Modules := [{ Name := [0x4d], SourceCode := asciiBytes "x\r\n" }] } }
      = .panic ∧
    contentNormalizedDataV3 GoLib.identity
        { DirStream := { ModulesRecord := { Modules :=
            [{ NameRecord := { SizeOfModuleName := 1, ModuleName := [0x4d] },
               NameUnicodeRecord := some
                { SizeOfModuleNameUnicode := 2, ModuleNameUnicode := [0x4d, 0x00] } }] } },
          ModuleStream := { Modules := [{ Name := [0x4d], SourceCode := asciiBytes "x\r\n" }] } }
      = .ok (informationV3 {}
          ++ [0x0f, 0x00, 0x02, 0x00, 0x00, 0x00, 0x13, 0x00, 0x02, 0x00, 0x00, 0x00]
          ++ [0x78, 0x0a] ++ [0x4d, 0x00, 0x0a]
          ++ [0x10, 0x00, 0x00, 0x00, 0x00, 0x00]) ∧
    contentNormalizedDataV3 GoLib.identity
        { DirStream := { ModulesRecord := { Modules :=
            [{ NameRecord := { SizeOfModuleName := 1, ModuleName := [0x4d] },
               NameUnicodeRecord := some {} }] } },
          ModuleStream := { Modules := [{ Name := [0x4d], SourceCode := asciiBytes "x\r\n" }] } }
      = .ok (informationV3 {}
          ++ [0x0f, 0x00, 0x02, 0x00, 0x00, 0x00, 0x13, 0x00, 0x02, 0x00, 0x00, 0x00]
          ++ [0x78, 0x0a] ++ [0x4d, 0x0a]
          ++ [0x10, 0x00, 0x00, 0x00, 0x00, 0x00]) :=
  ⟨moduleNameV3_none, moduleStepV3_nil_name_record, rfl, rfl, rfl⟩

/-- C21: for every project and every module stream of it, inserting one of
the seven default attribute lines followed by CRLF into the source of that
module, at the start of the source or right after a CRLF, changes neither the
result of `contentNormalizedDataV3` nor the buffer that `getHashV3` hashes;
nothing else of the project is changed. -/
theorem contentNormalizedDataV3_default_attribute_inserted (lib : GoLib) (p : VbaProject)
    (ms1 ms2 : List modulestream.Module) (m : modulestream.Module) (pre post attr : List Byte)
    (hmods : p.ModuleStream.Modules = ms1 ++ m :: ms2)
    (hsrc : m.SourceCode = pre ++ post)
    (hattr : attr ∈ defaultAttributesV3)
    (hpre : pre = [] ∨ ∃ pre', pre = pre' ++ [0x0d, 0x0a]) :
    contentNormalizedDataV3 lib
        { p with ModuleStream :=
          { Modules := ms1
              ++ { m with SourceCode := pre ++ attr ++ [0x0d, 0x0a] ++ post } :: ms2 } }
      = contentNormalizedDataV3 lib p ∧
    hashBufferV3 lib
        { p with ModuleStream :=
          { Modules := ms1
              ++ { m with SourceCode := pre ++ attr ++ [0x0d, 0x0a] ++ post } :: ms2 } }
      = hashBufferV3 lib p := by
  have hp : p.ModuleStream = modulestream.ModuleStream.mk (ms1 ++ m :: ms2) := by
    cases hm : p.ModuleStream with
    | mk mods => rw [hm] at hmods; simp only at hmods; rw [hmods]
  have hrel : ∀ name,
      (modulestream.ModuleStream.mk (ms1
          ++ { m with SourceCode := pre ++ attr ++ [0x0d, 0x0a] ++ post } :: ms2)).GetModule name
        = p.ModuleStream.GetModule name ∨
      (p.ModuleStream.GetModule name = some m ∧
        (modulestream.ModuleStream.mk (ms1
          ++ { m with SourceCode := pre ++ attr ++ [0x0d, 0x0a] ++ post } :: ms2)).GetModule name
          = some { m with SourceCode := pre ++ attr ++ [0x0d, 0x0a] ++ post }) := by
    intro name
    rw [hp]
    exact GetModule_replace_source ms1 ms2 m _ name
  have hlines : (parseModuleV3 (pre ++ attr ++ [0x0d, 0x0a] ++ post)).filter (lineAppendedV3 lib)
      = (parseModuleV3 m.SourceCode).filter (lineAppendedV3 lib) := by
    obtain ⟨B, h1, h2⟩ := parseModuleV3_insert_line pre post attr
      (defaultAttributesV3_no_crlf attr hattr) hpre
    rw [hsrc, h1, h2, List.filter_append, List.filter_append, List.filter_cons,
      lineAppendedV3_default lib attr hattr]
    simp
  have hcnd := contentNormalizedDataV3_congr lib p
    { p with ModuleStream :=
      { Modules := ms1 ++ { m with SourceCode := pre ++ attr ++ [0x0d, 0x0a] ++ post } :: ms2 } }
    rfl
    (fun buf d => moduleStepV3_congr_lines lib p _ buf d m
      { m with SourceCode := pre ++ attr ++ [0x0d, 0x0a] ++ post } rfl hrel hlines)
  refine ⟨hcnd, ?_⟩
  unfold hashBufferV3
  rw [hcnd, projectNormalizedData_congr p
    { p with ModuleStream :=
      { Modules := ms1 ++ { m with SourceCode := pre ++ attr ++ [0x0d, 0x0a] ++ post } :: ms2 } }
    m { m with SourceCode := pre ++ attr ++ [0x0d, 0x0a] ++ post } rfl hrel rfl]

/-- Witness of C21 at the project with the module `M` of source `x`, CRLF,
`y`, CRLF, with `Attribute VB_Exposed = True` and CRLF inserted after the
first line; the last conjunct is the value that both projects have. -/
theorem contentNormalizedDataV3_default_attribute_inserted_witness :
    (asciiBytes "Attribute VB_Exposed = True" ∈ defaultAttributesV3 ∧
      (asciiBytes "x\r\n" = [] ∨ ∃ pre', asciiBytes "x\r\n" = pre' ++ [0x0d, 0x0a])) ∧
    (contentNormalizedDataV3 GoLib.identity
        { DirStream := { ModulesRecord := { Modules :=
            [{ NameRecord := { SizeOfModuleName := 1, ModuleName := [0x4d] },
               NameUnicodeRecord := some
                { SizeOfModuleNameUnicode := 2, ModuleNameUnicode := [0x4d, 0x00] } }] } },
          ModuleStream := { Modules := []
            ++ { Name := [0x4d],
                 SourceCode := asciiBytes "x\r\n" ++ asciiBytes "Attribute VB_Exposed = True"
                  ++ [0x0d, 0x0a] ++ asciiBytes "y\r\n" } :: [] } }
      = contentNormalizedDataV3 GoLib.identity
        { DirStream := { ModulesRecord := { Modules :=
            [{ NameRecord := { SizeOfModuleName := 1, ModuleName := [0x4d] },
               NameUnicodeRecord := some
                { SizeOfModuleNameUnicode := 2, ModuleNameUnicode := [0x4d, 0x00] } }] } },
          ModuleStream := { Modules :=
            [{ Name := [0x4d], SourceCode := asciiBytes "x\r\n" ++ asciiBytes "y\r\n" }] } }) ∧
    contentNormalizedDataV3 GoLib.identity
        { DirStream := { ModulesRecord := { Modules :=
            [{ NameRecord := { SizeOfModuleName := 1, ModuleName := [0x4d] },
               NameUnicodeRecord := some
                { SizeOfModuleNameUnicode := 2, ModuleNameUnicode := [0x4d, 0x00] } }] } },
          ModuleStream := { Modules :=
            [{ Name := [0x4d], SourceCode := asciiBytes "x\r\n" ++ asciiBytes "y\r\n" }] } }
      = .ok (informationV3 {}
          ++ [0x0f, 0x00, 0x02, 0x00, 0x00, 0x00, 0x13, 0x00, 0x02, 0x00, 0x00, 0x00]
          ++ [0x78, 0x0a, 0x79, 0x0a] ++ [0x4d, 0x00, 0x0a]
          ++ [0x10, 0x00, 0x00, 0x00, 0x00, 0x00]) :=
  ⟨⟨by decide, Or.inr ⟨[0x78], rfl⟩⟩,
    (contentNormalizedDataV3_default_attribute_inserted GoLib.identity
      { DirStream := { ModulesRecord := { Modules :=
          [{ NameRecord := { SizeOfModuleName := 1, ModuleName := [0x4d] },
             NameUnicodeRecord := some
              { SizeOfModuleNameUnicode := 2, ModuleNameUnicode := [0x4d, 0x00] } }] } },
        ModuleStream := { Modules :=
          [{ Name := [0x4d], SourceCode := asciiBytes "x\r\n" ++ asciiBytes "y\r\n" }] } }
      [] [] { Name := [0x4d], SourceCode := asciiBytes "x\r\n" ++ asciiBytes "y\r\n" }
      (asciiBytes "x\r\n") (asciiBytes "y\r\n") (asciiBytes "Attribute VB_Exposed = True")
      rfl rfl (by decide) (Or.inr ⟨[0x78], rfl⟩)).1,
    by decide⟩

/-- C22 (as stated, refuted): the projects with the module `M` of source `a`,
CRLF, `b` and of source `a`, CRLF, `c` differ in one byte of a line that does
not begin with `Attribute`, and `getHashV3` hashes the same buffer for both:
`parseModuleV3` returns no line for text after the last line end. The same
holds for the sources `a`, LF, `b`, CRLF and `a`, CR, `b`, CRLF. -/
theorem hashBufferV3_unchanged_examples :
    hashBufferV3 GoLib.identity
        { DirStream := { ModulesRecord := { Modules :=
            [{ NameRecord := { SizeOfModuleName := 1, ModuleName := [0x4d] },
               NameUnicodeRecord := some
                { SizeOfModuleNameUnicode := 2, ModuleNameUnicode := [0x4d, 0x00] } }] } },
          ModuleStream := { Modules := [{ Name := [0x4d], SourceCode := asciiBytes "a\r\nb" }] } }
      = .ok (informationV3 {}
          ++ [0x0f, 0x00, 0x02, 0x00, 0x00, 0x00, 0x13, 0x00, 0x02, 0x00, 0x00, 0x00]
          ++ [0x61, 0x0a] ++ [0x4d, 0x00, 0x0a] ++ [0x10, 0x00, 0x00, 0x00, 0x00, 0x00]) ∧
    hashBufferV3 GoLib.identity
        { DirStream := { ModulesRecord := { Modules :=
            [{ NameRecord := { SizeOfModuleName := 1, ModuleName := [0x4d] },
               NameUnicodeRecord := some
                { SizeOfModuleNameUnicode := 2, ModuleNameUnicode := [0x4d, 0x00] } }] } },
          ModuleStream := { Modules := [{ Name := [0x4d], SourceCode := asciiBytes "a\r\nc" }] } }
      = .ok (informationV3 {}
          ++ [0x0f, 0x00, 0x02, 0x00, 0x00, 0x00, 0x13, 0x00, 0x02, 0x00, 0x00, 0x00]
          ++ [0x61, 0x0a] ++ [0x4d, 0x00, 0x0a] ++ [0x10, 0x00, 0x00, 0x00, 0x00, 0x00]) ∧
    hashBufferV3 GoLib.identity
        { DirStream := { ModulesRecord := { Modules :=
            [{ NameRecord := { SizeOfModuleName := 1, ModuleName := [0x4d] },
               NameUnicodeRecord := some
                { SizeOfModuleNameUnicode := 2, ModuleNameUnicode := [0x4d, 0x00] } }] } },
          ModuleStream := { Modules :=
            [{ Name := [0x4d], SourceCode := asciiBytes "a\nb\r\n" }] } }
      = .ok (informationV3 {}
          ++ [0x0f, 0x00, 0x02, 0x00, 0x00, 0x00, 0x13, 0x00, 0x02, 0x00, 0x00, 0x00]
          ++ [0x61, 0x62, 0x0a] ++ [0x4d, 0x00, 0x0a] ++ [0x10, 0x00, 0x00, 0x00, 0x00, 0x00]) ∧
    hashBufferV3 GoLib.identity
        { DirStream := { ModulesRecord := { Modules :=
            [{ NameRecord := { SizeOfModuleName := 1, ModuleName := [0x4d] },
               NameUnicodeRecord := some
                { SizeOfModuleNameUnicode := 2, ModuleNameUnicode := [0x4d, 0x00] } }] } },
          ModuleStream := { Modules :=
            [{ Name := [0x4d], SourceCode := asciiBytes "a\rb\r\n" }] } }
      = .ok (informationV3 {}
          ++ [0x0f, 0x00, 0x02, 0x00, 0x00, 0x00, 0x13, 0x00, 0x02, 0x00, 0x00, 0x00]
          ++ [0x61, 0x62, 0x0a] ++ [0x4d, 0x00, 0x0a] ++ [0x10, 0x00, 0x00, 0x00, 0x00, 0x00]) := by
  refine ⟨?_, ?_, ?_, ?_⟩ <;> decide

/-- C22 (amended): let two projects be identical except for one byte of the
source of one module stream, neither the old nor the new byte being `0x0D` or
`0x0A`; let a line of `parseModuleV3` end after the byte, let the line that
holds the byte be one that the V3 normalizer appends, let the module stream be
the first with its name and be the one that the lookup of some dir-stream
module finds, and let `getHashV3` reach its hash for the first project. Then
it reaches it for the second project and the two hashed buffers
(`contentNormalizedDataV3 ++ projectNormalizedData`) differ. -/
theorem hashBufferV3_source_byte_changed (lib : GoLib) (p : VbaProject)
    (ms1 ms2 : List modulestream.Module) (m : modulestream.Module) (a c : List Byte)
    (b b' : Byte) (md : dirstream.Module) (out : List Byte)
    (hmods : p.ModuleStream.Modules = ms1 ++ m :: ms2)
    (hsrc : m.SourceCode = a ++ b :: c)
    (hne : b' ≠ b)
    (hb : isCrLf b = false) (hb' : isCrLf b' = false)
    (hline : (parseModuleV3 a).length < (parseModuleV3 (a ++ b :: c)).length)
    (hkept : lineAppendedV3 lib
      ((parseModuleV3 (a ++ b :: c)).getD (parseModuleV3 a).length []) = true)
    (hfirst : ∀ x ∈ ms1, x.Name ≠ m.Name)
    (hmd : md ∈ p.DirStream.ModulesRecord.Modules)
    (hname : ConvertFromCodepageToUtf8 lib md.NameRecord.ModuleName
      p.DirStream.InformationRecord.CodePage.CodePage = m.Name)
    (hret : hashBufferV3 lib p = .ok out) :
    ∃ out', hashBufferV3 lib
        { p with ModuleStream :=
          { Modules := ms1 ++ { m with SourceCode := a ++ b' :: c } :: ms2 } }
        = .ok out' ∧ out' ≠ out := by
  rcases parseModuleV3_change_byte a c b b' hb hb' with ⟨h, _⟩ | ⟨u, v, L2, h, h'⟩
  · rw [h] at hline
    exact absurd hline (lt_irrefl _)
  · have hget : (parseModuleV3 a ++ (u ++ b :: v) :: L2).getD (parseModuleV3 a).length []
        = u ++ b :: v := by
      exact getD_append_cons _ _ _
    rw [h, hget] at hkept
    exact hashBufferV3_changed lib p ms1 ms2 m (a ++ b' :: c) (parseModuleV3 a) L2
      (u ++ b :: v) (u ++ b' :: v) md out hmods (by rw [hsrc]; exact h) h' hkept
      (by simp) (by simpa using hne) hfirst hmd hname hret

/-- Witness of C22 (amended) at the project with the module `M` of source
`x`, CRLF, whose byte `x` is replaced by `y`. -/
theorem hashBufferV3_source_byte_changed_witness :
    ((0x79 : Byte) ≠ 0x78 ∧ isCrLf (0x78 : Byte) = false ∧ isCrLf (0x79 : Byte) = false ∧
      (parseModuleV3 []).length < (parseModuleV3 ([] ++ 0x78 :: [0x0d, 0x0a])).length ∧
      lineAppendedV3 GoLib.identity
        ((parseModuleV3 ([] ++ 0x78 :: [0x0d, 0x0a])).getD (parseModuleV3 []).length []) = true ∧
      hashBufferV3 GoLib.identity
          { DirStream := { ModulesRecord := { Modules :=
              [{ NameRecord := { SizeOfModuleName := 1, ModuleName := [0x4d] },
                 NameUnicodeRecord := some
                  { SizeOfModuleNameUnicode := 2, ModuleNameUnicode := [0x4d, 0x00] } }] } },
            ModuleStream := { Modules :=
              [{ Name := [0x4d], SourceCode := [] ++ 0x78 :: [0x0d, 0x0a] }] } }
        = .ok (informationV3 {}
            ++ [0x0f, 0x00, 0x02, 0x00, 0x00, 0x00, 0x13, 0x00, 0x02, 0x00, 0x00, 0x00]
            ++ [0x78, 0x0a] ++ [0x4d, 0x00, 0x0a] ++ [0x10, 0x00, 0x00, 0x00, 0x00, 0x00])) ∧
    ∃ out', hashBufferV3 GoLib.identity
        { DirStream := { ModulesRecord := { Modules :=
            [{ NameRecord := { SizeOfModuleName := 1, ModuleName := [0x4d] },
               NameUnicodeRecord := some
                { SizeOfModuleNameUnicode := 2, ModuleNameUnicode := [0x4d, 0x00] } }] } },
          ModuleStream := { Modules := []
            ++ { Name := [0x4d], SourceCode := [] ++ 0x79 :: [0x0d, 0x0a] } :: [] } }
        = .ok out' ∧
      out' ≠ informationV3 {}
            ++ [0x0f, 0x00, 0x02, 0x00, 0x00, 0x00, 0x13, 0x00, 0x02, 0x00, 0x00, 0x00]
            ++ [0x78, 0x0a] ++ [0x4d, 0x00, 0x0a] ++ [0x10, 0x00, 0x00, 0x00, 0x00, 0x00] :=
  ⟨⟨by decide, by decide, by decide, by decide, by decide, by decide⟩,
    hashBufferV3_source_byte_changed GoLib.identity
      { DirStream := { ModulesRecord := { Modules :=
          [{ NameRecord := { SizeOfModuleName := 1, ModuleName := [0x4d] },
             NameUnicodeRecord := some
              { SizeOfModuleNameUnicode := 2, ModuleNameUnicode := [0x4d, 0x00] } }] } },
        ModuleStream := { Modules :=
          [{ Name := [0x4d], SourceCode := [] ++ 0x78 :: [0x0d, 0x0a] }] } }
      [] [] { Name := [0x4d], SourceCode := [] ++ 0x78 :: [0x0d, 0x0a] } [] [0x0d, 0x0a]
      0x78 0x79
      { NameRecord := { SizeOfModuleName := 1, ModuleName := [0x4d] },
        NameUnicodeRecord := some
          { SizeOfModuleNameUnicode := 2, ModuleNameUnicode := [0x4d, 0x00] } }
      _ rfl rfl (by decide) (by decide) (by decide) (by decide) (by decide)
      (by intro x hx; simp at hx) (by simp) rfl (by decide)⟩

/-- C23 (code evaluated at the failing input): the V3 normalizer looks a
module up under the decoded name while the modules are stored under the raw
MBCS name, so a name that its decoding changes is not found and the module
loop panics with `Unknown module`; the project with the module named `E4`
(code page 1252), loaded under that name, is an instance: the decoded name is
`C3 A4`. When decoding leaves the name as it is, a module of that name is
found. -/
theorem moduleStepV3_decoded_name_unknown :
    (∀ (lib : GoLib) (p : VbaProject) (buf : List Byte) (d : dirstream.Module),
      (∀ ms ∈ p.ModuleStream.Modules,
        ms.Name ≠ ConvertFromCodepageToUtf8 lib d.NameRecord.ModuleName
          p.DirStream.InformationRecord.CodePage.CodePage) →
      moduleStepV3 lib p buf d = .panic) ∧
    (∀ (lib : GoLib) (p : VbaProject) (d : dirstream.Module),
      d ∈ p.DirStream.ModulesRecord.Modules →
      p.ModuleStream.Modules.map (fun ms => ms.Name)
        = p.GetModulesWithOffset.map (fun mwo => mwo.Name) →
      ConvertFromCodepageToUtf8 lib d.NameRecord.ModuleName
          p.DirStream.InformationRecord.CodePage.CodePage = d.NameRecord.ModuleName →
      ∃ ms, p.ModuleStream.GetModule (ConvertFromCodepageToUtf8 lib d.NameRecord.ModuleName
          p.DirStream.InformationRecord.CodePage.CodePage) = some ms ∧
        ms.Name = d.NameRecord.ModuleName) ∧
    ({ DirStream :=
        { InformationRecord := { CodePage := { Size := 2, CodePage := 1252 } },
          ModulesRecord := { Modules :=
            [{ NameRecord := { SizeOfModuleName := 1, ModuleName := [0xe4] },
               NameUnicodeRecord := some
                { SizeOfModuleNameUnicode := 2, ModuleNameUnicode := [0xe4, 0x00] } }] } },
       ModuleStream := { Modules := [{ Name := [0xe4], SourceCode := asciiBytes "x\r\n" }] } } :
        VbaProject).GetModulesWithOffset
      = [{ Name := [0xe4], Offset := 0 }] ∧
    ConvertFromCodepageToUtf8 GoLib.latin1 [0xe4] 1252 = [0xc3, 0xa4] ∧
    contentNormalizedDataV3 GoLib.latin1
        { DirStream :=
            { InformationRecord := { CodePage := { Size := 2, CodePage := 1252 } },
              ModulesRecord := { Modules :=
                [{ NameRecord := { SizeOfModuleName := 1, ModuleName := [0xe4] },
                   NameUnicodeRecord := some
                    { SizeOfModuleNameUnicode := 2, ModuleNameUnicode := [0xe4, 0x00] } }] } },
          ModuleStream := { Modules := [{ Name := [0xe4], SourceCode := asciiBytes "x\r\n" }] } }
      = .panic ∧
    contentNormalizedDataV3 GoLib.latin1
        { DirStream :=
            { InformationRecord := { CodePage := { Size := 2, CodePage := 1252 } },
              ModulesRecord := { Modules :=
                [{ NameRecord := { SizeOfModuleName := 1, ModuleName := [0x4d] },
                   NameUnicodeRecord := some
                    { SizeOfModuleNameUnicode := 2, ModuleNameUnicode := [0x4d, 0x00] } }] } },
          ModuleStream := { Modules := [{ Name := [0x4d], SourceCode := asciiBytes "x\r\n" }] } }
      = .ok (informationV3 { CodePage := { Size := 2, CodePage := 1252 } }
          ++ [0x0f, 0x00, 0x02, 0x00, 0x00, 0x00, 0x13, 0x00, 0x02, 0x00, 0x00, 0x00]
          ++ [0x78, 0x0a] ++ [0x4d, 0x00, 0x0a] ++ [0x10, 0x00, 0x00, 0x00, 0x00, 0x00]) := by
  refine ⟨?_, ?_, by decide, by decide, by decide, by decide⟩
  · intro lib p buf d h
    apply moduleStepV3_none
    unfold modulestream.ModuleStream.GetModule
    rw [List.find?_eq_none]
    intro ms hms
    simpa using h ms hms
  · intro lib p d hd hnames hdec
    rw [hdec]
    have hmem : d.NameRecord.ModuleName ∈ p.ModuleStream.Modules.map (fun ms => ms.Name) := by
      rw [hnames]
      unfold VbaProject.GetModulesWithOffset
      rw [List.map_map]
      exact List.mem_map.mpr ⟨d, hd, rfl⟩
    obtain ⟨ms0, hms0, hname0⟩ := List.mem_map.mp hmem
    unfold modulestream.ModuleStream.GetModule
    cases hf : p.ModuleStream.Modules.find? (fun m => m.Name == d.NameRecord.ModuleName) with
    | none =>
      rw [List.find?_eq_none] at hf
      exact absurd (by simpa using hname0) (hf ms0 hms0)
    | some ms =>
      have := List.find?_some hf
      exact ⟨ms, rfl, by simpa using this⟩

/-- C24: for every project whose main properties have no `BaseClass` key and
whose raw PROJECT text does not contain `Host Extender Info`,
`projectNormalizedData` returns the concatenation, in the order of
`MainProperties`, of `key ++ value` for exactly the properties whose key is
none of `ID`, `Document`, `CMG`, `DPB`, `GC` and does not start with `&H`;
the host-extender and other properties contribute nothing. -/
theorem projectNormalizedData_main_properties (p : VbaProject)
    (hbase : ∀ prop ∈ p.ProjectStream.MainProperties, prop.Key ≠ asciiBytes "BaseClass")
    (hraw : Contains p.ProjectStream.Raw (asciiBytes "Host Extender Info") = false) :
    projectNormalizedData p
      = .ok ((p.ProjectStream.MainProperties.filter
            (fun prop => decide (prop.Key ≠ asciiBytes "ID" ∧ prop.Key ≠ asciiBytes "Document" ∧
              prop.Key ≠ asciiBytes "CMG" ∧ prop.Key ≠ asciiBytes "DPB" ∧
              prop.Key ≠ asciiBytes "GC" ∧ prop.Key.take 2 ≠ asciiBytes "&H"))).map
            (fun prop => prop.Key ++ prop.Value)).flatten ∧
    ∀ hs os : List projectstream.ProjectProperty,
      projectNormalizedData { p with ProjectStream :=
          { p.ProjectStream with HostExtenderProperties := hs, OtherProperties := os } }
        = projectNormalizedData p := by
  have hmain : ∀ q : VbaProject, q.ProjectStream.MainProperties = p.ProjectStream.MainProperties →
      q.ProjectStream.Raw = p.ProjectStream.Raw →
      projectNormalizedData q
        = .ok ((p.ProjectStream.MainProperties.filter
            (fun prop => decide (prop.Key ≠ asciiBytes "ID" ∧ prop.Key ≠ asciiBytes "Document" ∧
              prop.Key ≠ asciiBytes "CMG" ∧ prop.Key ≠ asciiBytes "DPB" ∧
              prop.Key ≠ asciiBytes "GC" ∧ prop.Key.take 2 ≠ asciiBytes "&H"))).map
            (fun prop => prop.Key ++ prop.Value)).flatten := by
    intro q hq hr
    rw [projectNormalizedData_eq, hq, propertiesPN_eq q _ _ hbase, Res.bind_ok]
    unfold hostExtenderPart
    rw [hr, hraw]
    simp only [List.nil_append, Bool.false_eq_true, if_false, List.append_nil]
    congr 3
    apply List.filter_congr
    intro prop _
    rw [Bool.eq_iff_iff, propertyHashed_iff]
    simp
  refine ⟨hmain p rfl rfl, ?_⟩
  intro hs os
  rw [hmain p rfl rfl]
  exact hmain _ rfl rfl

/-- Witness of C24 at the main properties `ID=x`, `Name=P`, `&H1=y` and
`Module=M`, with a host-extender property and an empty raw text. -/
theorem projectNormalizedData_main_properties_witness :
    (∀ prop ∈ ({ ProjectStream :=
        { MainProperties :=
            [{ Key := asciiBytes "ID", Value := asciiBytes "x" },
             { Key := asciiBytes "Name", Value := asciiBytes "P" },
             { Key := asciiBytes "&H1", Value := asciiBytes "y" },
             { Key := asciiBytes "Module", Value := asciiBytes "M" }],
          HostExtenderProperties :=
            [{ Key := asciiBytes "&H2", Line := asciiBytes "&H2=z" }] } } :
          VbaProject).ProjectStream.MainProperties, prop.Key ≠ asciiBytes "BaseClass") ∧
    projectNormalizedData { ProjectStream :=
        { MainProperties :=
            [{ Key := asciiBytes "ID", Value := asciiBytes "x" },
             { Key := asciiBytes "Name", Value := asciiBytes "P" },
             { Key := asciiBytes "&H1", Value := asciiBytes "y" },
             { Key := asciiBytes "Module", Value := asciiBytes "M" }],
          HostExtenderProperties :=
            [{ Key := asciiBytes "&H2", Line := asciiBytes "&H2=z" }] } }
      = .ok (asciiBytes "NamePModuleM") :=
  ⟨by decide,
    (projectNormalizedData_main_properties { ProjectStream :=
        { MainProperties :=
            [{ Key := asciiBytes "ID", Value := asciiBytes "x" },
             { Key := asciiBytes "Name", Value := asciiBytes "P" },
             { Key := asciiBytes "&H1", Value := asciiBytes "y" },
             { Key := asciiBytes "Module", Value := asciiBytes "M" }],
          HostExtenderProperties :=
            [{ Key := asciiBytes "&H2", Line := asciiBytes "&H2=z" }] } }
      (by decide) (by decide)).1⟩

/-- C25 (as stated, refuted): the second line of the text `[Host Extender
Info]`, CRLF, two blanks, `&H00000001=x;VBE`, a tab, CRLF is the raw line with
its blanks and tab; for the project stream that `ParseProjectStream` returns
for this text `projectNormalizedData` appends `&H00000001=x;VBE` without
them. -/
theorem projectNormalizedData_host_extender_not_raw :
    splitCrLf (asciiBytes "[Host Extender Info]\r\n  &H00000001=x;VBE\t\r\n")
      = [asciiBytes "[Host Extender Info]", asciiBytes "  &H00000001=x;VBE\t", []] ∧
    projectNormalizedData
        { ProjectStream := ParseProjectStream GoStrings.identity
            (asciiBytes "[Host Extender Info]\r\n  &H00000001=x;VBE\t\r\n") }
      = .ok (asciiBytes "Host Extender Info" ++ asciiBytes "&H00000001=x;VBE") ∧
    projectNormalizedData
        { ProjectStream := ParseProjectStream GoStrings.identity
            (asciiBytes "[Host Extender Info]\r\n  &H00000001=x;VBE\t\r\n") }
      ≠ .ok (asciiBytes "Host Extender Info" ++ asciiBytes "  &H00000001=x;VBE\t") := by
  refine ⟨by decide, by decide, by decide⟩

/-- C25 (amended): for every project, `projectNormalizedData` panics (an
unknown `BaseClass` module) or returns the bytes of its first loop followed by
the host-extender part: nothing when the raw PROJECT text does not contain
`Host Extender Info`, else that string once followed by the `Line` of every
`HostExtenderProperties` entry whose key starts with `&H`, in order; entries
with other keys contribute nothing. For a project stream that
`ParseProjectStream` returns, the raw text is the input, the host-extender
entries are the properties of the trimmed lines of that section in order, and
the `Line` of each is the `strings.TrimSpace` form of its line, not the
untrimmed line. -/
theorem projectNormalizedData_host_extender (p : VbaProject) :
    (projectNormalizedData p = .panic ∨
      ∃ main, propertiesPN p p.ProjectStream.MainProperties [] = .ok main ∧
        projectNormalizedData p = .ok (main ++ hostExtenderPart p.ProjectStream)) ∧
    (Contains p.ProjectStream.Raw (asciiBytes "Host Extender Info") = false →
      hostExtenderPart p.ProjectStream = []) ∧
    (Contains p.ProjectStream.Raw (asciiBytes "Host Extender Info") = true →
      hostExtenderPart p.ProjectStream
        = asciiBytes "Host Extender Info"
          ++ ((p.ProjectStream.HostExtenderProperties.filter
                (fun prop => HasPrefix prop.Key (asciiBytes "&H"))).map
                (fun prop => prop.Line)).flatten) ∧
    (∀ (str : GoStrings) (input : List Byte), p.ProjectStream = ParseProjectStream str input →
      p.ProjectStream.Raw = input ∧
      p.ProjectStream.HostExtenderProperties
        = groupProperties str .hostExtender [] ((splitCrLf input).map (TrimSpace str)) ∧
      ∀ prop ∈ p.ProjectStream.HostExtenderProperties,
        ∃ seg ∈ splitCrLf input, prop.Line = TrimSpace str seg) ∧
    projectNormalizedData { ProjectStream :=
        { Raw := asciiBytes "ID=\"x\"\r\n[Host Extender Info]\r\n&H1=a;VBE\r\nX=1\r\n",
          MainProperties := [{ Key := asciiBytes "Name", Value := asciiBytes "P" }],
          HostExtenderProperties :=
            [{ Key := asciiBytes "&H1", Value := asciiBytes "a;VBE", Line := asciiBytes "&H1=a;VBE" },
             { Key := asciiBytes "X", Value := asciiBytes "1", Line := asciiBytes "X=1" }] } }
      = .ok (asciiBytes "NamePHost Extender Info&H1=a;VBE") ∧
    projectNormalizedData
        { ProjectStream := ParseProjectStream GoStrings.identity
            (asciiBytes "Name=\"P\"\r\n[Host Extender Info]\r\n &H1=a;VBE \r\nX=1\r\n") }
      = .ok (asciiBytes "NamePHost Extender Info&H1=a;VBE") := by
  refine ⟨?_, ?_, ?_, ?_, by decide, by decide⟩
  · rw [projectNormalizedData_eq]
    rcases propertiesPN_panic_or_ok p p.ProjectStream.MainProperties [] with h | ⟨main, h⟩
    · left; rw [h]; rfl
    · right; exact ⟨main, h, by rw [h, Res.bind_ok]⟩
  · intro h
    unfold hostExtenderPart
    simp [h]
  · intro h
    unfold hostExtenderPart
    simp [h]
  · intro str input hp
    rw [hp]
    refine ⟨ParseProjectStream_Raw str input,
      ParseProjectStream_groupField str .hostExtender input, ?_⟩
    intro prop hprop
    obtain ⟨seg, hseg, _, he⟩ := mem_ParseProjectStream str input prop (Or.inr (Or.inl hprop))
    exact ⟨seg, hseg, by rw [he]; rfl⟩

/-- C26 (as stated, refuted): for the text `[Host Extender Info]`, CRLF, two
blanks, `&H00000001=x;VBE`, a tab, CRLF, the second segment of the input is
the raw line with its blanks and tab, and the `Line` that
`ParseProjectStream` records is `&H00000001=x;VBE` without them. -/
theorem ParseProjectStream_line_not_raw :
    splitCrLf (asciiBytes "[Host Extender Info]\r\n  &H00000001=x;VBE\t\r\n")
      = [asciiBytes "[Host Extender Info]", asciiBytes "  &H00000001=x;VBE\t", []] ∧
    (ParseProjectStream GoStrings.identity
        (asciiBytes "[Host Extender Info]\r\n  &H00000001=x;VBE\t\r\n")).HostExtenderProperties
      = [{ Key := asciiBytes "&H00000001", Value := asciiBytes "x;VBE",
           Line := asciiBytes "&H00000001=x;VBE" }] := by
  constructor <;> decide

/-- C26 (amended): for every PROJECT text, every property that
`ParseProjectStream` records has `Line` equal to the `strings.TrimSpace` form
of the CRLF-delimited segment it came from, that is, for a segment of ASCII
bytes, the segment without its leading and trailing white space; the segments
joined by CRLF are the text; and the text `[Host Extender Info]`, CRLF,
`&H00000001=` followed by a class id, `;VBE;&H00000000`, CRLF yields exactly
one host-extender property, with key `&H00000001`, and no main or other
property. -/
theorem ParseProjectStream_line_trimmed (str : GoStrings) (input : List Byte) :
    (∀ prop : projectstream.ProjectProperty,
      (prop ∈ (ParseProjectStream str input).MainProperties ∨
        prop ∈ (ParseProjectStream str input).HostExtenderProperties ∨
        prop ∈ (ParseProjectStream str input).OtherProperties) →
      ∃ seg ∈ splitCrLf input, prop.Line = TrimSpace str seg) ∧
    List.intercalate [0x0d, 0x0a] (splitCrLf input) = input ∧
    (∀ seg : List Byte, (∀ c ∈ seg, c.val < 0x80) →
      TrimSpace str seg = ((seg.dropWhile asciiSpace).reverse.dropWhile asciiSpace).reverse) ∧
    (ParseProjectStream str (asciiBytes
        "[Host Extender Info]\r\n&H00000001=\x7b3832D640-CF90-11CF-8E43-00A0C911005A\x7d;VBE;&H00000000\r\n")).HostExtenderProperties
      = [{ Key := asciiBytes "&H00000001",
           Value := asciiBytes "\x7b3832D640-CF90-11CF-8E43-00A0C911005A\x7d;VBE;&H00000000",
           Line := asciiBytes
            "&H00000001=\x7b3832D640-CF90-11CF-8E43-00A0C911005A\x7d;VBE;&H00000000" }] ∧
    (ParseProjectStream str (asciiBytes
        "[Host Extender Info]\r\n&H00000001=\x7b3832D640-CF90-11CF-8E43-00A0C911005A\x7d;VBE;&H00000000\r\n")).MainProperties
      = [] ∧
    (ParseProjectStream str (asciiBytes
        "[Host Extender Info]\r\n&H00000001=\x7b3832D640-CF90-11CF-8E43-00A0C911005A\x7d;VBE;&H00000000\r\n")).OtherProperties
      = [] := by
  refine ⟨?_, ?_, TrimSpace_ascii str, rfl, rfl, rfl⟩
  · intro prop h
    obtain ⟨seg, hseg, _, he⟩ := mem_ParseProjectStream str input prop h
    exact ⟨seg, hseg, by rw [he]; rfl⟩
  · unfold splitCrLf
    rw [splitCrLfFrom_intercalate]
    rfl

/-- C27 (as stated, refuted): in the text `[X]`, CRLF, `[]`, CRLF, `A=1` the
most recent bracketed line before `A=1` is `[]`, whose name is not
`Host Extender Info`, and `ParseProjectStream` puts the property into
`MainProperties`, not into `OtherProperties`. -/
theorem ParseProjectStream_empty_section_main :
    (ParseProjectStream GoStrings.identity (asciiBytes "[X]\r\n[]\r\nA=1")).MainProperties
      = [{ Key := asciiBytes "A", Value := asciiBytes "1", Line := asciiBytes "A=1" }] ∧
    (ParseProjectStream GoStrings.identity (asciiBytes "[X]\r\n[]\r\nA=1")).OtherProperties
      = [] := by
  constructor <;> decide

/-- C27 (amended): for every PROJECT text, with the lines being the
CRLF-delimited segments trimmed of white space, `ParseProjectStream` places
each property line (not empty, not bracketed, containing `=`) in exactly one
of the three groups, chosen by the most recent preceding bracketed line:
`MainProperties` when there is none or its name is empty,
`HostExtenderProperties` when the name is `Host Extender Info`,
`OtherProperties` otherwise; each group is in input order, and the three
groups together have as many properties as there are property lines. -/
theorem ParseProjectStream_groups (str : GoStrings) (input : List Byte) :
    (ParseProjectStream str input).MainProperties
      = groupProperties str .main [] ((splitCrLf input).map (TrimSpace str)) ∧
    (ParseProjectStream str input).HostExtenderProperties
      = groupProperties str .hostExtender [] ((splitCrLf input).map (TrimSpace str)) ∧
    (ParseProjectStream str input).OtherProperties
      = groupProperties str .other [] ((splitCrLf input).map (TrimSpace str)) ∧
    (ParseProjectStream str input).MainProperties.length
      + (ParseProjectStream str input).HostExtenderProperties.length
      + (ParseProjectStream str input).OtherProperties.length
      = (((splitCrLf input).map (TrimSpace str)).filter isPropertyLine).length ∧
    groupOfSection none = .main ∧
    groupOfSection (some []) = .main ∧
    groupOfSection (some (asciiBytes "Host Extender Info")) = .hostExtender ∧
    (∀ n : List Byte, n ≠ [] → n ≠ asciiBytes "Host Extender Info" →
      groupOfSection (some n) = .other) ∧
    (ParseProjectStream str
        (asciiBytes "A=1\r\n[Host Extender Info]\r\n&H1=x\r\n[W]\r\nB=2\r\nC\r\n")).MainProperties
      = [{ Key := asciiBytes "A", Value := asciiBytes "1", Line := asciiBytes "A=1" }] ∧
    (ParseProjectStream str
        (asciiBytes "A=1\r\n[Host Extender Info]\r\n&H1=x\r\n[W]\r\nB=2\r\nC\r\n")).HostExtenderProperties
      = [{ Key := asciiBytes "&H1", Value := asciiBytes "x", Line := asciiBytes "&H1=x" }] ∧
    (ParseProjectStream str
        (asciiBytes "A=1\r\n[Host Extender Info]\r\n&H1=x\r\n[W]\r\nB=2\r\nC\r\n")).OtherProperties
      = [{ Key := asciiBytes "B", Value := asciiBytes "2", Line := asciiBytes "B=2" }] := by
  have hm := ParseProjectStream_groupField str .main input
  have hh := ParseProjectStream_groupField str .hostExtender input
  have ho := ParseProjectStream_groupField str .other input
  simp only [groupField] at hm hh ho
  refine ⟨hm, hh, ho, ?_, rfl, rfl, rfl, ?_, rfl, rfl, rfl⟩
  · rw [hm, hh, ho]
    exact groupProperties_length str [] _
  · intro n h1 h2
    unfold groupOfSection
    simp [h1, h2]

/-- C28 (as stated, refuted): for the line `Name="""x"""` the recorded value
is `x`: all three quotes on each side are removed, not one pair. -/
theorem ParseProjectStream_all_quotes_removed :
    (ParseProjectStream GoStrings.identity (asciiBytes "Name=\"\"\"x\"\"\"")).MainProperties
      = [{ Key := asciiBytes "Name", Value := asciiBytes "x",
           Line := asciiBytes "Name=\"\"\"x\"\"\"" }] ∧
    (ParseProjectStream GoStrings.identity (asciiBytes "Name=\"\"\"x\"\"\"")).Name
      = asciiBytes "x" := by
  constructor <;> decide

/-- C28 (amended): every property that `ParseProjectStream` records comes from
a line `k=v` split at its first `=` only, so that `v` keeps any further `=`;
the key is `k` trimmed of white space and the value is `v` with every leading
and every trailing double quote removed (`v` itself when it neither starts nor
ends with a quote), so `Name="""x"""` gives `x`, `Path="C:\a` gives `C:\a` and
`A=b=c` gives `b=c`. -/
theorem ParseProjectStream_key_value (str : GoStrings) (input : List Byte) :
    (∀ prop : projectstream.ProjectProperty,
      (prop ∈ (ParseProjectStream str input).MainProperties ∨
        prop ∈ (ParseProjectStream str input).HostExtenderProperties ∨
        prop ∈ (ParseProjectStream str input).OtherProperties) →
      ∃ k v : List Byte, prop.Line = k ++ 0x3d :: v ∧ (0x3d : Byte) ∉ k ∧
        prop.Key = TrimSpace str k ∧ prop.Value = TrimQuotes v) ∧
    (∀ (a b : Nat) (mid : List Byte), mid.head? ≠ some 0x22 → mid.getLast? ≠ some 0x22 →
      TrimQuotes (List.replicate a 0x22 ++ mid ++ List.replicate b 0x22) = mid) ∧
    (ParseProjectStream str (asciiBytes "Name=\"\"\"x\"\"\"")).MainProperties
      = [{ Key := asciiBytes "Name", Value := asciiBytes "x",
           Line := asciiBytes "Name=\"\"\"x\"\"\"" }] ∧
    (ParseProjectStream str (asciiBytes "Path=\"C:\\a")).MainProperties
      = [{ Key := asciiBytes "Path", Value := asciiBytes "C:\\a",
           Line := asciiBytes "Path=\"C:\\a" }] ∧
    (ParseProjectStream str (asciiBytes "A=b=c")).MainProperties
      = [{ Key := asciiBytes "A", Value := asciiBytes "b=c", Line := asciiBytes "A=b=c" }] := by
  refine ⟨?_, TrimQuotes_replicate, rfl, rfl, rfl⟩
  intro prop h
  obtain ⟨seg, _, hp, he⟩ := mem_ParseProjectStream str input prop h
  obtain ⟨h1, h2⟩ := eq_append_first_eq _ (mem_of_isPropertyLine _ hp)
  refine ⟨(TrimSpace str seg).takeWhile (fun c => c != 0x3d),
    ((TrimSpace str seg).dropWhile (fun c => c != 0x3d)).drop 1, ?_, h2, ?_, ?_⟩
  · rw [he]
    exact h1
  · rw [he]; rfl
  · rw [he]; rfl

/-- C29: for every signature of `S` bytes and every certificate, with `C` the
length of the certificate store built from it and `44 + S + C + 2 < 2^32`, the
value built by `NewDigSigInfoSerialized` has `CbSignature = S`,
`SignatureOffset = 44`, `CbSigningCertStore = C`, `CertStoreOffset = 44 + S`,
`CbProjectName = 0`, `ProjectNameOffset = 44 + S + C`, `FTimestamp = 0`,
`CbTimestampUrl = 0` and `TimestampUrlOffset = 44 + S + C + 2`. -/
theorem NewDigSigInfoSerialized_header (sig certRaw : List Byte)
    (h : 44 + sig.length + (NewVbaSigSerializedCertStore certRaw).length + 2 < 4294967296) :
    (NewDigSigInfoSerialized sig certRaw).CbSignature = sig.length ∧
    (NewDigSigInfoSerialized sig certRaw).SignatureOffset = 44 ∧
    (NewDigSigInfoSerialized sig certRaw).CbSigningCertStore
      = (NewVbaSigSerializedCertStore certRaw).length ∧
    (NewDigSigInfoSerialized sig certRaw).CertStoreOffset = 44 + sig.length ∧
    (NewDigSigInfoSerialized sig certRaw).CbProjectName = 0 ∧
    (NewDigSigInfoSerialized sig certRaw).ProjectNameOffset
      = 44 + sig.length + (NewVbaSigSerializedCertStore certRaw).length ∧
    (NewDigSigInfoSerialized sig certRaw).FTimestamp = 0 ∧
    (NewDigSigInfoSerialized sig certRaw).CbTimestampUrl = 0 ∧
    (NewDigSigInfoSerialized sig certRaw).TimestampUrlOffset
      = 44 + sig.length + (NewVbaSigSerializedCertStore certRaw).length + 2 ∧
    (NewDigSigInfoSerialized sig certRaw).PbSignatureBuffer = sig ∧
    (NewDigSigInfoSerialized sig certRaw).PbSigningCertStoreBuffer
      = NewVbaSigSerializedCertStore certRaw := by
  generalize hC : (NewVbaSigSerializedCertStore certRaw).length = C at h
  have e1 : u32 sig.length = sig.length := Nat.mod_eq_of_lt (by omega)
  have e2 : u32 C = C := Nat.mod_eq_of_lt (by omega)
  have e3 : u32 (44 + sig.length) = 44 + sig.length := Nat.mod_eq_of_lt (by omega)
  have e4 : u32 (44 + sig.length + C) = 44 + sig.length + C := Nat.mod_eq_of_lt (by omega)
  have e5 : u32 (44 + sig.length + C + 2) = 44 + sig.length + C + 2 :=
    Nat.mod_eq_of_lt (by omega)
  have e6 : u32 2 = 2 := rfl
  simp [NewDigSigInfoSerialized, DigSigInfoSerialized.ReplaceSigBuffer,
    DigSigInfoSerialized.ReplaceCertStore, DigSigInfoSerialized.FixOffsets, hC, e1, e2, e3, e4,
    e5, e6]

/-- Witness of C29 at the signature `01 02 03` and the certificate bytes
`30 00`: `S = 3`, `C = 34`. -/
theorem NewDigSigInfoSerialized_header_witness :
    44 + ([0x01, 0x02, 0x03] : List Byte).length
        + (NewVbaSigSerializedCertStore [0x30, 0x00]).length + 2 < 4294967296 ∧
    (NewDigSigInfoSerialized [0x01, 0x02, 0x03] [0x30, 0x00]).CertStoreOffset = 44 + 3 ∧
    (NewDigSigInfoSerialized [0x01, 0x02, 0x03] [0x30, 0x00]).TimestampUrlOffset
      = 44 + 3 + 34 + 2 :=
  ⟨by decide,
    (NewDigSigInfoSerialized_header [0x01, 0x02, 0x03] [0x30, 0x00] (by decide)).2.2.2.1,
    (NewDigSigInfoSerialized_header [0x01, 0x02, 0x03] [0x30, 0x00] (by decide)).2.2.2.2.2.2.2.2.1⟩

/-- C30: for every value built by `NewDigSigInfoSerialized` from a signature
of `S` bytes and a certificate store of `C` bytes, `Serialize` returns
`36 + S + C + 4` bytes: the nine header fields as little-endian `uint32` in
declaration order (36 bytes), the signature at offset 36, the certificate
store at offset `36 + S`, then four zero bytes; the stored `SignatureOffset`
is 44, eight more than the offset of the signature. -/
theorem Serialize_layout (sig certRaw : List Byte) :
    (NewDigSigInfoSerialized sig certRaw).Serialize
      = encodeHeader (NewDigSigInfoSerialized sig certRaw).toDigSigInfoSerializedHeader
        ++ sig ++ NewVbaSigSerializedCertStore certRaw ++ [0x00, 0x00, 0x00, 0x00] ∧
    (encodeHeader (NewDigSigInfoSerialized sig certRaw).toDigSigInfoSerializedHeader).length
      = 36 ∧
    ((NewDigSigInfoSerialized sig certRaw).Serialize).length
      = 36 + sig.length + (NewVbaSigSerializedCertStore certRaw).length + 4 ∧
    (((NewDigSigInfoSerialized sig certRaw).Serialize).drop 36).take sig.length = sig ∧
    (((NewDigSigInfoSerialized sig certRaw).Serialize).drop (36 + sig.length)).take
        (NewVbaSigSerializedCertStore certRaw).length
      = NewVbaSigSerializedCertStore certRaw ∧
    (NewDigSigInfoSerialized sig certRaw).SignatureOffset = 36 + 8 ∧
    (NewDigSigInfoSerialized [0xaa, 0xbb] []).Serialize
      = [0x02, 0x00, 0x00, 0x00, 0x2c, 0x00, 0x00, 0x00, 0x20, 0x00, 0x00, 0x00,
         0x2e, 0x00, 0x00, 0x00, 0x00, 0x00, 0x00, 0x00, 0x4e, 0x00, 0x00, 0x00,
         0x00, 0x00, 0x00, 0x00, 0x00, 0x00, 0x00, 0x00, 0x50, 0x00, 0x00, 0x00]
        ++ [0xaa, 0xbb]
        ++ [0x00, 0x00, 0x00, 0x00, 0x43, 0x45, 0x52, 0x54, 0x20, 0x00, 0x00, 0x00,
            0x01, 0x00, 0x00, 0x00, 0x00, 0x00, 0x00, 0x00, 0x00, 0x00, 0x00, 0x00,
            0x00, 0x00, 0x00, 0x00, 0x00, 0x00, 0x00, 0x00]
        ++ [0x00, 0x00, 0x00, 0x00] := by
  have hser : (NewDigSigInfoSerialized sig certRaw).Serialize
      = encodeHeader (NewDigSigInfoSerialized sig certRaw).toDigSigInfoSerializedHeader
        ++ sig ++ NewVbaSigSerializedCertStore certRaw ++ [0x00, 0x00, 0x00, 0x00] := by
    rw [Serialize_eq]
    obtain ⟨h1, h2, h3, h4⟩ := NewDigSigInfoSerialized_buffers sig certRaw
    rw [h1, h2, h3, h4]
    simp [List.append_assoc]
  refine ⟨hser, rfl, ?_, ?_, ?_, rfl, by decide⟩
  · rw [hser]
    simp only [List.length_append, encodeHeader_length, List.length_cons, List.length_nil]
  · rw [hser]
    simp [List.append_assoc, encodeHeader_length]
  · rw [hser]
    have hlen : (encodeHeader (NewDigSigInfoSerialized sig certRaw).toDigSigInfoSerializedHeader
        ++ sig).length = 36 + sig.length := by
      rw [List.length_append, encodeHeader_length]
    rw [List.append_assoc (_ ++ sig), ← hlen, List.drop_left]
    simp

/-- C31: for every certificate with DER encoding `d`,
`NewVbaSigSerializedCertStore` returns the bytes `00 00 00 00`, `43 45 52 54`,
`20 00 00 00`, `01 00 00 00`, the little-endian `uint32` of `len(d)`, `d` and
twelve zero bytes, `32 + len(d)` bytes in all. No `SerializedPropertyEntry`
is written: the element that follows the eight bytes of version and file type
has the id `0x20` of the certificate element, which
`ReadSerializedPropertyEntry` refuses as a property entry. -/
theorem NewVbaSigSerializedCertStore_bytes (d : List Byte) :
    NewVbaSigSerializedCertStore d
      = [0x00, 0x00, 0x00, 0x00] ++ [0x43, 0x45, 0x52, 0x54] ++ [0x20, 0x00, 0x00, 0x00]
        ++ [0x01, 0x00, 0x00, 0x00] ++ u32le d.length ++ d ++ List.replicate 12 0 ∧
    (NewVbaSigSerializedCertStore d).length = 32 + d.length ∧
    ((NewVbaSigSerializedCertStore d).drop 8).take 4 = [0x20, 0x00, 0x00, 0x00] ∧
    ReadSerializedPropertyEntry ((NewVbaSigSerializedCertStore d).drop 8)
      = .error (.reservedId 0x20) ∧
    NewVbaSigSerializedCertStore [0x30, 0x03, 0x02, 0x01, 0x05]
      = [0x00, 0x00, 0x00, 0x00, 0x43, 0x45, 0x52, 0x54, 0x20, 0x00, 0x00, 0x00,
         0x01, 0x00, 0x00, 0x00, 0x05, 0x00, 0x00, 0x00, 0x30, 0x03, 0x02, 0x01, 0x05,
         0x00, 0x00, 0x00, 0x00, 0x00, 0x00, 0x00, 0x00, 0x00, 0x00, 0x00, 0x00] := by
  have hdrop : (NewVbaSigSerializedCertStore d).drop 8
      = [0x20, 0x00, 0x00, 0x00] ++ ([0x01, 0x00, 0x00, 0x00] ++ (u32le d.length
          ++ (d ++ List.replicate 12 0))) := by
    rw [NewVbaSigSerializedCertStore_eq]
    simp only [List.append_assoc]
    rfl
  refine ⟨NewVbaSigSerializedCertStore_eq d, NewVbaSigSerializedCertStore_length d, ?_, ?_,
    by decide⟩
  · rw [hdrop]
    rfl
  · have hlen : 12 ≤ ((NewVbaSigSerializedCertStore d).drop 8).length := by
      rw [List.length_drop, NewVbaSigSerializedCertStore_length]
      omega
    have hid : leNat (((NewVbaSigSerializedCertStore d).drop 8).take 4) = 0x20 := by
      rw [hdrop]
      rfl
    have h := (ReadSerializedPropertyEntry_error ((NewVbaSigSerializedCertStore d).drop 8)).2.1
      hlen (Or.inr hid)
    rw [h, hid]

/-- C32: for every source hash `h`, the `SigDataV1Serialized` blob that
`GetContentInfoV2` builds is the six little-endian `int32` values 23, 0,
`len(h)`, 24, 47, 47, the 23 bytes of `"2.16.840.1.101.3.4.2.1\0"` and then
`h`; its length is `47 + len(h)`; `GetContentInfoV3` builds the same blob from
the same hash; and for a hash shorter than `2^31` bytes, as the 32 bytes of
SHA-256 are, the header fields satisfy `algorithmIdOffset + algorithmIdSize =
sourceHashOffset` and `sourceHashOffset + sourceHashSize` is the length of the
blob. -/
theorem sigDataV1Serialized_layout (h : List Byte) :
    sigDataV1SerializedV2 h
      = [23, 0, 0, 0] ++ [0, 0, 0, 0] ++ u32le h.length ++ [24, 0, 0, 0] ++ [47, 0, 0, 0]
        ++ [47, 0, 0, 0] ++ asciiBytes "2.16.840.1.101.3.4.2.1" ++ [0] ++ h ∧
    (asciiBytes "2.16.840.1.101.3.4.2.1" ++ [0]).length = 23 ∧
    (sigDataV1SerializedV2 h).length = 47 + h.length ∧
    sigDataV1SerializedV3 h = sigDataV1SerializedV2 h ∧
    sigDataHeaderV3 h = sigDataHeaderV2 h ∧
    (sigDataHeaderV2 h).AlgorithmIdSize = 23 ∧
    (sigDataHeaderV2 h).CompiledHashSize = 0 ∧
    (sigDataHeaderV2 h).AlgorithmIdOffset = 24 ∧
    (sigDataHeaderV2 h).CompiledHashOffset = 47 ∧
    (sigDataHeaderV2 h).AlgorithmIdOffset + (sigDataHeaderV2 h).AlgorithmIdSize
      = (sigDataHeaderV2 h).SourceHashOffset ∧
    (h.length < 2147483648 →
      (sigDataHeaderV2 h).SourceHashSize = h.length ∧
      (sigDataHeaderV2 h).SourceHashOffset + (sigDataHeaderV2 h).SourceHashSize
        = (sigDataV1SerializedV2 h).length) ∧
    sigDataV1SerializedV3 (List.replicate 32 0xab)
      = [23, 0, 0, 0, 0, 0, 0, 0, 32, 0, 0, 0, 24, 0, 0, 0, 47, 0, 0, 0, 47, 0, 0, 0]
        ++ [0x32, 0x2e, 0x31, 0x36, 0x2e, 0x38, 0x34, 0x30, 0x2e, 0x31, 0x2e, 0x31, 0x30,
            0x31, 0x2e, 0x33, 0x2e, 0x34, 0x2e, 0x32, 0x2e, 0x31, 0x00]
        ++ List.replicate 32 0xab := by
  have hlen : (sigDataV1SerializedV2 h).length = 47 + h.length := by
    rw [sigDataV1SerializedV2_eq]
    simp only [List.length_append, u32le_length, List.length_cons, List.length_nil]
    have e : (asciiBytes "2.16.840.1.101.3.4.2.1").length = 22 := by decide
    rw [e]
  refine ⟨sigDataV1SerializedV2_eq h, by decide, hlen, rfl, rfl, ?_, ?_, ?_, ?_, ?_, ?_,
    by decide⟩
  · rw [sigDataHeaderV2_eq]
  · rw [sigDataHeaderV2_eq]
  · rw [sigDataHeaderV2_eq]
  · rw [sigDataHeaderV2_eq]
  · rw [sigDataHeaderV2_eq]
    rfl
  · intro hlt
    rw [hlen, sigDataHeaderV2_eq]
    simp only [i32_of_lt h.length hlt]
    refine ⟨trivial, ?_⟩
    push_cast
    ring

/-- C33 (counterexample): two record ids that are read and not checked. In a
dir stream with an empty constants record, a reference name, a
REFERENCEORIGINAL record and no module, the two bytes `34 12` stand where the
id `0x002f` of the embedded control record belongs; `ParseDirStream` skips
them and returns the reference. In the second stream the two bytes `99 99`
follow `Reserved2` of a control record, where the id `0x0016` of an extended
name or the marker `0x0030` belongs; they are taken as the id of a name
record. -/
theorem ParseDirStream_embedded_id_unchecked :
    ParseDirStream 3
        (emptyInfoBytes ++ emptyNameBytes
          ++ [0x33, 0x00, 0x00, 0x00, 0x00, 0x00, 0x34, 0x12] ++ emptyControlBytes
          ++ [0x0f, 0x00] ++ modulesHeaderBytes 0)
      = .ok
        { InformationRecord := { Constants := { Reserved := 0x3c } },
          ReferencesRecord :=
            { ReferenceArray :=
                [{ NameRecord := some { Reserved := 0x3e },
                   OriginalReference := some
                     { ReferenceRecord := some { Reserved3 := 0x30, Cookie := 7 } } }] },
          ModulesRecord :=
            { Size := 2, Count := 0, ProjectCookie := some { Size := 2, Cookie := 0xffff } } } ∧
    ParseDirStream 3
        (emptyInfoBytes ++ emptyNameBytes
          ++ [0x2f, 0x00, 0x00, 0x00, 0x00, 0x00, 0x00, 0x00, 0x00, 0x00, 0x00, 0x00, 0x00, 0x00,
              0x00, 0x00]
          ++ [0x99, 0x99] ++ [0x01, 0x00, 0x00, 0x00, 0x58, 0x3e, 0x00, 0x00, 0x00, 0x00, 0x00]
          ++ emptyControlBytes.drop 14 ++ [0x0f, 0x00] ++ modulesHeaderBytes 0)
      = .ok
        { InformationRecord := { Constants := { Reserved := 0x3c } },
          ReferencesRecord :=
            { ReferenceArray :=
                [{ NameRecord := some { Reserved := 0x3e },
                   ControlReference := some
                     { NameRecordExtended := some
                         { SizeOfName := 1, Name := [0x58], Reserved := 0x3e },
                       Reserved3 := 0x30, Cookie := 7 } }] },
          ModulesRecord :=
            { Size := 2, Count := 0, ProjectCookie := some { Size := 2, Cookie := 0xffff } } } := by
  constructor
  · set_option maxRecDepth 100000 in decide
  · set_option maxRecDepth 100000 in decide

/-- C33 (amended): `ParseDirStream` returns an error whenever one of its three
record loops reads a record id that the section being parsed does not
recognise: for every record that the loop of `ParseProjectInfo` reads, an id
outside the twelve ids of the project information gives the error `unknown
project info record id`; after a project information that was returned, the
same holds for the loop of `ParseProjectReferences` and its six ids; after the
references and the header of the modules section, the same holds for the loop
of `ParseProjectModules` and its twelve ids, and a MODULESTREAMNAME record
whose payload is a size, a name of that size and a reserved field other than
`0x0032` gives the error `reserved constant of MODULESTREAM record
incorrect`. With fuel for more records than the input has bytes the parser
does not run out of fuel, so that it does return. Four streams show the four
errors. -/
theorem ParseDirStream_unknown_record_id :
    (∀ (fuel : Nat) (reader : List Byte)
      (e : RecordEvent dirstream.ProjectInformation dirstream.ProjectInformation),
      e ∈ projectInfoEvents fuel reader →
      e.nid ∉ [0x0001, 0x004a, 0x0002, 0x0014, 0x0003, 0x0004, 0x0005, 0x0006, 0x0007, 0x0008,
        0x0009, 0x000c] →
      ParseDirStream fuel reader = .error (.unknownProjectInfoId e.nid)) ∧
    (∀ (fuel : Nat) (reader : List Byte)
      (information : dirstream.ProjectInformation × List Byte)
      (e : RecordEvent ReferencesState dirstream.ProjectReferences),
      ParseProjectInfo fuel reader = .ok information →
      e ∈ projectReferencesEvents fuel information.2 →
      e.nid ∉ [0x0016, 0x002f, 0x000d, 0x0033, 0x000e, 0x000f] →
      ParseDirStream fuel reader = .error (.unknownReferenceId e.nid)) ∧
    (∀ (fuel : Nat) (reader : List Byte)
      (information : dirstream.ProjectInformation × List Byte)
      (references : dirstream.ProjectReferences × List Byte)
      (header : dirstream.ProjectModules × List Byte)
      (e : RecordEvent ModulesState dirstream.ProjectModules),
      ParseProjectInfo fuel reader = .ok information →
      ParseProjectReferences fuel information.2 = .ok references →
      parseProjectModulesHeader references.2 = .ok header →
      e ∈ projectModulesEvents fuel header.1 header.2 →
      (e.nid ∉ [0x0019, 0x0047, 0x001a, 0x001c, 0x0031, 0x001e, 0x002c, 0x0021, 0x0022, 0x0025,
          0x0028, 0x002b] →
        ParseDirStream fuel reader = .error (.unknownModuleId e.nid)) ∧
      (∀ (name rest : List Byte) (v : Nat),
        e.nid = 0x001a → e.payload = u32le name.length ++ name ++ u16le v ++ rest →
        name.length < 4294967296 → v < 65536 → v ≠ 0x0032 →
        ParseDirStream fuel reader = .error (.streamNameReserved v))) ∧
    (∀ (fuel : Nat) (reader : List Byte),
      reader.length < fuel → ParseDirStream fuel reader ≠ .outOfFuel) ∧
    ParseDirStream 1 [0x0d, 0x00] = .error (.unknownProjectInfoId 0x0d) ∧
    ParseDirStream 2 (emptyInfoBytes ++ [0x04, 0x00]) = .error (.unknownReferenceId 0x04) ∧
    ParseDirStream 2 (emptyInfoBytes ++ [0x0f, 0x00] ++ modulesHeaderBytes 1 ++ [0x16, 0x00])
      = .error (.unknownModuleId 0x16) ∧
    ParseDirStream 2
        (emptyInfoBytes ++ [0x0f, 0x00] ++ modulesHeaderBytes 1
          ++ [0x1a, 0x00, 0x01, 0x00, 0x00, 0x00, 0x4d, 0x33, 0x00])
      = .error (.streamNameReserved 0x33) := by
  refine ⟨?_, ?_, ?_, ParseDirStream_terminates, by decide, by decide, by decide, by decide⟩
  · intro fuel reader e he hid
    apply ParseDirStream_info_error
    unfold ParseProjectInfo
    unfold projectInfoEvents at he
    refine recordLoop_of_fail _ _ _ _ fuel _ _ e _ he ?_
    rw [recordEvents_result _ _ fuel _ _ e he]
    exact parseProjectInfoStep_unknown _ _ _ hid
  · intro fuel reader information e h1 he hid
    apply ParseDirStream_references_error fuel reader information _ h1
    unfold ParseProjectReferences
    unfold projectReferencesEvents at he
    refine recordLoop_of_fail _ _ _ _ fuel _ _ e _ he ?_
    rw [recordEvents_result _ _ fuel _ _ e he]
    exact parseProjectReferencesStep_unknown _ _ _ hid
  · intro fuel reader information references header e h1 h2 h3 he
    constructor
    · intro hid
      exact ParseDirStream_modules_fail fuel reader information references header e _ h1 h2 h3
        he (parseProjectModulesStep_unknown _ _ _ hid)
    · intro name rest v hnid hpayload hname hv hne
      refine ParseDirStream_modules_fail fuel reader information references header e _ h1 h2
        h3 he ?_
      rw [hnid, hpayload]
      exact parseProjectModulesStep_reserved _ name rest v hname hv hne

/-- C34 (as stated, refuted): a project doc string record with an empty doc
string, `SizeOfDocStringUnicode = 2` and the one UTF-16 unit `41 00` is parsed
without error; the size field stored is 2, and the `DocStringUnicode` stored
next to it is the decoded text `A` of one byte. -/
theorem ParseDirStream_doc_string_unicode_size :
    ParseDirStream 3
        ([0x05, 0x00, 0x00, 0x00, 0x00, 0x00, 0x40, 0x00, 0x02, 0x00, 0x00, 0x00, 0x41, 0x00]
          ++ emptyInfoBytes ++ [0x0f, 0x00] ++ modulesHeaderBytes 0)
      = .ok
        { InformationRecord :=
            { DocString :=
                { Reserved := 0x40, SizeOfDocStringUnicode := 2, DocStringUnicode := [0x41] },
              Constants := { Reserved := 0x3c } },
          ModulesRecord :=
            { Size := 2, Count := 0, ProjectCookie := some { Size := 2, Cookie := 0xffff } } } ∧
    ([0x41] : List Byte).length ≠ 2 := by
  constructor
  · set_option maxRecDepth 100000 in decide
  · decide

/-- C34 (amended): for every dir stream on which `ParseDirStream` succeeds,
every size field stored next to a byte array is the length of that array: in
the project information `ProjectName`, `DocString`, `HelpFile1`, `HelpFile2`,
`Constants` and `ConstantsUnicode`; in every reference `Name` and `NameUnicode`
of the name record and of an extended name, `LibidTwiddled`, `LibidExtended`,
`Libid`, `LibidOriginal` with the embedded control record, `LibidAbsolute` and
`LibidRelative`; in every module `ModuleName`, `ModuleNameUnicode`,
`StreamName`, `StreamNameUnicode`, `DocString` and `DocStringUnicode`. The
size `SizeOfDocStringUnicode` of the project information is stored next to the
decoded text and is not among them. -/
theorem ParseDirStream_sizes (fuel : Nat) (reader : List Byte) (ds : dirstream.DirStream)
    (h : ParseDirStream fuel reader = .ok ds) : ds.SizesMatch := by
  obtain ⟨information, references, modules, h1, h2, h3, hds⟩ := ParseDirStream_ok fuel reader ds h
  rw [hds]
  exact ⟨ParseProjectInfo_sizes fuel reader information h1,
    ParseProjectReferences_sizes fuel _ references h2,
    ParseProjectModules_sizes fuel _ modules h3⟩

/-- Witness of C34 at the sample dir stream of 126 bytes, whose project has
the name `AB`, one registered reference and one module. -/
theorem ParseDirStream_sizes_witness :
    ParseDirStream 6 sampleDirStream = .ok sampleDirStreamParsed ∧
    sampleDirStreamParsed.SizesMatch :=
  ⟨by set_option maxRecDepth 100000 in decide,
    ParseDirStream_sizes 6 sampleDirStream sampleDirStreamParsed
      (by set_option maxRecDepth 100000 in decide)⟩

/-- C35 (code evaluated at the failing input): `ParseDirStream` makes no
parity test. For the dir stream `oddSizesDirStream` it returns a project
whose `SizeOfDocStringUnicode` is 3, `SizeOfConstantsUnicode` 1,
`SizeOfNameUnicode` 1, `SizeOfModuleNameUnicode` 1, `SizeOfStreamNameUnicode`
3 and module `SizeOfDocStringUnicode` 5. For the project doc string it reads
`3/2 = 1` UTF-16 unit, two bytes, and goes on with the next record id. -/
theorem ParseDirStream_odd_unicode_sizes :
    ParseDirStream 5 oddSizesDirStream
      = .ok
        { InformationRecord :=
            { DocString :=
                { Reserved := 0x40, SizeOfDocStringUnicode := 3, DocStringUnicode := [0x41] },
              Constants :=
                { Reserved := 0x3c, SizeOfConstantsUnicode := 1, ConstantsUnicode := [0x41] } },
          ReferencesRecord :=
            { ReferenceArray :=
                [{ NameRecord := some
                     { Reserved := 0x3e, SizeOfNameUnicode := 1, NameUnicode := [0x41] },
                   RegisteredReference := some { Size := 6 } }] },
          ModulesRecord :=
            { Size := 2, Count := 1, ProjectCookie := some { Size := 2, Cookie := 0xffff },
              Modules :=
                [{ NameUnicodeRecord := some
                     { SizeOfModuleNameUnicode := 1, ModuleNameUnicode := [0x41] },
                   StreamNameRecord :=
                     { Reserved := 0x32, SizeOfStreamNameUnicode := 3,
                       StreamNameUnicode := [0x41, 0x42, 0x43] },
                   DocStringRecord :=
                     { Reserved := 0x48, SizeOfDocStringUnicode := 5,
                       DocStringUnicode := [0x41, 0x42, 0x43, 0x44, 0x45] } }] } } := by
  set_option maxRecDepth 100000 in decide

/-- C36 (counterexample): a registered reference record that no name record
precedes gives an element without a name sub-record; a name record followed
by a registered and a project reference record gives two elements, the second
with the name of the first and with two variants set. -/
theorem ParseProjectReferences_name_and_variants :
    ParseProjectReferences 2 (emptyRegisteredBytes ++ [0x0f, 0x00])
      = .ok ({ ReferenceArray := [{ RegisteredReference := some { Size := 6 } }] }, []) ∧
    ParseProjectReferences 4
        (emptyNameBytes ++ emptyRegisteredBytes ++ emptyProjectBytes ++ [0x0f, 0x00])
      = .ok
        ({ ReferenceArray :=
            [{ NameRecord := some { Reserved := 0x3e },
               RegisteredReference := some { Size := 6 } },
             { NameRecord := some { Reserved := 0x3e },
               RegisteredReference := some { Size := 6 },
               ProjectReference := some
                 { Size := 14, MajorVersion := 1, MinorVersion := 2 } }] }, []) := by
  constructor
  · set_option maxRecDepth 100000 in decide
  · set_option maxRecDepth 100000 in decide

/-- C36 (amended): for every input on which `ParseProjectReferences`
succeeds, `ReferenceArray` has one element for each variant record (`0x002f`,
`0x000d`, `0x0033`, `0x000e`) that the loop reads, in the order in which the
records are read: the element is `tmp` after the record, with the variant of
the record set and the name sub-record that `tmp` had before. So every element
has at least one variant, and an element whose variant record is read directly
after a `0x0016` name record has a name sub-record and exactly one variant. -/
theorem ParseProjectReferences_elements (fuel : Nat) (reader : List Byte)
    (res : dirstream.ProjectReferences × List Byte)
    (h : ParseProjectReferences fuel reader = .ok res) :
    ((projectReferencesEvents fuel reader).filter (fun e => isVariantId e.nid)).map
        (fun e => e.result.state?.map (fun s => s.tmp))
      = res.1.ReferenceArray.map some ∧
    (∀ e ∈ projectReferencesEvents fuel reader, isVariantId e.nid = true →
      ∃ s r, e.result = .next s r ∧ hasVariant e.nid s.tmp = true
        ∧ s.tmp.NameRecord = e.before.tmp.NameRecord) ∧
    (∀ r ∈ res.1.ReferenceArray, 1 ≤ variantCount r) ∧
    (∀ (l1 l2 : List (RecordEvent ReferencesState dirstream.ProjectReferences))
      (e1 e2 : RecordEvent ReferencesState dirstream.ProjectReferences),
      projectReferencesEvents fuel reader = l1 ++ e1 :: e2 :: l2 →
      e1.nid = 0x0016 → isVariantId e2.nid = true →
      ∃ s r, e2.result = .next s r ∧ s.tmp.NameRecord.isSome = true
        ∧ variantCount s.tmp = 1 ∧ hasVariant e2.nid s.tmp = true) := by
  have harr := referencesLoop_array fuel {} reader res h
  simp only [List.map_nil, List.nil_append] at harr
  refine ⟨harr.symm, ?_, ?_, ?_⟩
  · intro e he hv
    obtain ⟨s, r, h1, h2, h3, -, -⟩ := referencesEvent_variant fuel {} reader e he hv
    exact ⟨s, r, h1, h3, h2⟩
  · intro r hr
    have hmem : some r ∈ res.1.ReferenceArray.map some := List.mem_map_of_mem _ hr
    rw [harr] at hmem
    obtain ⟨e, he, hes⟩ := List.mem_map.mp hmem
    obtain ⟨he1, he2⟩ := List.mem_filter.mp he
    obtain ⟨s, r', h1, -, -, h4, -⟩ := referencesEvent_variant fuel {} reader e he1 he2
    rw [h1] at hes
    simp only [RecordStep.state?, Option.map_some', Option.some.injEq] at hes
    rw [← hes]
    exact h4
  · intro l1 l2 e1 e2 hev hn hv
    have hmem1 : e1 ∈ projectReferencesEvents fuel reader := by
      rw [hev]
      simp
    have hmem2 : e2 ∈ projectReferencesEvents fuel reader := by
      rw [hev]
      simp
    obtain ⟨r1, hchain⟩ := recordEvents_chain _ _ fuel _ _ l1 l2 e1 e2 hev
    obtain ⟨hname, hzero⟩ := referencesEvent_name fuel {} reader e1 hmem1 hn _ _ hchain
    obtain ⟨s, r, h1, h2, h3, h4, h5⟩ := referencesEvent_variant fuel {} reader e2 hmem2 hv
    refine ⟨s, r, h1, ?_, ?_, h3⟩
    · rw [h2]
      exact hname
    · omega

/-- Witness of C36 at the references section of the sample dir stream, a name
record and a registered reference record: the one element has one variant. -/
theorem ParseProjectReferences_elements_witness :
    ParseProjectReferences 3 ((sampleDirStream.drop 28).take 34)
      = .ok (sampleDirStreamParsed.ReferencesRecord, []) ∧
    (∀ r ∈ sampleDirStreamParsed.ReferencesRecord.ReferenceArray, 1 ≤ variantCount r) :=
  ⟨by set_option maxRecDepth 100000 in decide,
    (ParseProjectReferences_elements 3 ((sampleDirStream.drop 28).take 34)
      (sampleDirStreamParsed.ReferencesRecord, [])
      (by set_option maxRecDepth 100000 in decide)).2.2.1⟩

/-- C37 (code evaluated at the failing input): for an entry with a valid id
and encoding type and a `Length` of `0xFFFFFFF4` or more, the `uint32` sum
`12+property.Length` wraps to a number below 12, the length test passes for
every input of twelve bytes or more, and the slice expression
`data[12 : 12+property.Length]` panics; no error is returned. For the twelve
bytes `01 00 00 00 01 00 00 00 F4 FF FF FF` the sum is 0, for a `Length` of
`0xFFFFFFFF` it is 11. Every entry that is returned splits the input into its
first twelve bytes, `Value` of `Length` bytes and the remainder. -/
theorem ReadSerializedPropertyEntry_length_overflow :
    (∀ data : List Byte, 12 ≤ data.length →
      leNat (data.take 4) ≠ 0 → leNat (data.take 4) ≠ 0x20 → leNat (data.take 4) ≤ 0xFFFF →
      leNat ((data.drop 4).take 4) = 1 → 0xFFFFFFF4 ≤ leNat ((data.drop 8).take 4) →
      ReadSerializedPropertyEntry data = .panic) ∧
    ReadSerializedPropertyEntry
        [0x01, 0x00, 0x00, 0x00, 0x01, 0x00, 0x00, 0x00, 0xF4, 0xFF, 0xFF, 0xFF] = .panic ∧
    ReadSerializedPropertyEntry
        ([0x01, 0x00, 0x00, 0x00, 0x01, 0x00, 0x00, 0x00, 0xFF, 0xFF, 0xFF, 0xFF]
          ++ List.replicate 20 0x00) = .panic ∧
    ReadSerializedPropertyEntry
        [0x01, 0x00, 0x00, 0x00, 0x01, 0x00, 0x00, 0x00, 0xF3, 0xFF, 0xFF, 0xFF]
      = .error (.valueTooShort 0xFFFFFFF3) ∧
    (∀ (data : List Byte) (e : SerializedPropertyEntry) (rem : List Byte),
      ReadSerializedPropertyEntry data = .ok (e, rem) →
      data = data.take 12 ++ e.Value ++ rem ∧ e.Value.length = e.Length) :=
  ⟨ReadSerializedPropertyEntry_overflow, by decide, by decide, by decide,
    fun data e rem h => ⟨(ReadSerializedPropertyEntry_ok data e rem h).1,
      (ReadSerializedPropertyEntry_ok data e rem h).2.1⟩⟩

/-- C38: for every input of at most 65535 bytes, with any spare capacity of
its slice, every call of `decompressChunk` that returns gives a position
strictly greater than the one it was given; every call of
`decompressTokenSequence` that the loop of `decompressChunk` makes, that is
with `pos < chunkEndPos`, and that returns gives a position at least one
greater; neither position wraps as a `uint16` (a position may lie beyond the
length of the input when a copy token or header was read from the spare
capacity). Hence the loops end: with fuel for `len(compressedData)` iterations
(and at least one) the loop of `decompressChunk` does not run out of fuel, and
neither does `DecompressContainer`, which so makes at most
`len(compressedData)` chunk iterations. -/
theorem decompression_loops_terminate (data spare : List Byte) (hlen : data.length ≤ 65535) :
    (∀ (fuel pos : Nat) (buf : List Byte) (r : List Byte × Nat),
      decompressChunk fuel data spare pos buf = .ok r → pos < r.2 ∧ r.2 ≤ 65535) ∧
    (∀ (pos E s : Nat) (buf : List Byte) (r : List Byte × Nat),
      pos < E → decompressTokenSequence data spare pos buf E s = .ok r →
      pos + 1 ≤ r.2 ∧ r.2 ≤ 65535) ∧
    (∀ (pos : Nat) (buf : List Byte) (E s : Nat),
      decompressTokenSequence data spare pos buf E s ≠ .outOfFuel) ∧
    (∀ (fuel pos : Nat) (buf : List Byte),
      0 < fuel → data.length ≤ fuel → decompressChunk fuel data spare pos buf ≠ .outOfFuel) ∧
    (∀ fuel : Nat, data.length ≤ fuel → DecompressContainer fuel data spare ≠ .outOfFuel) ∧
    DecompressContainer data.length data spare ≠ .outOfFuel :=
  ⟨fun _ _ _ _ h => decompressChunk_pos hlen h,
    fun _ _ _ _ _ hE h => (decompressTokenSequence_pos hlen hE h).2,
    fun pos buf E s => decompressTokenSequence_returns data spare pos buf E s,
    fun fuel pos buf h0 hf => decompressChunk_terminates hlen fuel pos buf h0 hf,
    fun fuel hf => DecompressContainer_terminates hlen fuel hf,
    DecompressContainer_terminates hlen _ (le_refl _)⟩

/-- Witness of C38 at the container `01 03 B0 02 61 00` of six bytes with one
spare byte `00`: the copy token at position 5 is read by a slice expression
over the last byte of the input and the spare byte, the chunk at position 1
decompresses to four bytes `61` and ends at position 7, beyond the length 6;
`DecompressContainer` ends within six iterations. Without the spare byte the
slice expression panics. -/
theorem decompression_loops_terminate_witness :
    ([0x01, 0x03, 0xB0, 0x02, 0x61, 0x00] : List Byte).length ≤ 65535 ∧
    decompressChunk 6 [0x01, 0x03, 0xB0, 0x02, 0x61, 0x00] [0x00] 1 []
      = .ok ([0x61, 0x61, 0x61, 0x61], 7) ∧
    1 < 7 ∧
    DecompressContainer 6 [0x01, 0x03, 0xB0, 0x02, 0x61, 0x00] [0x00]
      = .ok ([0x61, 0x61, 0x61, 0x61], 7) ∧
    DecompressContainer 6 [0x01, 0x03, 0xB0, 0x02, 0x61, 0x00] [0x00] ≠ .outOfFuel ∧
    DecompressContainer 6 [0x01, 0x03, 0xB0, 0x02, 0x61, 0x00] [] = .panic :=
  ⟨by decide, by decide,
    ((decompression_loops_terminate [0x01, 0x03, 0xB0, 0x02, 0x61, 0x00] [0x00]
      (by decide)).1 6 1 [] ([0x61, 0x61, 0x61, 0x61], 7) (by decide)).1,
    by decide,
    (decompression_loops_terminate [0x01, 0x03, 0xB0, 0x02, 0x61, 0x00] [0x00]
      (by decide)).2.2.2.2.1 6 (by decide),
    by decide⟩

/-- C39: the five relations `CertStoreOffset = SignatureOffset + CbSignature`,
`ProjectNameOffset = CertStoreOffset + CbSigningCertStore`,
`TimestampUrlOffset = ProjectNameOffset + len(RgchProjectNameBuffer)`,
`CbSignature = len(PbSignatureBuffer)` and `CbSigningCertStore =
len(PbSigningCertStoreBuffer)`, each modulo `2^32`, hold for every value that
`NewDigSigInfoSerialized` builds and are preserved by `ReplaceSigBuffer`,
`ReplaceCertStore` and `FixOffsets`. `ReplaceSigBuffer` leaves the
certificate-store buffer and its size, `SignatureOffset` and the reserved
fields and buffers unchanged; `ReplaceCertStore` leaves the signature buffer,
`CbSignature`, `SignatureOffset` and the reserved fields and buffers
unchanged. -/
theorem DigSigInfoSerialized_consistent :
    (∀ sig certRaw : List Byte, (NewDigSigInfoSerialized sig certRaw).Consistent) ∧
    (∀ (d : DigSigInfoSerialized) (b : List Byte),
      d.Consistent → (d.ReplaceSigBuffer b).Consistent) ∧
    (∀ (d : DigSigInfoSerialized) (s : List Byte),
      d.Consistent → (d.ReplaceCertStore s).Consistent) ∧
    (∀ d : DigSigInfoSerialized, d.Consistent → d.FixOffsets.Consistent) ∧
    (∀ (d : DigSigInfoSerialized) (b : List Byte),
      (d.ReplaceSigBuffer b).PbSignatureBuffer = b ∧
      (d.ReplaceSigBuffer b).PbSigningCertStoreBuffer = d.PbSigningCertStoreBuffer ∧
      (d.ReplaceSigBuffer b).CbSigningCertStore = d.CbSigningCertStore ∧
      (d.ReplaceSigBuffer b).SignatureOffset = d.SignatureOffset ∧
      (d.ReplaceSigBuffer b).CbProjectName = d.CbProjectName ∧
      (d.ReplaceSigBuffer b).FTimestamp = d.FTimestamp ∧
      (d.ReplaceSigBuffer b).CbTimestampUrl = d.CbTimestampUrl ∧
      (d.ReplaceSigBuffer b).RgchProjectNameBuffer = d.RgchProjectNameBuffer ∧
      (d.ReplaceSigBuffer b).RgchTimestampBuffer = d.RgchTimestampBuffer) ∧
    (∀ (d : DigSigInfoSerialized) (s : List Byte),
      (d.ReplaceCertStore s).PbSigningCertStoreBuffer = s ∧
      (d.ReplaceCertStore s).PbSignatureBuffer = d.PbSignatureBuffer ∧
      (d.ReplaceCertStore s).CbSignature = d.CbSignature ∧
      (d.ReplaceCertStore s).SignatureOffset = d.SignatureOffset ∧
      (d.ReplaceCertStore s).CbProjectName = d.CbProjectName ∧
      (d.ReplaceCertStore s).FTimestamp = d.FTimestamp ∧
      (d.ReplaceCertStore s).CbTimestampUrl = d.CbTimestampUrl ∧
      (d.ReplaceCertStore s).RgchProjectNameBuffer = d.RgchProjectNameBuffer ∧
      (d.ReplaceCertStore s).RgchTimestampBuffer = d.RgchTimestampBuffer) := by
  have hsig : ∀ (d : DigSigInfoSerialized) (b : List Byte),
      d.CbSigningCertStore = u32 d.PbSigningCertStoreBuffer.length →
      (d.ReplaceSigBuffer b).Consistent := fun d b h =>
    FixOffsets_consistent _ rfl h
  have hcert : ∀ (d : DigSigInfoSerialized) (s : List Byte),
      d.CbSignature = u32 d.PbSignatureBuffer.length →
      (d.ReplaceCertStore s).Consistent := fun d s h =>
    FixOffsets_consistent _ h rfl
  refine ⟨?_, fun d b h => hsig d b h.2.2.2.2, fun d s h => hcert d s h.2.2.2.1,
    fun d h => FixOffsets_consistent d h.2.2.2.1 h.2.2.2.2, ?_, ?_⟩
  · intro sig certRaw
    unfold NewDigSigInfoSerialized
    exact hcert _ _ rfl
  · intro d b
    exact ⟨rfl, rfl, rfl, rfl, rfl, rfl, rfl, rfl, rfl⟩
  · intro d s
    exact ⟨rfl, rfl, rfl, rfl, rfl, rfl, rfl, rfl, rfl⟩

/-- C40 (code evaluated at the failing input): a `BaseClass` property in
`MainProperties` whose value names no module of `ModuleStream.Modules` makes
`projectNormalizedData` panic: `GetModule` returns nil and
`normalizeDesignerStorage` reads `m.ChildStreams` of the nil module. Nothing
is appended and nothing is returned, for the project whose only property is
`BaseClass=UserForm1` and that has no module as for every other such project.
With a module `UserForm1` present the same property gives the designer storage
followed by `BaseClassUserForm1`. -/
theorem projectNormalizedData_unknown_base_class :
    (∀ (p : VbaProject) (prop : projectstream.ProjectProperty),
      prop ∈ p.ProjectStream.MainProperties → prop.Key = asciiBytes "BaseClass" →
      p.ModuleStream.GetModule prop.Value = none → projectNormalizedData p = .panic) ∧
    projectNormalizedData
        { ProjectStream := { MainProperties :=
            [{ Key := asciiBytes "BaseClass", Value := asciiBytes "UserForm1",
               Line := asciiBytes "BaseClass=UserForm1" }] } } = .panic ∧
    projectNormalizedData
        { ProjectStream := { MainProperties :=
            [{ Key := asciiBytes "BaseClass", Value := asciiBytes "UserForm1",
               Line := asciiBytes "BaseClass=UserForm1" }] },
          ModuleStream := { Modules := [{ Name := asciiBytes "UserForm1" }] } }
      = .ok (asciiBytes "BaseClassUserForm1") := by
  refine ⟨?_, rfl, rfl⟩
  intro p prop hmem hkey hmod
  unfold projectNormalizedData
  rw [propertiesPN_unknown_base_class p _ [] prop hmem hkey hmod]
  rfl

end VbaSig
